import Mathlib

/-!
# CS446 operating-system simulator: scheduler, handlers, loader, allocator, parser
and configuration

A shallow embedding of `Simulation.cpp`, `Simulation.h`, `ResourceIO.cpp`,
`ConfigManager.cpp` and of `strLower` of `helpers.h`.

Conventions of the embedding:

* `unsigned int` values are naturals reduced modulo `2^32`, `unsigned long` values are
  naturals reduced modulo `2^64`, `unsigned short` values modulo `2^16`; `int` and
  `long int` values are integers.  Signed overflow is undefined behaviour in the source
  and is not modelled (the mathematical value is kept).
* Time is counted in whole milliseconds.  Log lines are kept without their time stamp.
* The dispatch thread is the only thread that runs handlers.  Every read of the atomic
  interrupt word made by the dispatch thread is an input of the model (an observation),
  so that all interleavings with the loader and quantum threads are covered.
* `std::priority_queue<Job>` is kept as the list of queued jobs; `top()` may be any job
  that no queued job exceeds in priority.
-/

namespace OSSim

/-! ## Machine integers -/

/-- Conversion of an integer to `unsigned int`. -/
def toUInt (i : Int) : Nat := (i % 4294967296).toNat

/-- Conversion of an integer to `unsigned long`. -/
def toULong (i : Int) : Nat := (i % 18446744073709551616).toNat

/-- Conversion of an `unsigned long` to `long int`. -/
def toLong (n : Nat) : Int :=
  if n % 18446744073709551616 < 9223372036854775808 then (n % 18446744073709551616 : Nat)
  else ((n % 18446744073709551616 : Nat) : Int) - 18446744073709551616

/-- Conversion of an `unsigned long` to `int`. -/
def toInt (n : Nat) : Int :=
  if n % 4294967296 < 2147483648 then (n % 4294967296 : Nat)
  else ((n % 4294967296 : Nat) : Int) - 4294967296

/-! ## Data model (`Simulation.h`) -/

/-- A parsed unit of metadata: `struct SimEvent`. -/
structure SimEvent where
  code : Char
  descriptor : String
  cycles : Int
  deriving DecidableEq, Repr

/-- The event sequence of one application: `typedef std::deque<SimEvent> Application`. -/
abbrev Application := List SimEvent

/-- Scheduling policy: `enum class SchedulingCode`. -/
inductive SchedulingCode where
  | RR
  | SRTF
  deriving DecidableEq, Repr

/-- Process state: `enum class ProcessState`. -/
inductive ProcessState where
  | START
  | READY
  | RUNNING
  | WAITING
  | EXIT
  deriving DecidableEq, Repr

/-- Process control block: `struct PCB`. -/
structure PCB where
  state : ProcessState
  pid : Nat
  eventQueue : Application
  eventInProgress : Bool
  eventTimeRemaining : Nat
  deriving DecidableEq, Repr

/-- Entry of the scheduling queue: `struct Job`; `operator<` compares `priority` only. -/
structure Job where
  pid : Nat
  priority : Int
  deriving DecidableEq, Repr

/-- Direction of an I/O operation: `enum ResIOState`. -/
inductive ResIOState where
  | INPUT
  | OUTPUT
  deriving DecidableEq, Repr

/-- The device label built by the `run` method of each resource class
(`device_str`), kept structured; `DeviceLabel.render` gives the text. -/
inductive DeviceLabel where
  | hdd (ioState : ResIOState) (devId : Int)
  | printer (devId : Int)
  | speaker (devId : Int)
  | monitor
  | keyboard
  | mouse
  deriving DecidableEq, Repr

/-- The text of a device label as formatted by `sprintf` in `ResourceIO.cpp`. -/
def DeviceLabel.render : DeviceLabel → String
  | .hdd .INPUT n => "hard drive input on HDD " ++ toString n
  | .hdd .OUTPUT n => "hard drive output on HDD " ++ toString n
  | .printer n => "printer output on PRNTR " ++ toString n
  | .speaker n => "speaker output on SPKR " ++ toString n
  | .monitor => "monitor output"
  | .keyboard => "keyboard input"
  | .mouse => "mouse input"

/-- One line written through `Simulation::Log` by the scheduler core, without its
time stamp. -/
inductive LogLine where
  | simStarting
  | preparing (pid : Nat)
  | starting (pid : Nat)
  | startProcessing (pid : Nat)
  | endProcessing (pid : Nat)
  | interruptProcessing (pid : Nat)
  | allocating (pid : Nat)
  | allocated (pid : Nat) (address : Nat)
  | startBlocking (pid : Nat)
  | endBlocking (pid : Nat)
  | ioStart (pid : Nat) (label : DeviceLabel)
  | ioEnd (pid : Nat) (label : DeviceLabel)
  | completed (pid : Nat)
  | simEnding
  deriving DecidableEq, Repr

/-- A counted device class: `class IOResourceSemaphore` (semaphore value `s`,
`deviceCount`, `deviceIndex`) together with the `cycleTime` of `ResourceIO`. -/
structure IOResourceSemaphore where
  s : Nat
  deviceCount : Nat
  deviceIndex : Nat
  cycleTime : Nat
  deriving DecidableEq, Repr

/-- An exclusive device: `class IOResourceMutex` (`m` locked or not) together with
the `cycleTime` of `ResourceIO`. -/
structure IOResourceMutex where
  m : Bool
  cycleTime : Nat
  deriving DecidableEq, Repr

/-- Parameters of a started I/O worker thread: `struct ResIOThreadParams`. -/
structure ResIOThreadParams where
  time : Nat
  pid : Nat
  deviceStr : DeviceLabel
  deriving DecidableEq, Repr

/-- The values of the configuration options that the scheduler core reads through
`config.GetInt` after `LoadConfig` has run. -/
structure Config where
  processorCycleTime : Int
  memoryCycleTime : Int
  memoryBlockSize : Int
  deriving DecidableEq, Repr

/-- The process table `std::vector<PCB *>`: `size` slots, `slot i` the pointer stored at
index `i` (`none` is the null pointer). -/
structure ProcessTable where
  size : Nat
  slot : Nat → Option PCB

/-- A vector of `n` null pointers (the constructor's `processes.resize(4096)`). -/
def ProcessTable.empty (n : Nat) : ProcessTable :=
  { size := n, slot := fun _ => none }

/-- Read index `i`: `none` when `i` is outside the vector or the slot is null. -/
def ProcessTable.get? (t : ProcessTable) (i : Nat) : Option PCB :=
  if i < t.size then t.slot i else none

/-- Store a pointer at index `i`. -/
def ProcessTable.set (t : ProcessTable) (i : Nat) (p : Option PCB) : ProcessTable :=
  { t with slot := Function.update t.slot i p }

/-- `resize(n)`: the slots kept are unchanged, new slots are null. -/
def ProcessTable.resize (t : ProcessTable) (n : Nat) : ProcessTable :=
  { size := n, slot := fun i => if i < t.size then t.slot i else none }

/-- The state of `class Simulation` that the scheduler core reads and writes.
`processes` is the `std::vector<PCB *>`, `jobs` holds the
contents of the priority queue, `ioThreads` the I/O workers started and not yet ended,
`clock` the milliseconds the dispatch thread has spent in its busy waits. -/
structure Simulation where
  scheduling : SchedulingCode
  config : Config
  currentProcess : Nat
  processCounter : Nat
  processes : ProcessTable
  jobs : List Job
  applications : List Application
  memoryBlockCounter : Nat
  maxMemoryBlocks : Nat
  simInterrupt : Nat
  loaderFinished : Bool
  resHdd : IOResourceSemaphore
  resPrinter : IOResourceSemaphore
  resSpeaker : IOResourceSemaphore
  resMonitor : IOResourceMutex
  resKeyboard : IOResourceMutex
  resMouse : IOResourceMutex
  ioThreads : List ResIOThreadParams
  clock : Nat
  log : List LogLine

/-- Interrupt bit owned by the loader: `SIM_INTERRUPT_LOADER`. -/
def SIM_INTERRUPT_LOADER : Nat := 0b00000001

/-- Interrupt bit owned by the quantum thread: `SIM_INTERRUPT_SCHEDULER_RR`. -/
def SIM_INTERRUPT_SCHEDULER_RR : Nat := 0b00000010

/-- Append a line to the log: `Simulation::Log`. -/
def Simulation.Log (sim : Simulation) (line : LogLine) : Simulation :=
  { sim with log := sim.log ++ [line] }

/-! ## Memory allocator -/

/-- The first step of `Simulation::allocateMemory`: the number of blocks for `totMem`
kbytes, `requiredBlocks = totMem / blockSize`, incremented when
`blockSize * requiredBlocks < (unsigned int)totMem`.  All arithmetic is `unsigned int`.
(The source divides by `blockSize`; a block size of zero is excluded by `LoadConfig` and
by the hypotheses of the theorems below.) -/
def Simulation.requiredBlocks (sim : Simulation) (totMem : Int) : Nat :=
  let blockSize := toUInt sim.config.memoryBlockSize
  let requiredBlocks := toUInt totMem / blockSize
  if (blockSize * requiredBlocks) % 4294967296 < toUInt totMem then
    (requiredBlocks + 1) % 4294967296
  else requiredBlocks

/-- `Simulation::allocateMemory`: returns the address and the updated simulation.
All arithmetic is `unsigned int`. -/
def Simulation.allocateMemory (sim : Simulation) (totMem : Int) : Nat × Simulation :=
  let blockSize := toUInt sim.config.memoryBlockSize
  let requiredBlocks := sim.requiredBlocks totMem
  let counter :=
    if (sim.memoryBlockCounter + requiredBlocks) % 4294967296 ≥ sim.maxMemoryBlocks then 0
    else sim.memoryBlockCounter
  let address := (counter * blockSize) % 4294967296
  (address, { sim with memoryBlockCounter := (counter + requiredBlocks) % 4294967296 })

/-- The addresses returned by `n` consecutive calls `allocateMemory(1)`, oldest first,
and the simulation after them. -/
def Simulation.allocateMany (sim : Simulation) : Nat → List Nat × Simulation
  | 0 => ([], sim)
  | n + 1 =>
    let r := sim.allocateMemory 1
    let rest := Simulation.allocateMany r.2 n
    (r.1 :: rest.1, rest.2)

/-! ## Process table -/

/-- Read `processes[pid]`: `none` when the index is outside the vector or the slot is
a null pointer. -/
def Simulation.process? (sim : Simulation) (pid : Nat) : Option PCB :=
  sim.processes.get? pid

/-- Write through the pointer `processes[pid]`. -/
def Simulation.setProcess (sim : Simulation) (pid : Nat) (pcb : PCB) : Simulation :=
  { sim with processes := sim.processes.set pid (some pcb) }

/-! ## Busy waits -/

/-- `Simulation::doWork`: wait `ms` milliseconds without reading the interrupt word. -/
def Simulation.doWork (sim : Simulation) (ms : Int) : Simulation :=
  { sim with clock := sim.clock + ms.toNat }

/-- The loop of `Simulation::doProcWork` when `r` milliseconds are left until `t_end`
of a wait of `ms` milliseconds.  `poll e` is the interrupt word read by the loop when
`e` milliseconds have elapsed.  The result is the remaining time. -/
def doProcWorkLoop (poll : Nat → Nat) (ms : Nat) : Nat → Nat
  | 0 => 0
  | r + 1 => if poll (ms - (r + 1)) ≠ 0 then r + 1 else doProcWorkLoop poll ms r

/-- `Simulation::doProcWork`: the interruptible wait; returns the remaining time and
advances the clock by the time actually waited. -/
def Simulation.doProcWork (sim : Simulation) (ms : Int) (poll : Nat → Nat) :
    Int × Simulation :=
  let timeRemaining := doProcWorkLoop poll ms.toNat ms.toNat
  ((timeRemaining : Int), { sim with clock := sim.clock + (ms.toNat - timeRemaining) })

/-! ## Observations of the dispatch thread -/

/-- What the dispatch thread observes of the other threads during one iteration of the
loop of `RunProcess` (one handler call):
* `poll k`: the interrupt word read by the `k`-th test of the wait loop of `doProcWork`
  (`k` elapsed milliseconds) or of the acquisition loop of `handleIO`;
* `afterWork`: the interrupt word read by `handleMem` right after its wait;
* `atEnd`: the interrupt word read by `handleProc` and `handleMem` to choose between
  the interrupted and the completed branch;
* `endBeforeWaiting`: index of an I/O worker that ends after `run` returned true and
  before `handleIO` writes `WAITING`;
* `endBeforeCheck`: index of an I/O worker that ends after the handler returned and
  before `RunProcess` reads the process state;
* `atBreak`: the interrupt word read by `RunProcess` after the handler returned;
* `indeterminate`: the value of the uninitialised `timeRemaining` of `handleMem` for a
  descriptor that is neither `allocate` nor `block`. -/
structure Observation where
  poll : Nat → Nat
  afterWork : Nat
  atEnd : Nat
  endBeforeWaiting : Option Nat
  endBeforeCheck : Option Nat
  atBreak : Nat
  indeterminate : Int

/-! ## I/O resources (`ResourceIO.cpp`) -/

/-- `ResourceIO::doWork` after its busy wait: the worker sets a `WAITING` process to
`READY` and logs the end line. -/
def ResourceIO.doWork (sim : Simulation) (params : ResIOThreadParams) : Simulation :=
  let sim :=
    match sim.process? params.pid with
    | some process =>
      if process.state = ProcessState.WAITING then
        sim.setProcess params.pid { process with state := ProcessState.READY }
      else sim
    | none => sim
  sim.Log (.ioEnd params.pid params.deviceStr)

/-- The I/O worker at position `i` of `ioThreads` ends (no effect when there is none). -/
def Simulation.ioThreadEnd (sim : Simulation) (i : Nat) : Simulation :=
  match sim.ioThreads[i]? with
  | some params => ResourceIO.doWork { sim with ioThreads := sim.ioThreads.eraseIdx i } params
  | none => sim

/-- An optional worker end taken from an observation. -/
def Simulation.ioThreadEnd? (sim : Simulation) : Option Nat → Simulation
  | some i => sim.ioThreadEnd i
  | none => sim

/-- The protected `ResourceIO::run`: logs the start line and creates the worker
thread (thread creation is assumed to succeed). -/
def ResourceIO.run (sim : Simulation) (cycleTime cycles pid : Nat)
    (device_str : DeviceLabel) : Simulation :=
  let params : ResIOThreadParams :=
    { time := (cycleTime * cycles) % 4294967296, pid := pid, deviceStr := device_str }
  let sim := sim.Log (.ioStart pid device_str)
  { sim with ioThreads := sim.ioThreads ++ [params] }

/-- `sem_trywait` followed by the cursor update of a counted device: the device index
to use and the updated resource, or `none` when the semaphore is zero. -/
def IOResourceSemaphore.acquire (r : IOResourceSemaphore) : Option (Int × IOResourceSemaphore) :=
  if r.s ≠ 0 then
    some (toInt r.deviceIndex,
      { r with s := r.s - 1,
               deviceIndex := ((r.deviceIndex + 1) % 4294967296) % r.deviceCount })
  else none

/-- `sem_post`. -/
def IOResourceSemaphore.post (r : IOResourceSemaphore) : IOResourceSemaphore :=
  { r with s := r.s + 1 }

/-- `ResourceHDD::run`. -/
def ResourceHDD.run (sim : Simulation) (cycles : Nat) (ioState : ResIOState) (pid : Nat) :
    Bool × Simulation :=
  match sim.resHdd.acquire with
  | some (dev_id, r) =>
    let sim := ResourceIO.run { sim with resHdd := r } r.cycleTime cycles pid
      (.hdd ioState dev_id)
    (true, { sim with resHdd := sim.resHdd.post })
  | none => (false, sim)

/-- `ResourcePrinter::run`. -/
def ResourcePrinter.run (sim : Simulation) (cycles : Nat) (_ioState : ResIOState)
    (pid : Nat) : Bool × Simulation :=
  match sim.resPrinter.acquire with
  | some (dev_id, r) =>
    let sim := ResourceIO.run { sim with resPrinter := r } r.cycleTime cycles pid
      (.printer dev_id)
    (true, { sim with resPrinter := sim.resPrinter.post })
  | none => (false, sim)

/-- `ResourceSpeaker::run`. -/
def ResourceSpeaker.run (sim : Simulation) (cycles : Nat) (_ioState : ResIOState)
    (pid : Nat) : Bool × Simulation :=
  match sim.resSpeaker.acquire with
  | some (dev_id, r) =>
    let sim := ResourceIO.run { sim with resSpeaker := r } r.cycleTime cycles pid
      (.speaker dev_id)
    (true, { sim with resSpeaker := sim.resSpeaker.post })
  | none => (false, sim)

/-- `ResourceMonitor::run`: `pthread_mutex_trylock`, start the worker, unlock. -/
def ResourceMonitor.run (sim : Simulation) (cycles : Nat) (_ioState : ResIOState)
    (pid : Nat) : Bool × Simulation :=
  if sim.resMonitor.m = false then
    let sim := ResourceIO.run { sim with resMonitor := { sim.resMonitor with m := true } }
      sim.resMonitor.cycleTime cycles pid .monitor
    (true, { sim with resMonitor := { sim.resMonitor with m := false } })
  else (false, sim)

/-- `ResourceKeyboard::run`. -/
def ResourceKeyboard.run (sim : Simulation) (cycles : Nat) (_ioState : ResIOState)
    (pid : Nat) : Bool × Simulation :=
  if sim.resKeyboard.m = false then
    let sim := ResourceIO.run { sim with resKeyboard := { sim.resKeyboard with m := true } }
      sim.resKeyboard.cycleTime cycles pid .keyboard
    (true, { sim with resKeyboard := { sim.resKeyboard with m := false } })
  else (false, sim)

/-- `ResourceMouse::run`. -/
def ResourceMouse.run (sim : Simulation) (cycles : Nat) (_ioState : ResIOState)
    (pid : Nat) : Bool × Simulation :=
  if sim.resMouse.m = false then
    let sim := ResourceIO.run { sim with resMouse := { sim.resMouse with m := true } }
      sim.resMouse.cycleTime cycles pid .mouse
    (true, { sim with resMouse := { sim.resMouse with m := false } })
  else (false, sim)

/-- The six resource objects a `ResourceIO *` of the simulation can point to. -/
inductive Resource where
  | resHdd
  | resMonitor
  | resPrinter
  | resKeyboard
  | resMouse
  | resSpeaker
  deriving DecidableEq, Repr

/-- The virtual call `resource->run( cycles, ioState, pid )`. -/
def Resource.run (resource : Resource) (sim : Simulation) (cycles : Nat)
    (ioState : ResIOState) (pid : Nat) : Bool × Simulation :=
  match resource with
  | .resHdd => ResourceHDD.run sim cycles ioState pid
  | .resMonitor => ResourceMonitor.run sim cycles ioState pid
  | .resPrinter => ResourcePrinter.run sim cycles ioState pid
  | .resKeyboard => ResourceKeyboard.run sim cycles ioState pid
  | .resMouse => ResourceMouse.run sim cycles ioState pid
  | .resSpeaker => ResourceSpeaker.run sim cycles ioState pid

/-! ## Event handlers -/

/-- `Simulation::handleProc`.  `none` stands for a null `processes[pid]`. -/
def Simulation.handleProc (sim : Simulation) (pid : Nat) (event : SimEvent)
    (obs : Observation) : Option Simulation :=
  match sim.process? pid with
  | none => none
  | some process =>
    let event_time : Int :=
      if process.eventInProgress then toLong process.eventTimeRemaining
      else event.cycles * sim.config.processorCycleTime
    let sim := if process.eventInProgress then sim else sim.Log (.startProcessing pid)
    let work := sim.doProcWork event_time obs.poll
    let timeRemaining := work.1
    let sim := work.2
    if obs.atEnd ≠ 0 then
      let sim := sim.Log (.interruptProcessing pid)
      some (sim.setProcess pid
        { process with eventInProgress := true,
                       eventTimeRemaining := toULong timeRemaining,
                       state := ProcessState.READY })
    else
      let sim := sim.Log (.endProcessing pid)
      some (sim.setProcess pid
        { process with eventInProgress := false,
                       eventQueue := process.eventQueue.tail,
                       state := ProcessState.READY })

/-- `Simulation::handleMem`.  `none` stands for a null `processes[pid]`. -/
def Simulation.handleMem (sim : Simulation) (pid : Nat) (event : SimEvent)
    (obs : Observation) : Option Simulation :=
  match sim.process? pid with
  | none => none
  | some process =>
    let event_time : Int :=
      if process.eventInProgress then toLong process.eventTimeRemaining
      else event.cycles * sim.config.memoryCycleTime
    let branch : Int × Simulation :=
      if event.descriptor = "allocate" then
        let sim := if process.eventInProgress then sim else sim.Log (.allocating pid)
        let work := sim.doProcWork event_time obs.poll
        if obs.afterWork = 0 then
          let alloc := work.2.allocateMemory 1
          (work.1, alloc.2.Log (.allocated pid alloc.1))
        else work
      else if event.descriptor = "block" then
        let sim := if process.eventInProgress then sim else sim.Log (.startBlocking pid)
        let work := sim.doProcWork event_time obs.poll
        if obs.afterWork = 0 then (work.1, work.2.Log (.endBlocking pid)) else work
      else (obs.indeterminate, sim)
    let timeRemaining := branch.1
    let sim := branch.2
    if obs.atEnd ≠ 0 then
      let sim := sim.Log (.interruptProcessing pid)
      some (sim.setProcess pid
        { process with eventInProgress := true,
                       eventTimeRemaining := toULong timeRemaining,
                       state := ProcessState.READY })
    else
      some (sim.setProcess pid
        { process with eventInProgress := false,
                       eventQueue := process.eventQueue.tail,
                       state := ProcessState.READY })

/-- The memory handler as the specification describes it (section 4.1): like
`handleMem`, except that the busy wait "polls only elapsed time, not the interrupt
word", that is, the wait is the non-interruptible `doWork` and always runs to its end,
leaving no time remaining.  Used only to compare `handleMem` with. -/
def Simulation.handleMemSpec (sim : Simulation) (pid : Nat) (event : SimEvent)
    (obs : Observation) : Option Simulation :=
  match sim.process? pid with
  | none => none
  | some process =>
    let event_time : Int :=
      if process.eventInProgress then toLong process.eventTimeRemaining
      else event.cycles * sim.config.memoryCycleTime
    let branch : Int × Simulation :=
      if event.descriptor = "allocate" then
        let sim := if process.eventInProgress then sim else sim.Log (.allocating pid)
        let sim := sim.doWork event_time
        if obs.afterWork = 0 then
          let alloc := sim.allocateMemory 1
          (0, alloc.2.Log (.allocated pid alloc.1))
        else (0, sim)
      else if event.descriptor = "block" then
        let sim := if process.eventInProgress then sim else sim.Log (.startBlocking pid)
        let sim := sim.doWork event_time
        if obs.afterWork = 0 then (0, sim.Log (.endBlocking pid)) else (0, sim)
      else (obs.indeterminate, sim)
    let timeRemaining := branch.1
    let sim := branch.2
    if obs.atEnd ≠ 0 then
      let sim := sim.Log (.interruptProcessing pid)
      some (sim.setProcess pid
        { process with eventInProgress := true,
                       eventTimeRemaining := toULong timeRemaining,
                       state := ProcessState.READY })
    else
      some (sim.setProcess pid
        { process with eventInProgress := false,
                       eventQueue := process.eventQueue.tail,
                       state := ProcessState.READY })

/-- The device lookup of `handleIO` by descriptor; `none` is the null pointer. -/
def resourceOf (descriptor : String) : Option Resource :=
  if descriptor = "hard drive" then some .resHdd
  else if descriptor = "monitor" then some .resMonitor
  else if descriptor = "printer" then some .resPrinter
  else if descriptor = "keyboard" then some .resKeyboard
  else if descriptor = "mouse" then some .resMouse
  else if descriptor = "speaker" then some .resSpeaker
  else none

/-- The loop `while(!resource_retrieved && !simInterrupt)` of `handleIO`, entered for the
`k`-th time with `resource_retrieved` false.  Returns `resource_retrieved` and the
simulation; `none` when the fuel runs out or a null `resource` is called. -/
def Simulation.acquireLoop (resource : Option Resource) (event : SimEvent) (pid : Nat)
    (poll : Nat → Nat) : Nat → Nat → Simulation → Option (Bool × Simulation)
  | 0, _, _ => none
  | fuel + 1, k, sim =>
    if poll k ≠ 0 then some (false, sim)
    else
      match resource with
      | none => none
      | some r =>
        let res := r.run sim (toUInt event.cycles)
          (if event.code = 'I' then ResIOState.INPUT else ResIOState.OUTPUT) pid
        if res.1 then some (true, res.2)
        else Simulation.acquireLoop resource event pid poll fuel (k + 1) res.2

/-- `Simulation::handleIO`.  `none` stands for a null pointer or for an acquisition
loop that does not end within `fuel` tests. -/
def Simulation.handleIO (fuel : Nat) (sim : Simulation) (pid : Nat) (event : SimEvent)
    (obs : Observation) : Option Simulation :=
  match sim.process? pid with
  | none => none
  | some process =>
    if process.eventInProgress then
      some (sim.setProcess pid
        { process with eventInProgress := false,
                       eventQueue := process.eventQueue.tail,
                       state := ProcessState.READY })
    else
      match Simulation.acquireLoop (resourceOf event.descriptor) event pid obs.poll fuel 0 sim with
      | none => none
      | some (resource_retrieved, sim) =>
        if resource_retrieved then
          let sim := sim.ioThreadEnd? obs.endBeforeWaiting
          match sim.process? pid with
          | none => none
          | some process =>
            some (sim.setProcess pid
              { process with eventInProgress := true, state := ProcessState.WAITING })
        else some sim

/-! ## Running a process -/

/-- The loop `while (!process->eventQueue.empty())` of `RunProcess`, at its `k`-th
iteration.  `none` when the loop does not end within `fuel` iterations (the `default:
continue` branch never ends) or a null pointer is used. -/
def Simulation.RunProcessLoop (obs : Nat → Observation) (pid : Nat) :
    Nat → Nat → Simulation → Option Simulation
  | 0, _, _ => none
  | fuel + 1, k, sim =>
    match sim.process? pid with
    | none => none
    | some process =>
      match process.eventQueue with
      | [] => some sim
      | event :: _ =>
        if event.code = 'P' ∨ event.code = 'M' ∨ event.code = 'I' ∨ event.code = 'O' then
          let handled :=
            if event.code = 'P' then sim.handleProc pid event (obs k)
            else if event.code = 'M' then sim.handleMem pid event (obs k)
            else Simulation.handleIO fuel sim pid event (obs k)
          match handled with
          | none => none
          | some sim =>
            let sim := sim.ioThreadEnd? (obs k).endBeforeCheck
            match sim.process? pid with
            | none => none
            | some process =>
              if (obs k).atBreak ≠ 0 ∨ process.state = ProcessState.WAITING then some sim
              else Simulation.RunProcessLoop obs pid fuel (k + 1) sim
        else Simulation.RunProcessLoop obs pid fuel (k + 1) sim

/-- `Simulation::RunProcess`. -/
def Simulation.RunProcess (fuel : Nat) (sim : Simulation) (pid : Nat)
    (obs : Nat → Observation) : Option Simulation :=
  let sim := sim.Log (.starting pid)
  match sim.process? pid with
  | none => none
  | some process =>
    let sim := sim.setProcess pid { process with state := ProcessState.RUNNING }
    match Simulation.RunProcessLoop obs pid fuel 0 sim with
    | none => none
    | some sim =>
      match sim.process? pid with
      | none => none
      | some process =>
        if process.eventQueue = [] then
          let sim := sim.Log (.completed pid)
          some (sim.setProcess pid { process with state := ProcessState.EXIT })
        else some sim

/-! ## Priorities -/

/-- The loop of `GetRemainingTime` over an event queue: `++remaining_time` once per
event, in an `unsigned long` starting at 0. -/
def countEvents (eventQueue : Application) : Nat :=
  eventQueue.foldl (fun remaining_time _ => (remaining_time + 1) % 18446744073709551616) 0

/-- `Simulation::GetRemainingTime` (version 1 of the source): one unit per queued
event, counted in an `unsigned long`. -/
def Simulation.GetRemainingTime (sim : Simulation) (pid : Nat) : Option Nat :=
  match sim.process? pid with
  | none => none
  | some process => some (countEvents process.eventQueue)

/-- The priority computed by `JobLoader` for a new process:
`int process_priority = 0; if (SRTF) process_priority = GetRemainingTime(newPid);`. -/
def Simulation.loaderPriority (sim : Simulation) (pid : Nat) : Option Int :=
  if sim.scheduling = SchedulingCode.SRTF then
    match sim.GetRemainingTime pid with
    | none => none
    | some t => some (toInt t)
  else some 0

/-- The priority computed by `Run` when it re-adds a process:
`int process_priority = 0; if (SRTF) process_priority = -GetRemainingTime(pid);`
(negation of an `unsigned long`, converted to `int`). -/
def Simulation.dispatchPriority (sim : Simulation) (pid : Nat) : Option Int :=
  if sim.scheduling = SchedulingCode.SRTF then
    match sim.GetRemainingTime pid with
    | none => none
    | some t => some (toInt ((18446744073709551616 - t) % 18446744073709551616))
  else some 0

/-! ## Job loader -/

/-- The process control block that `JobLoader` fills in for a new process:
`state = START`, `pid = newPid`, `eventQueue = **it`, `eventInProgress = false`,
`eventTimeRemaining = 0`. -/
def newPCB (newPid : Nat) (app : Application) : PCB :=
  { state := ProcessState.START, pid := newPid, eventQueue := app,
    eventInProgress := false, eventTimeRemaining := 0 }

/-- The body of the inner loop of `JobLoader` for one application.  `none` stands for
a write outside the process table. -/
def Simulation.loadApplication (sim : Simulation) (app : Application) : Option Simulation :=
  let newPid := sim.processCounter
  let sim := { sim with processCounter := (sim.processCounter + 1) % 4294967296 }
  let sim := sim.Log (.preparing newPid)
  let newProcess : PCB := newPCB newPid app
  let sim :=
    if newPid ≥ sim.processes.size then
      { sim with processes := sim.processes.resize (sim.processes.size * 2) }
    else sim
  if newPid < sim.processes.size then
    let sim := sim.setProcess newPid newProcess
    match sim.loaderPriority newPid with
    | none => none
    | some process_priority =>
      some { sim with jobs := sim.jobs ++ [{ pid := newPid, priority := process_priority }] }
  else none

/-- The inner loop of `JobLoader` over the remaining applications. -/
def Simulation.loadApplications (sim : Simulation) : List Application → Option Simulation
  | [] => some sim
  | app :: rest =>
    match sim.loadApplication app with
    | none => none
    | some sim => Simulation.loadApplications sim rest

/-- One wave of `JobLoader`: set the loader bit, load every application, clear the
loader bit (`simInterrupt &= ~SIM_INTERRUPT_LOADER` on an `unsigned short`). -/
def Simulation.loaderWave (sim : Simulation) : Option Simulation :=
  let sim := { sim with simInterrupt := sim.simInterrupt ||| SIM_INTERRUPT_LOADER }
  match sim.loadApplications sim.applications with
  | none => none
  | some sim =>
    some { sim with simInterrupt := sim.simInterrupt &&& (65535 - SIM_INTERRUPT_LOADER) }

/-- The loop `for( size_t i = 0; i<10; ++i )` of `JobLoader` with `n` waves left. -/
def Simulation.loaderWaves (sim : Simulation) : Nat → Option Simulation
  | 0 => some sim
  | n + 1 =>
    match sim.loaderWave with
    | none => none
    | some sim => Simulation.loaderWaves sim n

/-- `Simulation::JobLoader`: ten waves, then `loaderFinished = true`.  (The waits
between the waves run on the loader thread and change no simulation state.) -/
def Simulation.JobLoader (sim : Simulation) : Option Simulation :=
  match sim.loaderWaves 10 with
  | none => none
  | some sim => some { sim with loaderFinished := true }

/-! ## Dispatch loop -/

/-- C++ logical negation `!x` of an integer value. -/
def logicalNot (x : Nat) : Nat := if x = 0 then 1 else 0

/-- The clear operation of the dispatch loop on the interrupt word:
`simInterrupt &= !SIM_INTERRUPT_SCHEDULER_RR;`. -/
def clearSchedulerRR (simInterrupt : Nat) : Nat :=
  (simInterrupt &&& logicalNot SIM_INTERRUPT_SCHEDULER_RR) % 65536

/-- What the dispatch thread observes during one iteration of the inner loop of `Run`:
the observations of the handler calls of `RunProcess` and the interrupt word just
before the clear operation. -/
structure DispatchObservation where
  run : Nat → Observation
  atClear : Nat

/-- One iteration of the inner loop of `Simulation::Run`.  `top` is the position in
`jobs` of the job returned by `jobs.top()`: no queued job has a greater priority.
`none` when `top` is not such a position, when `RunProcess` does not return within
`fuel`, or when a null pointer is used. -/
def Simulation.dispatch (fuel : Nat) (sim : Simulation) (top : Nat)
    (obs : DispatchObservation) : Option Simulation :=
  match sim.jobs[top]? with
  | none => none
  | some job =>
    if sim.jobs.all (fun other => decide (other.priority ≤ job.priority)) then
      let sim := { sim with jobs := sim.jobs.eraseIdx top }
      let pid := job.pid
      match sim.process? pid with
      | none => none
      | some process =>
        let sim := { sim with currentProcess := pid }
        let state := process.state
        let sim :=
          if state = ProcessState.START then
            sim.setProcess pid { process with state := ProcessState.READY }
          else sim
        let ran :=
          if state = ProcessState.READY then sim.RunProcess fuel pid obs.run else some sim
        match ran with
        | none => none
        | some sim =>
          match sim.process? pid with
          | none => none
          | some process =>
            let state := process.state
            let sim := { sim with simInterrupt := clearSchedulerRR obs.atClear }
            if state ≠ ProcessState.EXIT then
              match sim.dispatchPriority pid with
              | none => none
              | some process_priority =>
                some { sim with jobs := sim.jobs ++ [{ pid := pid, priority := process_priority }] }
            else some sim
    else none

/-- One step of the simulation seen from the shared state: an iteration of the
dispatch loop, the end of an I/O worker, or a loader wave whose process ids do not
wrap around. -/
inductive Step : Simulation → Simulation → Prop where
  | dispatch (fuel top : Nat) (obs : DispatchObservation) {sim sim' : Simulation} :
      sim.dispatch fuel top obs = some sim' → Step sim sim'
  | ioEnd (i : Nat) {sim : Simulation} : i < sim.ioThreads.length → Step sim (sim.ioThreadEnd i)
  | load {sim sim' : Simulation} :
      sim.processCounter + sim.applications.length < 4294967296 →
      sim.loaderWave = some sim' → Step sim sim'

/-- Reflexive-transitive closure of `Step`. -/
inductive Steps : Simulation → Simulation → Prop where
  | refl (sim : Simulation) : Steps sim sim
  | tail {a b c : Simulation} : Steps a b → Step b c → Steps a c

/-- The state in which `Simulation::Run` starts its threads: no process, no job, an
empty process table of 4096 slots (set up by the constructor). -/
def Simulation.initial (scheduling : SchedulingCode) (config : Config)
    (applications : List Application) (maxMemoryBlocks : Nat)
    (hdd printer speaker : IOResourceSemaphore) (monitor keyboard mouse : IOResourceMutex) :
    Simulation :=
  { scheduling := scheduling, config := config, currentProcess := 0, processCounter := 0,
    processes := ProcessTable.empty 4096, jobs := [], applications := applications,
    memoryBlockCounter := 0, maxMemoryBlocks := maxMemoryBlocks, simInterrupt := 0,
    loaderFinished := false, resHdd := hdd, resPrinter := printer, resSpeaker := speaker,
    resMonitor := monitor, resKeyboard := keyboard, resMouse := mouse, ioThreads := [],
    clock := 0, log := [.simStarting] }


/-! ## Concrete configurations used by the examples -/

/-- A counted device class as its constructor leaves it: `sem_init(&s, 0, count)`,
`deviceCount(count)`, `deviceIndex(0)`.  This describes the constructor for the counts
that `sem_init` accepts, `count ≤ 2^31 - 1` (`SEM_VALUE_MAX`).  For a greater count
`sem_init` fails, the constructor ignores its result and the semaphore is left
uninitialised; the value of `s` below then describes nothing, and the theorems about
counted devices carry the bound on the count as a hypothesis. -/
def IOResourceSemaphore.init (count cycleTime : Nat) : IOResourceSemaphore :=
  { s := count, deviceCount := count, deviceIndex := 0, cycleTime := cycleTime }

/-- An exclusive device as its constructor leaves it: the mutex is unlocked. -/
def IOResourceMutex.init (cycleTime : Nat) : IOResourceMutex :=
  { m := false, cycleTime := cycleTime }

/-- A simulation as `Run` starts it, with processor cycle time 10 ms, memory cycle time
1 ms, one device of each counted class and 1 ms device cycle times (the configuration
of scenario S1, with the scheduling code, the applications, the block size and the
number of memory blocks left open). -/
def exampleSim (scheduling : SchedulingCode) (applications : List Application)
    (memoryBlockSize : Int) (maxMemoryBlocks : Nat) : Simulation :=
  Simulation.initial scheduling
    { processorCycleTime := 10, memoryCycleTime := 1, memoryBlockSize := memoryBlockSize }
    applications maxMemoryBlocks
    (IOResourceSemaphore.init 1 1) (IOResourceSemaphore.init 1 1) (IOResourceSemaphore.init 1 1)
    (IOResourceMutex.init 1) (IOResourceMutex.init 1) (IOResourceMutex.init 1)

/-- The example simulation with `maxMemoryBlocks` blocks of `memoryBlockSize` kbytes
and the allocator counter at `counter`. -/
def allocatorAt (memoryBlockSize : Int) (maxMemoryBlocks counter : Nat) : Simulation :=
  { exampleSim .RR [] memoryBlockSize maxMemoryBlocks with memoryBlockCounter := counter }

/-! ## Invariants used in the proofs -/

/-- The priority `JobLoader` gives to a new process with event queue `app`. -/
def loaderPriorityOf (scheduling : SchedulingCode) (app : Application) : Int :=
  if scheduling = SchedulingCode.SRTF then toInt (countEvents app) else 0

/-- The jobs `JobLoader` pushes for the applications of `created`, the first of which
gets process id `pid`. -/
def loaderJobs (scheduling : SchedulingCode) (pid : Nat) : List Application → List Job
  | [] => []
  | app :: rest =>
    { pid := pid, priority := loaderPriorityOf scheduling app } ::
      loaderJobs scheduling (pid + 1) rest

/-- Starting in the state `base`, the loader has created, in this order, one process
for each application of `created`, and nothing else has run. -/
structure Loaded (base : Simulation) (created : List Application) (sim : Simulation) :
    Prop where
  counter : sim.processCounter = base.processCounter + created.length
  bound : sim.processCounter ≤ sim.processes.size
  nonempty : 0 < sim.processes.size
  old : ∀ q, q < base.processCounter ∨ base.processCounter + created.length ≤ q →
    sim.process? q = base.process? q
  new : ∀ i app, created[i]? = some app →
    sim.process? (base.processCounter + i) = some (newPCB (base.processCounter + i) app)
  log : sim.log = base.log ++
    (List.range created.length).map (fun i => LogLine.preparing (base.processCounter + i))
  jobs : sim.jobs = base.jobs ++ loaderJobs base.scheduling base.processCounter created
  apps : sim.applications = base.applications
  sched : sim.scheduling = base.scheduling

/-- The applications loaded by `n` waves, in creation order. -/
def wavesOf (apps : List Application) : Nat → List Application
  | 0 => []
  | n + 1 => wavesOf apps n ++ apps

/-- The application of scenario S1: `P(run)2; M(allocate)1`. -/
def appS1 : Application :=
  [{ code := 'P', descriptor := "run", cycles := 2 },
   { code := 'M', descriptor := "allocate", cycles := 1 }]

/-- An application of three compute events (scenario S2). -/
def app3 : Application :=
  [{ code := 'P', descriptor := "run", cycles := 1 },
   { code := 'P', descriptor := "run", cycles := 1 },
   { code := 'P', descriptor := "run", cycles := 1 }]

/-- An application of one compute event (scenario S2). -/
def app1 : Application :=
  [{ code := 'P', descriptor := "run", cycles := 1 }]

/-- Observations of a handler call during which the interrupt word stays zero and no
I/O worker ends. -/
def quietObservation : Observation :=
  { poll := fun _ => 0, afterWork := 0, atEnd := 0, endBeforeWaiting := none,
    endBeforeCheck := none, atBreak := 0, indeterminate := 0 }

/-- Observations of a dispatch iteration during which the interrupt word stays zero
and no I/O worker ends. -/
def quietDispatch : DispatchObservation :=
  { run := fun _ => quietObservation, atClear := 0 }

/-- The example simulation after the first loader wave. -/
def exampleLoaded (scheduling : SchedulingCode) (applications : List Application) :
    Simulation :=
  ((exampleSim scheduling applications 1 8).loaderWave).getD
    (exampleSim scheduling applications 1 8)

/-- The scheduler-level state is the same in `s` and `s'`: process table, job queue,
process counter, policy, applications and configuration. -/
structure Same (s s' : Simulation) : Prop where
  processes : s'.processes = s.processes
  jobs : s'.jobs = s.jobs
  processCounter : s'.processCounter = s.processCounter
  scheduling : s'.scheduling = s.scheduling
  applications : s'.applications = s.applications
  config : s'.config = s.config

/-- The only change an I/O worker makes to a process slot: `WAITING` becomes `READY`. -/
def Flip (a b : Option PCB) : Prop :=
  a = b ∨ ∃ pcb, a = some pcb ∧ pcb.state = ProcessState.WAITING ∧
    b = some { pcb with state := ProcessState.READY }

/-- The change a handler makes to the slot of the process it runs: the PCB stays in
place with the same pid and its event queue loses events at the head only. -/
def Shrinks (a b : Option PCB) : Prop :=
  ∀ pcb, a = some pcb → ∃ pcb', b = some pcb' ∧ pcb'.pid = pcb.pid ∧
    ∃ k, pcb'.eventQueue = pcb.eventQueue.drop k

/-- What running process `pid` (a handler call, `RunProcess`) together with the I/O
workers ending meanwhile may change: the slot of `pid` as in `Shrinks`, every other
slot as in `Flip`, and neither the job queue, the process counter, the table size,
the policy, the applications nor the configuration. -/
structure Frame (pid : Nat) (s s' : Simulation) : Prop where
  jobs : s'.jobs = s.jobs
  processCounter : s'.processCounter = s.processCounter
  scheduling : s'.scheduling = s.scheduling
  applications : s'.applications = s.applications
  config : s'.config = s.config
  size : s'.processes.size = s.processes.size
  others : ∀ q, q ≠ pid → Flip (s.process? q) (s'.process? q)
  self : Shrinks (s.process? pid) (s'.process? pid)

/-- The priority with which `Run` re-adds a process whose PCB is `pcb`. -/
def requeuePriority (scheduling : SchedulingCode) (pcb : PCB) : Int :=
  if scheduling = SchedulingCode.SRTF then
    toInt ((18446744073709551616 - countEvents pcb.eventQueue) % 18446744073709551616)
  else 0

/-- Summary of a dispatch iteration that took `sim` to `sim'`: it popped `job`, whose
process had PCB `pcb` before and has PCB `pcb'` after. -/
structure Dispatched (sim sim' : Simulation) (top : Nat) (obs : DispatchObservation)
    (job : Job) (pcb pcb' : PCB) : Prop where
  isTop : sim.jobs[top]? = some job
  max : ∀ other ∈ sim.jobs, other.priority ≤ job.priority
  before : sim.process? job.pid = some pcb
  after : sim'.process? job.pid = some pcb'
  others : ∀ q, q ≠ job.pid → Flip (sim.process? q) (sim'.process? q)
  self : Shrinks (sim.process? job.pid) (sim'.process? job.pid)
  processCounter : sim'.processCounter = sim.processCounter
  scheduling : sim'.scheduling = sim.scheduling
  applications : sim'.applications = sim.applications
  config : sim'.config = sim.config
  size : sim'.processes.size = sim.processes.size
  simInterrupt : sim'.simInterrupt = clearSchedulerRR obs.atClear
  jobs : sim'.jobs = sim.jobs.eraseIdx top ++
    (if pcb'.state = ProcessState.EXIT then []
     else [{ pid := job.pid, priority := requeuePriority sim.scheduling pcb' }])
  notRun : pcb.state ≠ ProcessState.READY →
    sim'.log = sim.log ∧
    pcb' = if pcb.state = ProcessState.START then { pcb with state := ProcessState.READY }
      else pcb

/-- An application of one keyboard input event of five cycles. -/
def appKeyboard : Application :=
  [{ code := 'I', descriptor := "keyboard", cycles := 5 }]

/-- An application of one memory-blocking event of five cycles. -/
def appBlock : Application :=
  [{ code := 'M', descriptor := "block", cycles := 5 }]

/-- Observations of a handler call that finds the quantum bit of the interrupt word
set from its first read on. -/
def quantumObservation : Observation :=
  { poll := fun _ => SIM_INTERRUPT_SCHEDULER_RR, afterWork := SIM_INTERRUPT_SCHEDULER_RR,
    atEnd := SIM_INTERRUPT_SCHEDULER_RR, endBeforeWaiting := none, endBeforeCheck := none,
    atBreak := SIM_INTERRUPT_SCHEDULER_RR, indeterminate := 0 }

/-- Observations of a dispatch iteration during which the quantum bit is set. -/
def quantumDispatch : DispatchObservation :=
  { run := fun _ => quantumObservation, atClear := SIM_INTERRUPT_SCHEDULER_RR }

/-- Observations of a handler call during which the quantum bit of the interrupt word
becomes set once `e` milliseconds of the wait have elapsed. -/
def quantumAfter (e : Nat) : Observation :=
  { poll := fun k => if k < e then 0 else SIM_INTERRUPT_SCHEDULER_RR,
    afterWork := SIM_INTERRUPT_SCHEDULER_RR, atEnd := SIM_INTERRUPT_SCHEDULER_RR,
    endBeforeWaiting := none, endBeforeCheck := none,
    atBreak := SIM_INTERRUPT_SCHEDULER_RR, indeterminate := 0 }

/-- An application of one compute event of 100 cycles (scenario S3). -/
def appLong : Application :=
  [{ code := 'P', descriptor := "run", cycles := 100 }]

/-- The example simulation after the first loader wave and after `RunProcess` has set
process 0 to `RUNNING`, as the handlers find it. -/
def exampleRunning (scheduling : SchedulingCode) (app : Application) : Simulation :=
  (exampleLoaded scheduling [app]).setProcess 0
    { newPCB 0 app with state := ProcessState.RUNNING }

/-- Well-formed scheduler state: the process table is not empty and holds the process
counter, and every queued job belongs to a process id that has been issued. -/
structure WF (s : Simulation) : Prop where
  size_pos : 0 < s.processes.size
  counter_le : s.processCounter ≤ s.processes.size
  jobs_lt : ∀ job ∈ s.jobs, job.pid < s.processCounter

/-- The jobs queued for process `p`. -/
def jobsOf (p : Nat) (jobs : List Job) : List Job :=
  jobs.filter (fun job => decide (job.pid = p))

/-- Process `p1` has exited and is not queued any more. -/
def Done (p1 : Nat) (s : Simulation) : Prop :=
  (∃ pcb1, s.process? p1 = some pcb1 ∧ pcb1.state = ProcessState.EXIT) ∧
    ∀ job ∈ s.jobs, job.pid ≠ p1

/-- Process `p1` (at most one event left) is queued once with priority at least `-1`,
and process `p3` has not run yet: it has its three events and is queued once, with
its load priority `3` in state `START` or with priority `-3` in state `READY`. -/
def Pending (p1 p3 : Nat) (s : Simulation) : Prop :=
  ∃ pcb1 pcb3 pr1 pr3,
    s.process? p1 = some pcb1 ∧ pcb1.eventQueue.length ≤ 1 ∧
    jobsOf p1 s.jobs = [{ pid := p1, priority := pr1 }] ∧ -1 ≤ pr1 ∧
    s.process? p3 = some pcb3 ∧ pcb3.eventQueue.length = 3 ∧
    jobsOf p3 s.jobs = [{ pid := p3, priority := pr3 }] ∧
    ((pcb3.state = ProcessState.START ∧ pr3 = 3) ∨
      (pcb3.state = ProcessState.READY ∧ pr3 = -3))

/-- The SRTF invariant behind scenario S2: the one-event process `p1` is ahead of the
three-event process `p3`. -/
structure Ahead (p1 p3 : Nat) (s : Simulation) : Prop where
  sched : s.scheduling = SchedulingCode.SRTF
  ne : p1 ≠ p3
  lt1 : p1 < s.processCounter
  lt3 : p3 < s.processCounter
  wf : WF s
  cases : Done p1 s ∨ Pending p1 p3 s

/-- Scenario S2 after the first loader wave and after the dispatch iterations that pop
the jobs at the positions `tops`, one after the other, with no interrupt. -/
def s2Run (tops : List Nat) : Simulation :=
  tops.foldl (fun s top => (s.dispatch 10 top quietDispatch).getD s)
    (exampleLoaded .SRTF [app3, app1])

/-! ## Metadata parser (`Simulation::AddEvent`, `Simulation::ReadMetaData`) -/

/-- The `SimError`s thrown by `Simulation.cpp`, one constructor per message (the text
formatted into the message is dropped, except the option label and the scheduling
string). -/
inductive SimError where
  | unableToOpenConfigFile
  | configHeaderMissing
  | unableToParseConfigLine
  | configFooterMissing
  | optionNotInitialized (label : String)
  | cycleTimeBelowOne (label : String)
  | systemMemoryBelowOne
  | memoryBlockSizeBelowOne
  | invalidSchedulingCode (s_scheduling : String)
  | invalidLogOption
  | unableToOpenLogFile
  | unableToOpenMetaDataFile
  | metaDataHeaderMissing
  | metaDataFooterMissing
  | metaDataPeriodMissing
  | unableToParseEvent
  | missingEndOfProcess
  | missingEndOfOS
  | unknownEventCode
  | invalidDescriptor
  | invalidCycles
  | osAlreadyRunning
  | osAlreadyStopped
  | applicationWithoutOS
  | applicationWithinApplication
  | stopNonExistingApplication
  | outsideOfApplication
  deriving DecidableEq, Repr

deriving instance DecidableEq for Except

/-- The members of `class Simulation` that `ReadMetaData` and `AddEvent` read and
write: `osRunning`, `currentApplication` (`none` is the null pointer) and
`applications`. -/
structure ParserState where
  osRunning : Bool
  currentApplication : Option Application
  applications : List Application
  deriving DecidableEq, Repr

/-- The first `switch` of `AddEvent`: the set `validDescriptors` of an event code;
`none` is the `default` branch, which throws. -/
def validDescriptors (code : Char) : Option (List String) :=
  if code = 'S' then some ["start", "end"]
  else if code = 'A' then some ["start", "end"]
  else if code = 'P' then some ["run"]
  else if code = 'I' then some ["hard drive", "keyboard", "mouse"]
  else if code = 'O' then some ["hard drive", "monitor", "speaker", "printer"]
  else if code = 'M' then some ["block", "allocate"]
  else none

/-- `Simulation::AddEvent`: the checks of the event, then the second `switch`, which
updates the parser state.  An error is a thrown `SimError`. -/
def ParserState.AddEvent (st : ParserState) (code : Char) (descriptor : String)
    (cycles : Int) : Except SimError ParserState :=
  match validDescriptors code with
  | none => .error .unknownEventCode
  | some valid =>
    if descriptor ∉ valid then .error .invalidDescriptor
    else if cycles < 0 then .error .invalidCycles
    else
      let event : SimEvent := { code := code, descriptor := descriptor, cycles := cycles }
      if code = 'S' then
        if event.descriptor = "start" ∧ st.osRunning = true then .error .osAlreadyRunning
        else if event.descriptor = "end" ∧ st.osRunning = false then .error .osAlreadyStopped
        else .ok { st with osRunning := decide (event.descriptor = "start") }
      else if code = 'A' then
        if st.osRunning = false then .error .applicationWithoutOS
        else if event.descriptor = "start" then
          match st.currentApplication with
          | some _ => .error .applicationWithinApplication
          | none => .ok { st with currentApplication := some [] }
        else if event.descriptor = "end" then
          match st.currentApplication with
          | none => .error .stopNonExistingApplication
          | some app =>
            .ok { st with applications := st.applications ++ [app],
                          currentApplication := none }
        else .ok st
      else if code = 'P' ∨ code = 'I' ∨ code = 'O' ∨ code = 'M' then
        match st.currentApplication with
        | none => .error .outsideOfApplication
        | some app => .ok { st with currentApplication := some (app ++ [event]) }
      else .error .unknownEventCode

/-- The loop of `ReadMetaData` over the tokens.  A token enters as the result of
`regex_search(*it, sm, rEvent)`: `none` when the regular expression does not match,
otherwise the code, descriptor and cycle count taken from the match. -/
def ParserState.addTokens (st : ParserState) :
    List (Option SimEvent) → Except SimError ParserState
  | [] => .ok st
  | none :: _ => .error .unableToParseEvent
  | some e :: rest =>
    match st.AddEvent e.code e.descriptor e.cycles with
    | .error err => .error err
    | .ok st => ParserState.addTokens st rest

/-- `Simulation::ReadMetaData` from the point where the text between header and footer
has been split into tokens: reset `currentApplication` and `osRunning`, add every
token, then check that no application and no OS span is left open.  `applications`
is the list held by the simulation when the function is called (empty after the
constructor). -/
def ReadMetaData (applications : List Application) (tokens : List (Option SimEvent)) :
    Except SimError ParserState :=
  match ParserState.addTokens
      { osRunning := false, currentApplication := none, applications := applications }
      tokens with
  | .error err => .error err
  | .ok st =>
    if st.currentApplication.isSome then .error .missingEndOfProcess
    else if st.osRunning then .error .missingEndOfOS
    else .ok st

/-! ### The metadata stream as the specification describes it -/

/-- The whitelist of descriptors of an event code as the specification gives it
(section 3); a code outside `S, A, P, I, O, M` has no admitted descriptor. -/
def whitelist (code : Char) : List String :=
  if code = 'S' ∨ code = 'A' then ["start", "end"]
  else if code = 'P' then ["run"]
  else if code = 'I' then ["hard drive", "keyboard", "mouse"]
  else if code = 'O' then ["hard drive", "monitor", "speaker", "printer"]
  else if code = 'M' then ["block", "allocate"]
  else []

/-- The event is the marker `code(descriptor)`, whatever its cycle count. -/
def SimEvent.isMarker (code : Char) (descriptor : String) (e : SimEvent) : Bool :=
  decide (e.code = code) && decide (e.descriptor = descriptor)

/-- The event is a `P`, `I`, `O` or `M` event. -/
def SimEvent.isWork (e : SimEvent) : Bool :=
  decide (e.code = 'P') || decide (e.code = 'I') || decide (e.code = 'O') ||
    decide (e.code = 'M')

/-- The number of markers `code(descriptor)` in an event sequence. -/
def countMarker (code : Char) (descriptor : String) (events : List SimEvent) : Nat :=
  (events.filter (SimEvent.isMarker code descriptor)).length

/-- Whether a span of kind `code` (`S` for the OS, `A` for an application) is open
after the events, when it was open or not (`isOpen`) before them: `code(start)` opens
it, every other event with that code closes it, the other events leave it as it is. -/
def openAfter (code : Char) (isOpen : Bool) (events : List SimEvent) : Bool :=
  events.foldl
    (fun isOpen e => if e.code = code then decide (e.descriptor = "start") else isOpen)
    isOpen

/-- A span of kind `code` is left open at the end of an event sequence: the last
event with that code is `code(start)`. -/
def openAtEnd (code : Char) (events : List SimEvent) : Bool :=
  openAfter code false events

/-- The applications of an event sequence as the specification describes them
(sections 3 and 4.7): one entry per `A(start)` … `A(end)` pair, in stream order, each
entry the `P`, `I`, `O` and `M` events between the two markers, in stream order.
`current` holds the events of the application opened and not yet closed. -/
def applicationSpans : Option Application → List SimEvent → List Application
  | _, [] => []
  | none, e :: rest =>
    if e.isMarker 'A' "start" then applicationSpans (some []) rest
    else applicationSpans none rest
  | some body, e :: rest =>
    if e.isMarker 'A' "end" then body :: applicationSpans none rest
    else if e.isWork then applicationSpans (some (body ++ [e])) rest
    else applicationSpans (some body) rest

/-- The marker `S(descriptor)0`. -/
def evS (descriptor : String) : SimEvent := { code := 'S', descriptor := descriptor, cycles := 0 }

/-- The marker `A(descriptor)0`. -/
def evA (descriptor : String) : SimEvent := { code := 'A', descriptor := descriptor, cycles := 0 }

/-- The event `P(run)n`. -/
def evP (n : Int) : SimEvent := { code := 'P', descriptor := "run", cycles := n }

/-- Two OS spans, one after the other: `S(start)0; S(end)0; S(start)0; S(end)0`. -/
def eventsTwoSpans : List SimEvent := [evS "start", evS "end", evS "start", evS "end"]

/-- An OS restart inside an application:
`S(start)0; A(start)0; S(end)0; P(run)1; S(start)0; A(end)0; S(end)0`. -/
def eventsRestart : List SimEvent :=
  [evS "start", evA "start", evS "end", evP 1, evS "start", evA "end", evS "end"]

/-- Scenario S1: `S(start)0; A(start)0; P(run)2; M(allocate)1; A(end)0; S(end)0`. -/
def eventsS1 : List SimEvent :=
  [evS "start", evA "start", evP 2,
   { code := 'M', descriptor := "allocate", cycles := 1 }, evA "end", evS "end"]

/-! ## Configurations used by the examples of the memory handler and the devices -/

/-- An application of one memory-allocation event of one cycle. -/
def appAllocate : Application :=
  [{ code := 'M', descriptor := "allocate", cycles := 1 }]

/-- Observations of a `handleMem` call during which the quantum thread sets its bit of
the interrupt word between the read that follows the wait and the read that chooses
between the interrupted and the completed branch. -/
def raceObservation : Observation :=
  { poll := fun _ => 0, afterWork := 0, atEnd := SIM_INTERRUPT_SCHEDULER_RR,
    endBeforeWaiting := none, endBeforeCheck := none,
    atBreak := SIM_INTERRUPT_SCHEDULER_RR, indeterminate := 0 }

/-- The lines `memory allocated at ...` of a log: one per call of the allocator by
`handleMem`. -/
def allocatedLines (log : List LogLine) : List LogLine :=
  log.filter (fun line => match line with
    | .allocated _ _ => true
    | _ => false)

/-! ## The resource model -/

/-- The resource object whose `run` method builds a device label. -/
def DeviceLabel.resource : DeviceLabel → Resource
  | .hdd _ _ => .resHdd
  | .printer _ => .resPrinter
  | .speaker _ => .resSpeaker
  | .monitor => .resMonitor
  | .keyboard => .resKeyboard
  | .mouse => .resMouse

/-- The number of I/O workers started on a resource and not yet ended. -/
def Simulation.inFlight (sim : Simulation) (resource : Resource) : Nat :=
  (sim.ioThreads.filter (fun params => decide (params.deviceStr.resource = resource))).length

/-- The configured quantity of a resource: `deviceCount` for the counted device
classes, one for the exclusive devices. -/
def Simulation.quantity (sim : Simulation) : Resource → Nat
  | .resHdd => sim.resHdd.deviceCount
  | .resPrinter => sim.resPrinter.deviceCount
  | .resSpeaker => sim.resSpeaker.deviceCount
  | .resMonitor => 1
  | .resKeyboard => 1
  | .resMouse => 1

/-- One step of the resource model: a `run` call made by the dispatch thread on one of
the six resources, or the end of an I/O worker. -/
inductive ResourceStep : Simulation → Simulation → Prop where
  | run (resource : Resource) (cycles : Nat) (ioState : ResIOState) (pid : Nat)
      (sim : Simulation) : ResourceStep sim (resource.run sim cycles ioState pid).2
  | ioEnd (i : Nat) {sim : Simulation} :
      i < sim.ioThreads.length → ResourceStep sim (sim.ioThreadEnd i)

/-- Reflexive-transitive closure of `ResourceStep`. -/
inductive ResourceSteps : Simulation → Simulation → Prop where
  | refl (sim : Simulation) : ResourceSteps sim sim
  | tail {a b c : Simulation} : ResourceSteps a b → ResourceStep b c → ResourceSteps a c

/-- An application of one printer output event of one cycle (scenario S4). -/
def appPrinter : Application :=
  [{ code := 'O', descriptor := "printer", cycles := 1 }]

/-- The state reached from `start` by the `run` calls `calls` (resource and process
id, one cycle of output each), made one after the other with no worker ending. -/
def runCalls (start : Simulation) (calls : List (Resource × Nat)) : Simulation :=
  calls.foldl (fun s call => (call.1.run s 1 ResIOState.OUTPUT call.2).2) start

/-- The state reached from `start` by the dispatch iterations that pop the jobs at the
positions `tops`, one after the other, with no interrupt and no worker ending. -/
def quietRun (start : Simulation) (tops : List Nat) : Simulation :=
  tops.foldl (fun s top => (s.dispatch 10 top quietDispatch).getD s) start

/-! ## Configuration store (`ConfigManager.cpp`) -/

/-- Type of the value of a configuration option: `enum class ConfigType`. -/
inductive ConfigType where
  | Int
  | Double
  | String
  deriving DecidableEq, Repr

/-- One configuration option: `struct ConfigOption`.  Doubles are only stored and
returned by the configuration store, never computed with; `value_d` keeps the number
as a rational. -/
structure ConfigOption where
  type : ConfigType
  initialized : Bool
  value_i : Int
  value_d : Rat
  value_s : String
  deriving DecidableEq, Repr

/-- The exceptions that leave `Simulation.cpp` and `ConfigManager.cpp`: `SimError`,
`std::runtime_error` and `std::invalid_argument` (the latter two with the label of
the option they are about). -/
inductive Exception where
  | simError (err : SimError)
  | runtime_error (label : String)
  | invalid_argument (label : String)
  deriving DecidableEq, Repr

/-- The registry `class ConfigManager`: the entries of the `std::unordered_map`
`configOptions`, in the order in which the map iterates over them. -/
structure ConfigManager where
  configOptions : List (String × ConfigOption)
  deriving DecidableEq, Repr

/-- `ConfigManager::GetOption`: the option registered under `label`, `none` for the
null pointer. -/
def ConfigManager.GetOption (cm : ConfigManager) (label : String) : Option ConfigOption :=
  (cm.configOptions.find? (fun entry => decide (entry.1 = label))).map (fun entry => entry.2)

/-- Replace the value of the first entry with key `label`. -/
def replaceOption (label : String) (option : ConfigOption) :
    List (String × ConfigOption) → List (String × ConfigOption)
  | [] => []
  | entry :: rest =>
    if entry.1 = label then (entry.1, option) :: rest
    else entry :: replaceOption label option rest

/-- A write through the pointer returned by `GetOption`. -/
def ConfigManager.setOption (cm : ConfigManager) (label : String) (option : ConfigOption) :
    ConfigManager :=
  { configOptions := replaceOption label option cm.configOptions }

/-- `ConfigManager::AddOption`: the returned flag and the registry afterwards.  The
new entry is placed last in iteration order; its `value_i` and `value_d`, which the
source leaves uninitialised, are zero. -/
def ConfigManager.AddOption (cm : ConfigManager) (label : String) (type : ConfigType) :
    Bool × ConfigManager :=
  match cm.GetOption label with
  | some _ => (false, cm)
  | none =>
    (true, { configOptions := cm.configOptions ++
      [(label, { type := type, initialized := false, value_i := 0, value_d := 0,
                 value_s := "" })] })

/-- `ConfigManager::OptionInitialized`. -/
def ConfigManager.OptionInitialized (cm : ConfigManager) (label : String) :
    Except Exception Bool :=
  match cm.GetOption label with
  | none => .error (.runtime_error label)
  | some option => .ok option.initialized

/-- `isspace` in the C locale. -/
def isspace (c : Char) : Bool :=
  decide (c = ' ') || (decide (9 ≤ c.toNat) && decide (c.toNat ≤ 13))

/-- The value of the longest run of decimal digits at the start of a text, continuing
from `acc`, and the text after the digits. -/
def readDigits : List Char → Nat → Nat × List Char
  | [], acc => (acc, [])
  | c :: rest, acc =>
    if c.isDigit then readDigits rest (acc * 10 + (c.toNat - '0'.toNat))
    else (acc, c :: rest)

/-- The C library function `strtol( nptr, &endptr, 10 )`: the value and the text at
`endptr`.  White space is skipped, then an optional sign and a run of digits are read;
the value saturates at `LONG_MIN` and `LONG_MAX`; without a digit the value is zero
and `endptr` is `nptr`.  A text is the list of the characters of a C string (it holds
no NUL character). -/
def strtol (nptr : List Char) : Int × List Char :=
  let text := nptr.dropWhile isspace
  let signed : Bool × List Char :=
    match text with
    | '-' :: rest => (true, rest)
    | '+' :: rest => (false, rest)
    | _ => (false, text)
  match signed.2 with
  | [] => (0, nptr)
  | c :: _ =>
    if c.isDigit then
      let digits := readDigits signed.2 0
      let value : Int := if signed.1 then -(digits.1 : Int) else (digits.1 : Int)
      (max (-9223372036854775808) (min value 9223372036854775807), digits.2)
    else (0, nptr)

/-- `ConfigManager::SetStr`.  The C library function `strtod` is a parameter of the
model: it returns the value read and the text at `endptr`.  The test
`*endptr != 0 || endptr == strVal` compares the unread text with `strVal`. -/
def ConfigManager.SetStr (strtod : List Char → Rat × List Char) (cm : ConfigManager)
    (label : String) (strVal : String) : Except Exception ConfigManager :=
  match cm.GetOption label with
  | none => .error (.runtime_error label)
  | some option =>
    match option.type with
    | .Int =>
      let parsed := strtol strVal.toList
      if parsed.2 ≠ [] ∨ parsed.2 = strVal.toList then .error (.invalid_argument label)
      else .ok (cm.setOption label
        { option with value_s := strVal, value_i := parsed.1, initialized := true })
    | .Double =>
      let parsed := strtod strVal.toList
      if parsed.2 ≠ [] ∨ parsed.2 = strVal.toList then .error (.invalid_argument label)
      else .ok (cm.setOption label
        { option with value_s := strVal, value_d := parsed.1, initialized := true })
    | .String =>
      .ok (cm.setOption label { option with value_s := strVal, initialized := true })

/-- `ConfigManager::SetInt`; `std::to_string` of a `long int` is its decimal text. -/
def ConfigManager.SetInt (cm : ConfigManager) (label : String) (val : Int) :
    Except Exception ConfigManager :=
  match cm.GetOption label with
  | none => .error (.runtime_error label)
  | some option =>
    if option.type ≠ ConfigType.Int then .error (.runtime_error label)
    else .ok (cm.setOption label
      { option with value_s := toString val, value_i := val, initialized := true })

/-- `ConfigManager::GetOptionLabels`: the labels in iteration order. -/
def ConfigManager.GetOptionLabels (cm : ConfigManager) : List String :=
  cm.configOptions.map (fun entry => entry.1)

/-- `ConfigManager::GetInt`. -/
def ConfigManager.GetInt (cm : ConfigManager) (label : String) : Except Exception Int :=
  match cm.GetOption label with
  | none => .error (.runtime_error label)
  | some option =>
    if option.type ≠ ConfigType.Int then .error (.runtime_error label)
    else if option.initialized = false then .error (.runtime_error label)
    else .ok option.value_i

/-- `ConfigManager::GetStr`. -/
def ConfigManager.GetStr (cm : ConfigManager) (label : String) : Except Exception String :=
  match cm.GetOption label with
  | none => .error (.runtime_error label)
  | some option =>
    if option.initialized = false then .error (.runtime_error label)
    else .ok option.value_s

/-! ## Loading the configuration (`Simulation::Simulation`, `Simulation::LoadConfig`) -/

/-- Conversion of an integer to `double` (IEEE 754 binary64, round to nearest, ties to
even), given as the integer that the double denotes.  Integers below `2^53` in
absolute value are kept. -/
def toDouble (x : Int) : Int :=
  let a := x.natAbs
  if a < 9007199254740992 then x
  else
    let e := Nat.log2 a - 52
    let q := a / 2 ^ e
    let r := a % 2 ^ e
    let q := if 2 ^ e < 2 * r ∨ (2 * r = 2 ^ e ∧ q % 2 = 1) then q + 1 else q
    x.sign * ((q * 2 ^ e : Nat) : Int)

/-- The promotion `(long int)config.GetInt(label) * factor` of `LoadConfig`, where
`factor` is the `double` literal `10e3` or `10e6`: the product is computed in `double`
and converted to the `long int` parameter of `SetInt`.  (The conversion of a product
outside the range of `long int` is undefined behaviour in the source; the value is
kept.) -/
def promote (value : Int) (factor : Int) : Int :=
  toDouble (toDouble value * factor)

/-- The `double` literal `10e3`. -/
def factorMbytes : Int := 10000

/-- The `double` literal `10e6`. -/
def factorGbytes : Int := 10000000

/-- The options registered by the constructor, in registration order. -/
def registeredOptions : List (String × ConfigType) :=
  [("Version/Phase", .Double), ("File Path", .String),
   ("Processor cycle time (msec)", .Int), ("Monitor display time (msec)", .Int),
   ("Hard drive cycle time (msec)", .Int), ("Printer cycle time (msec)", .Int),
   ("Keyboard cycle time (msec)", .Int), ("Mouse cycle time (msec)", .Int),
   ("Speaker cycle time (msec)", .Int), ("Memory cycle time (msec)", .Int),
   ("Log", .String), ("Log File Path", .String), ("Printer quantity", .Int),
   ("Hard drive quantity", .Int), ("Speaker quantity", .Int),
   ("Quantum Number (msec)", .Int), ("Memory block size (kbytes)", .Int),
   ("System memory (kbytes)", .Int), ("System memory (Mbytes)", .Int),
   ("System memory (Gbytes)", .Int), ("CPU Scheduling Code", .String)]

/-- The default values set by the constructor, in the order of its `SetInt` calls. -/
def defaultValues : List (String × Int) :=
  [("Mouse cycle time (msec)", 1), ("Speaker cycle time (msec)", 1),
   ("System memory (Mbytes)", 0), ("Speaker quantity", 1), ("Hard drive quantity", 1),
   ("System memory (Gbytes)", 0)]

/-- A sequence of `SetInt` calls. -/
def ConfigManager.setInts (cm : ConfigManager) : List (String × Int) →
    Except Exception ConfigManager
  | [] => .ok cm
  | (label, val) :: rest =>
    match cm.SetInt label val with
    | .error e => .error e
    | .ok cm => ConfigManager.setInts cm rest

/-- The registry as the constructor `Simulation::Simulation` leaves it before it reads
the configuration file: every option registered, the defaults set. -/
def ConfigManager.constructed : Except Exception ConfigManager :=
  ConfigManager.setInts
    (registeredOptions.foldl (fun cm entry => (cm.AddOption entry.1 entry.2).2)
      { configOptions := [] })
    defaultValues

/-- The body of the first loop of `LoadConfig` for one entry of `configKeyValues`:
`SetStr`, then the promotion of a system memory given in Mbytes or Gbytes. -/
def loadOption (strtod : List Char → Rat × List Char) (config : ConfigManager)
    (key val : String) : Except Exception ConfigManager :=
  match config.SetStr strtod key val with
  | .error e => .error e
  | .ok config =>
    if key = "System memory (Mbytes)" then
      match config.GetInt "System memory (Mbytes)" with
      | .error e => .error e
      | .ok mbytes => config.SetInt "System memory (kbytes)" (promote mbytes factorMbytes)
    else if key = "System memory (Gbytes)" then
      match config.GetInt "System memory (Gbytes)" with
      | .error e => .error e
      | .ok gbytes => config.SetInt "System memory (kbytes)" (promote gbytes factorGbytes)
    else .ok config

/-- The first loop of `LoadConfig` over the entries of `configKeyValues`, in the
iteration order of that map. -/
def loadOptions (strtod : List Char → Rat × List Char) (config : ConfigManager) :
    List (String × String) → Except Exception ConfigManager
  | [] => .ok config
  | (key, val) :: rest =>
    match loadOption strtod config key val with
    | .error e => .error e
    | .ok config => loadOptions strtod config rest

/-- The second loop of `LoadConfig`: every label must be initialised. -/
def checkInitialized (config : ConfigManager) : List String → Except Exception Unit
  | [] => .ok ()
  | label :: rest =>
    match config.OptionInitialized label with
    | .error e => .error e
    | .ok initialized =>
      if initialized = false then .error (.simError (.optionNotInitialized label))
      else checkInitialized config rest

/-- One range check of `LoadConfig`: `if( config.GetInt( label ) < 1 ) throw err`. -/
def checkAtLeastOne (config : ConfigManager) (label : String) (err : SimError) :
    Except Exception Unit :=
  match config.GetInt label with
  | .error e => .error e
  | .ok value => if value < 1 then .error (.simError err) else .ok ()

/-- The range checks of `LoadConfig`, in source order: the label read and the error
thrown. -/
def rangeChecks : List (String × SimError) :=
  [("Processor cycle time (msec)", .cycleTimeBelowOne "Processor cycle time (msec)"),
   ("Monitor display time (msec)", .cycleTimeBelowOne "Monitor display time (msec)"),
   ("Hard drive cycle time (msec)", .cycleTimeBelowOne "Hard drive cycle time (msec)"),
   ("Printer cycle time (msec)", .cycleTimeBelowOne "Printer cycle time (msec)"),
   ("Keyboard cycle time (msec)", .cycleTimeBelowOne "Keyboard cycle time (msec)"),
   ("Mouse cycle time (msec)", .cycleTimeBelowOne "Mouse cycle time (msec)"),
   ("Speaker cycle time (msec)", .cycleTimeBelowOne "Speaker cycle time (msec)"),
   ("Memory cycle time (msec)", .cycleTimeBelowOne "Memory cycle time (msec)"),
   ("System memory (kbytes)", .systemMemoryBelowOne),
   ("Memory block size (kbytes)", .memoryBlockSizeBelowOne)]

/-- A sequence of range checks. -/
def checkRanges (config : ConfigManager) : List (String × SimError) → Except Exception Unit
  | [] => .ok ()
  | (label, err) :: rest =>
    match checkAtLeastOne config label err with
    | .error e => .error e
    | .ok _ => checkRanges config rest

/-- The choice of the scheduling algorithm in `LoadConfig`. -/
def schedulingCode (s_scheduling : String) : Except Exception SchedulingCode :=
  if s_scheduling = "RR" then .ok SchedulingCode.RR
  else if s_scheduling = "STR" then .ok SchedulingCode.SRTF
  else if s_scheduling = "SRT" then .ok SchedulingCode.SRTF
  else if s_scheduling = "SRTF" then .ok SchedulingCode.SRTF
  else .error (.simError (.invalidSchedulingCode s_scheduling))

/-- `SimHelpers::strLower`: `tolower` (C locale) on every character. -/
def strLower (str : String) : String :=
  String.mk (str.toList.map Char.toLower)

/-- The members of `class Simulation` written by `LoadConfig`. -/
structure LoadedConfig where
  config : ConfigManager
  scheduling : SchedulingCode
  maxMemoryBlocks : Nat
  logToFile : Bool
  logToMonitor : Bool
  resPrinter : IOResourceSemaphore
  resHdd : IOResourceSemaphore
  resSpeaker : IOResourceSemaphore
  resMonitor : IOResourceMutex
  resKeyboard : IOResourceMutex
  resMouse : IOResourceMutex
  deriving DecidableEq, Repr

/-- A counted device class built from the configuration: quantity and cycle time are
converted to the `unsigned int` parameters of the constructor.  (The language does not
fix the order in which the two arguments are evaluated; the quantity is read first.)
`LoadConfig` does not check the range of a quantity, so the count passed on may exceed
`2^31 - 1` (a quantity of `-1` gives `4294967295`); see `IOResourceSemaphore.init` for
what the result describes then. -/
def newSemaphoreResource (config : ConfigManager) (quantity cycleTime : String) :
    Except Exception IOResourceSemaphore :=
  match config.GetInt quantity with
  | .error e => .error e
  | .ok count =>
    match config.GetInt cycleTime with
    | .error e => .error e
    | .ok time => .ok (IOResourceSemaphore.init (toUInt count) (toUInt time))

/-- An exclusive device built from the configuration. -/
def newMutexResource (config : ConfigManager) (cycleTime : String) :
    Except Exception IOResourceMutex :=
  match config.GetInt cycleTime with
  | .error e => .error e
  | .ok time => .ok (IOResourceMutex.init (toUInt time))

/-- The number of memory blocks computed by `LoadConfig`: a `long int` division stored
in the `unsigned int` member `maxMemoryBlocks`. -/
def memoryBlocks (config : ConfigManager) : Except Exception Nat :=
  match config.GetInt "System memory (kbytes)" with
  | .error e => .error e
  | .ok systemMemory =>
    match config.GetInt "Memory block size (kbytes)" with
    | .error e => .error e
    | .ok blockSize => .ok (toUInt (Int.tdiv systemMemory blockSize))

/-- The log mode chosen by `LoadConfig`: `logToFile` and `logToMonitor`. -/
def logMode (config : ConfigManager) : Except Exception (Bool × Bool) :=
  match config.GetStr "Log" with
  | .error e => .error e
  | .ok text =>
    let log := strLower text
    if log = "log to both" then .ok (true, true)
    else if log = "log to file" then .ok (true, false)
    else if log = "log to monitor" then .ok (false, true)
    else .error (.simError .invalidLogOption)

/-- The opening of the log file by `LoadConfig`; `logFileOpens` tells whether the file
can be opened. -/
def openLogFile (config : ConfigManager) (logToFile logFileOpens : Bool) :
    Except Exception Unit :=
  if logToFile = true then
    match config.GetStr "Log File Path" with
    | .error e => .error e
    | .ok _ =>
      if logFileOpens = false then .error (.simError .unableToOpenLogFile) else .ok ()
  else .ok ()

/-- The six resources created at the end of `LoadConfig`, in source order: printer,
hard drive, speaker, monitor, keyboard, mouse. -/
def newResources (config : ConfigManager) :
    Except Exception
      ((IOResourceSemaphore × IOResourceSemaphore × IOResourceSemaphore) ×
        (IOResourceMutex × IOResourceMutex × IOResourceMutex)) :=
  match newSemaphoreResource config "Printer quantity" "Printer cycle time (msec)" with
  | .error e => .error e
  | .ok resPrinter =>
  match newSemaphoreResource config "Hard drive quantity" "Hard drive cycle time (msec)" with
  | .error e => .error e
  | .ok resHdd =>
  match newSemaphoreResource config "Speaker quantity" "Speaker cycle time (msec)" with
  | .error e => .error e
  | .ok resSpeaker =>
  match newMutexResource config "Monitor display time (msec)" with
  | .error e => .error e
  | .ok resMonitor =>
  match newMutexResource config "Keyboard cycle time (msec)" with
  | .error e => .error e
  | .ok resKeyboard =>
  match newMutexResource config "Mouse cycle time (msec)" with
  | .error e => .error e
  | .ok resMouse => .ok ((resPrinter, resHdd, resSpeaker), (resMonitor, resKeyboard, resMouse))

/-- `Simulation::LoadConfig` after its range checks: scheduling algorithm, number of
memory blocks, log mode, log file and resources (before which the two quantity options
are registered again, to no effect). -/
def finishConfig (config : ConfigManager) (logFileOpens : Bool) :
    Except Exception LoadedConfig :=
  match config.GetStr "CPU Scheduling Code" with
  | .error e => .error e
  | .ok s_scheduling =>
  match schedulingCode s_scheduling with
  | .error e => .error e
  | .ok scheduling =>
  match memoryBlocks config with
  | .error e => .error e
  | .ok maxMemoryBlocks =>
  match logMode config with
  | .error e => .error e
  | .ok mode =>
  match openLogFile config mode.1 logFileOpens with
  | .error e => .error e
  | .ok _ =>
    let config := (config.AddOption "Printer quantity" ConfigType.Int).2
    let config := (config.AddOption "Hard drive quantity" ConfigType.Int).2
    match newResources config with
    | .error e => .error e
    | .ok res =>
      .ok { config := config, scheduling := scheduling, maxMemoryBlocks := maxMemoryBlocks,
            logToFile := mode.1, logToMonitor := mode.2, resPrinter := res.1.1,
            resHdd := res.1.2.1, resSpeaker := res.1.2.2, resMonitor := res.2.1,
            resKeyboard := res.2.2.1, resMouse := res.2.2.2 }

/-- `Simulation::LoadConfig`.  `configKeyValues` lists the entries of the map of that
name in its iteration order; `config` is the registry. -/
def LoadConfig (strtod : List Char → Rat × List Char) (config : ConfigManager)
    (configKeyValues : List (String × String)) (logFileOpens : Bool) :
    Except Exception LoadedConfig :=
  match loadOptions strtod config configKeyValues with
  | .error e => .error e
  | .ok config =>
    match checkInitialized config config.GetOptionLabels with
    | .error e => .error e
    | .ok _ =>
      match checkRanges config rangeChecks with
      | .error e => .error e
      | .ok _ => finishConfig config logFileOpens

/-! ### Configurations used by the examples -/

/-- A stand-in for `strtod` in the examples: it reads the text `1.0` as one and
rejects every other text. -/
def exampleStrtod (text : List Char) : Rat × List Char :=
  if text = ['1', '.', '0'] then (1, []) else (0, text)

/-- The configuration of scenario S1 as `configKeyValues`, with the entry for the
system memory, the memory block size and the scheduling code left open. -/
def exampleKeyValues (memoryKey memoryValue blockSize scheduling : String) :
    List (String × String) :=
  [("Version/Phase", "1.0"), ("File Path", "test.mdf"),
   ("Processor cycle time (msec)", "10"), ("Monitor display time (msec)", "1"),
   ("Hard drive cycle time (msec)", "1"), ("Printer cycle time (msec)", "1"),
   ("Keyboard cycle time (msec)", "1"), ("Memory cycle time (msec)", "1"),
   ("Log", "Log to Monitor"), ("Log File Path", "log.txt"), ("Printer quantity", "1"),
   ("Quantum Number (msec)", "50"), ("Memory block size (kbytes)", blockSize),
   (memoryKey, memoryValue), ("CPU Scheduling Code", scheduling)]

/-- The registry left by the constructor. -/
def exampleRegistry : ConfigManager :=
  ConfigManager.constructed.toOption.getD { configOptions := [] }

/-- The registry after the first loop of `LoadConfig` on an example configuration. -/
def exampleOptions (memoryKey memoryValue blockSize scheduling : String) : ConfigManager :=
  (loadOptions exampleStrtod exampleRegistry
    (exampleKeyValues memoryKey memoryValue blockSize scheduling)).toOption.getD
    { configOptions := [] }

/-- `LoadConfig` on the registry left by the constructor and an example
configuration. -/
def exampleLoadConfig (memoryKey memoryValue blockSize scheduling : String) :
    Except Exception LoadedConfig :=
  LoadConfig exampleStrtod exampleRegistry
    (exampleKeyValues memoryKey memoryValue blockSize scheduling) false

/-! ### Range checks and missing options as the specification describes them -/

/-- The option `label` holds an integer below 1. -/
def belowOne (config : ConfigManager) (label : String) : Bool :=
  match config.GetInt label with
  | .ok value => decide (value < 1)
  | .error _ => false

/-- The handlers of `main`: the text that starts the line written to `stderr` for an
exception thrown by the constructor, `Simulation error: ` for a `SimError` and
`Error: ` for a `std::exception`. -/
def reportedAs : Exception → String
  | .simError _ => "Simulation error: "
  | .runtime_error _ => "Error: "
  | .invalid_argument _ => "Error: "

/-- The configuration of scenario S5 as `configKeyValues`: that of scenario S1 without
the entry `Processor cycle time (msec)`, with the monitor display time left open. -/
def keyValuesS5 (monitorTime : String) : List (String × String) :=
  [("Version/Phase", "1.0"), ("File Path", "test.mdf"),
   ("Monitor display time (msec)", monitorTime),
   ("Hard drive cycle time (msec)", "1"), ("Printer cycle time (msec)", "1"),
   ("Keyboard cycle time (msec)", "1"), ("Memory cycle time (msec)", "1"),
   ("Log", "Log to Monitor"), ("Log File Path", "log.txt"), ("Printer quantity", "1"),
   ("Quantum Number (msec)", "50"), ("Memory block size (kbytes)", "1"),
   ("System memory (kbytes)", "8"), ("CPU Scheduling Code", "RR")]

/-! ## Reading the configuration file (`Simulation::ReadConfigFile`, `helpers.h`) -/

/-- The characters removed by `strTrim`: blank, tab, carriage return, line feed. -/
def isTrimChar (c : Char) : Bool :=
  decide (c = ' ') || decide (c = Char.ofNat 9) || decide (c = Char.ofNat 13) ||
    decide (c = Char.ofNat 10)

/-- `SimHelpers::strTrim`: `leftPos` is moved right and `rightPos` left over the
characters to remove, then `str.substr(leftPos, rightPos-leftPos)` is returned (the
empty string when the whole string is removed). -/
def strTrim (str : String) : String :=
  let chars := str.toList
  let leftPos := (chars.takeWhile isTrimChar).length
  let rightPos := chars.length - (chars.reverse.takeWhile isTrimChar).length
  String.mk ((chars.drop leftPos).take (rightPos - leftPos))

/-- The constant `configHeader` of `ReadConfigFile`. -/
def configHeader : String := "Start Simulator Configuration File"

/-- The constant `configFooter` of `ReadConfigFile`. -/
def configFooter : String := "End Simulator Configuration File"

/-- The loop commented `Skip to config header`:
`while(getline(fl, line)) { if(strTrim(line) == configHeader); break; }`.  The `if`
ends at its semicolon, so the `break` is taken at the first line.  Returns `line`
(empty when the file has no line) and the lines not yet read. -/
def skipToHeader (lines : List String) : String × List String :=
  match lines with
  | [] => ("", [])
  | line :: rest => (line, rest)

/-- `configKeyValues.insert({key, val})` on the `std::unordered_map`: a key already
present keeps its value.  The entries are kept in insertion order. -/
def insertKeyValue (configKeyValues : List (String × String)) (key val : String) :
    List (String × String) :=
  if key ∈ configKeyValues.map (fun entry => entry.1) then configKeyValues
  else configKeyValues ++ [(key, val)]

/-- The loop `Read the config` of `ReadConfigFile` over the lines not yet read.  The
two regular expressions are parameters: `rConfigLine` gives the key and the value of a
matching line, `rEmptyLine` tells whether a line is blank.  Returns the last value of
`line` (empty when the end of the file is reached) and the entries read. -/
def readConfigLines (rConfigLine : String → Option (String × String))
    (rEmptyLine : String → Bool) :
    List String → List (String × String) → Except Exception (String × List (String × String))
  | [], configKeyValues => .ok ("", configKeyValues)
  | line :: rest, configKeyValues =>
    let line := strTrim line
    if line = configFooter then .ok (line, configKeyValues)
    else
      match rConfigLine line with
      | none =>
        if rEmptyLine line = false then .error (.simError .unableToParseConfigLine)
        else readConfigLines rConfigLine rEmptyLine rest configKeyValues
      | some (key, val) =>
        readConfigLines rConfigLine rEmptyLine rest (insertKeyValue configKeyValues key val)

/-- `Simulation::ReadConfigFile`.  `file` holds the lines that `getline` reads from
the file, `none` when the file cannot be opened; the result is `configKeyValues`. -/
def ReadConfigFile (rConfigLine : String → Option (String × String))
    (rEmptyLine : String → Bool) (file : Option (List String))
    (configKeyValues : List (String × String)) : Except Exception (List (String × String)) :=
  match file with
  | none => .error (.simError .unableToOpenConfigFile)
  | some lines =>
    let skipped := skipToHeader lines
    if skipped.1 ≠ configHeader then .error (.simError .configHeaderMissing)
    else
      match readConfigLines rConfigLine rEmptyLine skipped.2 configKeyValues with
      | .error e => .error e
      | .ok read =>
        if read.1 ≠ configFooter then .error (.simError .configFooterMissing)
        else .ok read.2

/-- A stand-in for the regular expression `rConfigLine` in the examples: the key is
the text before the first colon and the value the text after it, both trimmed; a line
without a colon or without a value does not match. -/
def exampleConfigLine (line : String) : Option (String × String) :=
  let key := line.toList.takeWhile (fun c => decide (c ≠ ':'))
  let rest := line.toList.dropWhile (fun c => decide (c ≠ ':'))
  match rest with
  | [] => none
  | _ :: value =>
    if strTrim (String.mk value) = "" then none
    else some (strTrim (String.mk key), strTrim (String.mk value))

/-- A stand-in for the regular expression `rEmptyLine` in the examples. -/
def exampleEmptyLine (line : String) : Bool :=
  decide (strTrim line = "")

/-- A configuration file whose header is its second line, after a blank line. -/
def fileHeaderSecond : List String :=
  ["", "Start Simulator Configuration File", "Log: Log to Monitor",
   "End Simulator Configuration File"]

/-- A configuration file whose first line is the header behind two blanks. -/
def fileHeaderIndented : List String :=
  ["  Start Simulator Configuration File", "Log: Log to Monitor",
   "End Simulator Configuration File"]

/-- A configuration file whose first line is the header. -/
def fileHeaderFirst : List String :=
  ["Start Simulator Configuration File", "Log: Log to Monitor", "",
   "End Simulator Configuration File"]

/-! ## The device cursor of the counted resources -/

/-- The device indices in the `start` lines that a counted resource has logged, oldest
first: one for each of its `run` calls that returned true. -/
def startIndices (resource : Resource) (log : List LogLine) : List Int :=
  log.filterMap (fun line =>
    match line with
    | .ioStart _ (.hdd _ devId) => if resource = Resource.resHdd then some devId else none
    | .ioStart _ (.printer devId) => if resource = Resource.resPrinter then some devId else none
    | .ioStart _ (.speaker devId) => if resource = Resource.resSpeaker then some devId else none
    | _ => none)

/-- The semaphore object of a counted resource (`none` for an exclusive device). -/
def Simulation.semaphore (sim : Simulation) : Resource → Option IOResourceSemaphore
  | .resHdd => some sim.resHdd
  | .resPrinter => some sim.resPrinter
  | .resSpeaker => some sim.resSpeaker
  | _ => none

/-- The example simulation with `count` printers. -/
def printersSim (count : Nat) : Simulation :=
  { exampleSim .RR [] 1 8 with resPrinter := IOResourceSemaphore.init count 1 }

/-! ## The job queue as a binary heap

`jobs` is a `std::priority_queue<Job>`: `push` appends to the underlying vector and
calls `std::push_heap`, `top` reads the front of the vector, `pop` calls
`std::pop_heap` and removes the last element.  The C++ standard fixes only that the
vector is a heap for `Job::operator<`; the definitions below follow the heap
algorithms of libstdc++ (`bits/stl_heap.h`), element for element. -/

/-- The loop of `std::__push_heap`: the hole moves up while the parent is less than
`value`, then `value` is stored in the hole.  `fuel` bounds the number of
iterations. -/
def pushHeap (value : Job) (topIndex : Nat) : Nat → List Job → Nat → List Job
  | 0, first, holeIndex => first.set holeIndex value
  | fuel + 1, first, holeIndex =>
    let parent := (holeIndex - 1) / 2
    if topIndex < holeIndex ∧ (first.getD parent value).priority < value.priority then
      pushHeap value topIndex fuel (first.set holeIndex (first.getD parent value)) parent
    else first.set holeIndex value

/-- The loop of `std::__adjust_heap`: the hole moves down to the greater child (the
right one when neither is less than the other).  Returns the vector, `holeIndex` and
`secondChild`. -/
def adjustHeapLoop (len : Nat) : Nat → List Job → Nat → Nat → List Job × Nat × Nat
  | 0, first, holeIndex, secondChild => (first, holeIndex, secondChild)
  | fuel + 1, first, holeIndex, secondChild =>
    if secondChild < (len - 1) / 2 then
      let secondChild := 2 * (secondChild + 1)
      let secondChild :=
        match first[secondChild]?, first[secondChild - 1]? with
        | some right, some left => if right.priority < left.priority then secondChild - 1
            else secondChild
        | _, _ => secondChild
      match first[secondChild]? with
      | some child => adjustHeapLoop len fuel (first.set holeIndex child) secondChild secondChild
      | none => (first, holeIndex, secondChild)
    else (first, holeIndex, secondChild)

/-- `std::__adjust_heap( first, holeIndex, len, value )`. -/
def adjustHeap (first : List Job) (holeIndex len : Nat) (value : Job) : List Job :=
  let topIndex := holeIndex
  let moved := adjustHeapLoop len len first holeIndex holeIndex
  let first := moved.1
  let holeIndex := moved.2.1
  let secondChild := moved.2.2
  let last : List Job × Nat :=
    if len % 2 = 0 ∧ secondChild = (len - 2) / 2 then
      let secondChild := 2 * (secondChild + 1)
      (first.set holeIndex (first.getD (secondChild - 1) value), secondChild - 1)
    else (first, holeIndex)
  pushHeap value topIndex len last.1 last.2

/-- `jobs.push( job )`: `c.push_back( job ); std::push_heap( c.begin(), c.end() )`. -/
def queuePush (c : List Job) (job : Job) : List Job :=
  pushHeap job 0 (c.length + 1) (c ++ [job]) c.length

/-- `jobs.top()`: the front of the vector. -/
def queueTop (c : List Job) : Option Job := c.head?

/-- `jobs.pop()`: `std::pop_heap( c.begin(), c.end() ); c.pop_back()`.  With more than
one element, `pop_heap` moves the front to the last place and puts the former last
element back into the heap of the others with `__adjust_heap`. -/
def queuePop (c : List Job) : List Job :=
  if 1 < c.length then
    match c.head?, c.getLast? with
    | some top, some value =>
      (adjustHeap (c.set (c.length - 1) top) 0 (c.length - 1) value).dropLast
    | _, _ => c.dropLast
  else c.dropLast

/-- The queue after pushing jobs of priority 0 for the process ids of `pids`, in this
order, onto the empty queue. -/
def queueOfPids (pids : List Nat) : List Job :=
  pids.foldl (fun c pid => queuePush c { pid := pid, priority := 0 }) []

/-! ## Runs of the dispatch loop used by the examples -/

/-- Observations of a dispatch iteration whose `handleMem` call sees the quantum bit
set between its two reads of the interrupt word (see `raceObservation`). -/
def raceDispatch : DispatchObservation :=
  { run := fun _ => raceObservation, atClear := SIM_INTERRUPT_SCHEDULER_RR }

/-- The state reached from `start` by dispatch iterations that pop the job at position
0 under the observations of `observed`, one after the other. -/
def observedRun (start : Simulation) (observed : List DispatchObservation) : Simulation :=
  observed.foldl (fun s obs => (s.dispatch 10 0 obs).getD s) start

/-- Invariant of the reachable states behind the stickiness of `EXIT`: the state is
well formed, only issued process ids have a process control block, every process is
queued at most once, and an exited process is not queued. -/
structure Tidy (s : Simulation) : Prop where
  wf : WF s
  created : ∀ q pcb, s.process? q = some pcb → q < s.processCounter
  once : ∀ p, (jobsOf p s.jobs).length ≤ 1
  exited : ∀ p pcb, s.process? p = some pcb → pcb.state = ProcessState.EXIT →
    jobsOf p s.jobs = []

/-- The call of `handleIO` in which process `q` enters `WAITING`: the handler is
entered in state `mid` with the PCB `entry`, which is `RUNNING` or `READY`, has the
I/O event `event` at the head of its queue and no event in progress; the acquisition
loop ends with a `run` call that returned `true`, and the handler writes
`eventInProgress = true` and `state = WAITING` into that PCB, which gives `pcb'`. -/
structure WaitingEntry (fuel : Nat) (mid : Simulation) (q : Nat) (event : SimEvent)
    (obs : Observation) (entry : PCB) (acquired : Simulation) (pcb' : PCB) : Prop where
  atEntry : mid.process? q = some entry
  runnable : entry.state = ProcessState.RUNNING ∨ entry.state = ProcessState.READY
  head : entry.eventQueue.head? = some event
  io : event.code = 'I' ∨ event.code = 'O'
  fresh : entry.eventInProgress = false
  runTrue : Simulation.acquireLoop (resourceOf event.descriptor) event q obs.poll fuel 0 mid =
    some (true, acquired)
  handled : Simulation.handleIO fuel mid q event obs =
    some ((acquired.ioThreadEnd? obs.endBeforeWaiting).setProcess q
      { entry with eventInProgress := true, state := ProcessState.WAITING })
  written : pcb' = { entry with eventInProgress := true, state := ProcessState.WAITING }

/-- An application of one compute event followed by one printer output event. -/
def appComputePrint : Application :=
  [{ code := 'P', descriptor := "run", cycles := 1 },
   { code := 'O', descriptor := "printer", cycles := 1 }]

/-- The example process with the application `P(run)1; O(printer)1` after `RunProcess`
has set it to `RUNNING` and `handleProc` has returned from the compute event. -/
def afterCompute : Simulation :=
  (( exampleRunning .RR appComputePrint).handleProc 0
    { code := 'P', descriptor := "run", cycles := 1 } quietObservation).getD
    (exampleRunning .RR appComputePrint)

/-- The priority of every queued job whose process has left `START` is the priority
that `Run` computes from the event queue the process has now. -/
def Keyed (s : Simulation) : Prop :=
  ∀ job ∈ s.jobs, ∀ pcb, s.process? job.pid = some pcb → pcb.state ≠ ProcessState.START →
    job.priority = requeuePriority s.scheduling pcb

/-- The state after a dispatch iteration that popped the job at position `top` for
process `pid` without running it: the job is removed and pushed back with `priority`,
`currentProcess` is `pid`, and the interrupt word went through the clear operation. -/
def Simulation.skipped (sim : Simulation) (top pid : Nat) (priority : Int)
    (obs : DispatchObservation) : Simulation :=
  { sim with jobs := sim.jobs.eraseIdx top ++ [{ pid := pid, priority := priority }],
             currentProcess := pid,
             simInterrupt := clearSchedulerRR obs.atClear }

/-- `Simulation::AddEvent` with its effect on the members made explicit: the values of
`osRunning`, `currentApplication` and `applications` at the moment the function
returns or throws, and the `SimError` thrown, if any.  The statements are taken in the
order of the source; an assignment shows as an update of the state, a `throw` as a
result that carries the state reached so far. -/
def ParserState.AddEventEffect (st : ParserState) (code : Char) (descriptor : String)
    (cycles : Int) : ParserState × Option SimError :=
  match validDescriptors code with
  | none => (st, some .unknownEventCode)
  | some valid =>
    if descriptor ∉ valid then (st, some .invalidDescriptor)
    else if cycles < 0 then (st, some .invalidCycles)
    else
      let event : SimEvent := { code := code, descriptor := descriptor, cycles := cycles }
      if code = 'S' then
        if event.descriptor = "start" ∧ st.osRunning = true then (st, some .osAlreadyRunning)
        else if event.descriptor = "end" ∧ st.osRunning = false then
          (st, some .osAlreadyStopped)
        else
          let st := { st with osRunning := decide (event.descriptor = "start") }
          (st, none)
      else if code = 'A' then
        if st.osRunning = false then (st, some .applicationWithoutOS)
        else if event.descriptor = "start" then
          if st.currentApplication.isSome then (st, some .applicationWithinApplication)
          else
            let st := { st with currentApplication := some [] }
            (st, none)
        else if event.descriptor = "end" then
          match st.currentApplication with
          | none => (st, some .stopNonExistingApplication)
          | some app =>
            let st := { st with applications := st.applications ++ [app] }
            let st := { st with currentApplication := none }
            (st, none)
        else (st, none)
      else if code = 'P' ∨ code = 'I' ∨ code = 'O' ∨ code = 'M' then
        match st.currentApplication with
        | none => (st, some .outsideOfApplication)
        | some app =>
          let st := { st with currentApplication := some (app ++ [event]) }
          (st, none)
      else (st, some .unknownEventCode)

/-- The invariant of the process table: the process counter does not exceed the size of
the table, and the size is 4096 doubled some number of times. -/
structure InBounds (sim : Simulation) : Prop where
  counter_le : sim.processCounter ≤ sim.processes.size
  doubled : ∃ k, sim.processes.size = 4096 * 2 ^ k

/-- The configuration lines of a file as the specification reads it: the keys and
values, in file order, of the lines before the footer that are of the form
`key : value`. -/
def configEntries (rConfigLine : String → Option (String × String)) :
    List String → List (String × String)
  | [] => []
  | line :: rest =>
    if strTrim line = configFooter then []
    else
      match rConfigLine (strTrim line) with
      | none => configEntries rConfigLine rest
      | some entry => entry :: configEntries rConfigLine rest

/-- The value of the first entry with key `key`. -/
def firstValue (key : String) : List (String × String) → Option String
  | [] => none
  | entry :: rest => if entry.1 = key then some entry.2 else firstValue key rest

/-- A configuration file with the key `Log` on two lines. -/
def fileDuplicateKey : List String :=
  ["Start Simulator Configuration File", "Log: Log to Monitor", "Log: Log to File",
   "End Simulator Configuration File"]

/-- Every event of every application still to load and of every process is a `P`, `I`,
`O` or `M` event, so that the `switch` of `RunProcess` never takes its `default`
branch. -/
structure Work (s : Simulation) : Prop where
  apps : ∀ app ∈ s.applications, ∀ e ∈ app, e.isWork = true
  queues : ∀ q pcb, s.process? q = some pcb → ∀ e ∈ pcb.eventQueue, e.isWork = true

/-! ## `SimHelpers::strSplit` (`helpers.h`) -/

/-- `std::string::npos`, the greatest value of `size_t`. -/
def npos : Nat := 18446744073709551615

/-- `str.find(delim, pos)`: the first position from `pos` on that holds `delim`, `npos`
when there is none. -/
def strFind (str : List Char) (delim : Char) (pos : Nat) : Nat :=
  let skipped := ((str.drop pos).takeWhile (fun c => decide (c ≠ delim))).length
  if pos + skipped < str.length then pos + skipped else npos

/-- `str.substr(pos, len)`: at most `len` characters from position `pos`; `none` stands
for the `out_of_range` exception thrown when `pos` exceeds the size. -/
def strSubstr (str : List Char) (pos len : Nat) : Option (List Char) :=
  if pos > str.length then none else some ((str.drop pos).take len)

/-- The `do ... while` loop of `strSplit`, entered with the values of `findPos` and
`strings`; the arithmetic on `size_t` wraps at `2^64`.  `none` when the loop does not
end within `fuel` iterations or `substr` throws. -/
def strSplitLoop (str : List Char) (delim : Char) :
    Nat → Nat → List String → Option (List String)
  | 0, _, _ => none
  | fuel + 1, findPos, strings =>
    let lastPos := (findPos + 1) % 18446744073709551616
    let findPos := strFind str delim lastPos
    match strSubstr str lastPos ((findPos + 18446744073709551616 - lastPos) % 18446744073709551616) with
    | none => none
    | some part =>
      let strings := strings ++ [String.mk part]
      if findPos ≠ npos then strSplitLoop str delim fuel findPos strings
      else some strings

/-- `SimHelpers::strSplit`: `strings.clear()`, `findPos = -1`, then the loop. -/
def strSplit (fuel : Nat) (str : String) (delim : Char) : Option (List String) :=
  strSplitLoop str.toList delim fuel npos []

/-- The pieces of a text between the occurrences of a delimiter, as the specification
describes the result of `strSplit`. -/
def splitChars (delim : Char) : List Char → List (List Char)
  | [] => [[]]
  | c :: rest =>
    if c = delim then [] :: splitChars delim rest
    else
      match splitChars delim rest with
      | [] => [[c]]
      | part :: parts => (c :: part) :: parts

/-! ## A worker that ends before `handleIO` writes `WAITING` -/

/-- An application of one keyboard input event of zero cycles: the worker of the event
has nothing to wait for. -/
def appKeyboardNow : Application :=
  [{ code := 'I', descriptor := "keyboard", cycles := 0 }]

/-- Observations of a handler call during which the interrupt word stays zero and the
I/O worker at position 0 ends after `run` returned and before `handleIO` writes
`WAITING`. -/
def earlyEndObservation : Observation :=
  { poll := fun _ => 0, afterWork := 0, atEnd := 0, endBeforeWaiting := some 0,
    endBeforeCheck := none, atBreak := 0, indeterminate := 0 }

/-- Observations of a dispatch iteration during which the interrupt word stays zero and
the I/O worker started by `handleIO` ends before `handleIO` writes `WAITING`. -/
def earlyEndDispatch : DispatchObservation :=
  { run := fun _ => earlyEndObservation, atClear := 0 }

/-- Scenario S2 with a keyboard event of zero cycles as the one-event application,
after the first loader wave and after the dispatch iterations that pop the jobs at the
positions `tops`, one after the other, with no interrupt and the worker ending early. -/
def earlyEndRun (tops : List Nat) : Simulation :=
  tops.foldl (fun s top => (s.dispatch 10 top earlyEndDispatch).getD s)
    (exampleLoaded .SRTF [app3, appKeyboardNow])

/-- Process `p` has PCB `pcb` and none of the I/O workers in flight was started for
it. -/
def Parked (p : Nat) (pcb : PCB) (s : Simulation) : Prop :=
  s.process? p = some pcb ∧ ∀ params ∈ s.ioThreads, params.pid ≠ p

/-- Neither the process table nor the list of I/O workers in flight differs between
`s` and `s'`. -/
def Still (s s' : Simulation) : Prop :=
  s'.processes = s.processes ∧ s'.ioThreads = s.ioThreads
/-! ## Machine-integer facts -/

theorem toUInt_natCast (n : Nat) (h : n < 4294967296) : toUInt (n : Int) = n := by
  unfold toUInt
  have : ((n : Int) % 4294967296) = (n : Int) := Int.emod_eq_of_lt (by omega) (by omega)
  rw [this]; simp

/-- The two-step rounding of `allocateMemory` is the ceiling of `n / B`. -/
theorem ceil_blocks (n B : Nat) (hB : 1 ≤ B) :
    (if B * (n / B) < n then n / B + 1 else n / B) = (n + B - 1) / B := by
  have hdm := Nat.div_add_mod n B
  have hmod : n % B < B := Nat.mod_lt _ (by omega)
  generalize n / B = q at *
  have e1 : (q + 1) * B = B * q + B := by ring
  have e2 : (q + 1 + 1) * B = B * q + B + B := by ring
  have e3 : q * B = B * q := by ring
  split
  · symm
    apply Nat.div_eq_of_lt_le
    · omega
    · omega
  · symm
    apply Nat.div_eq_of_lt_le
    · omega
    · omega

/-- The block count of `allocateMemory` for `0 ≤ n < 2^31` kbytes and a block size
of at least one is the ceiling of `n / blockSize`. -/
theorem requiredBlocks_eq (sim : Simulation) (n : Nat) (hn : n < 2147483648)
    (hB : 1 ≤ toUInt sim.config.memoryBlockSize) :
    sim.requiredBlocks (n : Int) =
      (n + toUInt sim.config.memoryBlockSize - 1) / toUInt sim.config.memoryBlockSize := by
  unfold Simulation.requiredBlocks
  have hn' : toUInt (n : Int) = n := toUInt_natCast n (by omega)
  have hle : toUInt sim.config.memoryBlockSize * (n / toUInt sim.config.memoryBlockSize) ≤ n :=
    Nat.mul_div_le _ _
  have hdiv : n / toUInt sim.config.memoryBlockSize ≤ n := Nat.div_le_self _ _
  have hceil := ceil_blocks n (toUInt sim.config.memoryBlockSize) hB
  simp only [hn']
  rw [Nat.mod_eq_of_lt (by omega :
    toUInt sim.config.memoryBlockSize * (n / toUInt sim.config.memoryBlockSize) < 4294967296)]
  rw [Nat.mod_eq_of_lt (by omega : n / toUInt sim.config.memoryBlockSize + 1 < 4294967296)]
  rw [hceil]

/-- A one-kbyte request needs one block. -/
theorem requiredBlocks_one (sim : Simulation) (hB : 1 ≤ toUInt sim.config.memoryBlockSize) :
    sim.requiredBlocks 1 = 1 := by
  have h := requiredBlocks_eq sim 1 (by norm_num) hB
  simp only [Nat.cast_one] at h
  rw [h, Nat.add_sub_cancel_left]; exact Nat.div_self (by omega)

/-- `allocateMemory(1)` with a block size of at least one. -/
theorem allocateMemory_eq (sim : Simulation)
    (hB : 1 ≤ toUInt sim.config.memoryBlockSize) :
    sim.allocateMemory 1 =
      (((if (sim.memoryBlockCounter + 1) % 4294967296 ≥ sim.maxMemoryBlocks then 0
          else sim.memoryBlockCounter) * toUInt sim.config.memoryBlockSize) % 4294967296,
       { sim with memoryBlockCounter :=
          ((if (sim.memoryBlockCounter + 1) % 4294967296 ≥ sim.maxMemoryBlocks then 0
            else sim.memoryBlockCounter) + 1) % 4294967296 }) := by
  unfold Simulation.allocateMemory
  simp only [requiredBlocks_one sim hB]

/-! ## C1, C2: the allocator -/

/-- Address issued by one `allocateMemory(1)` call when the counter is the `k`-th of
the cycle: the counter before the call is `k % (M - 1)`, or `M - 1` at the end of a
cycle. -/
theorem allocateMemory_one_cycle (sim : Simulation) (k : Nat)
    (hM : 2 ≤ sim.maxMemoryBlocks) (hM' : sim.maxMemoryBlocks < 4294967296)
    (hB : 1 ≤ toUInt sim.config.memoryBlockSize)
    (hc : sim.memoryBlockCounter = k % (sim.maxMemoryBlocks - 1) ∨
      (sim.memoryBlockCounter = sim.maxMemoryBlocks - 1 ∧ k % (sim.maxMemoryBlocks - 1) = 0)) :
    (sim.allocateMemory 1).1 =
        ((k % (sim.maxMemoryBlocks - 1)) * toUInt sim.config.memoryBlockSize) % 4294967296 ∧
      (sim.allocateMemory 1).2.maxMemoryBlocks = sim.maxMemoryBlocks ∧
      (sim.allocateMemory 1).2.config = sim.config ∧
      ((sim.allocateMemory 1).2.memoryBlockCounter = (k + 1) % (sim.maxMemoryBlocks - 1) ∨
        ((sim.allocateMemory 1).2.memoryBlockCounter = sim.maxMemoryBlocks - 1 ∧
          (k + 1) % (sim.maxMemoryBlocks - 1) = 0)) := by
  have h := allocateMemory_eq sim hB
  rw [h]
  have hlt : k % (sim.maxMemoryBlocks - 1) < sim.maxMemoryBlocks - 1 := Nat.mod_lt _ (by omega)
  refine ⟨?_, rfl, rfl, ?_⟩
  · dsimp only
    rcases hc with hc | ⟨hc, hk⟩
    · rw [Nat.mod_eq_of_lt (by omega : sim.memoryBlockCounter + 1 < 4294967296)]
      rw [if_neg (by omega), hc]
    · rw [Nat.mod_eq_of_lt (by omega : sim.memoryBlockCounter + 1 < 4294967296)]
      rw [if_pos (by omega), hk]
  · dsimp only
    have hnext : ((if (sim.memoryBlockCounter + 1) % 4294967296 ≥ sim.maxMemoryBlocks then 0
        else sim.memoryBlockCounter) + 1) % 4294967296 = k % (sim.maxMemoryBlocks - 1) + 1 := by
      rcases hc with hc | ⟨hc, hk⟩
      · rw [Nat.mod_eq_of_lt (by omega : sim.memoryBlockCounter + 1 < 4294967296)]
        rw [if_neg (by omega), hc]
        exact Nat.mod_eq_of_lt (by omega)
      · rw [Nat.mod_eq_of_lt (by omega : sim.memoryBlockCounter + 1 < 4294967296)]
        rw [if_pos (by omega), hk]
    rw [hnext]
    have hmod : (k + 1) % (sim.maxMemoryBlocks - 1) =
        (k % (sim.maxMemoryBlocks - 1) + 1) % (sim.maxMemoryBlocks - 1) :=
      (Nat.mod_add_mod k (sim.maxMemoryBlocks - 1) 1).symm
    by_cases hend : k % (sim.maxMemoryBlocks - 1) + 1 = sim.maxMemoryBlocks - 1
    · right
      refine ⟨hend, ?_⟩
      rw [hmod, hend]; exact Nat.mod_self _
    · left
      rw [hmod]
      exact (Nat.mod_eq_of_lt (by omega)).symm

/-- The addresses of `N` consecutive `allocateMemory(1)` calls from the `k`-th
position of the cycle. -/
theorem allocateMany_from (N : Nat) : ∀ (sim : Simulation) (k : Nat),
    2 ≤ sim.maxMemoryBlocks → sim.maxMemoryBlocks < 4294967296 →
    1 ≤ toUInt sim.config.memoryBlockSize →
    (sim.memoryBlockCounter = k % (sim.maxMemoryBlocks - 1) ∨
      (sim.memoryBlockCounter = sim.maxMemoryBlocks - 1 ∧ k % (sim.maxMemoryBlocks - 1) = 0)) →
    (sim.allocateMany N).1 = (List.range' k N).map (fun i =>
      ((i % (sim.maxMemoryBlocks - 1)) * toUInt sim.config.memoryBlockSize) % 4294967296) := by
  induction N with
  | zero => intro sim k _ _ _ _; rfl
  | succ N ih =>
    intro sim k hM hM' hB hc
    obtain ⟨ha, hmax, hcfg, hnext⟩ := allocateMemory_one_cycle sim k hM hM' hB hc
    have := ih (sim.allocateMemory 1).2 (k + 1) (by rw [hmax]; exact hM) (by rw [hmax]; exact hM')
      (by rw [hcfg]; exact hB) (by rw [hmax]; exact hnext)
    simp only [Simulation.allocateMany, List.range'_succ, List.map_cons, ha, this, hmax, hcfg]

/-- With a single memory block every `allocateMemory(1)` call returns address 0. -/
theorem allocateMany_single_block (N : Nat) : ∀ (sim : Simulation),
    sim.maxMemoryBlocks ≤ 1 → sim.memoryBlockCounter < 4294967295 →
    1 ≤ toUInt sim.config.memoryBlockSize →
    (sim.allocateMany N).1 = List.replicate N 0 := by
  induction N with
  | zero => intro sim _ _ _; rfl
  | succ N ih =>
    intro sim hM hc hB
    have h := allocateMemory_eq sim hB
    rw [Nat.mod_eq_of_lt (by omega : sim.memoryBlockCounter + 1 < 4294967296),
      if_pos (by omega)] at h
    have := ih (sim.allocateMemory 1).2 (by rw [h]; exact hM) (by rw [h]; norm_num)
      (by rw [h]; exact hB)
    simp only [Simulation.allocateMany, List.replicate_succ, this]
    rw [h]; simp

/-- C1 (amended): starting from `memoryBlockCounter = 0` with `maxMemoryBlocks = M`,
`1 ≤ M < 2^32`, and block size `B ≥ 1`, the `k`-th of `N` consecutive
`allocateMemory(1)` calls returns `((k mod (M-1)) * B) mod 2^32` when `M ≥ 2` and `0`
when `M = 1`: the cycle of addresses is `0, B, ..., (M-2)*B`, of length `M - 1`. -/
theorem allocator_wrap_period (sim : Simulation) (N : Nat)
    (hc : sim.memoryBlockCounter = 0) (hM : 1 ≤ sim.maxMemoryBlocks)
    (hM' : sim.maxMemoryBlocks < 4294967296)
    (hB : 1 ≤ toUInt sim.config.memoryBlockSize) :
    (sim.allocateMany N).1 = (List.range N).map (fun k =>
      if sim.maxMemoryBlocks = 1 then 0
      else ((k % (sim.maxMemoryBlocks - 1)) * toUInt sim.config.memoryBlockSize) % 4294967296) := by
  by_cases h1 : sim.maxMemoryBlocks = 1
  · rw [allocateMany_single_block N sim (by omega) (by omega) hB]
    simp [h1, List.eq_replicate_iff]
  · rw [allocateMany_from N sim 0 (by omega) hM' hB (Or.inl (by simp [hc]))]
    simp [h1, List.range_eq_range']

/-- Witness for `allocator_wrap_period`: scenario S1 (8 blocks of 1 kbyte), 10
allocations. -/
theorem allocator_wrap_period_witness :
    (exampleSim .RR [] 1 8).memoryBlockCounter = 0 ∧
    1 ≤ (exampleSim .RR [] 1 8).maxMemoryBlocks ∧
    (exampleSim .RR [] 1 8).maxMemoryBlocks < 4294967296 ∧
    1 ≤ toUInt (exampleSim .RR [] 1 8).config.memoryBlockSize ∧
    ((exampleSim .RR [] 1 8).allocateMany 10).1 = (List.range 10).map (fun k =>
      if (exampleSim .RR [] 1 8).maxMemoryBlocks = 1 then 0
      else ((k % ((exampleSim .RR [] 1 8).maxMemoryBlocks - 1)) *
        toUInt (exampleSim .RR [] 1 8).config.memoryBlockSize) % 4294967296) :=
  ⟨rfl, by decide, by decide, by decide,
    allocator_wrap_period (exampleSim .RR [] 1 8) 10 rfl (by decide) (by decide) (by decide)⟩

/-- C1 (as stated) fails: with 8 blocks of 1 kbyte (scenario S1) the first eight
`allocateMemory(1)` calls return `0, 1, ..., 6, 0`, not `(k mod 8) * 1`; address
`(M-1)*B = 7` is never issued. -/
theorem allocator_wrap_counterexample :
    ((exampleSim .RR [] 1 8).allocateMany 8).1 = [0, 1, 2, 3, 4, 5, 6, 0] ∧
    ((exampleSim .RR [] 1 8).allocateMany 8).1 ≠
      (List.range 8).map (fun k => (k % 8) * 1) := by
  decide

/-- C2 (amended): for every counter value `c`, request `0 ≤ n < 2^31` kbytes and block
size `B ≥ 1` such that `c + req` does not overflow 32 bits, where `req` is the block
count computed by `allocateMemory(n)`: `req` is the ceiling of `n / B`; the call
returns `(c' * B) mod 2^32` with `c' = 0` if `c + req ≥ maxMemoryBlocks` and `c' = c`
otherwise; it leaves the counter equal to `c' + req` and changes nothing else. -/
theorem allocator_step (sim : Simulation) (n : Nat) (hn : n < 2147483648)
    (hB : 1 ≤ toUInt sim.config.memoryBlockSize)
    (hov : sim.memoryBlockCounter + sim.requiredBlocks (n : Int) < 4294967296) :
    (n ≤ sim.requiredBlocks (n : Int) * toUInt sim.config.memoryBlockSize ∧
      sim.requiredBlocks (n : Int) * toUInt sim.config.memoryBlockSize <
        n + toUInt sim.config.memoryBlockSize) ∧
    (sim.allocateMemory (n : Int)).1 =
      ((if sim.memoryBlockCounter + sim.requiredBlocks (n : Int) ≥ sim.maxMemoryBlocks then 0
        else sim.memoryBlockCounter) * toUInt sim.config.memoryBlockSize) % 4294967296 ∧
    (sim.allocateMemory (n : Int)).2 =
      { sim with memoryBlockCounter :=
          (if sim.memoryBlockCounter + sim.requiredBlocks (n : Int) ≥ sim.maxMemoryBlocks then 0
            else sim.memoryBlockCounter) + sim.requiredBlocks (n : Int) } := by
  have hreq := requiredBlocks_eq sim n hn hB
  refine ⟨?_, ?_, ?_⟩
  · rw [hreq]
    have hdm := Nat.div_add_mod (n + toUInt sim.config.memoryBlockSize - 1)
      (toUInt sim.config.memoryBlockSize)
    have hmod : (n + toUInt sim.config.memoryBlockSize - 1) % toUInt sim.config.memoryBlockSize <
        toUInt sim.config.memoryBlockSize := Nat.mod_lt _ (by omega)
    rw [Nat.mul_comm]
    constructor <;> omega
  · unfold Simulation.allocateMemory
    simp only [Nat.mod_eq_of_lt hov]
  · unfold Simulation.allocateMemory
    simp only [Nat.mod_eq_of_lt hov]
    congr 1
    apply Nat.mod_eq_of_lt
    split <;> omega

/-- Witness for `allocator_step`: a request of 5 kbytes with blocks of 2 kbytes at
counter 6 of 8 blocks needs 3 blocks, wraps and returns address 0. -/
theorem allocator_step_witness :
    (5 : Nat) < 2147483648 ∧
    1 ≤ toUInt (allocatorAt 2 8 6).config.memoryBlockSize ∧
    (allocatorAt 2 8 6).memoryBlockCounter + (allocatorAt 2 8 6).requiredBlocks ((5 : Nat) : Int) <
      4294967296 ∧
    ((allocatorAt 2 8 6).allocateMemory ((5 : Nat) : Int)).1 =
      ((if (allocatorAt 2 8 6).memoryBlockCounter +
            (allocatorAt 2 8 6).requiredBlocks ((5 : Nat) : Int) ≥
            (allocatorAt 2 8 6).maxMemoryBlocks then 0
        else (allocatorAt 2 8 6).memoryBlockCounter) *
          toUInt (allocatorAt 2 8 6).config.memoryBlockSize) % 4294967296 :=
  ⟨by decide, by decide, by decide,
    (allocator_step (allocatorAt 2 8 6) 5 (by decide) (by decide) (by decide)).2.1⟩

/-- C2 (as stated) fails when `c + req` overflows 32 bits: with `maxMemoryBlocks =
2^32 - 1`, counter `c = 2^32 - 2`, block size 1 and a request of `2^31 - 1` kbytes,
`c + req ≥ maxMemoryBlocks` holds, yet the call does not reset the counter: it returns
address `2^32 - 2` (the claim gives `0`) and leaves the counter at `2^31 - 3` (the
claim gives `2^31 - 1`). -/
theorem allocator_step_counterexample :
    (allocatorAt 1 4294967295 4294967294).memoryBlockCounter +
        (allocatorAt 1 4294967295 4294967294).requiredBlocks 2147483647 ≥
      (allocatorAt 1 4294967295 4294967294).maxMemoryBlocks ∧
    ((allocatorAt 1 4294967295 4294967294).allocateMemory 2147483647).1 = 4294967294 ∧
    ((allocatorAt 1 4294967295 4294967294).allocateMemory 2147483647).2.memoryBlockCounter =
      2147483645 ∧
    ¬ (((allocatorAt 1 4294967295 4294967294).allocateMemory 2147483647).1 =
        ((if (allocatorAt 1 4294967295 4294967294).memoryBlockCounter +
              (allocatorAt 1 4294967295 4294967294).requiredBlocks 2147483647 ≥
              (allocatorAt 1 4294967295 4294967294).maxMemoryBlocks then 0
          else (allocatorAt 1 4294967295 4294967294).memoryBlockCounter) *
            toUInt (allocatorAt 1 4294967295 4294967294).config.memoryBlockSize) % 4294967296) := by
  decide

/-! ## Process table -/

theorem ProcessTable.get?_resize (t : ProcessTable) (n i : Nat) (h : t.size ≤ n) :
    (t.resize n).get? i = t.get? i := by
  unfold ProcessTable.get? ProcessTable.resize
  by_cases hi : i < t.size
  · simp [hi, Nat.lt_of_lt_of_le hi h]
  · simp [hi]

theorem ProcessTable.get?_set_self (t : ProcessTable) (i : Nat) (p : Option PCB)
    (h : i < t.size) : (t.set i p).get? i = p := by
  simp [ProcessTable.get?, ProcessTable.set, h]

theorem ProcessTable.get?_set_ne (t : ProcessTable) (i j : Nat) (p : Option PCB)
    (h : j ≠ i) : (t.set i p).get? j = t.get? j := by
  simp [ProcessTable.get?, ProcessTable.set, Function.update_noteq h]

theorem process?_setProcess_self (sim : Simulation) (pid : Nat) (pcb : PCB)
    (h : pid < sim.processes.size) : (sim.setProcess pid pcb).process? pid = some pcb := by
  simp [Simulation.process?, Simulation.setProcess, ProcessTable.get?, ProcessTable.set, h]

theorem process?_setProcess_ne (sim : Simulation) (pid q : Nat) (pcb : PCB) (h : pid ≠ q) :
    (sim.setProcess pid pcb).process? q = sim.process? q := by
  simp [Simulation.process?, Simulation.setProcess, ProcessTable.get?, ProcessTable.set,
    Function.update_noteq (Ne.symm h)]

theorem process?_lt_size (sim : Simulation) (pid : Nat) (pcb : PCB)
    (h : sim.process? pid = some pcb) : pid < sim.processes.size := by
  unfold Simulation.process? ProcessTable.get? at h
  by_contra hge
  rw [if_neg hge] at h
  simp at h

/-! ## C3: the job loader -/

theorem wavesOf_length (apps : List Application) (n : Nat) :
    (wavesOf apps n).length = n * apps.length := by
  induction n with
  | zero => simp [wavesOf]
  | succ n ih => simp [wavesOf, ih, Nat.succ_mul]

theorem wavesOf_getElem? (apps : List Application) (n w j : Nat) (hw : w < n)
    (hj : j < apps.length) : (wavesOf apps n)[w * apps.length + j]? = apps[j]? := by
  induction n with
  | zero => omega
  | succ n ih =>
    simp only [wavesOf]
    by_cases hwn : w < n
    · have hlt : w * apps.length + j < (wavesOf apps n).length := by
        rw [wavesOf_length]
        have : (w + 1) * apps.length ≤ n * apps.length := Nat.mul_le_mul_right _ hwn
        rw [Nat.succ_mul] at this
        omega
      rw [List.getElem?_append_left hlt]
      exact ih hwn
    · have hwn' : w = n := by omega
      subst hwn'
      rw [List.getElem?_append_right (by rw [wavesOf_length]; omega), wavesOf_length]
      congr 1
      omega

theorem GetRemainingTime_eq (sim : Simulation) (pid : Nat) (pcb : PCB)
    (h : sim.process? pid = some pcb) :
    sim.GetRemainingTime pid = some (countEvents pcb.eventQueue) := by
  simp [Simulation.GetRemainingTime, h]

theorem loaderPriority_eq (sim : Simulation) (pid : Nat) (pcb : PCB)
    (h : sim.process? pid = some pcb) :
    sim.loaderPriority pid =
      some (if sim.scheduling = SchedulingCode.SRTF then toInt (countEvents pcb.eventQueue)
        else 0) := by
  unfold Simulation.loaderPriority
  rw [GetRemainingTime_eq sim pid pcb h]
  split <;> rfl

theorem dispatchPriority_eq (sim : Simulation) (pid : Nat) (pcb : PCB)
    (h : sim.process? pid = some pcb) :
    sim.dispatchPriority pid =
      some (if sim.scheduling = SchedulingCode.SRTF then
        toInt ((18446744073709551616 - countEvents pcb.eventQueue) % 18446744073709551616)
        else 0) := by
  unfold Simulation.dispatchPriority
  rw [GetRemainingTime_eq sim pid pcb h]
  split <;> rfl

/-- The effect of the loader body for one application when the process counter does
not exceed the (non-empty) process table: the table is doubled at most once, the new
process is stored at its pid and a job is pushed. -/
theorem loadApplication_eq (sim : Simulation) (app : Application)
    (hne : 0 < sim.processes.size) (hbound : sim.processCounter ≤ sim.processes.size) :
    sim.loadApplication app = some
      { sim with
        processCounter := (sim.processCounter + 1) % 4294967296
        log := sim.log ++ [LogLine.preparing sim.processCounter]
        processes :=
          (if sim.processCounter ≥ sim.processes.size then
            sim.processes.resize (sim.processes.size * 2)
           else sim.processes).set sim.processCounter (some (newPCB sim.processCounter app))
        jobs := sim.jobs ++
          [{ pid := sim.processCounter,
             priority := if sim.scheduling = SchedulingCode.SRTF then toInt (countEvents app)
               else 0 }] } := by
  unfold Simulation.loadApplication
  simp only [Simulation.Log]
  by_cases hge : sim.processCounter ≥ sim.processes.size
  · simp only [hge, if_true, ProcessTable.resize]
    rw [if_pos (by omega)]
    rw [loaderPriority_eq _ _ _ (process?_setProcess_self _ _ _ (by simp; omega))]
    simp [Simulation.setProcess, newPCB]
  · simp only [hge, if_false]
    rw [if_pos (by omega)]
    rw [loaderPriority_eq _ _ _ (process?_setProcess_self _ _ _ (by simp; omega))]
    simp [Simulation.setProcess, newPCB]

theorem loaderJobs_append (scheduling : SchedulingCode) (created : List Application)
    (app : Application) : ∀ pid,
    loaderJobs scheduling pid (created ++ [app]) =
      loaderJobs scheduling pid created ++
        [{ pid := pid + created.length, priority := loaderPriorityOf scheduling app }] := by
  induction created with
  | nil => intro pid; simp [loaderJobs]
  | cons a rest ih =>
    intro pid
    show loaderJobs scheduling pid (a :: (rest ++ [app])) = _
    simp only [loaderJobs, ih (pid + 1), List.length_cons, List.cons_append]
    rw [show pid + 1 + rest.length = pid + (rest.length + 1) by omega]

theorem loaderJobs_pids (scheduling : SchedulingCode) (created : List Application) :
    ∀ pid, (loaderJobs scheduling pid created).map Job.pid = List.range' pid created.length := by
  induction created with
  | nil => intro pid; rfl
  | cons a rest ih =>
    intro pid
    simp only [loaderJobs, List.map_cons, ih (pid + 1), List.length_cons, List.range'_succ]

theorem loaderJobs_mem (scheduling : SchedulingCode) (created : List Application) :
    ∀ pid (job : Job), job ∈ loaderJobs scheduling pid created →
      pid ≤ job.pid ∧ job.pid < pid + created.length := by
  induction created with
  | nil => intro pid job h; simp [loaderJobs] at h
  | cons a rest ih =>
    intro pid job h
    simp only [loaderJobs, List.mem_cons] at h
    rcases h with rfl | h
    · simp
    · have := ih (pid + 1) job h
      simp only [List.length_cons]
      omega

/-- One pass of the loader body keeps the loader invariant. -/
theorem loadApplication_loaded (base : Simulation) (created : List Application)
    (sim : Simulation) (app : Application) (h : Loaded base created sim)
    (hlt : base.processCounter + created.length + 1 < 4294967296) :
    ∃ sim', sim.loadApplication app = some sim' ∧ Loaded base (created ++ [app]) sim' ∧
      sim'.simInterrupt = sim.simInterrupt ∧ sim'.loaderFinished = sim.loaderFinished := by
  obtain ⟨hcnt, hbound, hne, hold, hnew, hlog, hjobs, happs, hsched⟩ := h
  have heq := loadApplication_eq sim app hne hbound
  refine ⟨_, heq, ?_, rfl, rfl⟩
  have hgrow : ∀ i, (if sim.processCounter ≥ sim.processes.size then
      sim.processes.resize (sim.processes.size * 2) else sim.processes).get? i =
      sim.process? i := by
    intro i
    unfold Simulation.process?
    split
    · exact ProcessTable.get?_resize _ _ _ (by omega)
    · rfl
  have hlen : sim.processCounter <
      (if sim.processCounter ≥ sim.processes.size then
        sim.processes.resize (sim.processes.size * 2) else sim.processes).size := by
    split
    · simp only [ProcessTable.resize]; omega
    · omega
  constructor
  · simp only [List.length_append, List.length_singleton, hcnt]
    rw [Nat.mod_eq_of_lt (by omega)]
    omega
  · simp only [ProcessTable.set]
    rw [Nat.mod_eq_of_lt (by omega)]
    omega
  · simp only [ProcessTable.set]
    omega
  · intro q hq
    simp only [List.length_append, List.length_singleton] at hq
    simp only [Simulation.process?]
    rw [ProcessTable.get?_set_ne _ _ _ _ (by omega), hgrow q]
    exact hold q (by omega)
  · intro i app' hi
    by_cases hil : i < created.length
    · rw [List.getElem?_append_left hil] at hi
      simp only [Simulation.process?]
      rw [ProcessTable.get?_set_ne _ _ _ _ (by omega), hgrow]
      exact hnew i app' hi
    · by_cases hie : i = created.length
      · subst hie
        rw [List.getElem?_append_right (Nat.le_refl _)] at hi
        simp only [Nat.sub_self, List.getElem?_cons_zero, Option.some.injEq] at hi
        subst hi
        simp only [Simulation.process?, ← hcnt]
        rw [ProcessTable.get?_set_self _ _ _ hlen]
      · rw [List.getElem?_eq_none (by simp; omega)] at hi
        simp at hi
  · simp only [List.length_append, List.length_singleton, List.range_succ, List.map_append,
      List.map_cons, List.map_nil, hlog, hcnt, List.append_assoc]
  · simp only [hjobs, loaderJobs_append, List.append_assoc, hcnt, hsched, loaderPriorityOf]
  · exact happs
  · exact hsched

/-- The inner loop of a wave keeps the loader invariant. -/
theorem loadApplications_loaded (base : Simulation) (rest : List Application) :
    ∀ (created : List Application) (sim : Simulation), Loaded base created sim →
    base.processCounter + created.length + rest.length < 4294967296 →
    ∃ sim', sim.loadApplications rest = some sim' ∧ Loaded base (created ++ rest) sim' ∧
      sim'.simInterrupt = sim.simInterrupt ∧ sim'.loaderFinished = sim.loaderFinished := by
  induction rest with
  | nil =>
    intro created sim h _
    exact ⟨sim, rfl, by simpa using h, rfl, rfl⟩
  | cons app rest ih =>
    intro created sim h hlt
    simp only [List.length_cons] at hlt
    obtain ⟨sim1, h1, hl1, hi1, hf1⟩ := loadApplication_loaded base created sim app h (by omega)
    obtain ⟨sim2, h2, hl2, hi2, hf2⟩ := ih (created ++ [app]) sim1 hl1 (by simp; omega)
    refine ⟨sim2, ?_, ?_, by rw [hi2, hi1], by rw [hf2, hf1]⟩
    · simp only [Simulation.loadApplications, h1, h2]
    · simpa using hl2

/-- A loader wave keeps the loader invariant. -/
theorem loaderWave_loaded (base : Simulation) (created : List Application) (sim : Simulation)
    (h : Loaded base created sim)
    (hlt : base.processCounter + created.length + base.applications.length < 4294967296) :
    ∃ sim', sim.loaderWave = some sim' ∧ Loaded base (created ++ base.applications) sim' ∧
      sim'.loaderFinished = sim.loaderFinished := by
  have h0 : Loaded base created
      { sim with simInterrupt := sim.simInterrupt ||| SIM_INTERRUPT_LOADER } :=
    ⟨h.counter, h.bound, h.nonempty, h.old, h.new, h.log, h.jobs, h.apps, h.sched⟩
  obtain ⟨sim1, h1, hl1, _, hf1⟩ := loadApplications_loaded base base.applications created _ h0 hlt
  refine ⟨{ sim1 with simInterrupt := sim1.simInterrupt &&& (65535 - SIM_INTERRUPT_LOADER) }, ?_,
    ⟨hl1.counter, hl1.bound, hl1.nonempty, hl1.old, hl1.new, hl1.log, hl1.jobs, hl1.apps,
      hl1.sched⟩, hf1⟩
  unfold Simulation.loaderWave
  rw [← h.apps] at h1
  simp only [h1]

/-- `n` loader waves keep the loader invariant. -/
theorem loaderWaves_loaded (base : Simulation) (n : Nat) :
    ∀ (m : Nat) (sim : Simulation), Loaded base (wavesOf base.applications m) sim →
    base.processCounter + (m + n) * base.applications.length < 4294967296 →
    ∃ sim', sim.loaderWaves n = some sim' ∧
      Loaded base (wavesOf base.applications (m + n)) sim' ∧
      sim'.loaderFinished = sim.loaderFinished := by
  induction n with
  | zero => intro m sim h _; exact ⟨sim, rfl, h, rfl⟩
  | succ n ih =>
    intro m sim h hlt
    have hm : base.processCounter + (wavesOf base.applications m).length +
        base.applications.length < 4294967296 := by
      rw [wavesOf_length]
      have : (m + 1) * base.applications.length ≤ (m + (n + 1)) * base.applications.length :=
        Nat.mul_le_mul_right _ (by omega)
      rw [Nat.succ_mul] at this
      omega
    obtain ⟨sim1, h1, hl1, hf1⟩ := loaderWave_loaded base _ sim h hm
    obtain ⟨sim2, h2, hl2, hf2⟩ := ih (m + 1) sim1 hl1 (by rw [show m + 1 + n = m + (n + 1) by omega]; exact hlt)
    refine ⟨sim2, ?_, ?_, by rw [hf2, hf1]⟩
    · simp only [Simulation.loaderWaves, h1, h2]
    · rw [show m + (n + 1) = m + 1 + n by omega]; exact hl2

/-- Before the loader has run, nothing is loaded. -/
theorem Loaded.base (sim : Simulation) (hne : 0 < sim.processes.size)
    (hbound : sim.processCounter ≤ sim.processes.size) : Loaded sim [] sim :=
  ⟨by simp, hbound, hne, fun _ _ => rfl, fun i app h => by simp at h, by simp,
    by simp [loaderJobs], rfl, rfl⟩

/-- C3: for every list of `A` applications (with `10 * A < 2^32`, so that the pids
`0 .. 10*A - 1` are `unsigned int` values), `JobLoader` started with `processCounter =
0` and the empty table of 4096 slots returns, has created exactly `10 * A` processes,
and the process created in wave `w < 10` for application `j < A` has pid `w * A + j`,
is stored at `processes[pid]` with `PCB.pid = pid`, state `START`, `eventInProgress =
false` and an event queue equal to application `j`; no other slot holds a process, and
the pids announced in the log and pushed on the job queue are `0, 1, ..., 10 * A - 1`
in this order. -/
theorem loader_cardinality (sim : Simulation) (hpc : sim.processCounter = 0)
    (hproc : sim.processes = ProcessTable.empty 4096)
    (hA : 10 * sim.applications.length < 4294967296) :
    ∃ sim', sim.JobLoader = some sim' ∧
      sim'.processCounter = 10 * sim.applications.length ∧
      sim'.loaderFinished = true ∧
      (∀ w j, w < 10 → ∀ hj : j < sim.applications.length,
        sim'.process? (w * sim.applications.length + j) = some
          { state := ProcessState.START, pid := w * sim.applications.length + j,
            eventQueue := sim.applications[j], eventInProgress := false,
            eventTimeRemaining := 0 }) ∧
      (∀ i, 10 * sim.applications.length ≤ i → sim'.process? i = none) ∧
      sim'.log = sim.log ++ (List.range (10 * sim.applications.length)).map LogLine.preparing ∧
      sim'.jobs.map Job.pid =
        sim.jobs.map Job.pid ++ List.range (10 * sim.applications.length) := by
  have hbase : Loaded sim (wavesOf sim.applications 0) sim :=
    Loaded.base sim (by rw [hproc]; simp [ProcessTable.empty]) (by omega)
  obtain ⟨sim1, h1, hl, hf⟩ := loaderWaves_loaded sim 10 0 sim hbase (by omega)
  have hlen : (wavesOf sim.applications (0 + 10)).length = 10 * sim.applications.length := by
    rw [wavesOf_length]
  refine ⟨{ sim1 with loaderFinished := true }, ?_, ?_, rfl, ?_, ?_, ?_, ?_⟩
  · simp only [Simulation.JobLoader, h1]
  · simp only [hl.counter, hlen, hpc, Nat.zero_add]
  · intro w j hw hj
    have hp := hl.new (w * sim.applications.length + j) sim.applications[j]
      (by rw [wavesOf_getElem? sim.applications (0 + 10) w j (by omega) hj,
        List.getElem?_eq_getElem hj])
    rw [hpc, Nat.zero_add] at hp
    exact hp
  · intro i hi
    have hp := hl.old i (Or.inr (by rw [hlen, hpc]; omega))
    rw [show Simulation.process? { sim1 with loaderFinished := true } = sim1.process? from rfl, hp]
    simp only [Simulation.process?, hproc, ProcessTable.get?, ProcessTable.empty]
    split <;> rfl
  · simp only [hl.log, hlen, hpc, Nat.zero_add]
  · simp only [hl.jobs, hlen, hpc, List.map_append, loaderJobs_pids, List.range_eq_range']

/-- Witness for `loader_cardinality`: two applications under SRTF. -/
theorem loader_cardinality_witness :
    (exampleSim .SRTF [app3, app1] 1 8).processCounter = 0 ∧
    (exampleSim .SRTF [app3, app1] 1 8).processes = ProcessTable.empty 4096 ∧
    10 * (exampleSim .SRTF [app3, app1] 1 8).applications.length < 4294967296 ∧
    ∃ sim', (exampleSim .SRTF [app3, app1] 1 8).JobLoader = some sim' ∧
      sim'.processCounter = 10 * (exampleSim .SRTF [app3, app1] 1 8).applications.length :=
  ⟨rfl, rfl, by decide,
    (loader_cardinality (exampleSim .SRTF [app3, app1] 1 8) rfl rfl (by decide)).imp
      (fun _ h => ⟨h.1, h.2.1⟩)⟩

/-! ## C4: first dispatch of a new process -/

/-- C4 (amended): in one iteration of the dispatch inner loop, a popped process whose
state is `START` is set to `READY` and is not run in that iteration: `RunProcess` is
not called (nothing is logged, the event queue, the resume data, the clock, the
allocator and the devices are unchanged), the interrupt word is cleared and the process
is pushed back with the re-enqueue priority.  It runs in a later iteration, when it
is popped in state `READY`. -/
theorem dispatch_start_not_run (fuel : Nat) (sim : Simulation) (top : Nat)
    (obs : DispatchObservation) (job : Job) (pcb : PCB)
    (hjob : sim.jobs[top]? = some job)
    (hmax : ∀ other ∈ sim.jobs, other.priority ≤ job.priority)
    (hpcb : sim.process? job.pid = some pcb) (hstart : pcb.state = ProcessState.START) :
    sim.dispatch fuel top obs = some
      { sim with
        currentProcess := job.pid
        processes := sim.processes.set job.pid (some { pcb with state := ProcessState.READY })
        simInterrupt := clearSchedulerRR obs.atClear
        jobs := sim.jobs.eraseIdx top ++
          [{ pid := job.pid,
             priority := if sim.scheduling = SchedulingCode.SRTF then
               toInt ((18446744073709551616 - countEvents pcb.eventQueue) % 18446744073709551616)
               else 0 }] } := by
  have hlt : job.pid < sim.processes.size := process?_lt_size sim job.pid pcb hpcb
  have hall : sim.jobs.all (fun other => decide (other.priority ≤ job.priority)) = true := by
    simpa [List.all_eq_true] using hmax
  unfold Simulation.dispatch
  simp only [hjob, hall, if_true]
  have h1 : Simulation.process? { sim with jobs := sim.jobs.eraseIdx top } job.pid = some pcb := hpcb
  simp only [h1, hstart, if_true]
  have h2 : Simulation.process?
      (Simulation.setProcess { sim with jobs := sim.jobs.eraseIdx top, currentProcess := job.pid }
        job.pid { pcb with state := ProcessState.READY }) job.pid =
      some { pcb with state := ProcessState.READY } :=
    process?_setProcess_self _ _ _ hlt
  simp only [show ¬ (ProcessState.START = ProcessState.READY) by decide, if_false, h2]
  rw [if_pos (by decide)]
  have h3 : Simulation.process?
      { Simulation.setProcess { sim with jobs := sim.jobs.eraseIdx top, currentProcess := job.pid }
          job.pid { pcb with state := ProcessState.READY } with
        simInterrupt := clearSchedulerRR obs.atClear } job.pid =
      some { pcb with state := ProcessState.READY } := h2
  rw [dispatchPriority_eq _ _ _ h3]
  simp [Simulation.setProcess]

/-- Witness for `dispatch_start_not_run`: the first dispatch iteration after the first
loader wave, one application `P(run)1`, round robin. -/
theorem dispatch_start_not_run_witness :
    (exampleLoaded .RR [app1]).jobs[0]? = some { pid := 0, priority := 0 } ∧
    (exampleLoaded .RR [app1]).process? 0 = some (newPCB 0 app1) ∧
    (exampleLoaded .RR [app1]).dispatch 10 0 quietDispatch = some
      { exampleLoaded .RR [app1] with
        currentProcess := 0
        processes := (exampleLoaded .RR [app1]).processes.set 0
          (some { newPCB 0 app1 with state := ProcessState.READY })
        simInterrupt := clearSchedulerRR quietDispatch.atClear
        jobs := (exampleLoaded .RR [app1]).jobs.eraseIdx 0 ++
          [{ pid := 0,
             priority := if (exampleLoaded .RR [app1]).scheduling = SchedulingCode.SRTF then
               toInt ((18446744073709551616 - countEvents (newPCB 0 app1).eventQueue) %
                 18446744073709551616)
               else 0 }] } :=
  ⟨by decide, by decide,
    dispatch_start_not_run 10 (exampleLoaded .RR [app1]) 0 quietDispatch
      { pid := 0, priority := 0 } (newPCB 0 app1) (by decide) (by decide) (by decide) rfl⟩

/-- C4 (as stated) fails: after the first loader wave (one application `P(run)1`, no
interrupt), the iteration that pops process 0 in state `START` only sets it to `READY`:
no `OS: starting process 0` line is logged and the event stays queued.  The next
iteration pops it in state `READY` and runs it to completion. -/
theorem first_dispatch_counterexample :
    ((exampleLoaded .RR [app1]).dispatch 10 0 quietDispatch).map
        (fun s => (s.log, s.process? 0, s.clock)) =
      some ([.simStarting, .preparing 0],
        some { newPCB 0 app1 with state := ProcessState.READY }, 0) ∧
    (((exampleLoaded .RR [app1]).dispatch 10 0 quietDispatch).bind
        (fun s => s.dispatch 10 0 quietDispatch)).map
        (fun s => (s.log, s.process? 0, s.clock)) =
      some ([.simStarting, .preparing 0, .starting 0, .startProcessing 0, .endProcessing 0,
          .completed 0],
        some { newPCB 0 [] with state := ProcessState.EXIT }, 10) := by
  decide

/-! ## Frame lemmas: what running a process can change -/

theorem Same.same_refl (s : Simulation) : Same s s := ⟨rfl, rfl, rfl, rfl, rfl, rfl⟩

theorem Same.same_trans {a b c : Simulation} (h1 : Same a b) (h2 : Same b c) : Same a c :=
  ⟨h2.processes.trans h1.processes, h2.jobs.trans h1.jobs,
    h2.processCounter.trans h1.processCounter, h2.scheduling.trans h1.scheduling,
    h2.applications.trans h1.applications, h2.config.trans h1.config⟩

theorem Same.process? {s s' : Simulation} (h : Same s s') (q : Nat) :
    s'.process? q = s.process? q := by
  unfold Simulation.process?; rw [h.processes]

theorem Flip.flip_refl (a : Option PCB) : Flip a a := Or.inl rfl

theorem Flip.flip_trans {a b c : Option PCB} (h1 : Flip a b) (h2 : Flip b c) : Flip a c := by
  rcases h1 with rfl | ⟨p, rfl, hw, rfl⟩
  · exact h2
  · rcases h2 with rfl | ⟨p', hp', hw', rfl⟩
    · exact Or.inr ⟨p, rfl, hw, rfl⟩
    · simp only [Option.some.injEq] at hp'
      subst hp'
      simp at hw'

theorem Shrinks.shrinks_refl (a : Option PCB) : Shrinks a a :=
  fun pcb h => ⟨pcb, h, rfl, 0, rfl⟩

theorem Shrinks.shrinks_trans {a b c : Option PCB} (h1 : Shrinks a b) (h2 : Shrinks b c) :
    Shrinks a c := by
  intro pcb ha
  obtain ⟨p1, hb, hpid1, k1, hq1⟩ := h1 pcb ha
  obtain ⟨p2, hc, hpid2, k2, hq2⟩ := h2 p1 hb
  exact ⟨p2, hc, hpid2.trans hpid1, k1 + k2, by rw [hq2, hq1, List.drop_drop, Nat.add_comm]⟩

theorem Flip.shrinks {a b : Option PCB} (h : Flip a b) : Shrinks a b := by
  rcases h with rfl | ⟨p, rfl, _, rfl⟩
  · exact Shrinks.shrinks_refl _
  · intro pcb hp
    simp only [Option.some.injEq] at hp
    subst hp
    exact ⟨_, rfl, rfl, 0, rfl⟩

theorem Same.frame {s s' : Simulation} (h : Same s s') (pid : Nat) : Frame pid s s' :=
  ⟨h.jobs, h.processCounter, h.scheduling, h.applications, h.config, by rw [h.processes],
    fun q _ => by rw [h.process? q]; exact Flip.flip_refl _,
    by rw [h.process? pid]; exact Shrinks.shrinks_refl _⟩

theorem Frame.frame_refl (pid : Nat) (s : Simulation) : Frame pid s s := (Same.same_refl s).frame pid

theorem Frame.frame_trans {pid : Nat} {a b c : Simulation} (h1 : Frame pid a b) (h2 : Frame pid b c) :
    Frame pid a c :=
  ⟨h2.jobs.trans h1.jobs, h2.processCounter.trans h1.processCounter,
    h2.scheduling.trans h1.scheduling, h2.applications.trans h1.applications,
    h2.config.trans h1.config, h2.size.trans h1.size,
    fun q hq => (h1.others q hq).flip_trans (h2.others q hq), h1.self.shrinks_trans h2.self⟩

theorem Same.Log (s : Simulation) (line : LogLine) : Same s (s.Log line) :=
  ⟨rfl, rfl, rfl, rfl, rfl, rfl⟩

theorem Same.doProcWork (s : Simulation) (ms : Int) (poll : Nat → Nat) :
    Same s (s.doProcWork ms poll).2 :=
  ⟨rfl, rfl, rfl, rfl, rfl, rfl⟩

theorem Same.allocateMemory (s : Simulation) (totMem : Int) : Same s (s.allocateMemory totMem).2 :=
  ⟨rfl, rfl, rfl, rfl, rfl, rfl⟩

theorem Same.Resource_run (r : Resource) (s : Simulation) (cycles : Nat) (ioState : ResIOState)
    (pid : Nat) : Same s (r.run s cycles ioState pid).2 := by
  cases r
  · simp only [Resource.run, ResourceHDD.run]
    split <;> exact ⟨rfl, rfl, rfl, rfl, rfl, rfl⟩
  · simp only [Resource.run, ResourceMonitor.run]
    split <;> exact ⟨rfl, rfl, rfl, rfl, rfl, rfl⟩
  · simp only [Resource.run, ResourcePrinter.run]
    split <;> exact ⟨rfl, rfl, rfl, rfl, rfl, rfl⟩
  · simp only [Resource.run, ResourceKeyboard.run]
    split <;> exact ⟨rfl, rfl, rfl, rfl, rfl, rfl⟩
  · simp only [Resource.run, ResourceMouse.run]
    split <;> exact ⟨rfl, rfl, rfl, rfl, rfl, rfl⟩
  · simp only [Resource.run, ResourceSpeaker.run]
    split <;> exact ⟨rfl, rfl, rfl, rfl, rfl, rfl⟩

/-- Writing the PCB of `pid` with the same pid and a queue that lost `k` events at
the head. -/
theorem Frame.setProcess (s : Simulation) (pid : Nat) (pcb pcb' : PCB)
    (h : s.process? pid = some pcb) (hpid : pcb'.pid = pcb.pid) (k : Nat)
    (hq : pcb'.eventQueue = pcb.eventQueue.drop k) : Frame pid s (s.setProcess pid pcb') := by
  refine ⟨rfl, rfl, rfl, rfl, rfl, rfl, ?_, ?_⟩
  · intro q hne
    rw [process?_setProcess_ne s pid q pcb' (Ne.symm hne)]
    exact Flip.flip_refl _
  · intro p hp
    rw [h] at hp
    simp only [Option.some.injEq] at hp
    subst hp
    exact ⟨pcb', process?_setProcess_self s pid pcb' (process?_lt_size s pid pcb h), hpid, k, hq⟩

/-- The end of an I/O worker, seen from the run of process `pid`. -/
theorem Frame.ResourceIO_doWork (pid : Nat) (s : Simulation) (params : ResIOThreadParams) :
    Frame pid s ( ResourceIO.doWork s params) := by
  unfold ResourceIO.doWork
  apply Frame.frame_trans _ ((Same.Log _ _).frame pid)
  cases hp : s.process? params.pid with
  | none => exact Frame.frame_refl pid s
  | some process =>
    simp only
    by_cases hw : process.state = ProcessState.WAITING
    · rw [if_pos hw]
      refine ⟨rfl, rfl, rfl, rfl, rfl, rfl, ?_, ?_⟩
      · intro q _
        by_cases hq : q = params.pid
        · subst hq
          rw [process?_setProcess_self s _ _ (process?_lt_size s _ process hp), hp]
          exact Or.inr ⟨process, rfl, hw, rfl⟩
        · rw [process?_setProcess_ne s _ q _ (Ne.symm hq)]
          exact Flip.flip_refl _
      · by_cases hq : pid = params.pid
        · subst hq
          rw [process?_setProcess_self s _ _ (process?_lt_size s _ process hp), hp]
          exact Flip.shrinks (Or.inr ⟨process, rfl, hw, rfl⟩)
        · rw [process?_setProcess_ne s _ pid _ (Ne.symm hq)]
          exact Shrinks.shrinks_refl _
    · rw [if_neg hw]
      exact Frame.frame_refl pid s

theorem Frame.ioThreadEnd (pid : Nat) (s : Simulation) (i : Nat) :
    Frame pid s (s.ioThreadEnd i) := by
  unfold Simulation.ioThreadEnd
  split
  · refine Frame.frame_trans ?_ (Frame.ResourceIO_doWork pid _ _)
    apply Same.frame
    exact ⟨rfl, rfl, rfl, rfl, rfl, rfl⟩
  · exact Frame.frame_refl pid s

theorem Frame.ioThreadEnd? (pid : Nat) (s : Simulation) (i : Option Nat) :
    Frame pid s (s.ioThreadEnd? i) := by
  cases i with
  | none => exact Frame.frame_refl pid s
  | some i => exact Frame.ioThreadEnd pid s i

/-- A state with the same scheduler-level contents, then a write of the PCB of `pid`. -/
theorem Frame.same_setProcess {s s1 : Simulation} (hs : Same s s1) (pid : Nat) (pcb pcb' : PCB)
    (h : s.process? pid = some pcb) (hpid : pcb'.pid = pcb.pid) (k : Nat)
    (hq : pcb'.eventQueue = pcb.eventQueue.drop k) : Frame pid s (s1.setProcess pid pcb') :=
  Frame.frame_trans (hs.frame pid)
    (Frame.setProcess s1 pid pcb pcb' (by rw [hs.process? pid]; exact h) hpid k hq)

theorem tail_eq_drop (l : Application) : l.tail = l.drop 1 := by
  cases l <;> rfl

theorem Frame.handleProc {sim sim' : Simulation} {pid : Nat} {event : SimEvent}
    {obs : Observation} (h : sim.handleProc pid event obs = some sim') : Frame pid sim sim' := by
  unfold Simulation.handleProc at h
  cases hp : sim.process? pid with
  | none => rw [hp] at h; simp at h
  | some process =>
    rw [hp] at h
    simp only at h
    have hs1 : Same sim (if process.eventInProgress = true then sim
        else sim.Log (LogLine.startProcessing pid)) := by
      split
      · exact Same.same_refl _
      · exact Same.Log _ _
    split at h
    · simp only [Option.some.injEq] at h
      subst h
      exact Frame.same_setProcess
        ((hs1.same_trans (Same.doProcWork _ _ _)).same_trans (Same.Log _ _)) pid process _ hp rfl 0 rfl
    · simp only [Option.some.injEq] at h
      subst h
      exact Frame.same_setProcess
        ((hs1.same_trans (Same.doProcWork _ _ _)).same_trans (Same.Log _ _)) pid process _ hp rfl 1
        (tail_eq_drop _)

theorem Frame.handleMem {sim sim' : Simulation} {pid : Nat} {event : SimEvent}
    {obs : Observation} (h : sim.handleMem pid event obs = some sim') : Frame pid sim sim' := by
  unfold Simulation.handleMem at h
  cases hp : sim.process? pid with
  | none => rw [hp] at h; simp at h
  | some process =>
    rw [hp] at h
    simp only at h
    generalize hb : (if event.descriptor = "allocate" then _ else _ : Int × Simulation) = branch at h
    have hs : Same sim branch.2 := by
      rw [← hb]
      split
      · split
        · refine Same.same_trans ?_ (Same.Log _ _)
          refine Same.same_trans ?_ (Same.allocateMemory _ _)
          refine Same.same_trans ?_ (Same.doProcWork _ _ _)
          split
          · exact Same.same_refl _
          · exact Same.Log _ _
        · refine Same.same_trans ?_ (Same.doProcWork _ _ _)
          split
          · exact Same.same_refl _
          · exact Same.Log _ _
      · split
        · split
          · refine Same.same_trans ?_ (Same.Log _ _)
            refine Same.same_trans ?_ (Same.doProcWork _ _ _)
            split
            · exact Same.same_refl _
            · exact Same.Log _ _
          · refine Same.same_trans ?_ (Same.doProcWork _ _ _)
            split
            · exact Same.same_refl _
            · exact Same.Log _ _
        · exact Same.same_refl _
    split at h
    · simp only [Option.some.injEq] at h
      subst h
      exact Frame.same_setProcess (hs.same_trans (Same.Log _ _)) pid process _ hp rfl 0 rfl
    · simp only [Option.some.injEq] at h
      subst h
      exact Frame.same_setProcess hs pid process _ hp rfl 1 (tail_eq_drop _)

theorem Same.acquireLoop (resource : Option Resource) (event : SimEvent) (pid : Nat)
    (poll : Nat → Nat) (fuel : Nat) : ∀ (k : Nat) (sim : Simulation) (b : Bool)
    (sim' : Simulation),
    Simulation.acquireLoop resource event pid poll fuel k sim = some (b, sim') →
    Same sim sim' := by
  induction fuel with
  | zero => intro k sim b sim' h; simp [Simulation.acquireLoop] at h
  | succ fuel ih =>
    intro k sim b sim' h
    unfold Simulation.acquireLoop at h
    split at h
    · simp only [Option.some.injEq, Prod.mk.injEq] at h
      rw [← h.2]; exact Same.same_refl _
    · cases resource with
      | none => simp at h
      | some r =>
        simp only at h
        generalize (if event.code = 'I' then ResIOState.INPUT else ResIOState.OUTPUT) = io at h
        by_cases hres : (r.run sim (toUInt event.cycles) io pid).1 = true
        · rw [if_pos hres] at h
          simp only [Option.some.injEq, Prod.mk.injEq] at h
          rw [← h.2]; exact Same.Resource_run _ _ _ _ _
        · rw [if_neg hres] at h
          exact Same.same_trans (Same.Resource_run _ _ _ _ _) (ih _ _ _ _ h)

theorem Frame.handleIO {fuel : Nat} {sim sim' : Simulation} {pid : Nat} {event : SimEvent}
    {obs : Observation} (h : Simulation.handleIO fuel sim pid event obs = some sim') :
    Frame pid sim sim' := by
  unfold Simulation.handleIO at h
  cases hp : sim.process? pid with
  | none => rw [hp] at h; simp at h
  | some process =>
    rw [hp] at h
    simp only at h
    split at h
    · simp only [Option.some.injEq] at h
      subst h
      exact Frame.setProcess sim pid process _ hp rfl 1 (tail_eq_drop _)
    · split at h
      · simp at h
      · rename_i b sim1 hacq
        have hs := Same.acquireLoop _ _ _ _ _ _ _ _ _ hacq
        split at h
        · have hf := Frame.ioThreadEnd? pid sim1 obs.endBeforeWaiting
          split at h
          · simp at h
          · rename_i process2 hp2
            simp only [Option.some.injEq] at h
            subst h
            exact Frame.frame_trans (Frame.frame_trans (hs.frame pid) hf)
              (Frame.setProcess _ pid process2 _ hp2 rfl 0 rfl)
        · simp only [Option.some.injEq] at h
          subst h
          exact hs.frame pid

theorem Frame.RunProcessLoop (obs : Nat → Observation) (pid : Nat) (fuel : Nat) :
    ∀ (k : Nat) (sim sim' : Simulation),
    Simulation.RunProcessLoop obs pid fuel k sim = some sim' → Frame pid sim sim' := by
  induction fuel with
  | zero => intro k sim sim' h; simp [Simulation.RunProcessLoop] at h
  | succ fuel ih =>
    intro k sim sim' h
    unfold Simulation.RunProcessLoop at h
    cases hp : sim.process? pid with
    | none => rw [hp] at h; simp at h
    | some process =>
      rw [hp] at h
      simp only at h
      cases hq : process.eventQueue with
      | nil =>
        rw [hq] at h
        simp only [Option.some.injEq] at h
        subst h
        exact Frame.frame_refl pid sim
      | cons event rest =>
        rw [hq] at h
        simp only at h
        by_cases hcode : event.code = 'P' ∨ event.code = 'M' ∨ event.code = 'I' ∨ event.code = 'O'
        · rw [if_pos hcode] at h
          generalize hh : (if event.code = 'P' then sim.handleProc pid event (obs k)
            else if event.code = 'M' then sim.handleMem pid event (obs k)
            else Simulation.handleIO fuel sim pid event (obs k)) = handled at h
          cases handled with
          | none => simp at h
          | some sim1 =>
            simp only at h
            have hf1 : Frame pid sim sim1 := by
              split at hh
              · exact Frame.handleProc hh
              · split at hh
                · exact Frame.handleMem hh
                · exact Frame.handleIO hh
            have hf2 := Frame.ioThreadEnd? pid sim1 (obs k).endBeforeCheck
            cases hp2 : (sim1.ioThreadEnd? (obs k).endBeforeCheck).process? pid with
            | none => rw [hp2] at h; simp at h
            | some process2 =>
              rw [hp2] at h
              simp only at h
              split at h
              · simp only [Option.some.injEq] at h
                subst h
                exact hf1.frame_trans hf2
              · exact (hf1.frame_trans hf2).frame_trans (ih _ _ _ h)
        · rw [if_neg hcode] at h
          exact ih _ _ _ h

theorem Frame.RunProcess {fuel : Nat} {sim sim' : Simulation} {pid : Nat}
    {obs : Nat → Observation} (h : sim.RunProcess fuel pid obs = some sim') :
    Frame pid sim sim' := by
  unfold Simulation.RunProcess at h
  simp only at h
  cases hp : (sim.Log (LogLine.starting pid)).process? pid with
  | none => rw [hp] at h; simp at h
  | some process =>
    rw [hp] at h
    simp only at h
    have hf1 : Frame pid sim ((sim.Log (LogLine.starting pid)).setProcess pid
        { process with state := ProcessState.RUNNING }) :=
      Frame.frame_trans ((Same.Log _ _).frame pid) (Frame.setProcess _ pid process _ hp rfl 0 rfl)
    split at h
    · simp at h
    · rename_i sim1 hloop
      have hf2 := Frame.RunProcessLoop _ _ _ _ _ _ hloop
      split at h
      · simp at h
      · rename_i process1 hp1
        split at h
        · simp only [Option.some.injEq] at h
          subst h
          exact (hf1.frame_trans hf2).frame_trans
            (Frame.same_setProcess (Same.Log _ _) pid process1 _ hp1 rfl 0 rfl)
        · simp only [Option.some.injEq] at h
          subst h
          exact hf1.frame_trans hf2

/-- Every dispatch iteration that returns is summarised by `Dispatched`. -/
theorem dispatch_spec {fuel : Nat} {sim sim' : Simulation} {top : Nat}
    {obs : DispatchObservation} (h : sim.dispatch fuel top obs = some sim') :
    ∃ job pcb pcb', Dispatched sim sim' top obs job pcb pcb' := by
  unfold Simulation.dispatch at h
  cases hj : sim.jobs[top]? with
  | none => rw [hj] at h; simp at h
  | some job =>
    rw [hj] at h
    simp only at h
    by_cases hall : sim.jobs.all (fun other => decide (other.priority ≤ job.priority)) = true
    · rw [if_pos hall] at h
      have hmax : ∀ other ∈ sim.jobs, other.priority ≤ job.priority := by
        simpa [List.all_eq_true] using hall
      cases hp : sim.process? job.pid with
      | none =>
        have hp' : Simulation.process? { sim with jobs := sim.jobs.eraseIdx top } job.pid = none := hp
        rw [hp'] at h; simp at h
      | some pcb =>
        have hp' : Simulation.process? { sim with jobs := sim.jobs.eraseIdx top } job.pid =
            some pcb := hp
        rw [hp'] at h
        simp only at h
        generalize hs1 : (if pcb.state = ProcessState.START then
            Simulation.setProcess
              { sim with jobs := sim.jobs.eraseIdx top, currentProcess := job.pid }
              job.pid { pcb with state := ProcessState.READY }
            else { sim with jobs := sim.jobs.eraseIdx top, currentProcess := job.pid }) = sim1 at h
        have hf1 : Frame job.pid
            { sim with jobs := sim.jobs.eraseIdx top, currentProcess := job.pid } sim1 := by
          rw [← hs1]
          split
          · exact Frame.setProcess _ job.pid pcb _ hp rfl 0 rfl
          · exact Frame.frame_refl _ _
        generalize hran : (if pcb.state = ProcessState.READY then
            sim1.RunProcess fuel job.pid obs.run else some sim1) = ran at h
        cases ran with
        | none => simp at h
        | some sim2 =>
          simp only at h
          have hf2 : Frame job.pid sim1 sim2 := by
            split at hran
            · exact Frame.RunProcess hran
            · simp only [Option.some.injEq] at hran
              rw [← hran]; exact Frame.frame_refl _ _
          have hf := hf1.frame_trans hf2
          cases hp2 : sim2.process? job.pid with
          | none => rw [hp2] at h; simp at h
          | some pcb' =>
            rw [hp2] at h
            simp only at h
            have hnot : pcb.state ≠ ProcessState.READY →
                sim2.log = sim.log ∧
                pcb' = if pcb.state = ProcessState.START then
                  { pcb with state := ProcessState.READY } else pcb := by
              intro hne
              rw [if_neg hne] at hran
              simp only [Option.some.injEq] at hran
              subst hran
              by_cases hst : pcb.state = ProcessState.START
              · rw [if_pos hst] at hs1
                subst hs1
                have e := (process?_setProcess_self
                  { sim with jobs := sim.jobs.eraseIdx top, currentProcess := job.pid } job.pid
                  { pcb with state := ProcessState.READY }
                  (process?_lt_size sim job.pid pcb hp)).symm.trans hp2
                simp only [Option.some.injEq] at e
                rw [if_pos hst]
                exact ⟨rfl, e.symm⟩
              · rw [if_neg hst] at hs1
                subst hs1
                rw [if_neg hst]
                have : sim.process? job.pid = some pcb' := hp2
                rw [hp] at this
                simp only [Option.some.injEq] at this
                exact ⟨rfl, this.symm⟩
            by_cases hexit : pcb'.state = ProcessState.EXIT
            · rw [if_neg (by simpa using hexit)] at h
              simp only [Option.some.injEq] at h
              subst h
              refine ⟨job, pcb, pcb', hj, hmax, hp, hp2, hf.others, ?_, hf.processCounter,
                hf.scheduling, hf.applications, hf.config, hf.size, rfl, ?_, hnot⟩
              · have := hf.self
                exact this
              · rw [if_pos hexit, List.append_nil]
                exact hf.jobs
            · rw [if_pos (by simpa using hexit)] at h
              have hp3 : Simulation.process?
                  { sim2 with simInterrupt := clearSchedulerRR obs.atClear } job.pid =
                  some pcb' := hp2
              rw [dispatchPriority_eq _ _ _ hp3] at h
              simp only [Option.some.injEq] at h
              subst h
              refine ⟨job, pcb, pcb', hj, hmax, hp, hp2, hf.others, ?_, hf.processCounter,
                hf.scheduling, hf.applications, hf.config, hf.size, rfl, ?_, hnot⟩
              · have := hf.self
                exact this
              · rw [if_neg hexit]
                have hj2 := hf.jobs
                have hsc := hf.scheduling
                simp only at hj2 hsc ⊢
                rw [hj2]
                simp only [requeuePriority]
                rw [← hsc]
    · rw [if_neg hall] at h
      simp at h

/-! ## C6: priorities -/

theorem countEvents_foldl (q : Application) : ∀ a : Nat, a < 18446744073709551616 →
    q.foldl (fun remaining_time _ => (remaining_time + 1) % 18446744073709551616) a =
      (a + q.length) % 18446744073709551616 := by
  induction q with
  | nil => intro a ha; simp [Nat.mod_eq_of_lt ha]
  | cons e q ih =>
    intro a _
    simp only [List.foldl_cons, List.length_cons]
    rw [ih _ (Nat.mod_lt _ (by norm_num))]
    omega

/-- The loop of `GetRemainingTime` counts the queued events. -/
theorem countEvents_eq (q : Application) (h : q.length < 18446744073709551616) :
    countEvents q = q.length := by
  unfold countEvents
  rw [countEvents_foldl q 0 (by norm_num), Nat.zero_add]
  exact Nat.mod_eq_of_lt h

theorem toInt_small (n : Nat) (h : n < 2147483648) : toInt n = (n : Int) := by
  unfold toInt
  rw [Nat.mod_eq_of_lt (by omega : n < 4294967296), if_pos h]

theorem toInt_neg (n : Nat) (h : n < 2147483648) :
    toInt ((18446744073709551616 - n) % 18446744073709551616) = -(n : Int) := by
  unfold toInt
  split <;> omega

/-- C6: `GetRemainingTime(pid)` is exactly the length `n` of the event queue of the
process; under RR the job pushed by the loader and the job re-added by dispatch have
priority 0; under SRTF (for `n < 2^31`) the loader pushes priority `+n` and dispatch
re-adds the process with priority `-n`, `n` being the queue length at that moment. -/
theorem priority_policy :
    (∀ (sim : Simulation) (pid : Nat) (pcb : PCB), sim.process? pid = some pcb →
      pcb.eventQueue.length < 2147483648 →
      sim.GetRemainingTime pid = some pcb.eventQueue.length) ∧
    (∀ (sim : Simulation) (app : Application), 0 < sim.processes.size →
      sim.processCounter ≤ sim.processes.size → app.length < 2147483648 →
      ∃ sim', sim.loadApplication app = some sim' ∧
        sim'.jobs = sim.jobs ++
          [{ pid := sim.processCounter,
             priority := if sim.scheduling = SchedulingCode.RR then 0 else (app.length : Int) }]) ∧
    (∀ (fuel : Nat) (sim sim' : Simulation) (top : Nat) (obs : DispatchObservation),
      sim.dispatch fuel top obs = some sim' →
      ∃ job pcb', sim.jobs[top]? = some job ∧ sim'.process? job.pid = some pcb' ∧
        (pcb'.eventQueue.length < 2147483648 →
          sim'.jobs = sim.jobs.eraseIdx top ++
            (if pcb'.state = ProcessState.EXIT then []
             else [{ pid := job.pid,
                     priority := if sim.scheduling = SchedulingCode.RR then 0
                       else -(pcb'.eventQueue.length : Int) }]))) := by
  refine ⟨?_, ?_, ?_⟩
  · intro sim pid pcb hp hn
    rw [GetRemainingTime_eq sim pid pcb hp, countEvents_eq _ (by omega)]
  · intro sim app hne hbound hn
    refine ⟨_, loadApplication_eq sim app hne hbound, ?_⟩
    simp only
    congr 3
    cases hs : sim.scheduling
    · simp
    · simp [countEvents_eq app (by omega), toInt_small _ hn]
  · intro fuel sim sim' top obs h
    obtain ⟨job, pcb, pcb', hd⟩ := dispatch_spec h
    refine ⟨job, pcb', hd.isTop, hd.after, ?_⟩
    intro hn
    rw [hd.jobs]
    congr 3
    unfold requeuePriority
    cases hs : sim.scheduling
    · simp
    · simp [countEvents_eq pcb'.eventQueue (by omega), toInt_neg _ hn]

/-- Witness for `priority_policy`: under SRTF the loader pushes the three-event
application with priority `+3`; the first two dispatch iterations re-add it with
priority `-3` (not yet run) and then run it to completion. -/
theorem priority_policy_witness :
    (0 < (exampleSim .SRTF [app3] 1 8).processes.size ∧
      (exampleSim .SRTF [app3] 1 8).processCounter ≤ (exampleSim .SRTF [app3] 1 8).processes.size ∧
      app3.length < 2147483648) ∧
    (∃ sim', (exampleSim .SRTF [app3] 1 8).loadApplication app3 = some sim' ∧
      sim'.jobs = (exampleSim .SRTF [app3] 1 8).jobs ++
        [{ pid := (exampleSim .SRTF [app3] 1 8).processCounter,
           priority := if (exampleSim .SRTF [app3] 1 8).scheduling = SchedulingCode.RR then 0
             else (app3.length : Int) }]) ∧
    ((exampleLoaded .SRTF [app3]).dispatch 10 0 quietDispatch).map (fun s => s.jobs) =
      some [{ pid := 0, priority := -3 }] :=
  ⟨⟨by decide, by decide, by decide⟩,
    priority_policy.2.1 (exampleSim .SRTF [app3] 1 8) app3 (by decide) (by decide) (by decide),
    by decide⟩

/-! ## C7: the clear operation of the dispatch loop -/

/-- C7 (the code at the failing input): `simInterrupt &= !SIM_INTERRUPT_SCHEDULER_RR`
is `simInterrupt &= 0`: it resets every bit of the interrupt word.  With only the
loader bit set (`0b01`) the result is `0`, so the loader bit is lost, and likewise for
`0b11`. -/
theorem clear_drops_loader_bit :
    clearSchedulerRR SIM_INTERRUPT_LOADER = 0 ∧
    clearSchedulerRR (SIM_INTERRUPT_LOADER ||| SIM_INTERRUPT_SCHEDULER_RR) = 0 ∧
    (∀ w : Nat, clearSchedulerRR w = 0) := by
  refine ⟨by decide, by decide, ?_⟩
  intro w
  simp [clearSchedulerRR, logicalNot, SIM_INTERRUPT_SCHEDULER_RR]

/-! ## C9: resuming an interrupted compute event -/

theorem toULong_natCast (n : Nat) (h : n < 18446744073709551616) : toULong (n : Int) = n := by
  unfold toULong
  have : ((n : Int) % 18446744073709551616) = (n : Int) := Int.emod_eq_of_lt (by omega) (by omega)
  rw [this]; simp

theorem toLong_small (n : Nat) (h : n < 9223372036854775808) : toLong n = (n : Int) := by
  unfold toLong
  rw [Nat.mod_eq_of_lt (by omega : n < 18446744073709551616), if_pos h]

/-- The wait loop, entered with `r` milliseconds left, when the interrupt word is first
read nonzero after `e` elapsed milliseconds (`e = ms`: never during the wait). -/
theorem doProcWorkLoop_from (poll : Nat → Nat) (ms e : Nat) (he : e ≤ ms)
    (hquiet : ∀ k, k < e → poll k = 0) (hseen : e < ms → poll e ≠ 0) :
    ∀ r, r ≤ ms → ms - r ≤ e → doProcWorkLoop poll ms r = ms - e := by
  intro r
  induction r with
  | zero => intro _ h; simp only [doProcWorkLoop]; omega
  | succ r ih =>
    intro hr h
    simp only [doProcWorkLoop]
    by_cases heq : ms - (r + 1) = e
    · rw [heq, if_pos (hseen (by omega))]; omega
    · rw [if_neg (by simp [hquiet (ms - (r + 1)) (by omega)])]
      exact ih (by omega) (by omega)

/-- An interrupt first seen after `e` milliseconds leaves `ms - e` milliseconds. -/
theorem doProcWorkLoop_interrupted (poll : Nat → Nat) (ms e : Nat) (he : e ≤ ms)
    (hquiet : ∀ k, k < e → poll k = 0) (hseen : e < ms → poll e ≠ 0) :
    doProcWorkLoop poll ms ms = ms - e :=
  doProcWorkLoop_from poll ms e he hquiet hseen ms (Nat.le_refl _) (by omega)

/-- Without interrupt the wait runs to its end. -/
theorem doProcWorkLoop_quiet (poll : Nat → Nat) (ms : Nat) (hquiet : ∀ k, k < ms → poll k = 0) :
    doProcWorkLoop poll ms ms = 0 := by
  rw [doProcWorkLoop_interrupted poll ms ms (Nat.le_refl _) hquiet (by omega)]
  omega

/-- `handleProc` on a process whose PCB is `process`, in one expression. -/
theorem handleProc_some (sim : Simulation) (pid : Nat) (event : SimEvent) (obs : Observation)
    (process : PCB) (hp : sim.process? pid = some process) :
    sim.handleProc pid event obs = some
      ((((if process.eventInProgress then sim
            else sim.Log (LogLine.startProcessing pid)).doProcWork
          (if process.eventInProgress then toLong process.eventTimeRemaining
            else event.cycles * sim.config.processorCycleTime) obs.poll).2.Log
        (if obs.atEnd ≠ 0 then LogLine.interruptProcessing pid
          else LogLine.endProcessing pid)).setProcess pid
        (if obs.atEnd ≠ 0 then
          { process with
            eventInProgress := true
            eventTimeRemaining := toULong
              ((if process.eventInProgress then sim
                  else sim.Log (LogLine.startProcessing pid)).doProcWork
                (if process.eventInProgress then toLong process.eventTimeRemaining
                  else event.cycles * sim.config.processorCycleTime) obs.poll).1
            state := ProcessState.READY }
         else
          { process with
            eventInProgress := false
            eventQueue := process.eventQueue.tail
            state := ProcessState.READY })) := by
  simp only [Simulation.handleProc, hp]
  by_cases hint : obs.atEnd ≠ 0
  · simp only [if_pos hint]
  · simp only [if_neg hint]

/-- C9: with time in whole milliseconds, if `handleProc` starts a compute event of `c`
cycles with processor cycle time `T` (`0 ≤ c*T < 2^63`) and the interrupt is first seen
after `e` ms of the wait (`0 ≤ e ≤ c*T`; `e = c*T`: seen by the test after the wait),
it stores `eventTimeRemaining = c*T - e` with `eventInProgress = true`, leaves the
event queue as it is and has waited `e` ms.  The next `handleProc` call on that
process waits with `doProcWork` on a budget of exactly `c*T - e` ms and logs no second
`start processing action`; if it is not interrupted it has waited exactly `c*T - e`
ms when it logs `end processing action` and pops the event. -/
theorem resume_fidelity (sim : Simulation) (pid : Nat) (process : PCB) (event : SimEvent)
    (obs : Observation) (e : Nat)
    (hp : sim.process? pid = some process) (hfresh : process.eventInProgress = false)
    (hnonneg : 0 ≤ event.cycles * sim.config.processorCycleTime)
    (hrange : event.cycles * sim.config.processorCycleTime < 9223372036854775808)
    (he : (e : Int) ≤ event.cycles * sim.config.processorCycleTime)
    (hquiet : ∀ k, k < e → obs.poll k = 0)
    (hseen : (e : Int) < event.cycles * sim.config.processorCycleTime → obs.poll e ≠ 0)
    (hint : obs.atEnd ≠ 0) :
    ∃ sim1, sim.handleProc pid event obs = some sim1 ∧
      sim1.process? pid = some
        { process with
          eventInProgress := true
          eventTimeRemaining := (event.cycles * sim.config.processorCycleTime).toNat - e
          state := ProcessState.READY } ∧
      sim1.log = sim.log ++ [LogLine.startProcessing pid, LogLine.interruptProcessing pid] ∧
      sim1.clock = sim.clock + e ∧
      ∀ (next : Simulation) (st : ProcessState) (obs2 : Observation),
        next.process? pid = some
          { process with
            eventInProgress := true
            eventTimeRemaining := (event.cycles * sim.config.processorCycleTime).toNat - e
            state := st } →
        ∃ sim2, next.handleProc pid event obs2 = some sim2 ∧
          sim2.clock = (next.doProcWork
            (event.cycles * sim.config.processorCycleTime - (e : Int)) obs2.poll).2.clock ∧
          sim2.log = next.log ++
            [if obs2.atEnd ≠ 0 then LogLine.interruptProcessing pid
             else LogLine.endProcessing pid] ∧
          ((∀ k, k < (event.cycles * sim.config.processorCycleTime).toNat - e →
              obs2.poll k = 0) → obs2.atEnd = 0 →
            sim2.clock = next.clock + ((event.cycles * sim.config.processorCycleTime).toNat - e) ∧
            sim2.process? pid = some
              { process with
                eventInProgress := false
                eventTimeRemaining := (event.cycles * sim.config.processorCycleTime).toNat - e
                eventQueue := process.eventQueue.tail
                state := ProcessState.READY }) := by
  obtain ⟨ms, hms⟩ : ∃ ms : Nat, event.cycles * sim.config.processorCycleTime = (ms : Int) :=
    ⟨_, (Int.toNat_of_nonneg hnonneg).symm⟩
  rw [hms] at he hseen hrange ⊢
  simp only [Int.toNat_ofNat]
  have he' : e ≤ ms := by omega
  have hlt : pid < sim.processes.size := process?_lt_size sim pid process hp
  have hloop := doProcWorkLoop_interrupted obs.poll ms e he' hquiet (fun h => hseen (by omega))
  have h1 := handleProc_some sim pid event obs process hp
  simp only [hfresh, hms, if_pos hint, Bool.false_eq_true, if_false] at h1
  refine ⟨_, h1, ?_, ?_, ?_, ?_⟩
  · rw [process?_setProcess_self _ _ _ (by exact hlt)]
    simp only [Simulation.doProcWork, Int.toNat_ofNat, hloop]
    rw [toULong_natCast _ (by omega)]
  · simp [Simulation.setProcess, Simulation.Log, Simulation.doProcWork]
  · simp only [Simulation.setProcess, Simulation.Log, Simulation.doProcWork, Int.toNat_ofNat, hloop]
    congr 1; omega
  · intro next st obs2 hn
    have hlt2 : pid < next.processes.size := process?_lt_size next pid _ hn
    have hbudget : toLong (ms - e) = ((ms - e : Nat) : Int) := toLong_small _ (by omega)
    have hcast : ((ms - e : Nat) : Int) = (ms : Int) - (e : Int) := by omega
    have h2 := handleProc_some next pid event obs2 _ hn
    simp only [if_true, hbudget] at h2
    refine ⟨_, h2, ?_, ?_, ?_⟩
    · simp only [Simulation.setProcess, Simulation.Log, hcast]
    · simp [Simulation.setProcess, Simulation.Log, Simulation.doProcWork]
    · intro hq h0
      constructor
      · simp only [Simulation.setProcess, Simulation.Log, Simulation.doProcWork,
          Int.toNat_ofNat, doProcWorkLoop_quiet obs2.poll (ms - e) hq]
        rfl
      · rw [process?_setProcess_self _ _ _ (by exact hlt2)]
        simp [h0]

/-- Witness for `resume_fidelity`: scenario S3, `P(run)100` at 10 ms per cycle,
interrupted by the quantum after 50 ms: 950 ms remain. -/
theorem resume_fidelity_witness :
    (exampleLoaded .RR [appLong]).process? 0 = some (newPCB 0 appLong) ∧
    ∃ sim1, (exampleLoaded .RR [appLong]).handleProc 0
        { code := 'P', descriptor := "run", cycles := 100 } (quantumAfter 50) = some sim1 ∧
      sim1.process? 0 = some
        { newPCB 0 appLong with
          eventInProgress := true, eventTimeRemaining := 950, state := ProcessState.READY } :=
  ⟨by decide,
    (resume_fidelity (exampleLoaded .RR [appLong]) 0 (newPCB 0 appLong)
      { code := 'P', descriptor := "run", cycles := 100 } (quantumAfter 50) 50
      (by decide) rfl (by decide) (by decide) (by decide)
      (fun k hk => by simp [quantumAfter, hk]) (fun _ => by decide) (by decide)).imp
      (fun _ h => ⟨h.1, h.2.1⟩)⟩

/-! ## C10: the wait of the memory handler -/

/-- C10 (amended): the wait performed by `handleMem` for an `allocate` or `block`
event is the interruptible `doProcWork`, the same wait as in `handleProc`: it depends
on the interrupt word and ends at the first poll that reads it nonzero.  If a memory
event of `c` cycles with memory cycle time `T` (`0 ≤ c*T < 2^63`) is started and the
interrupt is first seen after `e` ms (`0 ≤ e ≤ c*T`), `handleMem` has waited `e` ms and
records the interrupted event with `eventTimeRemaining = c*T - e`, which is 0 only
when the wait had run to its end. -/
theorem handleMem_wait_interruptible (sim : Simulation) (pid : Nat) (process : PCB)
    (event : SimEvent) (obs : Observation) (e : Nat)
    (hp : sim.process? pid = some process) (hfresh : process.eventInProgress = false)
    (hdesc : event.descriptor = "allocate" ∨ event.descriptor = "block")
    (hnonneg : 0 ≤ event.cycles * sim.config.memoryCycleTime)
    (hrange : event.cycles * sim.config.memoryCycleTime < 9223372036854775808)
    (he : (e : Int) ≤ event.cycles * sim.config.memoryCycleTime)
    (hquiet : ∀ k, k < e → obs.poll k = 0)
    (hseen : (e : Int) < event.cycles * sim.config.memoryCycleTime → obs.poll e ≠ 0)
    (hint : obs.atEnd ≠ 0) :
    ∃ sim1, sim.handleMem pid event obs = some sim1 ∧
      sim1.process? pid = some
        { process with
          eventInProgress := true
          eventTimeRemaining := (event.cycles * sim.config.memoryCycleTime).toNat - e
          state := ProcessState.READY } ∧
      sim1.clock = sim.clock + e := by
  obtain ⟨ms, hms⟩ : ∃ ms : Nat, event.cycles * sim.config.memoryCycleTime = (ms : Int) :=
    ⟨_, (Int.toNat_of_nonneg hnonneg).symm⟩
  rw [hms] at he hseen hrange ⊢
  simp only [Int.toNat_ofNat]
  have he' : e ≤ ms := by omega
  have hlt : pid < sim.processes.size := process?_lt_size sim pid process hp
  have hloop := doProcWorkLoop_interrupted obs.poll ms e he' hquiet (fun h => hseen (by omega))
  have hclock : sim.clock + (ms - (ms - e)) = sim.clock + e := by omega
  rcases hdesc with hd | hd
  · by_cases ha : obs.afterWork = 0
    · refine ⟨_, by simp only [Simulation.handleMem, hp, hfresh, hms, hd, if_pos hint, if_pos ha,
        if_true, Bool.false_eq_true, if_false]; rfl, ?_, ?_⟩
      · rw [process?_setProcess_self _ _ _ (by exact hlt)]
        simp only [Simulation.doProcWork, Int.toNat_ofNat, hloop]
        rw [toULong_natCast _ (by omega)]
      · simp only [Simulation.setProcess, Simulation.Log, Simulation.doProcWork,
          Simulation.allocateMemory, Int.toNat_ofNat, hloop, hclock]
    · refine ⟨_, by simp only [Simulation.handleMem, hp, hfresh, hms, hd, if_pos hint, if_neg ha,
        if_true, Bool.false_eq_true, if_false]; rfl, ?_, ?_⟩
      · rw [process?_setProcess_self _ _ _ (by exact hlt)]
        simp only [Simulation.doProcWork, Int.toNat_ofNat, hloop]
        rw [toULong_natCast _ (by omega)]
      · simp only [Simulation.setProcess, Simulation.Log, Simulation.doProcWork,
          Int.toNat_ofNat, hloop, hclock]
  · have hna : ("block" = "allocate") = False := eq_false (by decide)
    by_cases ha : obs.afterWork = 0
    · refine ⟨_, by simp only [Simulation.handleMem, hp, hfresh, hms, hd, hna, if_pos hint, if_pos ha,
        if_true, Bool.false_eq_true, if_false]; rfl, ?_, ?_⟩
      · rw [process?_setProcess_self _ _ _ (by exact hlt)]
        simp only [Simulation.doProcWork, Int.toNat_ofNat, hloop]
        rw [toULong_natCast _ (by omega)]
      · simp only [Simulation.setProcess, Simulation.Log, Simulation.doProcWork,
          Int.toNat_ofNat, hloop, hclock]
    · refine ⟨_, by simp only [Simulation.handleMem, hp, hfresh, hms, hd, hna, if_pos hint, if_neg ha,
        if_true, Bool.false_eq_true, if_false]; rfl, ?_, ?_⟩
      · rw [process?_setProcess_self _ _ _ (by exact hlt)]
        simp only [Simulation.doProcWork, Int.toNat_ofNat, hloop]
        rw [toULong_natCast _ (by omega)]
      · simp only [Simulation.setProcess, Simulation.Log, Simulation.doProcWork,
          Int.toNat_ofNat, hloop, hclock]

/-- Witness for `handleMem_wait_interruptible`: `M(block)5` at 1 ms per cycle,
interrupted by the quantum after 2 ms: 3 ms remain. -/
theorem handleMem_wait_interruptible_witness :
    (exampleRunning .RR appBlock).process? 0 =
      some { newPCB 0 appBlock with state := ProcessState.RUNNING } ∧
    ∃ sim1, (exampleRunning .RR appBlock).handleMem 0
        { code := 'M', descriptor := "block", cycles := 5 } (quantumAfter 2) = some sim1 ∧
      sim1.process? 0 = some
        { newPCB 0 appBlock with
          eventInProgress := true, eventTimeRemaining := 3, state := ProcessState.READY } ∧
      sim1.clock = (exampleRunning .RR appBlock).clock + 2 :=
  ⟨by decide,
    handleMem_wait_interruptible (exampleRunning .RR appBlock) 0
      { newPCB 0 appBlock with state := ProcessState.RUNNING }
      { code := 'M', descriptor := "block", cycles := 5 } (quantumAfter 2) 2
      (by decide) rfl (Or.inr rfl) (by decide) (by decide) (by decide)
      (fun k hk => by simp [quantumAfter, hk]) (fun _ => by decide) (by decide)⟩

/-- C10 (as stated) fails: for `M(block)5` at 1 ms per cycle with the quantum bit set
after 2 ms, `handleMem` stops waiting after 2 ms and stores `eventTimeRemaining = 3`,
whereas a handler waiting with the non-interruptible `doWork` (`handleMemSpec`) waits
5 ms and stores 0; without interrupt `handleMem` waits the full 5 ms, so its wait
depends on the interrupt word. -/
theorem handleMem_wait_counterexample :
    ((exampleRunning .RR appBlock).handleMem 0
        { code := 'M', descriptor := "block", cycles := 5 } (quantumAfter 2)).map
      (fun s => (s.clock, (s.process? 0).map (fun p => (p.eventInProgress, p.eventTimeRemaining)))) =
      some (2, some (true, 3)) ∧
    ((exampleRunning .RR appBlock).handleMemSpec 0
        { code := 'M', descriptor := "block", cycles := 5 } (quantumAfter 2)).map
      (fun s => (s.clock, (s.process? 0).map (fun p => (p.eventInProgress, p.eventTimeRemaining)))) =
      some (5, some (true, 0)) ∧
    ((exampleRunning .RR appBlock).handleMem 0
        { code := 'M', descriptor := "block", cycles := 5 } quietObservation).map
      (fun s => s.clock) = some 5 := by
  decide

/-! ## C8: process state after a handler returns -/

theorem setProcess_process?_some (s : Simulation) (pid : Nat) (pcb p : PCB)
    (h : (s.setProcess pid pcb).process? pid = some p) : p = pcb := by
  have hlt : pid < s.processes.size := process?_lt_size (s.setProcess pid pcb) pid p h
  rw [process?_setProcess_self s pid pcb hlt] at h
  simp only [Option.some.injEq] at h
  exact h.symm

/-- After `handleProc` returns the process is `READY`. -/
theorem handleProc_ready {sim sim' : Simulation} {pid : Nat} {event : SimEvent}
    {obs : Observation} (h : sim.handleProc pid event obs = some sim') :
    (sim'.process? pid).map (fun p => p.state) = some ProcessState.READY := by
  cases hp : sim.process? pid with
  | none => simp [Simulation.handleProc, hp] at h
  | some process =>
    obtain ⟨p, hp', _⟩ := (Frame.handleProc h).self process hp
    rw [handleProc_some sim pid event obs process hp] at h
    simp only [Option.some.injEq] at h
    subst h
    rw [hp', setProcess_process?_some _ _ _ _ hp']
    split <;> rfl

/-- After `handleMem` returns the process is `READY`. -/
theorem handleMem_ready {sim sim' : Simulation} {pid : Nat} {event : SimEvent}
    {obs : Observation} (h : sim.handleMem pid event obs = some sim') :
    (sim'.process? pid).map (fun p => p.state) = some ProcessState.READY := by
  cases hp : sim.process? pid with
  | none => simp [Simulation.handleMem, hp] at h
  | some process =>
    obtain ⟨p, hp', _⟩ := (Frame.handleMem h).self process hp
    unfold Simulation.handleMem at h
    rw [hp] at h
    simp only at h
    split at h
    · simp only [Option.some.injEq] at h
      subst h
      rw [hp', setProcess_process?_some _ _ _ _ hp']
      rfl
    · simp only [Option.some.injEq] at h
      subst h
      rw [hp', setProcess_process?_some _ _ _ _ hp']
      rfl

/-- C8 (the code at the failing input): `RunProcess` has set process 0 to `RUNNING`,
its head event is `I(keyboard)5`, no I/O is in progress, and the quantum bit of the
interrupt word is already set when `handleIO` first tests its acquisition loop.
`handleIO` returns without calling the device and without writing the state: the
process is still `RUNNING` (neither `READY` nor `WAITING`).  Seen from the dispatch
loop: the iteration that runs the process under these observations leaves it
`RUNNING`, and the following iteration, which pops it again, does not run it. -/
theorem handleIO_leaves_running :
    (( Simulation.handleIO 10 (exampleRunning .RR appKeyboard) 0
        { code := 'I', descriptor := "keyboard", cycles := 5 } quantumObservation).bind
      (fun s => s.process? 0)).map (fun p => p.state) = some ProcessState.RUNNING ∧
    ((((exampleLoaded .RR [appKeyboard]).dispatch 10 0 quietDispatch).bind
        (fun s => s.dispatch 10 0 quantumDispatch)).bind
      (fun s => s.process? 0)) =
      some { newPCB 0 appKeyboard with state := ProcessState.RUNNING } ∧
    (((((exampleLoaded .RR [appKeyboard]).dispatch 10 0 quietDispatch).bind
        (fun s => s.dispatch 10 0 quantumDispatch)).bind
        (fun s => s.dispatch 10 0 quietDispatch)).bind
      (fun s => s.process? 0)) =
      some { newPCB 0 appKeyboard with state := ProcessState.RUNNING } := by
  decide

/-! ## Scenario S2: the order of the exits under shortest remaining time first -/

theorem mem_of_getElem? {jobs : List Job} {top : Nat} {job : Job}
    (h : jobs[top]? = some job) : job ∈ jobs := by
  obtain ⟨hlt, heq⟩ := List.getElem?_eq_some.mp h
  rw [← heq]; exact List.getElem_mem hlt

theorem mem_eraseIdx {jobs : List Job} {top : Nat} {job : Job}
    (h : job ∈ jobs.eraseIdx top) : job ∈ jobs := by
  induction jobs generalizing top with
  | nil => simp at h
  | cons a l ih =>
    cases top with
    | zero => simp only [List.eraseIdx_cons_zero] at h; exact List.mem_cons_of_mem _ h
    | succ n =>
      simp only [List.eraseIdx_cons_succ, List.mem_cons] at h
      rcases h with rfl | h
      · exact List.mem_cons_self _ _
      · exact List.mem_cons_of_mem _ (ih h)

/-- Popping a job of another process leaves the jobs of `p`. -/
theorem jobsOf_eraseIdx_ne {jobs : List Job} {top : Nat} {job : Job} {p : Nat}
    (h : jobs[top]? = some job) (hne : job.pid ≠ p) :
    jobsOf p (jobs.eraseIdx top) = jobsOf p jobs := by
  induction jobs generalizing top with
  | nil => simp at h
  | cons a l ih =>
    cases top with
    | zero =>
      simp only [List.getElem?_cons_zero, Option.some.injEq] at h
      subst h
      simp [jobsOf, List.filter_cons, hne]
    | succ n =>
      simp only [List.getElem?_cons_succ] at h
      have := ih h
      simp only [jobsOf, List.eraseIdx_cons_succ, List.filter_cons] at this ⊢
      rw [this]

/-- Popping the only job of `p` leaves none. -/
theorem jobsOf_eraseIdx_eq {jobs : List Job} {top : Nat} {job x : Job} {p : Nat}
    (h : jobs[top]? = some job) (heq : job.pid = p) (hone : jobsOf p jobs = [x]) :
    jobsOf p (jobs.eraseIdx top) = [] := by
  have hlen : ∀ (jobs : List Job) (top : Nat), jobs[top]? = some job →
      (jobsOf p jobs).length = (jobsOf p (jobs.eraseIdx top)).length + 1 := by
    intro jobs
    induction jobs with
    | nil => intro top h; simp at h
    | cons a l ih =>
      intro top h
      cases top with
      | zero =>
        simp only [List.getElem?_cons_zero, Option.some.injEq] at h
        subst h
        simp [jobsOf, List.filter_cons, heq]
      | succ n =>
        simp only [List.getElem?_cons_succ] at h
        have := ih n h
        simp only [jobsOf, List.eraseIdx_cons_succ, List.filter_cons] at this ⊢
        split
        · simp only [List.length_cons]; omega
        · exact this
  have := hlen jobs top h
  rw [hone] at this
  simp only [List.length_singleton] at this
  exact List.length_eq_zero.mp (by omega)

theorem jobsOf_append (p : Nat) (a b : List Job) : jobsOf p (a ++ b) = jobsOf p a ++ jobsOf p b := by
  simp [jobsOf]

theorem jobsOf_eq_nil_of_forall (p : Nat) (jobs : List Job) (h : ∀ job ∈ jobs, job.pid ≠ p) :
    jobsOf p jobs = [] := by
  simp only [jobsOf, List.filter_eq_nil_iff, decide_eq_true_eq]
  exact h

theorem jobsOf_singleton_self (p : Nat) (pr : Int) :
    jobsOf p [{ pid := p, priority := pr }] = [{ pid := p, priority := pr }] := by
  simp [jobsOf]

theorem jobsOf_singleton_ne {p q : Nat} (pr : Int) (h : q ≠ p) :
    jobsOf p [{ pid := q, priority := pr }] = [] := by
  simp [jobsOf, h]

theorem mem_jobsOf {p : Nat} {jobs : List Job} {job : Job} (h : job ∈ jobs) (hp : job.pid = p) :
    job ∈ jobsOf p jobs := by
  simp [jobsOf, h, hp]

theorem not_mem_of_jobsOf_nil {p : Nat} {jobs : List Job} (h : jobsOf p jobs = []) :
    ∀ job ∈ jobs, job.pid ≠ p := by
  simpa [jobsOf, List.filter_eq_nil_iff] using h

theorem Flip.eq_of_not_waiting {pcb : PCB} {b : Option PCB} (h : Flip (some pcb) b)
    (hw : pcb.state ≠ ProcessState.WAITING) : b = some pcb := by
  rcases h with h | ⟨p, hp, hpw, _⟩
  · exact h.symm
  · simp only [Option.some.injEq] at hp
    subst hp
    exact absurd hpw hw

theorem Flip.queue {pcb : PCB} {b : Option PCB} (h : Flip (some pcb) b) :
    ∃ pcb', b = some pcb' ∧ pcb'.eventQueue = pcb.eventQueue := by
  rcases h with h | ⟨p, hp, _, hb⟩
  · exact ⟨pcb, h.symm, rfl⟩
  · simp only [Option.some.injEq] at hp
    subst hp
    exact ⟨_, hb, rfl⟩

theorem requeuePriority_srtf (pcb : PCB) (h : pcb.eventQueue.length < 2147483648) :
    requeuePriority SchedulingCode.SRTF pcb = -(pcb.eventQueue.length : Int) := by
  simp [requeuePriority, countEvents_eq pcb.eventQueue (by omega), toInt_neg _ h]

/-- A dispatch iteration keeps the state well formed. -/
theorem WF.wf_dispatched {sim sim' : Simulation} {top : Nat} {obs : DispatchObservation}
    {job : Job} {pcb pcb' : PCB} (hwf : WF sim) (hd : Dispatched sim sim' top obs job pcb pcb') :
    WF sim' := by
  refine ⟨by rw [hd.size]; exact hwf.size_pos,
    by rw [hd.size, hd.processCounter]; exact hwf.counter_le, ?_⟩
  intro j hj
  rw [hd.jobs, List.mem_append] at hj
  rw [hd.processCounter]
  rcases hj with hj | hj
  · exact hwf.jobs_lt j (mem_eraseIdx hj)
  · split at hj
    · simp at hj
    · simp only [List.mem_singleton] at hj
      subst hj
      exact hwf.jobs_lt job (mem_of_getElem? hd.isTop)

/-- Once `p1` has exited and left the queue, a dispatch iteration keeps it so. -/
theorem Done.done_dispatched {sim sim' : Simulation} {top : Nat} {obs : DispatchObservation}
    {job : Job} {pcb pcb' : PCB} {p1 : Nat} (h : Done p1 sim)
    (hd : Dispatched sim sim' top obs job pcb pcb') : Done p1 sim' := by
  obtain ⟨⟨pcb1, hp1, hexit⟩, hjobs⟩ := h
  have hne : job.pid ≠ p1 := hjobs job (mem_of_getElem? hd.isTop)
  have hflip := hd.others p1 (Ne.symm hne)
  rw [hp1] at hflip
  have hsame := hflip.eq_of_not_waiting (by rw [hexit]; decide)
  refine ⟨⟨pcb1, hsame, hexit⟩, ?_⟩
  intro j hj
  rw [hd.jobs, List.mem_append] at hj
  rcases hj with hj | hj
  · exact hjobs j (mem_eraseIdx hj)
  · split at hj
    · simp at hj
    · simp only [List.mem_singleton] at hj
      subst hj
      exact hne

/-- While `p1` is pending, a dispatch iteration never runs `p3`: afterwards either
`p1` is done or the pair is still pending, and `p3` has not exited. -/
theorem Pending.pending_dispatched {sim sim' : Simulation} {top : Nat} {obs : DispatchObservation}
    {job : Job} {pcb pcb' : PCB} {p1 p3 : Nat}
    (hsched : sim.scheduling = SchedulingCode.SRTF) (hne : p1 ≠ p3)
    (h : Pending p1 p3 sim) (hd : Dispatched sim sim' top obs job pcb pcb') :
    (Done p1 sim' ∨ Pending p1 p3 sim') ∧
      ∃ pcb3', sim'.process? p3 = some pcb3' ∧ pcb3'.state ≠ ProcessState.EXIT := by
  obtain ⟨pcb1, pcb3, pr1, pr3, hp1, hlen1, hj1, hpr1, hp3, hlen3, hj3, hst3⟩ := h
  have hmem : job ∈ sim.jobs := mem_of_getElem? hd.isTop
  have hnw3 : pcb3.state ≠ ProcessState.WAITING := by
    rcases hst3 with ⟨h, _⟩ | ⟨h, _⟩ <;> rw [h] <;> decide
  have hne3 : pcb3.state ≠ ProcessState.EXIT := by
    rcases hst3 with ⟨h, _⟩ | ⟨h, _⟩ <;> rw [h] <;> decide
  by_cases hJ3 : job.pid = p3
  · -- the popped job is the job of `p3`: it still has its load priority
    have hjob : job = { pid := p3, priority := pr3 } := by
      have := mem_jobsOf hmem hJ3
      rw [hj3] at this
      simpa using this
    have hmem1 : ({ pid := p1, priority := pr1 } : Job) ∈ sim.jobs := by
      have : ({ pid := p1, priority := pr1 } : Job) ∈ jobsOf p1 sim.jobs := by rw [hj1]; simp
      exact (List.mem_filter.mp this).1
    have hle := hd.max _ hmem1
    rw [hjob] at hle
    simp only at hle
    have hstart : pcb3.state = ProcessState.START ∧ pr3 = 3 := by
      rcases hst3 with h | ⟨_, h⟩
      · exact h
      · omega
    have hpcb : pcb = pcb3 := by
      have := hd.before
      rw [hJ3, hp3] at this
      simp only [Option.some.injEq] at this
      exact this.symm
    subst hpcb
    have hnot := (hd.notRun (by rw [hstart.1]; decide)).2
    rw [if_pos hstart.1] at hnot
    have hafter : sim'.process? p3 = some pcb' := by rw [← hJ3]; exact hd.after
    have hready : pcb'.state = ProcessState.READY := by rw [hnot]
    have hnexit : pcb'.state ≠ ProcessState.EXIT := by rw [hready]; decide
    have hflip1 := hd.others p1 (by rw [hJ3]; exact hne)
    rw [hp1] at hflip1
    obtain ⟨pcb1', hp1', hq1'⟩ := hflip1.queue
    refine ⟨Or.inr ⟨pcb1', pcb', pr1, -3, hp1', by rw [hq1']; exact hlen1, ?_, hpr1, hafter,
      by rw [hnot]; exact hlen3, ?_, Or.inr ⟨hready, rfl⟩⟩, pcb', hafter, hnexit⟩
    · rw [hd.jobs, jobsOf_append, jobsOf_eraseIdx_ne hd.isTop (by rw [hJ3]; exact Ne.symm hne), hj1]
      rw [if_neg hnexit]
      rw [jobsOf_singleton_ne _ (by rw [hJ3]; exact Ne.symm hne)]
      rfl
    · rw [hd.jobs, jobsOf_append, jobsOf_eraseIdx_eq hd.isTop hJ3 hj3]
      rw [if_neg hnexit, hsched, hJ3, jobsOf_singleton_self]
      rw [requeuePriority_srtf _ (by rw [hnot]; simp only; omega)]
      rw [hnot]
      simp only [hlen3, List.nil_append]
      rfl
  · have hflip3 := hd.others p3 (Ne.symm hJ3)
    rw [hp3] at hflip3
    have hp3' := hflip3.eq_of_not_waiting hnw3
    have hj3' : jobsOf p3 sim'.jobs = [{ pid := p3, priority := pr3 }] := by
      rw [hd.jobs, jobsOf_append, jobsOf_eraseIdx_ne hd.isTop hJ3, hj3]
      split
      · rfl
      · rw [jobsOf_singleton_ne _ hJ3]; rfl
    refine ⟨?_, pcb3, hp3', hne3⟩
    by_cases hJ1 : job.pid = p1
    · -- the popped job is the job of `p1`
      have hpcb : pcb = pcb1 := by
        have := hd.before
        rw [hJ1, hp1] at this
        simp only [Option.some.injEq] at this
        exact this.symm
      subst hpcb
      have hafter : sim'.process? p1 = some pcb' := by rw [← hJ1]; exact hd.after
      obtain ⟨pcb1', hp1', _, k, hk⟩ := hd.self pcb (by rw [hJ1]; exact hp1)
      have hpcb' : pcb1' = pcb' := by
        rw [hJ1, hafter] at hp1'
        simp only [Option.some.injEq] at hp1'
        exact hp1'.symm
      subst hpcb'
      have hlen1' : pcb1'.eventQueue.length ≤ 1 := by
        rw [hk, List.length_drop]; omega
      by_cases hexit : pcb1'.state = ProcessState.EXIT
      · left
        refine ⟨⟨pcb1', hafter, hexit⟩, ?_⟩
        apply not_mem_of_jobsOf_nil
        rw [hd.jobs, jobsOf_append, jobsOf_eraseIdx_eq hd.isTop hJ1 hj1, if_pos hexit]
        rfl
      · right
        refine ⟨pcb1', pcb3, requeuePriority sim.scheduling pcb1', pr3, hafter, hlen1', ?_, ?_,
          hp3', hlen3, hj3', hst3⟩
        · rw [hd.jobs, jobsOf_append, jobsOf_eraseIdx_eq hd.isTop hJ1 hj1, if_neg hexit, hJ1,
            jobsOf_singleton_self]
          rfl
        · rw [hsched, requeuePriority_srtf _ (by omega)]
          omega
    · -- the popped job belongs to a third process
      right
      have hflip1 := hd.others p1 (Ne.symm hJ1)
      rw [hp1] at hflip1
      obtain ⟨pcb1', hp1', hq1'⟩ := hflip1.queue
      refine ⟨pcb1', pcb3, pr1, pr3, hp1', by rw [hq1']; exact hlen1, ?_, hpr1, hp3', hlen3,
        hj3', hst3⟩
      rw [hd.jobs, jobsOf_append, jobsOf_eraseIdx_ne hd.isTop hJ1, hj1]
      split
      · rfl
      · rw [jobsOf_singleton_ne _ hJ1]; rfl

/-- A step that changes the slots of `p1` and `p3` at most by a worker's flip and
leaves their queued jobs keeps the invariant, and `p3` does not exit in it. -/
theorem Ahead.of_unchanged {p1 p3 : Nat} {s s' : Simulation} (h : Ahead p1 p3 s)
    (hsched : s'.scheduling = s.scheduling) (hpc : s.processCounter ≤ s'.processCounter)
    (hwf : WF s') (hf1 : Flip (s.process? p1) (s'.process? p1))
    (hf3 : Flip (s.process? p3) (s'.process? p3))
    (hj1 : jobsOf p1 s'.jobs = jobsOf p1 s.jobs) (hj3 : jobsOf p3 s'.jobs = jobsOf p3 s.jobs) :
    Ahead p1 p3 s' ∧
      (Pending p1 p3 s → ∃ pcb3', s'.process? p3 = some pcb3' ∧
        pcb3'.state ≠ ProcessState.EXIT) := by
  have hpend : Pending p1 p3 s → Pending p1 p3 s' ∧ ∃ pcb3', s'.process? p3 = some pcb3' ∧
      pcb3'.state ≠ ProcessState.EXIT := by
    rintro ⟨pcb1, pcb3, pr1, pr3, hp1, hlen1, hjobs1, hpr1, hp3, hlen3, hjobs3, hst3⟩
    have hnw3 : pcb3.state ≠ ProcessState.WAITING := by
      rcases hst3 with ⟨h, _⟩ | ⟨h, _⟩ <;> rw [h] <;> decide
    have hne3 : pcb3.state ≠ ProcessState.EXIT := by
      rcases hst3 with ⟨h, _⟩ | ⟨h, _⟩ <;> rw [h] <;> decide
    rw [hp1] at hf1
    rw [hp3] at hf3
    obtain ⟨pcb1', hp1', hq1'⟩ := hf1.queue
    have hp3' := hf3.eq_of_not_waiting hnw3
    exact ⟨⟨pcb1', pcb3, pr1, pr3, hp1', by rw [hq1']; exact hlen1, by rw [hj1]; exact hjobs1,
      hpr1, hp3', hlen3, by rw [hj3]; exact hjobs3, hst3⟩, pcb3, hp3', hne3⟩
  refine ⟨⟨by rw [hsched]; exact h.sched, h.ne, Nat.lt_of_lt_of_le h.lt1 hpc,
    Nat.lt_of_lt_of_le h.lt3 hpc, hwf, ?_⟩, fun hp => (hpend hp).2⟩
  rcases h.cases with ⟨⟨pcb1, hp1, hexit⟩, hjobs⟩ | hp
  · left
    rw [hp1] at hf1
    refine ⟨⟨pcb1, hf1.eq_of_not_waiting (by rw [hexit]; decide), hexit⟩, ?_⟩
    apply not_mem_of_jobsOf_nil
    rw [hj1]
    exact jobsOf_eq_nil_of_forall _ _ hjobs
  · exact Or.inr (hpend hp).1

/-- The invariant is kept by every step, and `p3` exits in no step taken while `p1`
is pending. -/
theorem Ahead.ahead_step {p1 p3 : Nat} {s s' : Simulation} (h : Ahead p1 p3 s) (hs : Step s s') :
    Ahead p1 p3 s' ∧
      (Pending p1 p3 s → ∃ pcb3', s'.process? p3 = some pcb3' ∧
        pcb3'.state ≠ ProcessState.EXIT) := by
  cases hs with
  | dispatch fuel top obs hd =>
    obtain ⟨job, pcb, pcb', hd⟩ := dispatch_spec hd
    have hwf := h.wf.wf_dispatched hd
    have hbase : ∀ c, (Done p1 s' ∨ Pending p1 p3 s') = c → c → Ahead p1 p3 s' := by
      intro c hc hcases
      subst hc
      exact ⟨by rw [hd.scheduling]; exact h.sched, h.ne, by rw [hd.processCounter]; exact h.lt1,
        by rw [hd.processCounter]; exact h.lt3, hwf, hcases⟩
    rcases h.cases with hdone | hpend
    · refine ⟨hbase _ rfl (Or.inl (hdone.done_dispatched hd)), ?_⟩
      intro hp
      exact (hp.pending_dispatched h.sched h.ne hd).2
    · have := hpend.pending_dispatched h.sched h.ne hd
      exact ⟨hbase _ rfl this.1, fun _ => this.2⟩
  | ioEnd i hi =>
    have hf := Frame.ioThreadEnd (p1 + p3 + 1) s i
    exact h.of_unchanged hf.scheduling (by rw [hf.processCounter])
      ⟨by rw [hf.size]; exact h.wf.size_pos,
        by rw [hf.size, hf.processCounter]; exact h.wf.counter_le,
        by rw [hf.jobs, hf.processCounter]; exact h.wf.jobs_lt⟩
      (hf.others p1 (by omega)) (hf.others p3 (by omega)) (by rw [hf.jobs]) (by rw [hf.jobs])
  | load hguard hw =>
    obtain ⟨sim1, h1, hl, _⟩ := loaderWave_loaded s [] s
      (Loaded.base s h.wf.size_pos h.wf.counter_le) (by simpa using hguard)
    rw [hw] at h1
    simp only [Option.some.injEq] at h1
    subst h1
    simp only [List.nil_append] at hl
    have hnew : ∀ p, p < s.processCounter →
        jobsOf p s'.jobs = jobsOf p s.jobs := by
      intro p hp
      rw [hl.jobs, jobsOf_append, jobsOf_eq_nil_of_forall p
        (loaderJobs s.scheduling s.processCounter s.applications), List.append_nil]
      intro job hjob
      have := loaderJobs_mem _ _ _ _ hjob
      omega
    refine h.of_unchanged hl.sched (by rw [hl.counter]; omega)
      ⟨hl.nonempty, hl.bound, ?_⟩
      (by rw [hl.old p1 (Or.inl h.lt1)]; exact Flip.flip_refl _)
      (by rw [hl.old p3 (Or.inl h.lt3)]; exact Flip.flip_refl _)
      (hnew p1 h.lt1) (hnew p3 h.lt3)
    intro job hjob
    rw [hl.jobs, List.mem_append] at hjob
    rw [hl.counter]
    rcases hjob with hjob | hjob
    · have := h.wf.jobs_lt job hjob
      omega
    · have := loaderJobs_mem _ _ _ _ hjob
      omega

/-- The invariant holds along every run. -/
theorem Ahead.ahead_steps {p1 p3 : Nat} {s0 s : Simulation} (h : Ahead p1 p3 s0) (hs : Steps s0 s) :
    Ahead p1 p3 s := by
  induction hs with
  | refl => exact h
  | tail _ hstep ih => exact (ih.ahead_step hstep).1

theorem jobsOf_loaderJobs (scheduling : SchedulingCode) (apps : List Application) :
    ∀ (pid j : Nat) (app : Application), apps[j]? = some app →
      jobsOf (pid + j) (loaderJobs scheduling pid apps) =
        [{ pid := pid + j, priority := loaderPriorityOf scheduling app }] := by
  induction apps with
  | nil => intro pid j app h; simp at h
  | cons a rest ih =>
    intro pid j app h
    cases j with
    | zero =>
      simp only [List.getElem?_cons_zero, Option.some.injEq] at h
      subst h
      have hrest : jobsOf (pid + 0) (loaderJobs scheduling (pid + 1) rest) = [] := by
        apply jobsOf_eq_nil_of_forall
        intro job hjob
        have := loaderJobs_mem _ _ _ _ hjob
        omega
      have hsplit : loaderJobs scheduling pid (a :: rest) =
          [{ pid := pid, priority := loaderPriorityOf scheduling a }] ++
            loaderJobs scheduling (pid + 1) rest := rfl
      rw [hsplit, jobsOf_append, hrest, List.append_nil]
      exact jobsOf_singleton_self _ _
    | succ n =>
      simp only [List.getElem?_cons_succ] at h
      have hsplit : loaderJobs scheduling pid (a :: rest) =
          [{ pid := pid, priority := loaderPriorityOf scheduling a }] ++
            loaderJobs scheduling (pid + 1) rest := rfl
      rw [hsplit, jobsOf_append, jobsOf_singleton_ne _ (by omega), List.nil_append]
      have := ih (pid + 1) n app h
      rw [show pid + 1 + n = pid + (n + 1) by omega] at this
      exact this

/-- A loader wave keeps the state well formed. -/
theorem WF.loaded {s s' : Simulation} {apps : List Application} (hwf : WF s)
    (hl : Loaded s apps s') : WF s' := by
  refine ⟨hl.nonempty, hl.bound, ?_⟩
  intro job hjob
  rw [hl.jobs, List.mem_append] at hjob
  rw [hl.counter]
  rcases hjob with hjob | hjob
  · have := hwf.jobs_lt job hjob
    omega
  · have := loaderJobs_mem _ _ _ _ hjob
    omega

/-- Every step keeps the state well formed and keeps the policy and the applications. -/
theorem WF.wf_step {s s' : Simulation} (hwf : WF s) (hs : Step s s') :
    WF s' ∧ s'.scheduling = s.scheduling ∧ s'.applications = s.applications := by
  cases hs with
  | dispatch fuel top obs hd =>
    obtain ⟨job, pcb, pcb', hd⟩ := dispatch_spec hd
    exact ⟨hwf.wf_dispatched hd, hd.scheduling, hd.applications⟩
  | ioEnd i hi =>
    have hf := Frame.ioThreadEnd 0 s i
    exact ⟨⟨by rw [hf.size]; exact hwf.size_pos,
      by rw [hf.size, hf.processCounter]; exact hwf.counter_le,
      by rw [hf.jobs, hf.processCounter]; exact hwf.jobs_lt⟩, hf.scheduling, hf.applications⟩
  | load hguard hw =>
    obtain ⟨sim1, h1, hl, _⟩ := loaderWave_loaded s [] s
      (Loaded.base s hwf.size_pos hwf.counter_le) (by simpa using hguard)
    rw [hw] at h1
    simp only [Option.some.injEq] at h1
    subst h1
    simp only [List.nil_append] at hl
    exact ⟨hwf.loaded hl, hl.sched, hl.apps⟩

theorem WF.wf_steps {s0 s : Simulation} (hwf : WF s0) (hs : Steps s0 s) :
    WF s ∧ s.scheduling = s0.scheduling ∧ s.applications = s0.applications := by
  induction hs with
  | refl => exact ⟨hwf, rfl, rfl⟩
  | tail _ hstep ih =>
    obtain ⟨h1, h2, h3⟩ := ih.1.wf_step hstep
    exact ⟨h1, h2.trans ih.2.1, h3.trans ih.2.2⟩

theorem WF.initial (scheduling : SchedulingCode) (config : Config)
    (applications : List Application) (maxMemoryBlocks : Nat)
    (hdd printer speaker : IOResourceSemaphore) (monitor keyboard mouse : IOResourceMutex) :
    WF (Simulation.initial scheduling config applications maxMemoryBlocks hdd printer speaker
      monitor keyboard mouse) :=
  ⟨by simp [Simulation.initial, ProcessTable.empty], by simp [Simulation.initial],
    by simp [Simulation.initial]⟩

/-- After a loader wave under SRTF, an application of one event is ahead of an
application of three events admitted in the same wave. -/
theorem Ahead.admitted {sim s0 : Simulation} {i j : Nat} {a3 a1 : Application}
    (hwf : WF sim) (hsched : sim.scheduling = SchedulingCode.SRTF)
    (hnowrap : sim.processCounter + sim.applications.length < 4294967296)
    (hi : sim.applications[i]? = some a3) (h3 : a3.length = 3)
    (hj : sim.applications[j]? = some a1) (h1 : a1.length = 1)
    (hwave : sim.loaderWave = some s0) :
    Ahead (sim.processCounter + j) (sim.processCounter + i) s0 := by
  obtain ⟨sim1, hw1, hl, _⟩ := loaderWave_loaded sim [] sim
    (Loaded.base sim hwf.size_pos hwf.counter_le) (by simpa using hnowrap)
  rw [hwave] at hw1
  simp only [Option.some.injEq] at hw1
  subst hw1
  simp only [List.nil_append] at hl
  have hilt : i < sim.applications.length := (List.getElem?_eq_some.mp hi).1
  have hjlt : j < sim.applications.length := (List.getElem?_eq_some.mp hj).1
  have hij : j ≠ i := by
    intro h
    rw [h, hi] at hj
    simp only [Option.some.injEq] at hj
    rw [hj] at h3
    omega
  have hold : ∀ p, jobsOf p sim.jobs = [] ∨ p < sim.processCounter := by
    intro p
    by_cases hp : p < sim.processCounter
    · exact Or.inr hp
    · left
      apply jobsOf_eq_nil_of_forall
      intro job hjob
      have := hwf.jobs_lt job hjob
      omega
  have hjobs : ∀ k app, sim.applications[k]? = some app →
      jobsOf (sim.processCounter + k) s0.jobs =
        [{ pid := sim.processCounter + k, priority := loaderPriorityOf sim.scheduling app }] := by
    intro k app hk
    rw [hl.jobs, jobsOf_append, jobsOf_loaderJobs _ _ _ _ _ hk]
    rcases hold (sim.processCounter + k) with h | h
    · rw [h]; rfl
    · omega
  refine ⟨by rw [hl.sched]; exact hsched, by omega, by rw [hl.counter]; omega,
    by rw [hl.counter]; omega, hwf.loaded hl, Or.inr ?_⟩
  refine ⟨newPCB (sim.processCounter + j) a1, newPCB (sim.processCounter + i) a3,
    loaderPriorityOf sim.scheduling a1, loaderPriorityOf sim.scheduling a3,
    hl.new j a1 hj, by simp [newPCB, h1], hjobs j a1 hj, ?_, hl.new i a3 hi, by simp [newPCB, h3],
    hjobs i a3 hi, Or.inl ⟨rfl, ?_⟩⟩
  · rw [hsched]
    simp [loaderPriorityOf, countEvents_eq a1 (by omega), h1, toInt_small]
  · rw [hsched]
    simp [loaderPriorityOf, countEvents_eq a3 (by omega), h3, toInt_small]

/-- The order of the exits in scenario S2: in every run of an SRTF simulation, when a
loader wave admits an application of three events (process `p3`) and an application of
one event (process `p1`), in either order, then in every continuation of the run,
whatever the dispatch thread observes (in particular when no interrupt bit is set
during dispatch), every step after which `p3` is in state `EXIT` starts in a state in
which `p1` already is in state `EXIT`: the three-event process does not reach `EXIT`
before the one-event process has.  (Whether the one-event process reaches `EXIT` at
all is another matter, taken up in the last section.) -/
theorem srtf_shortest_first (config : Config) (apps : List Application) (maxMemoryBlocks : Nat)
    (hdd printer speaker : IOResourceSemaphore) (monitor keyboard mouse : IOResourceMutex)
    (sim s0 : Simulation) (i j : Nat) (a3 a1 : Application)
    (hreach : Steps (Simulation.initial SchedulingCode.SRTF config apps maxMemoryBlocks
      hdd printer speaker monitor keyboard mouse) sim)
    (hnowrap : sim.processCounter + apps.length < 4294967296)
    (hi : apps[i]? = some a3) (h3 : a3.length = 3)
    (hj : apps[j]? = some a1) (h1 : a1.length = 1)
    (hwave : sim.loaderWave = some s0) :
    ∀ s s', Steps s0 s → Step s s' →
      (s'.process? (sim.processCounter + i)).map (fun p => p.state) = some ProcessState.EXIT →
      (s.process? (sim.processCounter + j)).map (fun p => p.state) = some ProcessState.EXIT := by
  obtain ⟨hwf, hsched, happs⟩ := (WF.initial SchedulingCode.SRTF config apps maxMemoryBlocks
    hdd printer speaker monitor keyboard mouse).wf_steps hreach
  have happs' : sim.applications = apps := happs
  have h0 : Ahead (sim.processCounter + j) (sim.processCounter + i) s0 :=
    Ahead.admitted hwf hsched (by rw [happs']; exact hnowrap) (by rw [happs']; exact hi) h3
      (by rw [happs']; exact hj) h1 hwave
  intro s s' hs hstep hexit
  have hinv := h0.ahead_steps hs
  rcases hinv.cases with ⟨⟨pcb1, hp1, hexit1⟩, _⟩ | hpend
  · rw [hp1]; simp [hexit1]
  · obtain ⟨pcb3', hp3', hne⟩ := (hinv.ahead_step hstep).2 hpend
    rw [hp3'] at hexit
    simp only [Option.map_some', Option.some.injEq] at hexit
    exact absurd hexit hne

theorem eq_some_getD {α : Type} {o : Option α} (d : α) (h : o.isSome = true) :
    o = some (o.getD d) := by
  cases o with
  | none => simp at h
  | some a => rfl

/-- Example for `srtf_shortest_first`: scenario S2 with the three-event application
first.  The dispatch loop pops process 0 (priority 3, only set to `READY`), process 1
(priority 1, only set to `READY`), process 1 again (priority -1, runs and exits) and
then process 0 (priority -3, runs and exits). -/
theorem srtf_shortest_first_witness :
    (exampleSim .SRTF [app3, app1] 1 8).loaderWave = some (exampleLoaded .SRTF [app3, app1]) ∧
    ((s2Run [0, 0, 1, 0]).process? 0).map (fun p => p.state) = some ProcessState.EXIT ∧
    ((s2Run [0, 0, 1]).process? 0).map (fun p => p.state) = some ProcessState.READY ∧
    ((s2Run [0, 0, 1]).process? 1).map (fun p => p.state) = some ProcessState.EXIT :=
  ⟨eq_some_getD _ (by decide), by decide, by decide,
    srtf_shortest_first
      { processorCycleTime := 10, memoryCycleTime := 1, memoryBlockSize := 1 } [app3, app1] 8
      (IOResourceSemaphore.init 1 1) (IOResourceSemaphore.init 1 1) (IOResourceSemaphore.init 1 1)
      (IOResourceMutex.init 1) (IOResourceMutex.init 1) (IOResourceMutex.init 1)
      (exampleSim .SRTF [app3, app1] 1 8) (exampleLoaded .SRTF [app3, app1]) 0 1 app3 app1
      (Steps.refl _) (by decide) rfl rfl rfl rfl (eq_some_getD _ (by decide))
      (s2Run [0, 0, 1]) (s2Run [0, 0, 1, 0])
      (Steps.tail (Steps.tail (Steps.tail (Steps.refl _)
        (Step.dispatch 10 0 quietDispatch
          (eq_some_getD (exampleLoaded .SRTF [app3, app1]) (by decide))))
        (Step.dispatch 10 0 quietDispatch (eq_some_getD (s2Run [0]) (by decide))))
        (Step.dispatch 10 1 quietDispatch (eq_some_getD (s2Run [0, 0]) (by decide))))
      (Step.dispatch 10 0 quietDispatch (eq_some_getD (s2Run [0, 0, 1]) (by decide)))
      (by decide)⟩

/-! ## Metadata parser: the checks of `AddEvent` -/

/-- The table of the first `switch` of `AddEvent` is the whitelist of the
specification on the six event codes and throws on every other code. -/
theorem validDescriptors_whitelist (code : Char) :
    validDescriptors code =
      if code = 'S' ∨ code = 'A' ∨ code = 'P' ∨ code = 'I' ∨ code = 'O' ∨ code = 'M'
      then some (whitelist code) else none := by
  unfold validDescriptors whitelist
  split_ifs <;> simp_all

/-- Membership in the whitelist, code by code. -/
theorem mem_whitelist (code : Char) (d : String) :
    d ∈ whitelist code ↔
      ((code = 'S' ∨ code = 'A') ∧ (d = "start" ∨ d = "end")) ∨
      (code = 'P' ∧ d = "run") ∨
      (code = 'I' ∧ (d = "hard drive" ∨ d = "keyboard" ∨ d = "mouse")) ∨
      (code = 'O' ∧ (d = "hard drive" ∨ d = "monitor" ∨ d = "speaker" ∨ d = "printer")) ∨
      (code = 'M' ∧ (d = "block" ∨ d = "allocate")) := by
  unfold whitelist
  by_cases hS : code = 'S'
  · subst hS; simp
  by_cases hA : code = 'A'
  · subst hA; simp
  by_cases hP : code = 'P'
  · subst hP; simp
  by_cases hI : code = 'I'
  · subst hI; simp
  by_cases hO : code = 'O'
  · subst hO; simp
  by_cases hM : code = 'M'
  · subst hM; simp
  simp [hS, hA, hP, hI, hO, hM]

/-- C18: in every parser state `AddEvent` raises an error for an event whose code is
not one of `S, A, P, I, O, M` (unknown event code) or whose descriptor is not in the
whitelist of its code (invalid descriptor).  The error is the same in every parser
state: the state is not consulted before the check. -/
theorem addEvent_whitelist (code : Char) (descriptor : String) (cycles : Int)
    (h : descriptor ∉ whitelist code) :
    ∃ err : SimError,
      (∀ st : ParserState, st.AddEvent code descriptor cycles = .error err) ∧
      (err = if code = 'S' ∨ code = 'A' ∨ code = 'P' ∨ code = 'I' ∨ code = 'O' ∨ code = 'M'
        then SimError.invalidDescriptor else SimError.unknownEventCode) := by
  by_cases hc : code = 'S' ∨ code = 'A' ∨ code = 'P' ∨ code = 'I' ∨ code = 'O' ∨ code = 'M'
  · refine ⟨SimError.invalidDescriptor, ?_, by rw [if_pos hc]⟩
    intro st
    unfold ParserState.AddEvent
    rw [validDescriptors_whitelist, if_pos hc]
    simp only [if_pos h]
  · refine ⟨SimError.unknownEventCode, ?_, by rw [if_neg hc]⟩
    intro st
    unfold ParserState.AddEvent
    rw [validDescriptors_whitelist, if_neg hc]

/-- C18 at concrete events: `X(start)` has an unknown code, `P(start)` and `I(monitor)`
have a descriptor outside the whitelist of their code. -/
theorem addEvent_whitelist_witness :
    ("start" ∉ whitelist 'X' ∧ "start" ∉ whitelist 'P' ∧ "monitor" ∉ whitelist 'I') ∧
    (∃ err : SimError,
      (∀ st : ParserState, st.AddEvent 'I' "monitor" 5 = .error err) ∧
      (err = if 'I' = 'S' ∨ 'I' = 'A' ∨ 'I' = 'P' ∨ 'I' = 'I' ∨ 'I' = 'O' ∨ 'I' = 'M'
        then SimError.invalidDescriptor else SimError.unknownEventCode)) :=
  ⟨by decide, addEvent_whitelist 'I' "monitor" 5 (by decide)⟩

/-- C13: for every parser state and every whitelisted event with `cycles ≥ 0`,
`AddEvent` raises an error exactly when the event is `A(start)` while an application
is open, an `A` event while the OS is not running, `A(end)` with no open application,
a `P`, `I`, `O` or `M` event with no open application, `S(start)` while the OS is
running, or `S(end)` while it is stopped; in every other case it accepts the event. -/
theorem addEvent_rejects_misplaced (st : ParserState) (code : Char) (descriptor : String)
    (cycles : Int) (hw : descriptor ∈ whitelist code) (hc : 0 ≤ cycles) :
    (∃ err, st.AddEvent code descriptor cycles = .error err) ↔
      (code = 'A' ∧ descriptor = "start" ∧ st.currentApplication ≠ none) ∨
      (code = 'A' ∧ st.osRunning = false) ∨
      (code = 'A' ∧ descriptor = "end" ∧ st.currentApplication = none) ∨
      ((code = 'P' ∨ code = 'I' ∨ code = 'O' ∨ code = 'M') ∧ st.currentApplication = none) ∨
      (code = 'S' ∧ descriptor = "start" ∧ st.osRunning = true) ∨
      (code = 'S' ∧ descriptor = "end" ∧ st.osRunning = false) := by
  have hv : ¬ cycles < 0 := not_lt.mpr hc
  obtain ⟨running, current, apps⟩ := st
  rcases (mem_whitelist code descriptor).mp hw with
    ⟨hS | hA, hd | hd⟩ | ⟨hP, hd⟩ | ⟨hI, hd | hd | hd⟩ | ⟨hO, hd | hd | hd | hd⟩ |
    ⟨hM, hd | hd⟩ <;>
  subst_vars <;>
  cases running <;> cases current <;>
  simp [ParserState.AddEvent, validDescriptors, hv]

/-- C13 at a concrete input (scenario S6): with the OS running and an application
open, `A(start)0` is rejected as an application within an application. -/
theorem addEvent_rejects_misplaced_witness :
    ("start" ∈ whitelist 'A' ∧ (0 : Int) ≤ 0) ∧
    ((∃ err, ParserState.AddEvent
        { osRunning := true, currentApplication := some [], applications := [] }
        'A' "start" 0 = .error err) ↔
      ('A' = 'A' ∧ "start" = "start" ∧ (some [] : Option Application) ≠ none) ∨
      ('A' = 'A' ∧ true = false) ∨
      ('A' = 'A' ∧ "start" = "end" ∧ (some [] : Option Application) = none) ∨
      (('A' = 'P' ∨ 'A' = 'I' ∨ 'A' = 'O' ∨ 'A' = 'M') ∧
        (some [] : Option Application) = none) ∨
      ('A' = 'S' ∧ "start" = "start" ∧ true = true) ∨
      ('A' = 'S' ∧ "start" = "end" ∧ true = false)) ∧
    ParserState.AddEvent
        { osRunning := true, currentApplication := some [], applications := [] }
        'A' "start" 0 = .error .applicationWithinApplication :=
  ⟨⟨by decide, by decide⟩,
    addEvent_rejects_misplaced
      { osRunning := true, currentApplication := some [], applications := [] }
      'A' "start" 0 (by decide) (by decide),
    by decide⟩

/-! ## Metadata parser: accepted event sequences -/

/-- What `AddEvent` has done when it returns without an error. -/
theorem addEvent_ok {st st' : ParserState} {code : Char} {d : String} {n : Int}
    (h : st.AddEvent code d n = .ok st') :
    (code = 'S' ∧ d = "start" ∧ st.osRunning = false ∧ st' = { st with osRunning := true }) ∨
    (code = 'S' ∧ d = "end" ∧ st.osRunning = true ∧ st' = { st with osRunning := false }) ∨
    (code = 'A' ∧ d = "start" ∧ st.osRunning = true ∧ st.currentApplication = none ∧
      st' = { st with currentApplication := some [] }) ∨
    (code = 'A' ∧ d = "end" ∧ st.osRunning = true ∧ ∃ app, st.currentApplication = some app ∧
      st' = { st with applications := st.applications ++ [app], currentApplication := none }) ∨
    ((code = 'P' ∨ code = 'I' ∨ code = 'O' ∨ code = 'M') ∧ ∃ app,
      st.currentApplication = some app ∧
      st' = { st with
        currentApplication := some (app ++ [{ code := code, descriptor := d, cycles := n }]) }) := by
  by_cases hw : d ∈ whitelist code
  · obtain ⟨running, current, apps⟩ := st
    rcases (mem_whitelist code d).mp hw with
      ⟨hS | hA, hd | hd⟩ | ⟨hP, hd⟩ | ⟨hI, hd | hd | hd⟩ | ⟨hO, hd | hd | hd | hd⟩ |
      ⟨hM, hd | hd⟩ <;>
    subst_vars <;>
    cases running <;> cases current <;>
    simp [ParserState.AddEvent, validDescriptors] at h <;>
    (try split at h) <;>
    simp_all
  · exfalso
    unfold ParserState.AddEvent at h
    rw [validDescriptors_whitelist] at h
    by_cases hc : code = 'S' ∨ code = 'A' ∨ code = 'P' ∨ code = 'I' ∨ code = 'O' ∨ code = 'M'
    · rw [if_pos hc] at h
      simp only [if_pos hw] at h
      cases h
    · rw [if_neg hc] at h
      cases h

/-- One iteration of the loop of `ReadMetaData` on a matching token. -/
theorem addTokens_cons_ok {st st' : ParserState} {e : SimEvent} {rest : List (Option SimEvent)}
    (h : st.addTokens (some e :: rest) = .ok st') :
    ∃ st1, st.AddEvent e.code e.descriptor e.cycles = .ok st1 ∧ st1.addTokens rest = .ok st' := by
  unfold ParserState.addTokens at h
  split at h
  · cases h
  · exact ⟨_, by assumption, h⟩

/-- The loop of `ReadMetaData` on a concatenation runs the first part, then the
second. -/
theorem addTokens_append (l1 l2 : List (Option SimEvent)) :
    ∀ (st st' : ParserState), st.addTokens (l1 ++ l2) = .ok st' →
      ∃ st1, st.addTokens l1 = .ok st1 ∧ st1.addTokens l2 = .ok st' := by
  induction l1 with
  | nil => intro st st' h; exact ⟨st, rfl, h⟩
  | cons t rest ih =>
    intro st st' h
    cases t with
    | none => simp [ParserState.addTokens] at h
    | some e =>
      obtain ⟨st1, h1, h2⟩ := addTokens_cons_ok h
      obtain ⟨st2, h3, h4⟩ := ih st1 st' h2
      refine ⟨st2, ?_, h4⟩
      simp only [ParserState.addTokens, h1, h3]

/-- Unfolding of `openAfter` on a non-empty sequence. -/
theorem openAfter_cons (code : Char) (isOpen : Bool) (e : SimEvent) (rest : List SimEvent) :
    openAfter code isOpen (e :: rest) =
      openAfter code (if e.code = code then decide (e.descriptor = "start") else isOpen) rest :=
  rfl

/-- Unfolding of `countMarker` on a non-empty sequence. -/
theorem countMarker_cons (code : Char) (d : String) (e : SimEvent) (rest : List SimEvent) :
    countMarker code d (e :: rest) =
      (if e.code = code ∧ e.descriptor = d then 1 else 0) + countMarker code d rest := by
  unfold countMarker
  by_cases h : e.code = code ∧ e.descriptor = d
  · simp [List.filter_cons, SimEvent.isMarker, h, Nat.add_comm]
  · have h2 : ¬ (e.code = code ∧ e.descriptor = d) := h
    simp only [List.filter_cons, SimEvent.isMarker, if_neg h]
    rw [not_and] at h2
    by_cases hc : e.code = code
    · simp [hc, h2 hc]
    · simp [hc]

/-- After the loop of `ReadMetaData` has added every event, `osRunning` and
`currentApplication` say whether the last `S` marker, respectively the last `A`
marker, was a `start`. -/
theorem addTokens_open (events : List SimEvent) :
    ∀ (st st' : ParserState), st.addTokens (events.map some) = .ok st' →
      st'.osRunning = openAfter 'S' st.osRunning events ∧
      st'.currentApplication.isSome =
        openAfter 'A' st.currentApplication.isSome events := by
  induction events with
  | nil =>
    intro st st' h
    simp only [List.map_nil, ParserState.addTokens, Except.ok.injEq] at h
    subst h
    exact ⟨rfl, rfl⟩
  | cons e rest ih =>
    intro st st' h
    obtain ⟨st1, h1, h2⟩ := addTokens_cons_ok h
    obtain ⟨ih1, ih2⟩ := ih st1 st' h2
    rw [ih1, ih2, openAfter_cons, openAfter_cons]
    rcases addEvent_ok h1 with ⟨hc, hd, hr, rfl⟩ | ⟨hc, hd, hr, rfl⟩ |
      ⟨hc, hd, hr, ha, rfl⟩ | ⟨hc, hd, hr, app, ha, rfl⟩ | ⟨hc, app, ha, rfl⟩
    · simp [hc, hd]
    · simp [hc, hd]
    · simp [hc, hd, hr]
    · simp [hc, hd, hr]
    · rcases hc with hc | hc | hc | hc <;> simp [hc, ha]

/-- The `S` markers of an added event sequence alternate: the number of `S(start)`
exceeds the number of `S(end)` by one when the OS is running afterwards and was not
before. -/
theorem addTokens_count_os (events : List SimEvent) :
    ∀ (st st' : ParserState), st.addTokens (events.map some) = .ok st' →
      countMarker 'S' "start" events + (if st.osRunning then 1 else 0) =
        countMarker 'S' "end" events + (if st'.osRunning then 1 else 0) := by
  induction events with
  | nil =>
    intro st st' h
    simp only [List.map_nil, ParserState.addTokens, Except.ok.injEq] at h
    subst h
    rfl
  | cons e rest ih =>
    intro st st' h
    obtain ⟨st1, h1, h2⟩ := addTokens_cons_ok h
    have ih1 := ih st1 st' h2
    rw [countMarker_cons, countMarker_cons]
    rcases addEvent_ok h1 with ⟨hc, hd, hr, rfl⟩ | ⟨hc, hd, hr, rfl⟩ |
      ⟨hc, hd, hr, ha, rfl⟩ | ⟨hc, hd, hr, app, ha, rfl⟩ | ⟨hc, app, ha, rfl⟩
    · simp [hc, hd, hr] at ih1 ⊢; omega
    · simp [hc, hd, hr] at ih1 ⊢; omega
    · simp [hc, hd, hr] at ih1 ⊢; omega
    · simp [hc, hd, hr] at ih1 ⊢; omega
    · rcases hc with hc | hc | hc | hc <;> simp [hc] at ih1 ⊢ <;> omega

/-- The `A` markers of an added event sequence alternate, and every accepted `A(end)`
appends one application. -/
theorem addTokens_count_app (events : List SimEvent) :
    ∀ (st st' : ParserState), st.addTokens (events.map some) = .ok st' →
      countMarker 'A' "start" events + (if st.currentApplication.isSome then 1 else 0) =
        countMarker 'A' "end" events + (if st'.currentApplication.isSome then 1 else 0) ∧
      st'.applications.length = st.applications.length + countMarker 'A' "end" events := by
  induction events with
  | nil =>
    intro st st' h
    simp only [List.map_nil, ParserState.addTokens, Except.ok.injEq] at h
    subst h
    exact ⟨rfl, rfl⟩
  | cons e rest ih =>
    intro st st' h
    obtain ⟨st1, h1, h2⟩ := addTokens_cons_ok h
    obtain ⟨ih1, ih2⟩ := ih st1 st' h2
    rw [countMarker_cons, countMarker_cons]
    rcases addEvent_ok h1 with ⟨hc, hd, hr, rfl⟩ | ⟨hc, hd, hr, rfl⟩ |
      ⟨hc, hd, hr, ha, rfl⟩ | ⟨hc, hd, hr, app, ha, rfl⟩ | ⟨hc, app, ha, rfl⟩
    · simp [hc, hd] at ih1 ih2 ⊢; omega
    · simp [hc, hd] at ih1 ih2 ⊢; omega
    · simp [hc, hd, ha] at ih1 ih2 ⊢; omega
    · simp [hc, hd, ha] at ih1 ih2 ⊢; omega
    · rcases hc with hc | hc | hc | hc <;> simp [hc, ha] at ih1 ih2 ⊢ <;> omega

/-- The applications stored by the loop of `ReadMetaData` are the application spans of
the event sequence. -/
theorem addTokens_applications (events : List SimEvent) :
    ∀ (st st' : ParserState), st.addTokens (events.map some) = .ok st' →
      st'.applications = st.applications ++ applicationSpans st.currentApplication events := by
  induction events with
  | nil =>
    intro st st' h
    simp only [List.map_nil, ParserState.addTokens, Except.ok.injEq] at h
    subst h
    simp [applicationSpans]
  | cons e rest ih =>
    intro st st' h
    obtain ⟨st1, h1, h2⟩ := addTokens_cons_ok h
    have ih1 := ih st1 st' h2
    rw [ih1]
    obtain ⟨code, d, n⟩ := e
    rcases addEvent_ok h1 with ⟨hc, hd, hr, rfl⟩ | ⟨hc, hd, hr, rfl⟩ |
      ⟨hc, hd, hr, ha, rfl⟩ | ⟨hc, hd, hr, app, ha, rfl⟩ | ⟨hc, app, ha, rfl⟩
    · simp only at hc hd; subst hc hd
      cases hcur : st.currentApplication <;>
        simp [applicationSpans, SimEvent.isMarker, SimEvent.isWork]
    · simp only at hc hd; subst hc hd
      cases hcur : st.currentApplication <;>
        simp [applicationSpans, SimEvent.isMarker, SimEvent.isWork]
    · simp only at hc hd; subst hc hd
      simp [applicationSpans, SimEvent.isMarker, ha]
    · simp only at hc hd; subst hc hd
      simp [applicationSpans, SimEvent.isMarker, ha]
    · simp only at hc
      rcases hc with hc | hc | hc | hc <;> subst hc <;>
        simp [applicationSpans, SimEvent.isMarker, SimEvent.isWork, ha]

/-- Every application span holds `P`, `I`, `O` and `M` events only. -/
theorem applicationSpans_work (events : List SimEvent) :
    ∀ current : Option Application,
      (∀ body, current = some body → ∀ e ∈ body, e.isWork = true) →
      ∀ app ∈ applicationSpans current events, ∀ e ∈ app, e.isWork = true := by
  induction events with
  | nil => intro current _ app happ; simp [applicationSpans] at happ
  | cons e rest ih =>
    intro current hcur app happ
    cases current with
    | none =>
      unfold applicationSpans at happ
      split at happ
      · exact ih (some []) (by intro body hb; cases hb; simp) app happ
      · exact ih none (by intro body hb; cases hb) app happ
    | some body =>
      unfold applicationSpans at happ
      split at happ
      · rcases List.mem_cons.mp happ with rfl | happ
        · exact hcur _ rfl
        · exact ih none (by intro body hb; cases hb) app happ
      · split at happ
        · rename_i hwork
          refine ih (some (body ++ [e])) ?_ app happ
          intro b hb x hx
          cases hb
          rcases List.mem_append.mp hx with hx | hx
          · exact hcur _ rfl x hx
          · rw [List.mem_singleton.mp hx]; exact hwork
        · exact ih (some body) hcur app happ

/-- What `ReadMetaData` has done when it returns without an error. -/
theorem readMetaData_ok {apps0 : List Application} {tokens : List (Option SimEvent)}
    {st : ParserState} (h : ReadMetaData apps0 tokens = .ok st) :
    ParserState.addTokens
      { osRunning := false, currentApplication := none, applications := apps0 } tokens = .ok st ∧
    st.currentApplication = none ∧ st.osRunning = false := by
  unfold ReadMetaData at h
  split at h
  · cases h
  · rename_i st1 h1
    split at h
    · cases h
    · split at h
      · cases h
      · rename_i hcur hrun
        simp only [Except.ok.injEq] at h
        subst h
        refine ⟨h1, ?_, ?_⟩
        · cases hc : st1.currentApplication with
          | none => rfl
          | some a => rw [hc] at hcur; simp at hcur
        · simpa using hrun

/-! ## C14: unterminated spans -/

/-- C14: for every event sequence in which an application is left open (the last `A`
marker is `A(start)`) or the OS is left running (the last `S` marker is `S(start)`),
`ReadMetaData` raises an error; when every event could be added, the error is the one
of the final checks: the missing end of the last process when an application is
open, the missing end of the OS otherwise. -/
theorem readMetaData_unterminated (apps0 : List Application) (events : List SimEvent)
    (h : openAtEnd 'A' events = true ∨ openAtEnd 'S' events = true) :
    ∃ err, ReadMetaData apps0 (events.map some) = .error err ∧
      ∀ st, ParserState.addTokens
          { osRunning := false, currentApplication := none, applications := apps0 }
          (events.map some) = .ok st →
        err = if openAtEnd 'A' events = true then SimError.missingEndOfProcess
          else SimError.missingEndOfOS := by
  unfold ReadMetaData
  cases hadd : ParserState.addTokens
      { osRunning := false, currentApplication := none, applications := apps0 }
      (events.map some) with
  | error err => exact ⟨err, rfl, fun st hst => by cases hst⟩
  | ok st =>
    obtain ⟨hS, hA⟩ := addTokens_open events _ _ hadd
    simp only [Option.isSome_none] at hA
    change st.osRunning = openAtEnd 'S' events at hS
    change st.currentApplication.isSome = openAtEnd 'A' events at hA
    simp only
    by_cases hopen : openAtEnd 'A' events = true
    · refine ⟨SimError.missingEndOfProcess, ?_, fun _ _ => by rw [if_pos hopen]⟩
      rw [if_pos (hA.trans hopen)]
    · have hrun : openAtEnd 'S' events = true := h.resolve_left hopen
      refine ⟨SimError.missingEndOfOS, ?_, fun _ _ => by rw [if_neg hopen]⟩
      have hA2 : ¬ st.currentApplication.isSome = true := by rw [hA]; exact hopen
      rw [if_neg hA2, if_pos (hS.trans hrun)]

/-- C14 at concrete inputs: the stream `S(start)0; A(start)0; P(run)1` leaves an
application open and the stream `S(start)0` leaves the OS running; both are
rejected. -/
theorem readMetaData_unterminated_witness :
    (openAtEnd 'A' [evS "start", evA "start", evP 1] = true ∨
      openAtEnd 'S' [evS "start", evA "start", evP 1] = true) ∧
    (∃ err, ReadMetaData [] ([evS "start", evA "start", evP 1].map some) = .error err ∧
      ∀ st, ParserState.addTokens
          { osRunning := false, currentApplication := none, applications := [] }
          ([evS "start", evA "start", evP 1].map some) = .ok st →
        err = if openAtEnd 'A' [evS "start", evA "start", evP 1] = true
          then SimError.missingEndOfProcess else SimError.missingEndOfOS) ∧
    ReadMetaData [] ([evS "start", evA "start", evP 1].map some) =
      .error .missingEndOfProcess ∧
    ReadMetaData [] ([evS "start"].map some) = .error .missingEndOfOS :=
  ⟨Or.inl (by decide),
    readMetaData_unterminated [] [evS "start", evA "start", evP 1] (Or.inl (by decide)),
    by decide, by decide⟩

/-! ## C15: the OS spans of an accepted stream -/

/-- C15 (as stated, refuted): the stream `S(start)0; S(end)0; S(start)0; S(end)0` is
accepted by `ReadMetaData` and holds two `S(start)` and two `S(end)` markers, not
one of each. -/
theorem two_os_spans_counterexample :
    ReadMetaData [] (eventsTwoSpans.map some) =
      .ok { osRunning := false, currentApplication := none, applications := [] } ∧
    countMarker 'S' "start" eventsTwoSpans = 2 ∧
    countMarker 'S' "end" eventsTwoSpans = 2 ∧
    ¬ (countMarker 'S' "start" eventsTwoSpans = 1 ∧ countMarker 'S' "end" eventsTwoSpans = 1) := by
  decide

/-- C15 (amended): every non-empty event sequence accepted by `ReadMetaData` holds at
least one `S(start)` and exactly as many `S(end)` as `S(start)`; the OS spans follow
one another without nesting: in every initial part of the sequence the number of
`S(start)` is the number of `S(end)` or one more. -/
theorem readMetaData_os_spans (apps0 : List Application) (events : List SimEvent)
    (st : ParserState) (hne : events ≠ [])
    (h : ReadMetaData apps0 (events.map some) = .ok st) :
    1 ≤ countMarker 'S' "start" events ∧
    countMarker 'S' "end" events = countMarker 'S' "start" events ∧
    ∀ k, countMarker 'S' "end" (events.take k) ≤ countMarker 'S' "start" (events.take k) ∧
      countMarker 'S' "start" (events.take k) ≤ countMarker 'S' "end" (events.take k) + 1 := by
  obtain ⟨hadd, _, hrun⟩ := readMetaData_ok h
  have hcount := addTokens_count_os events _ _ hadd
  simp only [hrun] at hcount
  refine ⟨?_, by simpa using hcount.symm, ?_⟩
  · cases events with
    | nil => exact absurd rfl hne
    | cons e rest =>
      obtain ⟨st1, h1, _⟩ := addTokens_cons_ok hadd
      rw [countMarker_cons]
      rcases addEvent_ok h1 with ⟨hc, hd, _, _⟩ | ⟨_, _, hr, _⟩ |
        ⟨_, _, hr, _⟩ | ⟨_, _, hr, _⟩ | ⟨_, app, ha, _⟩
      · simp [hc, hd]
      · cases hr
      · cases hr
      · cases hr
      · cases ha
  · intro k
    have hsplit : (events.take k ++ events.drop k).map some = events.map some := by
      rw [List.take_append_drop]
    rw [List.map_append] at hsplit
    rw [← hsplit] at hadd
    obtain ⟨st1, h1, _⟩ := addTokens_append _ _ _ _ hadd
    have hk := addTokens_count_os (events.take k) _ _ h1
    simp only at hk
    cases hr : st1.osRunning <;> simp [hr] at hk <;> omega

/-- C15 (amended) at concrete inputs: the stream of scenario S1 and the stream with
two OS spans. -/
theorem readMetaData_os_spans_witness :
    (eventsTwoSpans ≠ [] ∧
      ReadMetaData [] (eventsTwoSpans.map some) =
        .ok { osRunning := false, currentApplication := none, applications := [] }) ∧
    (1 ≤ countMarker 'S' "start" eventsTwoSpans ∧
      countMarker 'S' "end" eventsTwoSpans = countMarker 'S' "start" eventsTwoSpans ∧
      ∀ k, countMarker 'S' "end" (eventsTwoSpans.take k) ≤
          countMarker 'S' "start" (eventsTwoSpans.take k) ∧
        countMarker 'S' "start" (eventsTwoSpans.take k) ≤
          countMarker 'S' "end" (eventsTwoSpans.take k) + 1) :=
  ⟨⟨by decide, by decide⟩,
    readMetaData_os_spans [] eventsTwoSpans
      { osRunning := false, currentApplication := none, applications := [] }
      (by decide) (by decide)⟩

/-! ## C16: applications and the OS span -/

/-- C16 (the code at the failing input): the stream
`S(start)0; A(start)0; S(end)0; P(run)1; S(start)0; A(end)0; S(end)0` is accepted.
After its first three events the OS is stopped while the application is open; the
event `P(run)1` is then stored in the application although the OS is not running, and
the application `[P(run)1]` is delivered. -/
theorem application_outside_os_span :
    ReadMetaData [] (eventsRestart.map some) =
      .ok { osRunning := false, currentApplication := none, applications := [[evP 1]] } ∧
    ParserState.addTokens
        { osRunning := false, currentApplication := none, applications := [] }
        ((eventsRestart.take 3).map some) =
      .ok { osRunning := false, currentApplication := some [], applications := [] } ∧
    ParserState.AddEvent
        { osRunning := false, currentApplication := some [], applications := [] }
        'P' "run" 1 =
      .ok { osRunning := false, currentApplication := some [evP 1], applications := [] } := by
  decide

/-! ## C17: the applications delivered by the parser -/

/-- C17: for every event sequence accepted by `ReadMetaData`, the applications list
is extended by the application spans of the sequence: one entry per `A(start)` …
`A(end)` pair, in stream order, each entry the `P`, `I`, `O` and `M` events read
between the two markers, unchanged and in stream order.  There are as many entries as
`A(start)` markers and as `A(end)` markers, and no entry holds an `S` or `A` event. -/
theorem readMetaData_applications (apps0 : List Application) (events : List SimEvent)
    (st : ParserState) (h : ReadMetaData apps0 (events.map some) = .ok st) :
    st.applications = apps0 ++ applicationSpans none events ∧
    (applicationSpans none events).length = countMarker 'A' "start" events ∧
    (applicationSpans none events).length = countMarker 'A' "end" events ∧
    ∀ app ∈ applicationSpans none events, ∀ e ∈ app,
      e.code = 'P' ∨ e.code = 'I' ∨ e.code = 'O' ∨ e.code = 'M' := by
  obtain ⟨hadd, hcur, _⟩ := readMetaData_ok h
  have happs := addTokens_applications events _ _ hadd
  obtain ⟨hcount, hlen⟩ := addTokens_count_app events _ _ hadd
  simp only at happs hlen
  simp only [hcur, Option.isSome_none] at hcount
  have hl : (applicationSpans none events).length = countMarker 'A' "end" events := by
    rw [happs, List.length_append] at hlen
    omega
  refine ⟨happs, ?_, hl, ?_⟩
  · rw [hl]; simpa using hcount.symm
  · intro app happ e he
    have hw := applicationSpans_work events none (by intro body hb; cases hb) app happ e he
    simpa [SimEvent.isWork, or_assoc] using hw

/-- C17 at a concrete input: the stream of scenario S1 delivers the one application
`P(run)2; M(allocate)1`. -/
theorem readMetaData_applications_witness :
    ReadMetaData [] (eventsS1.map some) =
      .ok { osRunning := false, currentApplication := none, applications := [appS1] } ∧
    ([appS1] = [] ++ applicationSpans none eventsS1 ∧
      (applicationSpans none eventsS1).length = countMarker 'A' "start" eventsS1 ∧
      (applicationSpans none eventsS1).length = countMarker 'A' "end" eventsS1 ∧
      ∀ app ∈ applicationSpans none eventsS1, ∀ e ∈ app,
        e.code = 'P' ∨ e.code = 'I' ∨ e.code = 'O' ∨ e.code = 'M') :=
  ⟨by decide,
    readMetaData_applications [] eventsS1
      { osRunning := false, currentApplication := none, applications := [appS1] }
      (by decide)⟩

/-! ## C11: side effects of memory events -/

/-- Writing a log line leaves the allocator counter as it is. -/
theorem Log_memoryBlockCounter (sim : Simulation) (line : LogLine) :
    (sim.Log line).memoryBlockCounter = sim.memoryBlockCounter := rfl

/-- Writing a process control block leaves the allocator counter as it is. -/
theorem setProcess_memoryBlockCounter (sim : Simulation) (pid : Nat) (pcb : PCB) :
    (sim.setProcess pid pcb).memoryBlockCounter = sim.memoryBlockCounter := rfl

/-- The interruptible wait leaves the allocator counter as it is. -/
theorem doProcWork_memoryBlockCounter (sim : Simulation) (ms : Int) (poll : Nat → Nat) :
    (sim.doProcWork ms poll).2.memoryBlockCounter = sim.memoryBlockCounter := rfl

/-- A `handleMem` call on an event `M(block)` leaves the allocator counter as it is. -/
theorem handleMem_block_counter {sim sim' : Simulation} {pid : Nat} {event : SimEvent}
    {obs : Observation} (hd : event.descriptor = "block")
    (h : sim.handleMem pid event obs = some sim') :
    sim'.memoryBlockCounter = sim.memoryBlockCounter := by
  have hna : ("block" = "allocate") = False := eq_false (by decide)
  unfold Simulation.handleMem at h
  split at h
  · cases h
  · rename_i process hp
    simp only [hd, hna, if_false, if_true] at h
    cases hip : process.eventInProgress <;> simp only [hip, Bool.false_eq_true, if_false,
      if_true] at h <;>
    split at h <;> simp only [Option.some.injEq] at h <;> subst h <;>
    simp only [setProcess_memoryBlockCounter, Log_memoryBlockCounter] <;>
    split <;>
    simp only [Log_memoryBlockCounter, doProcWork_memoryBlockCounter]

/-- When the two reads of the interrupt word that follow the wait of `handleMem`
disagree (zero, then non-zero), a call on `M(allocate)` calls the allocator, logs the
address, and leaves the event at the head of the queue, marked as in progress. -/
theorem handleMem_allocate_race {sim : Simulation} {pid : Nat} {process : PCB}
    {event : SimEvent} {obs : Observation} (hp : sim.process? pid = some process)
    (hd : event.descriptor = "allocate") (h0 : obs.afterWork = 0) (h1 : obs.atEnd ≠ 0) :
    ∃ sim', sim.handleMem pid event obs = some sim' ∧
      sim'.memoryBlockCounter = (sim.allocateMemory 1).2.memoryBlockCounter ∧
      (∃ p, sim'.process? pid = some p ∧ p.eventQueue = process.eventQueue ∧
        p.eventInProgress = true) ∧
      allocatedLines sim'.log =
        allocatedLines sim.log ++ [.allocated pid (sim.allocateMemory 1).1] := by
  have hlt : pid < sim.processes.size := process?_lt_size sim pid process hp
  unfold Simulation.handleMem
  rw [hp]
  simp only [hd, h0, h1, if_true, ne_eq, not_false_eq_true]
  cases hip : process.eventInProgress <;>
  simp only [Bool.false_eq_true, if_false, if_true] <;>
  refine ⟨_, rfl, rfl, ⟨_, process?_setProcess_self _ _ _ (by exact hlt), rfl, rfl⟩, ?_⟩ <;>
  simp [allocatedLines, Simulation.setProcess, Simulation.Log, Simulation.doProcWork,
    Simulation.allocateMemory, Simulation.requiredBlocks, List.filter_append]

/-- C11 (the code at the failing input): process 0 is `RUNNING` with the single event
`M(allocate)1` at the head of its queue.  In a first `handleMem` call the quantum bit
becomes set between the two reads of the interrupt word that follow the wait: the
allocator is called (counter 1, address `0` logged) although the call leaves the
event at the head, in progress.  The call that resumes the event, with no interrupt,
calls the allocator again (counter 2, address `1` logged) and pops the event: two
allocator calls for one event. -/
theorem handleMem_allocates_twice :
    ((exampleRunning .RR appAllocate).handleMem 0
        { code := 'M', descriptor := "allocate", cycles := 1 } raceObservation).map
      (fun s => (s.memoryBlockCounter, allocatedLines s.log)) =
      some (1, [.allocated 0 0]) ∧
    ((exampleRunning .RR appAllocate).handleMem 0
        { code := 'M', descriptor := "allocate", cycles := 1 } raceObservation).map
      (fun s => (s.process? 0).map (fun p => (p.eventQueue, p.eventInProgress))) =
      some (some (appAllocate, true)) ∧
    (((exampleRunning .RR appAllocate).handleMem 0
        { code := 'M', descriptor := "allocate", cycles := 1 } raceObservation).bind
      (fun s => s.handleMem 0
        { code := 'M', descriptor := "allocate", cycles := 1 } quietObservation)).map
      (fun s => (s.memoryBlockCounter, allocatedLines s.log)) =
      some (2, [.allocated 0 0, .allocated 0 1]) ∧
    (((exampleRunning .RR appAllocate).handleMem 0
        { code := 'M', descriptor := "allocate", cycles := 1 } raceObservation).bind
      (fun s => s.handleMem 0
        { code := 'M', descriptor := "allocate", cycles := 1 } quietObservation)).map
      (fun s => (s.process? 0).map (fun p => (p.eventQueue, p.eventInProgress))) =
      some (some ([], false)) :=
  ⟨by decide, by decide, by decide, by decide⟩

/-! ## C12: device bounds -/

/-- C12 (the code at the failing input): with one printer configured, two `run` calls
on the printer for processes 0 and 1, the second made before the worker of the first
has ended, both return true, because `run` posts the semaphore before it returns: two
printer workers are in flight for a quantity of one.  Two `run` calls on the
keyboard likewise put two workers in flight on an exclusive device.  The same state
of the printer is reached by the dispatch loop: two processes with the application
`O(printer)1`, loaded in one wave and dispatched with no interrupt, are both
`WAITING` on the one printer. -/
theorem device_bound_exceeded :
    (ResourceSteps (exampleSim .RR [] 1 8)
        (runCalls (exampleSim .RR [] 1 8) [(.resPrinter, 0), (.resPrinter, 1)]) ∧
      (Resource.resPrinter.run (exampleSim .RR [] 1 8) 1 .OUTPUT 0).1 = true ∧
      (Resource.resPrinter.run
        (runCalls (exampleSim .RR [] 1 8) [(.resPrinter, 0)]) 1 .OUTPUT 1).1 = true ∧
      (runCalls (exampleSim .RR [] 1 8) [(.resPrinter, 0), (.resPrinter, 1)]).quantity
        .resPrinter = 1 ∧
      (runCalls (exampleSim .RR [] 1 8) [(.resPrinter, 0), (.resPrinter, 1)]).inFlight
        .resPrinter = 2) ∧
    (ResourceSteps (exampleSim .RR [] 1 8)
        (runCalls (exampleSim .RR [] 1 8) [(.resKeyboard, 0), (.resKeyboard, 1)]) ∧
      (runCalls (exampleSim .RR [] 1 8) [(.resKeyboard, 0), (.resKeyboard, 1)]).inFlight
        .resKeyboard = 2) ∧
    (Steps (exampleSim .RR [appPrinter, appPrinter] 1 8)
        (quietRun (exampleLoaded .RR [appPrinter, appPrinter]) [0, 0, 0, 0]) ∧
      (quietRun (exampleLoaded .RR [appPrinter, appPrinter]) [0, 0, 0, 0]).quantity
        .resPrinter = 1 ∧
      (quietRun (exampleLoaded .RR [appPrinter, appPrinter]) [0, 0, 0, 0]).inFlight
        .resPrinter = 2 ∧
      ((quietRun (exampleLoaded .RR [appPrinter, appPrinter]) [0, 0, 0, 0]).process? 0).map
        (fun p => p.state) = some ProcessState.WAITING ∧
      ((quietRun (exampleLoaded .RR [appPrinter, appPrinter]) [0, 0, 0, 0]).process? 1).map
        (fun p => p.state) = some ProcessState.WAITING) :=
  ⟨⟨ResourceSteps.tail (ResourceSteps.tail (ResourceSteps.refl _)
        (ResourceStep.run .resPrinter 1 .OUTPUT 0 _))
        (ResourceStep.run .resPrinter 1 .OUTPUT 1 _),
      by decide, by decide, by decide, by decide⟩,
    ⟨ResourceSteps.tail (ResourceSteps.tail (ResourceSteps.refl _)
        (ResourceStep.run .resKeyboard 1 .OUTPUT 0 _))
        (ResourceStep.run .resKeyboard 1 .OUTPUT 1 _),
      by decide⟩,
    ⟨Steps.tail (Steps.tail (Steps.tail (Steps.tail (Steps.tail (Steps.refl _)
        (Step.load (by decide)
          (eq_some_getD (exampleSim .RR [appPrinter, appPrinter] 1 8) (by decide))))
        (Step.dispatch 10 0 quietDispatch
          (eq_some_getD (exampleLoaded .RR [appPrinter, appPrinter]) (by decide))))
        (Step.dispatch 10 0 quietDispatch
          (eq_some_getD (quietRun (exampleLoaded .RR [appPrinter, appPrinter]) [0])
            (by decide))))
        (Step.dispatch 10 0 quietDispatch
          (eq_some_getD (quietRun (exampleLoaded .RR [appPrinter, appPrinter]) [0, 0])
            (by decide))))
        (Step.dispatch 10 0 quietDispatch
          (eq_some_getD (quietRun (exampleLoaded .RR [appPrinter, appPrinter]) [0, 0, 0])
            (by decide))),
      by decide, by decide, by decide, by decide⟩⟩

/-! ## C20: the scheduling code -/

/-- An error of `GetInt` is a `std::runtime_error`. -/
theorem GetInt_error {cm : ConfigManager} {label : String} {e : Exception}
    (h : cm.GetInt label = .error e) : e = .runtime_error label := by
  unfold ConfigManager.GetInt at h
  split at h
  · cases h; rfl
  · split at h
    · cases h; rfl
    · split at h
      · cases h; rfl
      · cases h

/-- An error of `GetStr` is a `std::runtime_error`. -/
theorem GetStr_error {cm : ConfigManager} {label : String} {e : Exception}
    (h : cm.GetStr label = .error e) : e = .runtime_error label := by
  unfold ConfigManager.GetStr at h
  split at h
  · cases h; rfl
  · split at h
    · cases h; rfl
    · cases h

/-- The choice of the scheduling algorithm, string by string. -/
theorem schedulingCode_eq (s : String) :
    schedulingCode s =
      if s = "RR" then .ok SchedulingCode.RR
      else if s = "STR" ∨ s = "SRT" ∨ s = "SRTF" then .ok SchedulingCode.SRTF
      else .error (.simError (.invalidSchedulingCode s)) := by
  unfold schedulingCode
  split_ifs <;> simp_all

/-- The computation of the number of memory blocks raises no `SimError`. -/
theorem memoryBlocks_error {config : ConfigManager} {e : Exception}
    (h : memoryBlocks config = .error e) : ∃ label, e = .runtime_error label := by
  unfold memoryBlocks at h
  split at h
  · rename_i e1 h1; cases h; exact ⟨_, GetInt_error h1⟩
  · split at h
    · rename_i e1 h1; cases h; exact ⟨_, GetInt_error h1⟩
    · cases h

/-- The errors of the choice of the log mode. -/
theorem logMode_error {config : ConfigManager} {e : Exception}
    (h : logMode config = .error e) :
    (∃ label, e = .runtime_error label) ∨ e = .simError .invalidLogOption := by
  unfold logMode at h
  split at h
  · rename_i e1 h1; cases h; exact Or.inl ⟨_, GetStr_error h1⟩
  · simp only at h
    split_ifs at h
    cases h
    exact Or.inr rfl

/-- The errors of the opening of the log file. -/
theorem openLogFile_error {config : ConfigManager} {logToFile logFileOpens : Bool}
    {e : Exception} (h : openLogFile config logToFile logFileOpens = .error e) :
    (∃ label, e = .runtime_error label) ∨ e = .simError .unableToOpenLogFile := by
  unfold openLogFile at h
  by_cases hf : logToFile = true
  · rw [if_pos hf] at h
    split at h
    · rename_i e1 h1; cases h; exact Or.inl ⟨_, GetStr_error h1⟩
    · by_cases ho : logFileOpens = false
      · rw [if_pos ho] at h
        cases h
        exact Or.inr rfl
      · rw [if_neg ho] at h
        cases h
  · rw [if_neg hf] at h
    cases h

/-- The creation of a counted device class raises no `SimError`. -/
theorem newSemaphoreResource_error {config : ConfigManager} {quantity cycleTime : String}
    {e : Exception} (h : newSemaphoreResource config quantity cycleTime = .error e) :
    ∃ label, e = .runtime_error label := by
  unfold newSemaphoreResource at h
  split at h
  · rename_i e1 h1; cases h; exact ⟨_, GetInt_error h1⟩
  · split at h
    · rename_i e1 h1; cases h; exact ⟨_, GetInt_error h1⟩
    · cases h

/-- The creation of an exclusive device raises no `SimError`. -/
theorem newMutexResource_error {config : ConfigManager} {cycleTime : String}
    {e : Exception} (h : newMutexResource config cycleTime = .error e) :
    ∃ label, e = .runtime_error label := by
  unfold newMutexResource at h
  split at h
  · rename_i e1 h1; cases h; exact ⟨_, GetInt_error h1⟩
  · cases h

/-- The creation of the resources raises no `SimError`. -/
theorem newResources_error {config : ConfigManager} {e : Exception}
    (h : newResources config = .error e) : ∃ label, e = .runtime_error label := by
  unfold newResources at h
  split at h
  · rename_i e1 h1; cases h; exact newSemaphoreResource_error h1
  split at h
  · rename_i e1 h1; cases h; exact newSemaphoreResource_error h1
  split at h
  · rename_i e1 h1; cases h; exact newSemaphoreResource_error h1
  split at h
  · rename_i e1 h1; cases h; exact newMutexResource_error h1
  split at h
  · rename_i e1 h1; cases h; exact newMutexResource_error h1
  split at h
  · rename_i e1 h1; cases h; exact newMutexResource_error h1
  cases h

/-- What `finishConfig` does with the scheduling string `s`: it raises the error
about the scheduling code exactly when `s` is none of the four admitted strings, and
when it returns, the scheduling algorithm is the one `s` selects. -/
theorem finishConfig_scheduling {config : ConfigManager} {logFileOpens : Bool} {s : String}
    (hs : config.GetStr "CPU Scheduling Code" = .ok s) :
    ((∃ s', finishConfig config logFileOpens = .error (.simError (.invalidSchedulingCode s'))) ↔
      ¬ (s = "RR" ∨ s = "STR" ∨ s = "SRT" ∨ s = "SRTF")) ∧
    (¬ (s = "RR" ∨ s = "STR" ∨ s = "SRT" ∨ s = "SRTF") →
      finishConfig config logFileOpens = .error (.simError (.invalidSchedulingCode s))) ∧
    (∀ r, finishConfig config logFileOpens = .ok r →
      (s = "RR" ∨ s = "STR" ∨ s = "SRT" ∨ s = "SRTF") ∧
      r.scheduling = if s = "RR" then SchedulingCode.RR else SchedulingCode.SRTF) := by
  have hbad : ¬ (s = "RR" ∨ s = "STR" ∨ s = "SRT" ∨ s = "SRTF") →
      finishConfig config logFileOpens = .error (.simError (.invalidSchedulingCode s)) := by
    intro hn
    have h1 : ¬ s = "RR" := fun h => hn (Or.inl h)
    have h2 : ¬ (s = "STR" ∨ s = "SRT" ∨ s = "SRTF") := fun h => hn (Or.inr h)
    unfold finishConfig
    simp only [hs, schedulingCode_eq, if_neg h1, if_neg h2]
  have hgood : (s = "RR" ∨ s = "STR" ∨ s = "SRT" ∨ s = "SRTF") →
      (∀ e, finishConfig config logFileOpens = .error e →
        (∃ label, e = .runtime_error label) ∨ e = .simError .invalidLogOption ∨
          e = .simError .unableToOpenLogFile) ∧
      (∀ r, finishConfig config logFileOpens = .ok r →
        r.scheduling = if s = "RR" then SchedulingCode.RR else SchedulingCode.SRTF) := by
    intro hin
    have hcode : schedulingCode s =
        .ok (if s = "RR" then SchedulingCode.RR else SchedulingCode.SRTF) := by
      rw [schedulingCode_eq]
      by_cases h1 : s = "RR"
      · simp [h1]
      · have h2 : s = "STR" ∨ s = "SRT" ∨ s = "SRTF" := hin.resolve_left h1
        simp [h1, h2]
    unfold finishConfig
    simp only [hs, hcode]
    constructor
    · intro e h
      split at h
      · rename_i e1 h1; cases h
        exact Or.inl (memoryBlocks_error h1)
      split at h
      · rename_i e1 h1; cases h
        rcases logMode_error h1 with h2 | h2
        · exact Or.inl h2
        · exact Or.inr (Or.inl h2)
      split at h
      · rename_i e1 h1; cases h
        rcases openLogFile_error h1 with h2 | h2
        · exact Or.inl h2
        · exact Or.inr (Or.inr h2)
      split at h
      · rename_i e1 h1; cases h
        exact Or.inl (newResources_error h1)
      · cases h
    · intro r h
      split at h
      · cases h
      split at h
      · cases h
      split at h
      · cases h
      split at h
      · cases h
      · simp only [Except.ok.injEq] at h
        subst h
        rfl
  refine ⟨⟨?_, fun hn => ⟨s, hbad hn⟩⟩, hbad, ?_⟩
  · rintro ⟨s', h⟩ hin
    rcases (hgood hin).1 _ h with ⟨label, h1⟩ | h1 | h1 <;> cases h1
  · intro r h
    by_cases hin : s = "RR" ∨ s = "STR" ∨ s = "SRT" ∨ s = "SRTF"
    · exact ⟨hin, (hgood hin).2 r h⟩
    · rw [hbad hin] at h
      cases h

/-- A computation that yields a value is the value that `toOption` shows. -/
theorem eq_ok_getD {ε α : Type} {x : Except ε α} (d : α) (h : x.toOption.isSome = true) :
    x = .ok (x.toOption.getD d) := by
  cases x with
  | error e => simp [Except.toOption] at h
  | ok a => rfl

/-- C20: when the steps of `LoadConfig` that precede the choice of the scheduling
algorithm succeed and the option `CPU Scheduling Code` holds the string `s`, then
`LoadConfig` raises the `SimError` about the scheduling code exactly when `s` is none
of `RR`, `STR`, `SRT`, `SRTF` (compared as they are, with case); and when `LoadConfig`
returns, `s` is one of the four, `RR` has selected round-robin and each of `STR`,
`SRT`, `SRTF` has selected SRTF. -/
theorem loadConfig_scheduling (strtod : List Char → Rat × List Char)
    (config config1 : ConfigManager) (configKeyValues : List (String × String))
    (logFileOpens : Bool) (s : String)
    (h1 : loadOptions strtod config configKeyValues = .ok config1)
    (h2 : checkInitialized config1 config1.GetOptionLabels = .ok ())
    (h3 : checkRanges config1 rangeChecks = .ok ())
    (h4 : config1.GetStr "CPU Scheduling Code" = .ok s) :
    ((∃ s', LoadConfig strtod config configKeyValues logFileOpens =
        .error (.simError (.invalidSchedulingCode s'))) ↔
      ¬ (s = "RR" ∨ s = "STR" ∨ s = "SRT" ∨ s = "SRTF")) ∧
    (¬ (s = "RR" ∨ s = "STR" ∨ s = "SRT" ∨ s = "SRTF") →
      LoadConfig strtod config configKeyValues logFileOpens =
        .error (.simError (.invalidSchedulingCode s))) ∧
    (∀ r, LoadConfig strtod config configKeyValues logFileOpens = .ok r →
      (s = "RR" ∨ s = "STR" ∨ s = "SRT" ∨ s = "SRTF") ∧
      r.scheduling = if s = "RR" then SchedulingCode.RR else SchedulingCode.SRTF) := by
  have hload : LoadConfig strtod config configKeyValues logFileOpens =
      finishConfig config1 logFileOpens := by
    unfold LoadConfig
    simp only [h1, h2, h3]
  rw [hload]
  exact finishConfig_scheduling h4

/-- C20 at concrete inputs: the configuration of scenario S1 with the scheduling code
`rr` (lower case) is rejected, with `SRT` it selects SRTF, with `RR` round-robin. -/
theorem loadConfig_scheduling_witness :
    exampleLoadConfig "System memory (kbytes)" "8" "1" "rr" =
      .error (.simError (.invalidSchedulingCode "rr")) ∧
    (exampleLoadConfig "System memory (kbytes)" "8" "1" "SRT").toOption.map
      (fun r => r.scheduling) = some SchedulingCode.SRTF ∧
    (exampleLoadConfig "System memory (kbytes)" "8" "1" "RR").toOption.map
      (fun r => r.scheduling) = some SchedulingCode.RR ∧
    (exampleLoadConfig "System memory (kbytes)" "8" "1" "STR").toOption.map
      (fun r => r.scheduling) = some SchedulingCode.SRTF ∧
    (exampleLoadConfig "System memory (kbytes)" "8" "1" "SRTF").toOption.map
      (fun r => r.scheduling) = some SchedulingCode.SRTF :=
  ⟨(loadConfig_scheduling exampleStrtod exampleRegistry
      (exampleOptions "System memory (kbytes)" "8" "1" "rr")
      (exampleKeyValues "System memory (kbytes)" "8" "1" "rr") false "rr"
      (eq_ok_getD _ (by decide)) (by decide) (by decide) (by decide)).2.1 (by decide),
    by decide, by decide, by decide, by decide⟩

/-! ## C19: promotion of the system memory to kbytes -/

/-- The double nearest to an integer below `2^53` in absolute value is the integer. -/
theorem toDouble_small (x : Int) (h : x.natAbs < 9007199254740992) : toDouble x = x := by
  unfold toDouble
  simp only [if_pos h]

/-- The promotions of `LoadConfig` multiply by the value of the literal: the product
is exact as long as it stays below `2^53` in absolute value. -/
theorem promote_exact (value factor : Int) (h1 : value.natAbs < 9007199254740992)
    (h2 : (value * factor).natAbs < 9007199254740992) :
    promote value factor = value * factor := by
  unfold promote
  rw [toDouble_small value h1, toDouble_small _ h2]

/-- Reading an option that has just been written through its pointer. -/
theorem GetOption_setOption_self (cm : ConfigManager) (label : String)
    (old option : ConfigOption) (h : cm.GetOption label = some old) :
    (cm.setOption label option).GetOption label = some option := by
  obtain ⟨entries⟩ := cm
  unfold ConfigManager.GetOption ConfigManager.setOption at *
  simp only at h ⊢
  induction entries with
  | nil => simp at h
  | cons entry rest ih =>
    unfold replaceOption
    by_cases he : entry.1 = label
    · simp [he]
    · rw [if_neg he]
      simp only [List.find?_cons, he, decide_False] at h ⊢
      exact ih h

/-- Reading another option than the one that has just been written. -/
theorem GetOption_setOption_ne (cm : ConfigManager) (label other : String)
    (option : ConfigOption) (h : other ≠ label) :
    (cm.setOption label option).GetOption other = cm.GetOption other := by
  obtain ⟨entries⟩ := cm
  unfold ConfigManager.GetOption ConfigManager.setOption
  simp only
  induction entries with
  | nil => rfl
  | cons entry rest ih =>
    unfold replaceOption
    by_cases he : entry.1 = label
    · have hne : ¬ entry.1 = other := fun h2 => h (h2.symm.trans he)
      simp [he, hne, List.find?_cons, h.symm]
    · rw [if_neg he]
      simp only [List.find?_cons]
      by_cases ho : entry.1 = other
      · simp [ho]
      · simp only [ho, decide_False]
        exact ih

/-- The body of the first loop of `LoadConfig` on the entry `System memory (Mbytes)`
whose text reads as the integer `m`: the option `System memory (kbytes)` is set to
`m` times the literal `10e3`, that is to `10000 * m`. -/
theorem loadOption_Mbytes (strtod : List Char → Rat × List Char) (config : ConfigManager)
    (val : String) (m : Int) (oM oK : ConfigOption)
    (hM : config.GetOption "System memory (Mbytes)" = some oM) (hMt : oM.type = ConfigType.Int)
    (hK : config.GetOption "System memory (kbytes)" = some oK) (hKt : oK.type = ConfigType.Int)
    (hval : strtol val.toList = (m, [])) (hne : val.toList ≠ [])
    (hm : m.natAbs < 900719925474) :
    ∃ config', loadOption strtod config "System memory (Mbytes)" val = .ok config' ∧
      config'.GetInt "System memory (kbytes)" = .ok (10000 * m) := by
  have hpro : promote m factorMbytes = 10000 * m := by
    rw [promote_exact m factorMbytes (by omega) (by unfold factorMbytes; omega)]
    unfold factorMbytes
    ring
  have hneq : ("System memory (kbytes)" = "System memory (Mbytes)") = False :=
    eq_false (by decide)
  have hne2 : ¬ (([] : List Char) = val.toList) := fun h => hne h.symm
  unfold loadOption
  simp only [ConfigManager.SetStr, hM, hMt, hval, ne_eq, not_true_eq_false, hne2,
    or_self, if_false, if_true]
  simp only [ConfigManager.GetInt, GetOption_setOption_self _ _ _ _ hM, hMt, ne_eq,
    not_true_eq_false, if_false, Bool.true_eq_false]
  simp only [ConfigManager.SetInt,
    GetOption_setOption_ne _ _ _ _ (show "System memory (kbytes)" ≠ "System memory (Mbytes)"
      by decide), hK, hKt, ne_eq, not_true_eq_false, if_false, hpro]
  refine ⟨_, rfl, ?_⟩
  rw [GetOption_setOption_self _ _ oK]
  · simp [hKt]
  · rw [GetOption_setOption_ne _ _ _ _ (by decide)]
    exact hK

/-- C19 (the code at the failing input): the configuration of scenario S1 with
`System memory (Mbytes)` set to 1 (and no kbytes entry) yields a system memory of
10000 kbytes, with `System memory (Gbytes)` set to 1 it yields 10000000 kbytes: the
literals `10e3` and `10e6` of `LoadConfig` are `10^4` and `10^7`.  `maxMemoryBlocks`
is that value divided by the block size: 10000 blocks of 1 kbyte, 3333 blocks of
3 kbytes. -/
theorem memory_promotion_factor :
    (exampleLoadConfig "System memory (Mbytes)" "1" "1" "RR").toOption.map
      (fun r => (r.config.GetInt "System memory (kbytes)", r.maxMemoryBlocks)) =
      some (.ok 10000, 10000) ∧
    (exampleLoadConfig "System memory (Gbytes)" "1" "1" "RR").toOption.map
      (fun r => (r.config.GetInt "System memory (kbytes)", r.maxMemoryBlocks)) =
      some (.ok 10000000, 10000000) ∧
    (exampleLoadConfig "System memory (Mbytes)" "1" "3" "RR").toOption.map
      (fun r => (r.config.GetInt "System memory (kbytes)", r.maxMemoryBlocks)) =
      some (.ok 10000, 3333) ∧
    (exampleLoadConfig "System memory (kbytes)" "8" "1" "RR").toOption.map
      (fun r => (r.config.GetInt "System memory (kbytes)", r.maxMemoryBlocks)) =
      some (.ok 8, 8) :=
  ⟨by decide, by decide, by decide, by decide⟩

/-! ## C24, C25: the configuration store -/

/-- Looking up a label in a registry extended at its end. -/
theorem find?_append_entry (entries : List (String × ConfigOption)) (label other : String)
    (option : ConfigOption) :
    (entries ++ [(label, option)]).find? (fun entry => decide (entry.1 = other)) =
      match entries.find? (fun entry => decide (entry.1 = other)) with
      | some entry => some entry
      | none => if label = other then some (label, option) else none := by
  induction entries with
  | nil =>
    by_cases h : label = other <;> simp [List.find?_cons, h]
  | cons entry rest ih =>
    by_cases he : entry.1 = other
    · simp [List.find?_cons, he]
    · simp only [List.cons_append, List.find?_cons, he, decide_False]
      exact ih

/-- The decimal digit characters are read back as their value. -/
theorem digitChar_read (d : Nat) (h : d < 10) :
    (Nat.digitChar d).isDigit = true ∧ (Nat.digitChar d).toNat - '0'.toNat = d ∧
      Nat.digitChar d ≠ '-' ∧ Nat.digitChar d ≠ '+' ∧ isspace (Nat.digitChar d) = false := by
  interval_cases d <;> decide

/-- One step of `readDigits` on a digit. -/
theorem readDigits_digit (c : Char) (rest : List Char) (acc : Nat) (h : c.isDigit = true) :
    readDigits (c :: rest) acc = readDigits rest (acc * 10 + (c.toNat - '0'.toNat)) := by
  conv_lhs => unfold readDigits
  rw [if_pos h]

/-- `readDigits` at the end of the text. -/
theorem readDigits_nil (acc : Nat) : readDigits [] acc = (acc, []) := rfl

/-- Reading the digits written by `Nat.toDigitsCore` gives the number back. -/
theorem readDigits_toDigitsCore (n : Nat) :
    ∀ (fuel : Nat) (ds : List Char), n < fuel →
      readDigits (Nat.toDigitsCore 10 fuel n ds) 0 = readDigits ds n := by
  induction n using Nat.strong_induction_on with
  | _ n ih =>
    intro fuel ds hfuel
    cases fuel with
    | zero => omega
    | succ fuel =>
      obtain ⟨hd, hv, _⟩ := digitChar_read (n % 10) (Nat.mod_lt n (by decide))
      unfold Nat.toDigitsCore
      simp only
      by_cases h0 : n / 10 = 0
      · rw [if_pos h0, readDigits_digit _ _ _ hd, hv]
        have : 0 * 10 + n % 10 = n := by omega
        rw [this]
      · rw [if_neg h0]
        rw [ih (n / 10) (by omega) fuel _ (by omega), readDigits_digit _ _ _ hd, hv]
        have : n / 10 * 10 + n % 10 = n := by omega
        rw [this]

/-- The decimal text of a natural number starts with a digit. -/
theorem toDigitsCore_head (n : Nat) :
    ∀ (fuel : Nat) (ds : List Char), n < fuel →
      ∃ d rest, d < 10 ∧ Nat.toDigitsCore 10 fuel n ds = Nat.digitChar d :: rest := by
  induction n using Nat.strong_induction_on with
  | _ n ih =>
    intro fuel ds hfuel
    cases fuel with
    | zero => omega
    | succ fuel =>
      unfold Nat.toDigitsCore
      simp only
      by_cases h0 : n / 10 = 0
      · rw [if_pos h0]
        exact ⟨n % 10, ds, Nat.mod_lt n (by decide), rfl⟩
      · rw [if_neg h0]
        exact ih (n / 10) (by omega) fuel _ (by omega)

/-- `strtol` reads the decimal text of a natural number below `2^63` back. -/
theorem strtol_natRepr (m : Nat) (h : m < 9223372036854775808) :
    strtol (Nat.repr m).toList = ((m : Int), []) := by
  have htext : (Nat.repr m).toList = Nat.toDigits 10 m := rfl
  rw [htext]
  obtain ⟨d, rest, hd, hhead⟩ := toDigitsCore_head m (m + 1) [] (by omega)
  obtain ⟨hdig, _, hminus, hplus, hspace⟩ := digitChar_read d hd
  have hread := readDigits_toDigitsCore m (m + 1) [] (by omega)
  unfold Nat.toDigits at *
  unfold strtol
  rw [hhead] at hread ⊢
  simp only [List.dropWhile_cons, hspace, Bool.false_eq_true, if_false]
  have hsigned : (match Nat.digitChar d :: rest with
      | '-' :: rest => (true, rest)
      | '+' :: rest => (false, rest)
      | _ => (false, Nat.digitChar d :: rest)) = (false, Nat.digitChar d :: rest) := by
    split
    · rename_i heq; simp only [List.cons.injEq] at heq; exact absurd heq.1 hminus
    · rename_i heq; simp only [List.cons.injEq] at heq; exact absurd heq.1 hplus
    · rfl
  simp only [hsigned, hdig, if_true, hread, readDigits_nil, Bool.false_eq_true, if_false]
  congr 1
  omega

/-- `strtol` reads the decimal text of a `long int` back: the whole text is consumed and
the value is the number. -/
theorem strtol_toString (n : Int) (h1 : -9223372036854775808 ≤ n)
    (h2 : n ≤ 9223372036854775807) :
    strtol (toString n).toList = (n, []) ∧ (toString n).toList ≠ [] := by
  cases n with
  | ofNat m =>
    have hm : m < 9223372036854775808 := by
      have : (m : Int) ≤ 9223372036854775807 := h2
      omega
    have htext : (toString (Int.ofNat m)) = Nat.repr m := rfl
    rw [htext]
    refine ⟨strtol_natRepr m hm, ?_⟩
    obtain ⟨d, rest, _, hhead⟩ := toDigitsCore_head m (m + 1) [] (by omega)
    have : (Nat.repr m).toList = Nat.toDigitsCore 10 (m + 1) m [] := rfl
    rw [this, hhead]
    exact List.cons_ne_nil _ _
  | negSucc m =>
    have hneg : Int.negSucc m = -((m : Int) + 1) := Int.negSucc_eq m
    have hm : m + 1 ≤ 9223372036854775808 := by
      rw [hneg] at h1
      omega
    have htext : (toString (Int.negSucc m)).toList = '-' :: Nat.toDigits 10 (m + 1) := by
      show ("-" ++ Nat.repr (m + 1)).toList = _
      rw [String.toList, String.data_append]
      rfl
    rw [htext]
    refine ⟨?_, List.cons_ne_nil _ _⟩
    obtain ⟨d, rest, hd, hhead⟩ := toDigitsCore_head (m + 1) (m + 1 + 1) [] (by omega)
    obtain ⟨hdig, _, _, _, _⟩ := digitChar_read d hd
    have hread := readDigits_toDigitsCore (m + 1) (m + 1 + 1) [] (by omega)
    unfold Nat.toDigits
    unfold strtol
    have hsp : isspace '-' = false := by decide
    rw [hhead] at hread ⊢
    simp only [List.dropWhile_cons, hsp, Bool.false_eq_true, if_false, hdig, if_true, hread,
      readDigits_nil]
    rw [hneg]
    refine Prod.ext ?_ rfl
    simp only
    omega

/-- C24: for every registry and label, `AddOption` returns true exactly when the label
was not registered before the call.  When it returns true, the label is registered
afterwards with the given type and is not initialised; when it returns false, the
registry, and with it the type, the initialised flag and the values of the existing
option, is unchanged.  In both cases every other label reads as before. -/
theorem addOption_contract (cm : ConfigManager) (label : String) (type : ConfigType) :
    ((cm.AddOption label type).1 = true ↔ cm.GetOption label = none) ∧
    ((cm.AddOption label type).1 = true →
      ∃ option, (cm.AddOption label type).2.GetOption label = some option ∧
        option.type = type ∧ option.initialized = false) ∧
    ((cm.AddOption label type).1 = false → (cm.AddOption label type).2 = cm) ∧
    (∀ other, other ≠ label →
      (cm.AddOption label type).2.GetOption other = cm.GetOption other) := by
  cases hget : cm.GetOption label with
  | some option =>
    have hadd : cm.AddOption label type = (false, cm) := by
      unfold ConfigManager.AddOption
      rw [hget]
    rw [hadd]
    simp
  | none =>
    have hadd : cm.AddOption label type = (true, { configOptions := cm.configOptions ++
        [(label, { type := type, initialized := false, value_i := 0, value_d := 0,
                   value_s := "" })] }) := by
      unfold ConfigManager.AddOption
      rw [hget]
    have hfind : cm.configOptions.find? (fun entry => decide (entry.1 = label)) = none := by
      unfold ConfigManager.GetOption at hget
      simpa using hget
    rw [hadd]
    refine ⟨by simp, ?_, by simp, ?_⟩
    · intro _
      refine ⟨{ type := type, initialized := false, value_i := 0, value_d := 0,
                value_s := "" }, ?_, rfl, rfl⟩
      unfold ConfigManager.GetOption
      simp only [find?_append_entry, hfind, if_true, Option.map_some']
    · intro other hne
      unfold ConfigManager.GetOption
      simp only [find?_append_entry]
      have hne2 : ¬ label = other := fun h => hne h.symm
      cases cm.configOptions.find? (fun entry => decide (entry.1 = other)) with
      | some entry => rfl
      | none => simp [hne2]

/-- C24 at concrete inputs: on the registry left by the constructor, registering
`Printer quantity` again returns false and changes nothing, registering the new label
`Plotter quantity` returns true. -/
theorem addOption_contract_witness :
    (exampleRegistry.AddOption "Printer quantity" .Int).1 = false ∧
    (exampleRegistry.AddOption "Printer quantity" .Int).2 = exampleRegistry ∧
    (exampleRegistry.AddOption "Plotter quantity" .Int).1 = true ∧
    (∃ option,
      (exampleRegistry.AddOption "Plotter quantity" .Int).2.GetOption "Plotter quantity" =
        some option ∧ option.type = .Int ∧ option.initialized = false) :=
  ⟨by decide,
    (addOption_contract exampleRegistry "Printer quantity" .Int).2.2.1 (by decide),
    by decide,
    (addOption_contract exampleRegistry "Plotter quantity" .Int).2.1 (by decide)⟩

/-- C25: for every registered `Int` option and every `long int` value `n`: after
`SetInt(label, n)`, `GetInt(label)` returns `n` and `GetStr(label)` returns the decimal
text of `n`; and after `SetStr(label, s)` with `s` the decimal text of `n`,
`GetInt(label)` returns `n` and `GetStr(label)` returns `s`. -/
theorem config_round_trip (strtod : List Char → Rat × List Char) (cm : ConfigManager)
    (label : String) (option : ConfigOption) (n : Int)
    (hreg : cm.GetOption label = some option) (htype : option.type = ConfigType.Int)
    (h1 : -9223372036854775808 ≤ n) (h2 : n ≤ 9223372036854775807) :
    (∃ cm1, cm.SetInt label n = .ok cm1 ∧ cm1.GetInt label = .ok n ∧
      cm1.GetStr label = .ok (toString n)) ∧
    (∃ cm2, cm.SetStr strtod label (toString n) = .ok cm2 ∧ cm2.GetInt label = .ok n ∧
      cm2.GetStr label = .ok (toString n)) := by
  obtain ⟨hparse, hne⟩ := strtol_toString n h1 h2
  have hne2 : ¬ (([] : List Char) = (toString n).toList) := fun h => hne h.symm
  constructor
  · refine ⟨cm.setOption label
      { option with value_s := toString n, value_i := n, initialized := true }, ?_, ?_, ?_⟩
    · unfold ConfigManager.SetInt
      simp [hreg, htype]
    · unfold ConfigManager.GetInt
      simp [GetOption_setOption_self _ _ _ _ hreg, htype]
    · unfold ConfigManager.GetStr
      simp [GetOption_setOption_self _ _ _ _ hreg]
  · refine ⟨cm.setOption label
      { option with value_s := toString n, value_i := n, initialized := true }, ?_, ?_, ?_⟩
    · unfold ConfigManager.SetStr
      simp only [hreg, htype, hparse, ne_eq, not_true_eq_false, hne2, or_self, if_false]
    · unfold ConfigManager.GetInt
      simp [GetOption_setOption_self _ _ _ _ hreg, htype]
    · unfold ConfigManager.GetStr
      simp [GetOption_setOption_self _ _ _ _ hreg]

/-- C25 at a concrete input: the option `Printer quantity` of the registry left by the
constructor and the value `-42`. -/
theorem config_round_trip_witness :
    (exampleRegistry.GetOption "Printer quantity").map (fun option => option.type) =
      some ConfigType.Int ∧
    ((exampleRegistry.SetInt "Printer quantity" (-42)).toOption.map
      (fun cm => (cm.GetInt "Printer quantity", cm.GetStr "Printer quantity")) =
      some (.ok (-42), .ok "-42")) ∧
    (∃ cm2, exampleRegistry.SetStr exampleStrtod "Printer quantity" (toString (-42 : Int)) =
        .ok cm2 ∧ cm2.GetInt "Printer quantity" = .ok (-42) ∧
      cm2.GetStr "Printer quantity" = .ok (toString (-42 : Int))) :=
  ⟨by decide, by decide,
    (config_round_trip exampleStrtod exampleRegistry "Printer quantity"
      ((exampleRegistry.GetOption "Printer quantity").getD
        { type := .Int, initialized := false, value_i := 0, value_d := 0, value_s := "" })
      (-42) (by decide) (by decide) (by decide) (by decide)).2⟩

/-! ## C21, C22: range checks and missing options of `LoadConfig` -/

/-- What `SetStr` has done when it returns. -/
theorem SetStr_ok {strtod : List Char → Rat × List Char} {cm cm1 : ConfigManager}
    {label val : String} (h : cm.SetStr strtod label val = .ok cm1) :
    ∃ old new, cm.GetOption label = some old ∧ cm1 = cm.setOption label new ∧
      new.type = old.type ∧ new.initialized = true := by
  unfold ConfigManager.SetStr at h
  split at h
  · cases h
  · rename_i old hold
    split at h
    · simp only at h
      split at h
      · cases h
      · simp only [Except.ok.injEq] at h
        exact ⟨old, _, hold, h.symm, rfl, rfl⟩
    · simp only at h
      split at h
      · cases h
      · simp only [Except.ok.injEq] at h
        exact ⟨old, _, hold, h.symm, rfl, rfl⟩
    · simp only [Except.ok.injEq] at h
      exact ⟨old, _, hold, h.symm, rfl, rfl⟩

/-- What `SetInt` has done when it returns. -/
theorem SetInt_ok {cm cm1 : ConfigManager} {label : String} {val : Int}
    (h : cm.SetInt label val = .ok cm1) :
    ∃ old new, cm.GetOption label = some old ∧ cm1 = cm.setOption label new ∧
      new.type = old.type ∧ new.initialized = true := by
  unfold ConfigManager.SetInt at h
  split at h
  · cases h
  · rename_i old hold
    split at h
    · cases h
    · simp only [Except.ok.injEq] at h
      exact ⟨old, _, hold, h.symm, rfl, rfl⟩

/-- A write through the pointer of an option that keeps its type keeps the type of
every option. -/
theorem setOption_type (cm : ConfigManager) (label : String) (old new : ConfigOption)
    (hold : cm.GetOption label = some old) (htype : new.type = old.type) (other : String) :
    ((cm.setOption label new).GetOption other).map (fun option => option.type) =
      (cm.GetOption other).map (fun option => option.type) := by
  by_cases h : other = label
  · subst h
    rw [GetOption_setOption_self _ _ _ _ hold, hold]
    simp [htype]
  · rw [GetOption_setOption_ne _ _ _ _ h]

/-- The body of the first loop of `LoadConfig` keeps the type of every option, and
leaves every option as it is except the one named by the key and, for a key
`System memory (Mbytes)` or `System memory (Gbytes)`, the option
`System memory (kbytes)`. -/
theorem loadOption_frame {strtod : List Char → Rat × List Char} {cm cm1 : ConfigManager}
    {key val : String} (h : loadOption strtod cm key val = .ok cm1) :
    (∀ other, (cm1.GetOption other).map (fun option => option.type) =
      (cm.GetOption other).map (fun option => option.type)) ∧
    (∀ other, other ≠ key →
      (other = "System memory (kbytes)" →
        key ≠ "System memory (Mbytes)" ∧ key ≠ "System memory (Gbytes)") →
      cm1.GetOption other = cm.GetOption other) := by
  unfold loadOption at h
  split at h
  · cases h
  · rename_i cm2 hset
    obtain ⟨old, new, hold, rfl, htype, _⟩ := SetStr_ok hset
    by_cases hM : key = "System memory (Mbytes)"
    · rw [if_pos hM] at h
      split at h
      · cases h
      · obtain ⟨old2, new2, hold2, rfl, htype2, _⟩ := SetInt_ok h
        constructor
        · intro other
          rw [setOption_type _ _ _ _ hold2 htype2, setOption_type _ _ _ _ hold htype]
        · intro other hne hk
          have hne2 : other ≠ "System memory (kbytes)" := fun h2 => (hk h2).1 hM
          rw [GetOption_setOption_ne _ _ _ _ hne2, GetOption_setOption_ne _ _ _ _ hne]
    · rw [if_neg hM] at h
      by_cases hG : key = "System memory (Gbytes)"
      · rw [if_pos hG] at h
        split at h
        · cases h
        · obtain ⟨old2, new2, hold2, rfl, htype2, _⟩ := SetInt_ok h
          constructor
          · intro other
            rw [setOption_type _ _ _ _ hold2 htype2, setOption_type _ _ _ _ hold htype]
          · intro other hne hk
            have hne2 : other ≠ "System memory (kbytes)" := fun h2 => (hk h2).2 hG
            rw [GetOption_setOption_ne _ _ _ _ hne2, GetOption_setOption_ne _ _ _ _ hne]
      · rw [if_neg hG] at h
        simp only [Except.ok.injEq] at h
        subst h
        constructor
        · intro other
          rw [setOption_type _ _ _ _ hold htype]
        · intro other hne _
          rw [GetOption_setOption_ne _ _ _ _ hne]

/-- The first loop of `LoadConfig` keeps the type of every option, and leaves as it
is every option whose label is not a key of the configuration, except that
`System memory (kbytes)` is also written for the keys `System memory (Mbytes)` and
`System memory (Gbytes)`. -/
theorem loadOptions_frame {strtod : List Char → Rat × List Char}
    (kvs : List (String × String)) :
    ∀ {cm cm1 : ConfigManager}, loadOptions strtod cm kvs = .ok cm1 →
      (∀ other, (cm1.GetOption other).map (fun option => option.type) =
        (cm.GetOption other).map (fun option => option.type)) ∧
      (∀ other, other ∉ kvs.map (fun entry => entry.1) →
        (other = "System memory (kbytes)" →
          "System memory (Mbytes)" ∉ kvs.map (fun entry => entry.1) ∧
          "System memory (Gbytes)" ∉ kvs.map (fun entry => entry.1)) →
        cm1.GetOption other = cm.GetOption other) := by
  induction kvs with
  | nil =>
    intro cm cm1 h
    simp only [loadOptions, Except.ok.injEq] at h
    subst h
    exact ⟨fun _ => rfl, fun _ _ _ => rfl⟩
  | cons entry rest ih =>
    intro cm cm1 h
    obtain ⟨key, val⟩ := entry
    unfold loadOptions at h
    split at h
    · cases h
    · rename_i cm2 hstep
      obtain ⟨ht1, hf1⟩ := loadOption_frame hstep
      obtain ⟨ht2, hf2⟩ := ih h
      constructor
      · intro other
        rw [ht2, ht1]
      · intro other hnot hk
        simp only [List.map_cons, List.mem_cons, not_or] at hnot hk
        rw [hf2 other hnot.2 (fun h2 => ⟨(hk h2).1.2, (hk h2).2.2⟩)]
        exact hf1 other hnot.1 (fun h2 => ⟨fun h3 => (hk h2).1.1 h3.symm,
          fun h3 => (hk h2).2.1 h3.symm⟩)

/-- A registered label is among the labels listed by `GetOptionLabels`. -/
theorem mem_GetOptionLabels {cm : ConfigManager} {label : String} {option : ConfigOption}
    (h : cm.GetOption label = some option) : label ∈ cm.GetOptionLabels := by
  unfold ConfigManager.GetOption at h
  unfold ConfigManager.GetOptionLabels
  cases hfind : cm.configOptions.find? (fun entry => decide (entry.1 = label)) with
  | none => rw [hfind] at h; cases h
  | some entry =>
    have hmem := List.mem_of_find?_eq_some hfind
    have hkey := List.find?_some hfind
    simp only [decide_eq_true_eq] at hkey
    exact List.mem_map.mpr ⟨entry, hmem, hkey⟩

/-- A label listed by `GetOptionLabels` is registered. -/
theorem GetOption_of_mem_labels {cm : ConfigManager} {label : String}
    (h : label ∈ cm.GetOptionLabels) : ∃ option, cm.GetOption label = some option := by
  unfold ConfigManager.GetOptionLabels at h
  obtain ⟨entry, hmem, hkey⟩ := List.mem_map.mp h
  unfold ConfigManager.GetOption
  cases hfind : cm.configOptions.find? (fun e => decide (e.1 = label)) with
  | none =>
    have := List.find?_eq_none.mp hfind entry hmem
    simp [hkey] at this
  | some e => exact ⟨e.2, rfl⟩

/-- The second loop of `LoadConfig` on labels that are all registered: it returns when
every label is initialised, and otherwise raises the `SimError` about the first label
that is not. -/
theorem checkInitialized_eq (config : ConfigManager) (labels : List String)
    (hreg : ∀ label ∈ labels, ∃ option, config.GetOption label = some option) :
    checkInitialized config labels =
      match labels.find? (fun label =>
        decide ((config.GetOption label).map (fun option => option.initialized) ≠ some true)) with
      | some label => .error (.simError (.optionNotInitialized label))
      | none => .ok () := by
  induction labels with
  | nil => rfl
  | cons label rest ih =>
    obtain ⟨option, hopt⟩ := hreg label (List.mem_cons_self _ _)
    have ih2 := ih (fun l hl => hreg l (List.mem_cons_of_mem _ hl))
    unfold checkInitialized
    simp only [ConfigManager.OptionInitialized, hopt, List.find?_cons, Option.map_some']
    cases hinit : option.initialized
    · simp
    · simp [ih2]

/-- `GetInt` on a registered and initialised `Int` option returns its value. -/
theorem GetInt_of_initialized {cm : ConfigManager} {label : String} {option : ConfigOption}
    (h : cm.GetOption label = some option) (htype : option.type = ConfigType.Int)
    (hinit : option.initialized = true) : cm.GetInt label = .ok option.value_i := by
  unfold ConfigManager.GetInt
  simp [h, htype, hinit]

/-- When the second loop of `LoadConfig` returns, every registered option is
initialised. -/
theorem checkInitialized_ok {config : ConfigManager}
    (h : checkInitialized config config.GetOptionLabels = .ok ()) {label : String}
    {option : ConfigOption} (hreg : config.GetOption label = some option) :
    option.initialized = true := by
  rw [checkInitialized_eq config _ (fun l hl => GetOption_of_mem_labels hl)] at h
  split at h
  · cases h
  · rename_i hnone
    have := List.find?_eq_none.mp hnone label (mem_GetOptionLabels hreg)
    simpa [hreg] using this

/-- A sequence of range checks on options that can all be read: it returns when no
value is below 1 and otherwise raises the error of the first check that fails. -/
theorem checkRanges_eq (config : ConfigManager) (checks : List (String × SimError))
    (hget : ∀ entry ∈ checks, ∃ value, config.GetInt entry.1 = .ok value) :
    checkRanges config checks =
      match checks.find? (fun entry => belowOne config entry.1) with
      | some entry => .error (.simError entry.2)
      | none => .ok () := by
  induction checks with
  | nil => rfl
  | cons entry rest ih =>
    obtain ⟨label, err⟩ := entry
    obtain ⟨value, hvalue⟩ := hget (label, err) (List.mem_cons_self _ _)
    have ih2 := ih (fun e he => hget e (List.mem_cons_of_mem _ he))
    have hbelow : belowOne config label = decide (value < 1) := by
      unfold belowOne
      simp only at hvalue
      rw [hvalue]
    unfold checkRanges
    simp only [checkAtLeastOne, hvalue, List.find?_cons, hbelow]
    by_cases hlt : value < 1
    · simp [hlt]
    · simp [hlt, ih2]

/-- C21: for a registry in which the ten checked options are `Int` options, and a
configuration that loads and leaves every option initialised, `LoadConfig` raises the
`SimError` of the first of its checks that finds a value below 1 (the eight cycle and
display times, the system memory in kbytes, the memory block size, in this order), and
goes on only when there is none.  So it raises a `SimError` whenever one of the ten
values is below 1, and when the division that computes `maxMemoryBlocks` is reached
the block size (and the system memory) is at least 1. -/
theorem loadConfig_ranges (strtod : List Char → Rat × List Char)
    (config config1 : ConfigManager) (configKeyValues : List (String × String))
    (logFileOpens : Bool)
    (hreg : ∀ entry ∈ rangeChecks,
      (config.GetOption entry.1).map (fun option => option.type) = some ConfigType.Int)
    (h1 : loadOptions strtod config configKeyValues = .ok config1)
    (h2 : checkInitialized config1 config1.GetOptionLabels = .ok ()) :
    (LoadConfig strtod config configKeyValues logFileOpens =
      match rangeChecks.find? (fun entry => belowOne config1 entry.1) with
      | some entry => .error (.simError entry.2)
      | none => finishConfig config1 logFileOpens) ∧
    ((∃ entry ∈ rangeChecks, belowOne config1 entry.1 = true) →
      ∃ err, LoadConfig strtod config configKeyValues logFileOpens =
        .error (.simError err)) ∧
    (checkRanges config1 rangeChecks = .ok () →
      ∃ systemMemory blockSize,
        config1.GetInt "System memory (kbytes)" = .ok systemMemory ∧
        config1.GetInt "Memory block size (kbytes)" = .ok blockSize ∧
        1 ≤ systemMemory ∧ 1 ≤ blockSize ∧
        memoryBlocks config1 = .ok (toUInt (Int.tdiv systemMemory blockSize))) := by
  have hget : ∀ entry ∈ rangeChecks, ∃ value, config1.GetInt entry.1 = .ok value := by
    intro entry hentry
    have htype := (loadOptions_frame configKeyValues h1).1 entry.1
    rw [hreg entry hentry] at htype
    cases hopt : config1.GetOption entry.1 with
    | none => rw [hopt] at htype; cases htype
    | some option =>
      rw [hopt] at htype
      simp only [Option.map_some', Option.some.injEq] at htype
      exact ⟨_, GetInt_of_initialized hopt htype (checkInitialized_ok h2 hopt)⟩
  have hranges := checkRanges_eq config1 rangeChecks hget
  have hload : LoadConfig strtod config configKeyValues logFileOpens =
      match rangeChecks.find? (fun entry => belowOne config1 entry.1) with
      | some entry => .error (.simError entry.2)
      | none => finishConfig config1 logFileOpens := by
    unfold LoadConfig
    simp only [h1, h2, hranges]
    cases rangeChecks.find? (fun entry => belowOne config1 entry.1) <;> rfl
  refine ⟨hload, ?_, ?_⟩
  · rintro ⟨entry, hentry, hbelow⟩
    rw [hload]
    cases hfind : rangeChecks.find? (fun entry => belowOne config1 entry.1) with
    | none =>
      have := List.find?_eq_none.mp hfind entry hentry
      exact absurd hbelow this
    | some found => exact ⟨found.2, rfl⟩
  · intro hok
    rw [hranges] at hok
    cases hfind : rangeChecks.find? (fun entry => belowOne config1 entry.1) with
    | some found => rw [hfind] at hok; cases hok
    | none =>
      have hall := List.find?_eq_none.mp hfind
      obtain ⟨kb, hkb⟩ := hget ("System memory (kbytes)", .systemMemoryBelowOne) (by decide)
      obtain ⟨bs, hbs⟩ := hget ("Memory block size (kbytes)", .memoryBlockSizeBelowOne)
        (by decide)
      have h3 := hall ("System memory (kbytes)", .systemMemoryBelowOne) (by decide)
      have h4 := hall ("Memory block size (kbytes)", .memoryBlockSizeBelowOne) (by decide)
      simp only [belowOne, hkb, hbs, decide_eq_true_eq, not_lt] at h3 h4
      refine ⟨kb, bs, hkb, hbs, h3, h4, ?_⟩
      unfold memoryBlocks
      simp only at hkb hbs
      rw [hkb, hbs]

/-- C21 at concrete inputs: the configuration of scenario S1 with a memory block size
of 0 kbytes is rejected with the error about the block size, with a system memory of
0 kbytes with the error about the system memory. -/
theorem loadConfig_ranges_witness :
    exampleLoadConfig "System memory (kbytes)" "8" "0" "RR" =
      .error (.simError .memoryBlockSizeBelowOne) ∧
    exampleLoadConfig "System memory (kbytes)" "0" "1" "RR" =
      .error (.simError .systemMemoryBelowOne) ∧
    (∃ err, exampleLoadConfig "System memory (kbytes)" "8" "0" "RR" =
      .error (.simError err)) :=
  ⟨by decide, by decide,
    (loadConfig_ranges exampleStrtod exampleRegistry
      (exampleOptions "System memory (kbytes)" "8" "0" "RR")
      (exampleKeyValues "System memory (kbytes)" "8" "0" "RR") false
      (by decide) (eq_ok_getD _ (by decide)) (by decide)).2.1
      ⟨("Memory block size (kbytes)", .memoryBlockSizeBelowOne), by decide, by decide⟩⟩

/-- C22 (as stated, refuted): the option `System memory (kbytes)` is registered, has
no default and is not initialised by the constructor; the configuration of scenario S1
with the entry `System memory (Mbytes)` set to 1 instead of the kbytes entry has
recognised keys and values that parse, and the kbytes entry is absent; yet `LoadConfig`
returns without an error, because the Mbytes entry initialises the kbytes option. -/
theorem missing_option_counterexample :
    (exampleRegistry.GetOption "System memory (kbytes)").map
      (fun option => option.initialized) = some false ∧
    "System memory (kbytes)" ∉ defaultValues.map (fun entry => entry.1) ∧
    "System memory (kbytes)" ∉
      (exampleKeyValues "System memory (Mbytes)" "1" "1" "RR").map (fun entry => entry.1) ∧
    (loadOptions exampleStrtod exampleRegistry
      (exampleKeyValues "System memory (Mbytes)" "1" "1" "RR")).toOption.isSome = true ∧
    (exampleLoadConfig "System memory (Mbytes)" "1" "1" "RR").toOption.isSome = true := by
  decide

/-- C22 (amended): for every configuration that loads (its keys are recognised and its
values parse), if a registered option that is not initialised is absent from the
configuration, and, when that option is `System memory (kbytes)`, the entries
`System memory (Mbytes)` and `System memory (Gbytes)` are absent too, then `LoadConfig`
fails with the `SimError` about an option that is not initialised, which `main`
reports as `Simulation error:`.  The error is raised by the loop that checks the
options, whatever the range checks, which come after it, would find. -/
theorem loadConfig_missing_option (strtod : List Char → Rat × List Char)
    (config config1 : ConfigManager) (configKeyValues : List (String × String))
    (logFileOpens : Bool) (label : String) (option : ConfigOption)
    (h1 : loadOptions strtod config configKeyValues = .ok config1)
    (hreg : config.GetOption label = some option) (hinit : option.initialized = false)
    (habsent : label ∉ configKeyValues.map (fun entry => entry.1))
    (hmemory : label = "System memory (kbytes)" →
      "System memory (Mbytes)" ∉ configKeyValues.map (fun entry => entry.1) ∧
      "System memory (Gbytes)" ∉ configKeyValues.map (fun entry => entry.1)) :
    ∃ missing,
      LoadConfig strtod config configKeyValues logFileOpens =
        .error (.simError (.optionNotInitialized missing)) ∧
      checkInitialized config1 config1.GetOptionLabels =
        .error (.simError (.optionNotInitialized missing)) ∧
      reportedAs (.simError (.optionNotInitialized missing)) = "Simulation error: " ∧
      (config1.GetOption missing).map (fun option => option.initialized) = some false := by
  have hsame : config1.GetOption label = some option := by
    rw [(loadOptions_frame configKeyValues h1).2 label habsent hmemory]
    exact hreg
  have hcheck := checkInitialized_eq config1 config1.GetOptionLabels
    (fun l hl => GetOption_of_mem_labels hl)
  cases hfind : config1.GetOptionLabels.find? (fun label =>
      decide ((config1.GetOption label).map (fun option => option.initialized) ≠ some true)) with
  | none =>
    have := List.find?_eq_none.mp hfind label (mem_GetOptionLabels hsame)
    simp [hsame, hinit] at this
  | some missing =>
    rw [hfind] at hcheck
    simp only at hcheck
    have hmissing := List.find?_some hfind
    have hmem := List.mem_of_find?_eq_some hfind
    obtain ⟨o, ho⟩ := GetOption_of_mem_labels hmem
    refine ⟨missing, ?_, hcheck, rfl, ?_⟩
    · unfold LoadConfig
      simp only [h1, hcheck]
    · rw [ho] at hmissing ⊢
      simp only [Option.map_some', ne_eq, Option.some.injEq, decide_eq_true_eq] at hmissing ⊢
      cases hi : o.initialized
      · rfl
      · exact absurd hi hmissing

/-- C22 (amended) at a concrete input (scenario S5): the configuration without the
entry `Processor cycle time (msec)` is rejected with the error about that option, also
when its monitor display time is 0, which the range checks would reject. -/
theorem loadConfig_missing_option_witness :
    LoadConfig exampleStrtod exampleRegistry (keyValuesS5 "1") false =
      .error (.simError (.optionNotInitialized "Processor cycle time (msec)")) ∧
    LoadConfig exampleStrtod exampleRegistry (keyValuesS5 "0") false =
      .error (.simError (.optionNotInitialized "Processor cycle time (msec)")) ∧
    (∃ missing,
      LoadConfig exampleStrtod exampleRegistry (keyValuesS5 "0") false =
        .error (.simError (.optionNotInitialized missing)) ∧
      checkInitialized
          ((loadOptions exampleStrtod exampleRegistry (keyValuesS5 "0")).toOption.getD
            { configOptions := [] })
          ((loadOptions exampleStrtod exampleRegistry (keyValuesS5 "0")).toOption.getD
            { configOptions := [] }).GetOptionLabels =
        .error (.simError (.optionNotInitialized missing)) ∧
      reportedAs (.simError (.optionNotInitialized missing)) = "Simulation error: " ∧
      (((loadOptions exampleStrtod exampleRegistry (keyValuesS5 "0")).toOption.getD
          { configOptions := [] }).GetOption missing).map
        (fun option => option.initialized) = some false) :=
  ⟨by decide, by decide,
    loadConfig_missing_option exampleStrtod exampleRegistry
      ((loadOptions exampleStrtod exampleRegistry (keyValuesS5 "0")).toOption.getD
        { configOptions := [] })
      (keyValuesS5 "0") false "Processor cycle time (msec)"
      ((exampleRegistry.GetOption "Processor cycle time (msec)").getD
        { type := .Int, initialized := true, value_i := 0, value_d := 0, value_s := "" })
      (eq_ok_getD _ (by decide)) (by decide) (by decide) (by decide) (by decide)⟩

/-! ## C23: the header of the configuration file -/

/-- `ReadConfigFile` raises the error about the missing header for every file whose
first line is not the header, character by character, whatever its other lines are. -/
theorem readConfigFile_header_first (rConfigLine : String → Option (String × String))
    (rEmptyLine : String → Bool) (lines : List String)
    (configKeyValues : List (String × String)) (h : lines.head? ≠ some configHeader) :
    ReadConfigFile rConfigLine rEmptyLine (some lines) configKeyValues =
      .error (.simError .configHeaderMissing) := by
  unfold ReadConfigFile
  cases lines with
  | nil => simp only [skipToHeader]; rw [if_pos (by decide)]
  | cons line rest =>
    have hne : line ≠ configHeader := fun heq => h (by rw [heq]; rfl)
    simp only [skipToHeader]
    rw [if_pos hne]

/-- C23 (the code at the failing input): a file whose second line is the header,
after a blank line, and that ends with well-formed lines and the footer, is rejected
with `Config header is missing!`: the loop that should skip to the header leaves at
the first line.  A file whose first line is the header behind two blanks (the header
after trimming) is rejected too, since the line is compared as it was read.  The same
lines with the header as the first line are accepted. -/
theorem header_search_first_line_only :
    strTrim "Start Simulator Configuration File" = configHeader ∧
    ReadConfigFile exampleConfigLine exampleEmptyLine (some fileHeaderSecond) [] =
      .error (.simError .configHeaderMissing) ∧
    strTrim "  Start Simulator Configuration File" = configHeader ∧
    ReadConfigFile exampleConfigLine exampleEmptyLine (some fileHeaderIndented) [] =
      .error (.simError .configHeaderMissing) ∧
    ReadConfigFile exampleConfigLine exampleEmptyLine (some fileHeaderFirst) [] =
      .ok [("Log", "Log to Monitor")] := by
  decide

/-! ## C30: the device cursor -/

/-- The effect of one `run` call, on any resource, on the cursor and the logged device
indices of a counted resource: either both are as before, or the call was a successful
one on that resource, which logged the cursor and advanced it by one modulo the
device count. -/
theorem run_cursor (resource called : Resource) (sim : Simulation) (cycles : Nat)
    (ioState : ResIOState) (pid : Nat) (r : IOResourceSemaphore)
    (hr : sim.semaphore resource = some r) (hmax : r.deviceCount ≤ 2147483647)
    (hidx : r.deviceIndex < r.deviceCount) :
    ∃ r', (called.run sim cycles ioState pid).2.semaphore resource = some r' ∧
      r'.deviceCount = r.deviceCount ∧
      ((r'.deviceIndex = r.deviceIndex ∧
          startIndices resource (called.run sim cycles ioState pid).2.log =
            startIndices resource sim.log) ∨
        (r'.deviceIndex = (r.deviceIndex + 1) % r.deviceCount ∧
          startIndices resource (called.run sim cycles ioState pid).2.log =
            startIndices resource sim.log ++ [(r.deviceIndex : Int)])) := by
  have hsmall : toInt r.deviceIndex = (r.deviceIndex : Int) := toInt_small _ (by omega)
  have hwrap : (r.deviceIndex + 1) % 4294967296 = r.deviceIndex + 1 :=
    Nat.mod_eq_of_lt (by omega)
  cases resource <;> simp only [Simulation.semaphore, Option.some.injEq] at hr <;>
    try (cases hr)
  all_goals
    cases called <;>
    simp only [Resource.run, ResourceHDD.run, ResourcePrinter.run, ResourceSpeaker.run,
      ResourceMonitor.run, ResourceKeyboard.run, ResourceMouse.run,
      IOResourceSemaphore.acquire, IOResourceSemaphore.post, ResourceIO.run,
      Simulation.Log, Simulation.semaphore] <;>
    split <;>
    simp_all [startIndices, List.filterMap_append] <;>
    (rename_i heq
     obtain ⟨_, _, rfl⟩ := heq
     exact ⟨rfl, by simp only; rw [Nat.mod_eq_of_lt hwrap]⟩)

/-- The end of an I/O worker leaves the three semaphore objects as they are and adds
at most an `end` line to the log. -/
theorem ioThreadEnd_resources (sim : Simulation) (i : Nat) :
    (sim.ioThreadEnd i).resHdd = sim.resHdd ∧ (sim.ioThreadEnd i).resPrinter = sim.resPrinter ∧
    (sim.ioThreadEnd i).resSpeaker = sim.resSpeaker ∧
    ((sim.ioThreadEnd i).log = sim.log ∨
      ∃ pid label, (sim.ioThreadEnd i).log = sim.log ++ [.ioEnd pid label]) := by
  unfold Simulation.ioThreadEnd
  split
  · rename_i params _
    unfold ResourceIO.doWork
    simp only [Simulation.Log]
    split
    · split
      · exact ⟨rfl, rfl, rfl, Or.inr ⟨_, _, rfl⟩⟩
      · exact ⟨rfl, rfl, rfl, Or.inr ⟨_, _, rfl⟩⟩
    · exact ⟨rfl, rfl, rfl, Or.inr ⟨_, _, rfl⟩⟩
  · exact ⟨rfl, rfl, rfl, Or.inl rfl⟩

/-- The end of an I/O worker changes neither a semaphore object nor the logged device
indices. -/
theorem ioThreadEnd_cursor (resource : Resource) (sim : Simulation) (i : Nat) :
    (sim.ioThreadEnd i).semaphore resource = sim.semaphore resource ∧
    startIndices resource (sim.ioThreadEnd i).log = startIndices resource sim.log := by
  obtain ⟨h1, h2, h3, hlog⟩ := ioThreadEnd_resources sim i
  constructor
  · cases resource <;> simp only [Simulation.semaphore, h1, h2, h3]
  · rcases hlog with hlog | ⟨pid, label, hlog⟩
    · rw [hlog]
    · rw [hlog]
      simp [startIndices, List.filterMap_append]

/-- The cursor invariant of a counted resource along the steps of the resource model:
the device count is fixed, the logged device indices are `0, 1, 2, …` modulo the
count, and the cursor is their number modulo the count. -/
theorem cursor_invariant (resource : Resource) (r0 : IOResourceSemaphore)
    (hcount : 1 ≤ r0.deviceCount) (hmax : r0.deviceCount ≤ 2147483647)
    {s0 s : Simulation} (hsteps : ResourceSteps s0 s)
    (hr : s0.semaphore resource = some r0) (hfresh : r0.deviceIndex = 0)
    (hlog : startIndices resource s0.log = []) :
    ∃ r, s.semaphore resource = some r ∧ r.deviceCount = r0.deviceCount ∧
      r.deviceIndex = (startIndices resource s.log).length % r0.deviceCount ∧
      startIndices resource s.log =
        (List.range (startIndices resource s.log).length).map
          (fun k => ((k % r0.deviceCount : Nat) : Int)) := by
  induction hsteps with
  | refl =>
    refine ⟨r0, hr, rfl, ?_, ?_⟩
    · rw [hlog, hfresh]; simp
    · rw [hlog]; rfl
  | tail _ hstep ih =>
    obtain ⟨r, hsem, hc, hidx, hlist⟩ := ih
    cases hstep with
    | run called cycles ioState pid sim =>
      have hlt : r.deviceIndex < r.deviceCount := by
        rw [hidx, hc]
        exact Nat.mod_lt _ (by omega)
      obtain ⟨r', hsem', hc', hcase⟩ :=
        run_cursor resource called _ cycles ioState pid r hsem (by omega) hlt
      refine ⟨r', hsem', hc'.trans hc, ?_⟩
      rcases hcase with ⟨hi, hl⟩ | ⟨hi, hl⟩
      · rw [hi, hl]
        exact ⟨hidx, hlist⟩
      · rw [hi, hl, hc, hidx]
        constructor
        · simp [Nat.add_mod]
        · rw [List.length_append, List.length_singleton, List.range_succ, List.map_append,
            ← hlist]
          simp
    | ioEnd i hi =>
      obtain ⟨hsem', hlog'⟩ := ioThreadEnd_cursor resource _ i
      refine ⟨r, hsem'.trans hsem, hc, ?_, ?_⟩
      · rw [hlog']; exact hidx
      · rw [hlog']; exact hlist

/-- C30: for every counted device class (HDD, printer, speaker) with a device count
between 1 and the largest semaphore value `2^31 - 1`, started with the cursor at 0
and no `start` line of its own in the log, after any run of the resource model (`run`
calls on any resource, ends of I/O workers): the `k`-th successful `run` call of the
class (`k` from 0) has logged the device index `k mod count`, and the cursor
`deviceIndex` is below `count` (it is the number of successful calls modulo `count`). -/
theorem device_cursor (resource : Resource) (r0 : IOResourceSemaphore) (s0 s : Simulation)
    (hcount : 1 ≤ r0.deviceCount) (hmax : r0.deviceCount ≤ 2147483647)
    (hr : s0.semaphore resource = some r0) (hfresh : r0.deviceIndex = 0)
    (hlog : startIndices resource s0.log = []) (hsteps : ResourceSteps s0 s) :
    ∃ r, s.semaphore resource = some r ∧ r.deviceCount = r0.deviceCount ∧
      r.deviceIndex < r.deviceCount ∧
      r.deviceIndex = (startIndices resource s.log).length % r.deviceCount ∧
      ∀ k, k < (startIndices resource s.log).length →
        (startIndices resource s.log)[k]? = some ((k % r.deviceCount : Nat) : Int) := by
  obtain ⟨r, hsem, hc, hidx, hlist⟩ :=
    cursor_invariant resource r0 hcount hmax hsteps hr hfresh hlog
  refine ⟨r, hsem, hc, ?_, by rw [hc]; exact hidx, ?_⟩
  · rw [hidx, hc]
    exact Nat.mod_lt _ (by omega)
  · intro k hk
    rw [hlist, hc]
    simp [hk]

/-- C30 at a concrete input: with two printers, three `run` calls on the printer, one
on the hard drive in between and the end of a worker log the printer indices 0, 1, 0
and leave the cursor at 1. -/
theorem device_cursor_witness :
    startIndices .resPrinter
      (runCalls (printersSim 2)
        [(.resPrinter, 0), (.resHdd, 1), (.resPrinter, 2), (.resPrinter, 3)]).log = [0, 1, 0] ∧
    (∃ r, (runCalls (printersSim 2)
        [(.resPrinter, 0), (.resHdd, 1), (.resPrinter, 2), (.resPrinter, 3)]).semaphore
          .resPrinter = some r ∧ r.deviceCount = (IOResourceSemaphore.init 2 1).deviceCount ∧
      r.deviceIndex < r.deviceCount ∧
      r.deviceIndex = (startIndices .resPrinter (runCalls (printersSim 2)
        [(.resPrinter, 0), (.resHdd, 1), (.resPrinter, 2), (.resPrinter, 3)]).log).length %
          r.deviceCount ∧
      ∀ k, k < (startIndices .resPrinter (runCalls (printersSim 2)
          [(.resPrinter, 0), (.resHdd, 1), (.resPrinter, 2), (.resPrinter, 3)]).log).length →
        (startIndices .resPrinter (runCalls (printersSim 2)
          [(.resPrinter, 0), (.resHdd, 1), (.resPrinter, 2), (.resPrinter, 3)]).log)[k]? =
          some ((k % r.deviceCount : Nat) : Int)) :=
  ⟨by decide,
    device_cursor .resPrinter (IOResourceSemaphore.init 2 1) (printersSim 2)
      (runCalls (printersSim 2)
        [(.resPrinter, 0), (.resHdd, 1), (.resPrinter, 2), (.resPrinter, 3)])
      (by decide) (by decide) rfl rfl (by decide)
      (ResourceSteps.tail (ResourceSteps.tail (ResourceSteps.tail (ResourceSteps.tail
        (ResourceSteps.refl _)
        (ResourceStep.run .resPrinter 1 .OUTPUT 0 _))
        (ResourceStep.run .resHdd 1 .OUTPUT 1 _))
        (ResourceStep.run .resPrinter 1 .OUTPUT 2 _))
        (ResourceStep.run .resPrinter 1 .OUTPUT 3 _))⟩

/-! ## C26: the order of the job queue under round-robin -/

/-- Under round-robin the loader pushes jobs of priority 0 only. -/
theorem loaderJobs_rr (apps : List Application) :
    ∀ (pid : Nat) (job : Job), job ∈ loaderJobs SchedulingCode.RR pid apps → job.priority = 0 := by
  induction apps with
  | nil => intro pid job h; simp [loaderJobs] at h
  | cons a rest ih =>
    intro pid job h
    simp only [loaderJobs, List.mem_cons] at h
    rcases h with rfl | h
    · simp [loaderPriorityOf]
    · exact ih (pid + 1) job h

/-- Under round-robin every step keeps all queued jobs at priority 0. -/
theorem rr_step {s s' : Simulation} (hwf : WF s) (hrr : s.scheduling = SchedulingCode.RR)
    (hzero : ∀ job ∈ s.jobs, job.priority = 0) (hs : Step s s') :
    ∀ job ∈ s'.jobs, job.priority = 0 := by
  cases hs with
  | dispatch fuel top obs hd =>
    obtain ⟨job, pcb, pcb', hd⟩ := dispatch_spec hd
    intro j hj
    rw [hd.jobs, List.mem_append] at hj
    rcases hj with hj | hj
    · exact hzero j (mem_eraseIdx hj)
    · split at hj
      · simp at hj
      · simp only [List.mem_singleton] at hj
        subst hj
        simp [requeuePriority, hrr]
  | ioEnd i hi =>
    have hf := Frame.ioThreadEnd 0 s i
    rw [hf.jobs]
    exact hzero
  | load hguard hw =>
    obtain ⟨sim1, h1, hl, _⟩ := loaderWave_loaded s [] s
      (Loaded.base s hwf.size_pos hwf.counter_le) (by simpa using hguard)
    rw [hw] at h1
    simp only [Option.some.injEq] at h1
    subst h1
    intro j hj
    rw [hl.jobs, List.mem_append] at hj
    rcases hj with hj | hj
    · exact hzero j hj
    · rw [hrr] at hj
      exact loaderJobs_rr _ _ j hj

/-- Under round-robin all queued jobs have priority 0 in every state reached from a
well-formed state in which they have. -/
theorem rr_steps {s0 s : Simulation} (hwf : WF s0) (hrr : s0.scheduling = SchedulingCode.RR)
    (hzero : ∀ job ∈ s0.jobs, job.priority = 0) (hs : Steps s0 s) :
    ∀ job ∈ s.jobs, job.priority = 0 := by
  induction hs with
  | refl => exact hzero
  | tail hprev hstep ih =>
    obtain ⟨hwf1, hsched, _⟩ := hwf.wf_steps hprev
    exact rr_step hwf1 (hsched.trans hrr) ih hstep

/-- C26 (as stated, refuted): jobs of priority 0 for the processes 0, 1, 2, 3 are
pushed in this order onto the empty queue.  The first pop returns process 0; the
second pop returns process 2, although process 1 was pushed earlier and is still
queued (the pops return 0, 2, 1, 3).  In the model of the dispatch loop, where `top()`
may be any job that no queued job exceeds, an iteration may likewise pop the second of
two queued jobs of priority 0. -/
theorem rr_queue_counterexample :
    queueOfPids [0, 1, 2, 3] =
      [{ pid := 0, priority := 0 }, { pid := 1, priority := 0 }, { pid := 2, priority := 0 },
       { pid := 3, priority := 0 }] ∧
    queueTop (queueOfPids [0, 1, 2, 3]) = some { pid := 0, priority := 0 } ∧
    queueTop (queuePop (queueOfPids [0, 1, 2, 3])) = some { pid := 2, priority := 0 } ∧
    { pid := 1, priority := 0 } ∈ queuePop (queueOfPids [0, 1, 2, 3]) ∧
    queueTop (queuePop (queuePop (queueOfPids [0, 1, 2, 3]))) =
      some { pid := 1, priority := 0 } ∧
    (exampleLoaded .RR [app1, app1]).jobs =
      [{ pid := 0, priority := 0 }, { pid := 1, priority := 0 }] ∧
    ((exampleLoaded .RR [app1, app1]).dispatch 10 1 quietDispatch).map (fun s => s.jobs) =
      some [{ pid := 0, priority := 0 }, { pid := 1, priority := 0 }] ∧
    ((exampleLoaded .RR [app1, app1]).dispatch 10 1 quietDispatch).map
      (fun s => s.currentProcess) = some 1 :=
  ⟨by decide, by decide, by decide, by decide, by decide, by decide, by decide, by decide⟩

/-- C26 (amended): under RR, in every state reached from the start of the simulation,
every queued job has priority 0; so every queued job is one that no queued job
exceeds, and `top()` may return any of them.  A dispatch iteration pops one of the
queued jobs, removes exactly that job from the queue and pushes it back at most once,
with priority 0. -/
theorem rr_queue_any_job (config : Config) (applications : List Application)
    (maxMemoryBlocks : Nat) (hdd printer speaker : IOResourceSemaphore)
    (monitor keyboard mouse : IOResourceMutex) (s : Simulation)
    (hs : Steps (Simulation.initial .RR config applications maxMemoryBlocks hdd printer speaker
      monitor keyboard mouse) s) :
    (∀ job ∈ s.jobs, job.priority = 0) ∧
    (∀ (top : Nat) (job : Job), s.jobs[top]? = some job →
      s.jobs.all (fun other => decide (other.priority ≤ job.priority)) = true) ∧
    (∀ (fuel top : Nat) (obs : DispatchObservation) (s' : Simulation),
      s.dispatch fuel top obs = some s' →
      ∃ job, s.jobs[top]? = some job ∧
        (s'.jobs = s.jobs.eraseIdx top ∨
          s'.jobs = s.jobs.eraseIdx top ++ [{ pid := job.pid, priority := 0 }])) := by
  have hwf0 := WF.initial .RR config applications maxMemoryBlocks hdd printer speaker
    monitor keyboard mouse
  have hzero := rr_steps hwf0 rfl (by simp [Simulation.initial]) hs
  obtain ⟨_, hsched, _⟩ := hwf0.wf_steps hs
  refine ⟨hzero, ?_, ?_⟩
  · intro top job hjob
    rw [List.all_eq_true]
    intro other hother
    rw [hzero other hother, hzero job (mem_of_getElem? hjob)]
    decide
  · intro fuel top obs s' hd
    obtain ⟨job, pcb, pcb', hd⟩ := dispatch_spec hd
    refine ⟨job, hd.isTop, ?_⟩
    rw [hd.jobs]
    split
    · left; simp
    · right
      have hrr : s.scheduling = SchedulingCode.RR := hsched
      simp [requeuePriority, hrr]

/-- C26 (amended) at a concrete input: two one-event processes loaded under RR; both
positions of the queue pass the test of `top()`. -/
theorem rr_queue_any_job_witness :
    Steps (exampleSim .RR [app1, app1] 1 8) (exampleLoaded .RR [app1, app1]) ∧
    (∀ job ∈ (exampleLoaded .RR [app1, app1]).jobs, job.priority = 0) ∧
    (exampleLoaded .RR [app1, app1]).jobs.all
      (fun other => decide (other.priority ≤ (0 : Int))) = true :=
  ⟨Steps.tail (Steps.refl _)
      (Step.load (by decide) (eq_some_getD (exampleSim .RR [app1, app1] 1 8) (by decide))),
    (rr_queue_any_job
      { processorCycleTime := 10, memoryCycleTime := 1, memoryBlockSize := 1 } [app1, app1] 8
      (IOResourceSemaphore.init 1 1) (IOResourceSemaphore.init 1 1) (IOResourceSemaphore.init 1 1)
      (IOResourceMutex.init 1) (IOResourceMutex.init 1) (IOResourceMutex.init 1)
      (exampleLoaded .RR [app1, app1])
      (Steps.tail (Steps.refl _)
        (Step.load (by decide)
          (eq_some_getD (exampleSim .RR [app1, app1] 1 8) (by decide))))).1,
    by decide⟩

/-! ## C27: event completion -/

/-- C27 (the code at the failing input): one process with the application
`M(allocate)1` is loaded under RR and dispatched three times: the first iteration sets
it to `READY`; in the second the quantum bit becomes set between the two reads of the
interrupt word that follow the wait of `handleMem`; the third has no interrupt.  The
process reaches `EXIT` with an empty queue, and the log holds for its one `M` event one
start-type line (`allocating memory`) and two end-type lines (`memory allocated` at
address 0 and at address 1). -/
theorem event_completion_two_end_lines :
    Steps (exampleSim .RR [appAllocate] 1 8)
      (observedRun (exampleLoaded .RR [appAllocate])
        [quietDispatch, raceDispatch, quietDispatch]) ∧
    ((observedRun (exampleLoaded .RR [appAllocate])
        [quietDispatch, raceDispatch, quietDispatch]).process? 0).map
      (fun p => (p.state, p.eventQueue)) = some (ProcessState.EXIT, []) ∧
    (observedRun (exampleLoaded .RR [appAllocate])
        [quietDispatch, raceDispatch, quietDispatch]).log =
      [.simStarting, .preparing 0, .starting 0, .allocating 0, .allocated 0 0,
       .interruptProcessing 0, .starting 0, .allocated 0 1, .completed 0] ∧
    (allocatedLines (observedRun (exampleLoaded .RR [appAllocate])
        [quietDispatch, raceDispatch, quietDispatch]).log).length = 2 :=
  ⟨Steps.tail (Steps.tail (Steps.tail (Steps.tail (Steps.refl _)
      (Step.load (by decide)
        (eq_some_getD (exampleSim .RR [appAllocate] 1 8) (by decide))))
      (Step.dispatch 10 0 quietDispatch
        (eq_some_getD (exampleLoaded .RR [appAllocate]) (by decide))))
      (Step.dispatch 10 0 raceDispatch
        (eq_some_getD (observedRun (exampleLoaded .RR [appAllocate]) [quietDispatch])
          (by decide))))
      (Step.dispatch 10 0 quietDispatch
        (eq_some_getD
          (observedRun (exampleLoaded .RR [appAllocate]) [quietDispatch, raceDispatch])
          (by decide))),
    by decide, by decide, by decide⟩

/-! ## C28: `EXIT` is sticky -/

/-- A slot that holds a process after an I/O worker may have ended held one before. -/
theorem Flip.some_before {a : Option PCB} {pcb : PCB} (h : Flip a (some pcb)) :
    ∃ pcb0, a = some pcb0 := by
  rcases h with h | ⟨p, hp, _, _⟩
  · exact ⟨pcb, h⟩
  · exact ⟨p, hp⟩

/-- A process found exited after an I/O worker may have ended was exited before. -/
theorem Flip.exit_before {a : Option PCB} {pcb : PCB} (h : Flip a (some pcb))
    (hexit : pcb.state = ProcessState.EXIT) : a = some pcb := by
  rcases h with h | ⟨p, _, _, hb⟩
  · exact h
  · simp only [Option.some.injEq] at hb
    rw [hb] at hexit
    cases hexit

/-- The start of the simulation is tidy. -/
theorem Tidy.tidy_initial (scheduling : SchedulingCode) (config : Config)
    (applications : List Application) (maxMemoryBlocks : Nat)
    (hdd printer speaker : IOResourceSemaphore) (monitor keyboard mouse : IOResourceMutex) :
    Tidy (Simulation.initial scheduling config applications maxMemoryBlocks hdd printer speaker
      monitor keyboard mouse) := by
  refine ⟨WF.initial _ _ _ _ _ _ _ _ _ _, ?_, ?_, ?_⟩
  · intro q pcb h
    simp [Simulation.initial, Simulation.process?, ProcessTable.get?, ProcessTable.empty] at h
  · intro p
    simp [Simulation.initial, jobsOf]
  · intro p pcb h
    simp [Simulation.initial, Simulation.process?, ProcessTable.get?, ProcessTable.empty] at h

/-- A dispatch iteration keeps the state tidy. -/
theorem Tidy.tidy_dispatched {sim sim' : Simulation} {top : Nat} {obs : DispatchObservation}
    {job : Job} {pcb pcb' : PCB} (h : Tidy sim)
    (hd : Dispatched sim sim' top obs job pcb pcb') : Tidy sim' := by
  have hmem : job ∈ sim.jobs := mem_of_getElem? hd.isTop
  have hself : jobsOf job.pid (sim.jobs.eraseIdx top) = [] := by
    have hin : job ∈ jobsOf job.pid sim.jobs := mem_jobsOf hmem rfl
    have hlen := h.once job.pid
    cases hj : jobsOf job.pid sim.jobs with
    | nil => rw [hj] at hin; cases hin
    | cons x rest =>
      rw [hj] at hlen
      have hrest : rest = [] := by
        cases rest with
        | nil => rfl
        | cons y r => simp at hlen
      subst hrest
      exact jobsOf_eraseIdx_eq hd.isTop rfl hj
  refine ⟨h.wf.wf_dispatched hd, ?_, ?_, ?_⟩
  · intro q pcb2 hq
    rw [hd.processCounter]
    by_cases hqj : q = job.pid
    · subst hqj
      exact h.created _ _ hd.before
    · have hflip := hd.others q hqj
      rw [hq] at hflip
      obtain ⟨pcb0, h0⟩ := hflip.some_before
      exact h.created q pcb0 h0
  · intro p
    rw [hd.jobs, jobsOf_append]
    by_cases hpj : job.pid = p
    · subst hpj
      rw [hself]
      split <;> simp [jobsOf]
    · rw [jobsOf_eraseIdx_ne hd.isTop hpj]
      have : jobsOf p (if pcb'.state = ProcessState.EXIT then []
          else [{ pid := job.pid, priority := requeuePriority sim.scheduling pcb' }]) = [] := by
        split
        · rfl
        · exact jobsOf_singleton_ne _ hpj
      rw [this, List.append_nil]
      exact h.once p
  · intro p pcb2 hp hexit
    rw [hd.jobs, jobsOf_append]
    by_cases hpj : job.pid = p
    · subst hpj
      rw [hd.after] at hp
      simp only [Option.some.injEq] at hp
      subst hp
      rw [hself, if_pos hexit]
      rfl
    · have hflip := hd.others p (Ne.symm hpj)
      rw [hp] at hflip
      have hbefore := hflip.exit_before hexit
      rw [jobsOf_eraseIdx_ne hd.isTop hpj, h.exited p pcb2 hbefore hexit]
      split
      · rfl
      · exact jobsOf_singleton_ne _ hpj

/-- A loader wave keeps the state tidy. -/
theorem Tidy.tidy_loaded {s s' : Simulation} (h : Tidy s)
    (hl : Loaded s s.applications s') : Tidy s' := by
  have hloader : ∀ p, p < s.processCounter ∨
      s.processCounter + s.applications.length ≤ p →
      jobsOf p (loaderJobs s.scheduling s.processCounter s.applications) = [] := by
    intro p hp
    apply jobsOf_eq_nil_of_forall
    intro job hjob heq
    have := loaderJobs_mem _ _ _ _ hjob
    omega
  have hold : ∀ p, s.processCounter ≤ p → jobsOf p s.jobs = [] := by
    intro p hp
    apply jobsOf_eq_nil_of_forall
    intro job hjob heq
    have := h.wf.jobs_lt job hjob
    omega
  refine ⟨h.wf.loaded hl, ?_, ?_, ?_⟩
  · intro q pcb hq
    rw [hl.counter]
    by_contra hge
    rw [hl.old q (Or.inr (by omega))] at hq
    have := h.created q pcb hq
    omega
  · intro p
    rw [hl.jobs, jobsOf_append]
    by_cases hp : p < s.processCounter
    · rw [hloader p (Or.inl hp), List.append_nil]
      exact h.once p
    · rw [hold p (by omega), List.nil_append]
      by_cases hp2 : p < s.processCounter + s.applications.length
      · obtain ⟨j, rfl⟩ : ∃ j, p = s.processCounter + j := ⟨p - s.processCounter, by omega⟩
        have hj : j < s.applications.length := by omega
        rw [jobsOf_loaderJobs _ _ _ j _ (List.getElem?_eq_getElem hj)]
        simp
      · rw [hloader p (Or.inr (by omega))]
        simp
  · intro p pcb hp hexit
    rw [hl.jobs, jobsOf_append]
    by_cases hp1 : p < s.processCounter
    · rw [hl.old p (Or.inl hp1)] at hp
      rw [h.exited p pcb hp hexit, hloader p (Or.inl hp1)]
      rfl
    · by_cases hp2 : p < s.processCounter + s.applications.length
      · obtain ⟨j, rfl⟩ : ∃ j, p = s.processCounter + j := ⟨p - s.processCounter, by omega⟩
        have hj : j < s.applications.length := by omega
        rw [hl.new j _ (List.getElem?_eq_getElem hj)] at hp
        simp only [Option.some.injEq] at hp
        subst hp
        simp [newPCB] at hexit
      · rw [hl.old p (Or.inr (by omega))] at hp
        have := h.created p pcb hp
        omega

/-- Every step keeps the state tidy. -/
theorem Tidy.tidy_step {s s' : Simulation} (h : Tidy s) (hs : Step s s') : Tidy s' := by
  cases hs with
  | dispatch fuel top obs hd =>
    obtain ⟨job, pcb, pcb', hd⟩ := dispatch_spec hd
    exact h.tidy_dispatched hd
  | ioEnd i hi =>
    have hwf := (h.wf.wf_step (Step.ioEnd i hi)).1
    have hproc : ∀ q, Flip (s.process? q) ((s.ioThreadEnd i).process? q) := fun q =>
      (Frame.ioThreadEnd (q + 1) s i).others q (by omega)
    have hf := Frame.ioThreadEnd 0 s i
    refine ⟨hwf, ?_, ?_, ?_⟩
    · intro q pcb hq
      have hflip := hproc q
      rw [hq] at hflip
      obtain ⟨pcb0, h0⟩ := hflip.some_before
      rw [hf.processCounter]
      exact h.created q pcb0 h0
    · intro p
      rw [hf.jobs]
      exact h.once p
    · intro p pcb hp hexit
      have hflip := hproc p
      rw [hp] at hflip
      rw [hf.jobs]
      exact h.exited p pcb (hflip.exit_before hexit) hexit
  | load hguard hw =>
    obtain ⟨sim1, h1, hl, _⟩ := loaderWave_loaded s [] s
      (Loaded.base s h.wf.size_pos h.wf.counter_le) (by simpa using hguard)
    rw [hw] at h1
    simp only [Option.some.injEq] at h1
    subst h1
    simp only [List.nil_append] at hl
    exact h.tidy_loaded hl

/-- Every reachable state is tidy. -/
theorem Tidy.tidy_steps {s0 s : Simulation} (h : Tidy s0) (hs : Steps s0 s) : Tidy s := by
  induction hs with
  | refl => exact h
  | tail _ hstep ih => exact ih.tidy_step hstep

/-- A step from a tidy state leaves an exited process that is not queued as it is and
does not queue it. -/
theorem exit_kept_step {s s' : Simulation} {p : Nat} {pcb : PCB} (h : Tidy s)
    (hp : s.process? p = some pcb) (hexit : pcb.state = ProcessState.EXIT)
    (hs : Step s s') : s'.process? p = some pcb := by
  have hnot : ∀ job ∈ s.jobs, job.pid ≠ p := not_mem_of_jobsOf_nil (h.exited p pcb hp hexit)
  have hnw : pcb.state ≠ ProcessState.WAITING := by rw [hexit]; decide
  cases hs with
  | dispatch fuel top obs hd =>
    obtain ⟨job, pcb1, pcb2, hd⟩ := dispatch_spec hd
    have hne : job.pid ≠ p := hnot job (mem_of_getElem? hd.isTop)
    have hflip := hd.others p (Ne.symm hne)
    rw [hp] at hflip
    exact hflip.eq_of_not_waiting hnw
  | ioEnd i hi =>
    have hflip := (Frame.ioThreadEnd (p + 1) s i).others p (by omega)
    rw [hp] at hflip
    exact hflip.eq_of_not_waiting hnw
  | load hguard hw =>
    obtain ⟨sim1, h1, hl, _⟩ := loaderWave_loaded s [] s
      (Loaded.base s h.wf.size_pos h.wf.counter_le) (by simpa using hguard)
    rw [hw] at h1
    simp only [Option.some.injEq] at h1
    subst h1
    rw [hl.old p (Or.inl (h.created p pcb hp))]
    exact hp

/-- C28: in every run of the simulation from its start, once the state of a process is
`EXIT`, no later step (dispatch iteration with its handler calls, end of an I/O
worker, loader wave) changes its state or anything else of its process control block,
and the process is not in the job queue, then or at any later time. -/
theorem exit_sticky (scheduling : SchedulingCode) (config : Config)
    (applications : List Application) (maxMemoryBlocks : Nat)
    (hdd printer speaker : IOResourceSemaphore) (monitor keyboard mouse : IOResourceMutex)
    (s s' : Simulation) (p : Nat) (pcb : PCB)
    (hreach : Steps (Simulation.initial scheduling config applications maxMemoryBlocks hdd
      printer speaker monitor keyboard mouse) s)
    (hp : s.process? p = some pcb) (hexit : pcb.state = ProcessState.EXIT)
    (hlater : Steps s s') :
    s'.process? p = some pcb ∧ (∀ job ∈ s.jobs, job.pid ≠ p) ∧
      (∀ job ∈ s'.jobs, job.pid ≠ p) := by
  have htidy : Tidy s := (Tidy.tidy_initial _ _ _ _ _ _ _ _ _ _).tidy_steps hreach
  have hkept : s'.process? p = some pcb ∧ Tidy s' := by
    induction hlater with
    | refl => exact ⟨hp, htidy⟩
    | tail _ hstep ih => exact ⟨exit_kept_step ih.2 ih.1 hexit hstep, ih.2.tidy_step hstep⟩
  exact ⟨hkept.1, not_mem_of_jobsOf_nil (htidy.exited p pcb hp hexit),
    not_mem_of_jobsOf_nil (hkept.2.exited p pcb hkept.1 hexit)⟩

/-- Witness for C28: of two processes with the application `M(allocate)1` under RR,
process 0 is in state `EXIT` after three dispatch iterations; the fourth iteration
runs process 1 to its end and leaves process 0 as it was. -/
theorem exit_sticky_witness :
    (observedRun (exampleLoaded .RR [appAllocate, appAllocate])
        [quietDispatch, quietDispatch, quietDispatch, quietDispatch]).process? 0 =
      some ({ newPCB 0 appAllocate with state := ProcessState.EXIT, eventQueue := [] }) ∧
    (∀ job ∈ (observedRun (exampleLoaded .RR [appAllocate, appAllocate])
        [quietDispatch, quietDispatch, quietDispatch]).jobs, job.pid ≠ 0) ∧
    (∀ job ∈ (observedRun (exampleLoaded .RR [appAllocate, appAllocate])
        [quietDispatch, quietDispatch, quietDispatch, quietDispatch]).jobs, job.pid ≠ 0) :=
  exit_sticky .RR
    { processorCycleTime := 10, memoryCycleTime := 1, memoryBlockSize := 1 }
    [appAllocate, appAllocate] 8
    (IOResourceSemaphore.init 1 1) (IOResourceSemaphore.init 1 1) (IOResourceSemaphore.init 1 1)
    (IOResourceMutex.init 1) (IOResourceMutex.init 1) (IOResourceMutex.init 1)
    (observedRun (exampleLoaded .RR [appAllocate, appAllocate])
      [quietDispatch, quietDispatch, quietDispatch])
    (observedRun (exampleLoaded .RR [appAllocate, appAllocate])
      [quietDispatch, quietDispatch, quietDispatch, quietDispatch])
    0 { newPCB 0 appAllocate with state := ProcessState.EXIT, eventQueue := [] }
    (Steps.tail (Steps.tail (Steps.tail (Steps.tail (Steps.refl _)
      (Step.load (by decide)
        (eq_some_getD (exampleSim .RR [appAllocate, appAllocate] 1 8) (by decide))))
      (Step.dispatch 10 0 quietDispatch
        (eq_some_getD (exampleLoaded .RR [appAllocate, appAllocate]) (by decide))))
      (Step.dispatch 10 0 quietDispatch
        (eq_some_getD (observedRun (exampleLoaded .RR [appAllocate, appAllocate])
          [quietDispatch]) (by decide))))
      (Step.dispatch 10 0 quietDispatch
        (eq_some_getD (observedRun (exampleLoaded .RR [appAllocate, appAllocate])
          [quietDispatch, quietDispatch]) (by decide))))
    (by decide) (by decide)
    (Steps.tail (Steps.refl _)
      (Step.dispatch 10 0 quietDispatch
        (eq_some_getD (observedRun (exampleLoaded .RR [appAllocate, appAllocate])
          [quietDispatch, quietDispatch, quietDispatch]) (by decide))))

/-! ## C29: entry to `WAITING` -/

/-- An I/O worker that ends leaves a process that is not `WAITING` as it is. -/
theorem ioThreadEnd?_not_waiting (s : Simulation) (i : Option Nat) (pid : Nat) (pcb : PCB)
    (hp : s.process? pid = some pcb) (hnw : pcb.state ≠ ProcessState.WAITING) :
    (s.ioThreadEnd? i).process? pid = some pcb := by
  have hflip := (Frame.ioThreadEnd? (pid + 1) s i).others pid (by omega)
  rw [hp] at hflip
  exact hflip.eq_of_not_waiting hnw

/-- An I/O worker that ends leaves a process in a state other than `WAITING`, or
leaves it as it was. -/
theorem ioThreadEnd?_waiting (s : Simulation) (i : Option Nat) (pid : Nat) (pcb pcb' : PCB)
    (hp : s.process? pid = some pcb) (hp' : (s.ioThreadEnd? i).process? pid = some pcb')
    (hw : pcb'.state = ProcessState.WAITING) : pcb' = pcb := by
  have hflip := (Frame.ioThreadEnd? (pid + 1) s i).others pid (by omega)
  rw [hp, hp'] at hflip
  rcases hflip with h | ⟨p, _, _, hb⟩
  · simp only [Option.some.injEq] at h
    exact h.symm
  · simp only [Option.some.injEq] at hb
    rw [hb] at hw
    cases hw

/-- The three ways in which `handleIO` returns for a process that is not `WAITING`:
the resumed event is completed and the state is `READY`; the acquisition loop was
interrupted and the PCB is as it was; or a `run` call returned `true` and the handler
wrote `WAITING`. -/
theorem handleIO_cases {fuel : Nat} {sim sim' : Simulation} {pid : Nat} {event : SimEvent}
    {obs : Observation} {entry : PCB}
    (h : Simulation.handleIO fuel sim pid event obs = some sim')
    (hp : sim.process? pid = some entry) (hnw : entry.state ≠ ProcessState.WAITING) :
    (∃ pcb, sim'.process? pid = some pcb ∧ pcb.state = ProcessState.READY) ∨
    sim'.process? pid = some entry ∨
    (entry.eventInProgress = false ∧ ∃ acquired,
      Simulation.acquireLoop (resourceOf event.descriptor) event pid obs.poll fuel 0 sim =
        some (true, acquired) ∧
      sim' = (acquired.ioThreadEnd? obs.endBeforeWaiting).setProcess pid
        { entry with eventInProgress := true, state := ProcessState.WAITING } ∧
      sim'.process? pid =
        some { entry with eventInProgress := true, state := ProcessState.WAITING }) := by
  have hlt := process?_lt_size sim pid entry hp
  unfold Simulation.handleIO at h
  rw [hp] at h
  simp only at h
  split at h
  · simp only [Option.some.injEq] at h
    subst h
    exact Or.inl ⟨_, process?_setProcess_self sim pid _ hlt, rfl⟩
  · rename_i hfresh
    split at h
    · simp at h
    · rename_i b sim1 hacq
      have hs := Same.acquireLoop _ _ _ _ _ _ _ _ _ hacq
      have hp1 : sim1.process? pid = some entry := by rw [hs.process? pid]; exact hp
      split at h
      · rename_i hb
        have hp2 := ioThreadEnd?_not_waiting sim1 obs.endBeforeWaiting pid entry hp1 hnw
        rw [hp2] at h
        simp only [Option.some.injEq] at h
        subst h
        refine Or.inr (Or.inr ⟨by simpa using hfresh, sim1, ?_, rfl, ?_⟩)
        · rw [hacq, hb]
        · exact process?_setProcess_self _ pid _ (process?_lt_size _ pid entry hp2)
      · simp only [Option.some.injEq] at h
        subst h
        exact Or.inr (Or.inl hp1)

/-- What a handler call of the loop of `RunProcess` leaves of a process that was
`RUNNING` or `READY`: the same PCB slot with a queue that lost events at the head
only, again `RUNNING` or `READY`, or `WAITING` through the `handleIO` call described
by `WaitingEntry`. -/
theorem handler_outcome {fuel : Nat} {sim sim1 : Simulation} {pid : Nat} {event : SimEvent}
    {obs : Observation} {p0 : PCB} {rest : List SimEvent}
    (hh : (if event.code = 'P' then sim.handleProc pid event obs
      else if event.code = 'M' then sim.handleMem pid event obs
      else Simulation.handleIO fuel sim pid event obs) = some sim1)
    (hcode : event.code = 'P' ∨ event.code = 'M' ∨ event.code = 'I' ∨ event.code = 'O')
    (hp : sim.process? pid = some p0) (hq : p0.eventQueue = event :: rest)
    (hrun : p0.state = ProcessState.RUNNING ∨ p0.state = ProcessState.READY) :
    ∃ p1, sim1.process? pid = some p1 ∧ p1.pid = p0.pid ∧
      (∃ n, p1.eventQueue = p0.eventQueue.drop n) ∧
      ((p1.state = ProcessState.RUNNING ∨ p1.state = ProcessState.READY) ∨
        ∃ acquired, WaitingEntry fuel sim pid event obs p0 acquired p1) := by
  have hnw : p0.state ≠ ProcessState.WAITING := by
    rcases hrun with h1 | h1 <;> rw [h1] <;> decide
  have hframe : Frame pid sim sim1 := by
    split at hh
    · exact Frame.handleProc hh
    · split at hh
      · exact Frame.handleMem hh
      · exact Frame.handleIO hh
  obtain ⟨p1, hp1, hpid1, hq1⟩ := hframe.self p0 hp
  refine ⟨p1, hp1, hpid1, hq1, ?_⟩
  split at hh
  · have hr := handleProc_ready hh
    rw [hp1] at hr
    simp only [Option.map_some', Option.some.injEq] at hr
    exact Or.inl (Or.inr hr)
  · rename_i hnotP
    split at hh
    · have hr := handleMem_ready hh
      rw [hp1] at hr
      simp only [Option.map_some', Option.some.injEq] at hr
      exact Or.inl (Or.inr hr)
    · rename_i hnotM
      have hio : event.code = 'I' ∨ event.code = 'O' := by
        rcases hcode with h1 | h1 | h1
        · exact absurd h1 hnotP
        · exact absurd h1 hnotM
        · exact h1
      rcases handleIO_cases hh hp hnw with ⟨pcb, hpcb, hready⟩ | hsame | ⟨hfresh, acquired, hacq, hsim1, hwritten⟩
      · rw [hp1] at hpcb
        simp only [Option.some.injEq] at hpcb
        subst hpcb
        exact Or.inl (Or.inr hready)
      · rw [hp1] at hsame
        simp only [Option.some.injEq] at hsame
        subst hsame
        exact Or.inl hrun
      · rw [hp1] at hwritten
        simp only [Option.some.injEq] at hwritten
        refine Or.inr ⟨acquired, hp, hrun, by rw [hq]; rfl, hio, hfresh, hacq, ?_, hwritten⟩
        rw [hh, hsim1]

/-- Entry to `WAITING` inside the loop of `RunProcess`: when the loop is entered with
the process `RUNNING` or `READY` and returns with the process `WAITING`, one of its
iterations called `handleIO` as described by `WaitingEntry`, for an event of the queue
the loop started with. -/
theorem runProcessLoop_waiting (obs : Nat → Observation) (pid : Nat) (fuel : Nat) :
    ∀ (k : Nat) (sim sim' : Simulation) (p0 pcb' : PCB),
    Simulation.RunProcessLoop obs pid fuel k sim = some sim' →
    sim.process? pid = some p0 →
    (p0.state = ProcessState.RUNNING ∨ p0.state = ProcessState.READY) →
    sim'.process? pid = some pcb' → pcb'.state = ProcessState.WAITING →
    ∃ (fuel1 k1 : Nat) (mid : Simulation) (event : SimEvent) (entry : PCB)
      (acquired : Simulation),
      WaitingEntry fuel1 mid pid event (obs k1) entry acquired pcb' ∧
      entry.pid = p0.pid ∧ ∃ n, entry.eventQueue = p0.eventQueue.drop n := by
  induction fuel with
  | zero => intro k sim sim' p0 pcb' h; simp [Simulation.RunProcessLoop] at h
  | succ fuel ih =>
    intro k sim sim' p0 pcb' h hp hrun hp' hw
    have hnw : p0.state ≠ ProcessState.WAITING := by
      rcases hrun with h1 | h1 <;> rw [h1] <;> decide
    unfold Simulation.RunProcessLoop at h
    rw [hp] at h
    simp only at h
    cases hq : p0.eventQueue with
    | nil =>
      rw [hq] at h
      simp only [Option.some.injEq] at h
      subst h
      rw [hp] at hp'
      simp only [Option.some.injEq] at hp'
      subst hp'
      exact absurd hw hnw
    | cons event rest =>
      rw [← hq]
      rw [hq] at h
      simp only at h
      by_cases hcode : event.code = 'P' ∨ event.code = 'M' ∨ event.code = 'I' ∨ event.code = 'O'
      · rw [if_pos hcode] at h
        generalize hh : (if event.code = 'P' then sim.handleProc pid event (obs k)
          else if event.code = 'M' then sim.handleMem pid event (obs k)
          else Simulation.handleIO fuel sim pid event (obs k)) = handled at h
        cases handled with
        | none => simp at h
        | some sim1 =>
          simp only at h
          obtain ⟨p1, hp1, hpid1, ⟨n1, hq1⟩, hkind⟩ := handler_outcome hh hcode hp hq hrun
          cases hp2 : (sim1.ioThreadEnd? (obs k).endBeforeCheck).process? pid with
          | none => rw [hp2] at h; simp at h
          | some process2 =>
            rw [hp2] at h
            simp only at h
            have hflip := (Frame.ioThreadEnd? (pid + 1) sim1 (obs k).endBeforeCheck).others pid
              (by omega)
            rw [hp1, hp2] at hflip
            split at h
            · -- the loop ends here
              simp only [Option.some.injEq] at h
              subst h
              rw [hp2] at hp'
              simp only [Option.some.injEq] at hp'
              subst hp'
              have heq : process2 = p1 :=
                ioThreadEnd?_waiting sim1 (obs k).endBeforeCheck pid p1 process2 hp1 hp2 hw
              subst heq
              rcases hkind with hrun1 | ⟨acquired, hentry⟩
              · rcases hrun1 with h1 | h1 <;> rw [h1] at hw <;> cases hw
              · exact ⟨fuel, k, sim, event, p0, acquired, hentry, rfl, 0, rfl⟩
            · -- the loop goes on
              rename_i hcont
              have hnw2 : process2.state ≠ ProcessState.WAITING := fun hc => hcont (Or.inr hc)
              have hrun2 : process2.state = ProcessState.RUNNING ∨
                  process2.state = ProcessState.READY := by
                rcases hflip with heq | ⟨p, hpp, _, hb⟩
                · simp only [Option.some.injEq] at heq
                  subst heq
                  rcases hkind with hrun1 | ⟨acquired, hentry⟩
                  · exact hrun1
                  · exact absurd (by rw [hentry.written]) hnw2
                · simp only [Option.some.injEq] at hb
                  rw [hb]
                  exact Or.inr rfl
              have hsame2 : process2.pid = p1.pid ∧ process2.eventQueue = p1.eventQueue := by
                rcases hflip with heq | ⟨p, hpp, _, hb⟩
                · simp only [Option.some.injEq] at heq
                  subst heq
                  exact ⟨rfl, rfl⟩
                · simp only [Option.some.injEq] at hpp hb
                  subst hpp
                  rw [hb]
                  exact ⟨rfl, rfl⟩
              obtain ⟨fuel1, k1, mid, ev, entry, acquired, hentry, hpid, n, hn⟩ :=
                ih _ _ _ _ _ h hp2 hrun2 hp' hw
              refine ⟨fuel1, k1, mid, ev, entry, acquired, hentry, ?_, n1 + n, ?_⟩
              · rw [hpid, hsame2.1, hpid1]
              · rw [hn, hsame2.2, hq1, List.drop_drop]
      · rw [if_neg hcode] at h
        exact ih _ _ _ _ _ h hp hrun hp' hw

/-- Entry to `WAITING` inside `RunProcess`. -/
theorem runProcess_waiting {fuel : Nat} {sim sim' : Simulation} {pid : Nat}
    {obs : Nat → Observation} {pcb pcb' : PCB}
    (h : sim.RunProcess fuel pid obs = some sim') (hp : sim.process? pid = some pcb)
    (hp' : sim'.process? pid = some pcb') (hw : pcb'.state = ProcessState.WAITING) :
    ∃ (fuel1 k1 : Nat) (mid : Simulation) (event : SimEvent) (entry : PCB)
      (acquired : Simulation),
      WaitingEntry fuel1 mid pid event (obs k1) entry acquired pcb' ∧
      entry.pid = pcb.pid ∧ ∃ n, entry.eventQueue = pcb.eventQueue.drop n := by
  unfold Simulation.RunProcess at h
  simp only at h
  have hpl : (sim.Log (LogLine.starting pid)).process? pid = some pcb := by
    rw [(Same.Log sim _).process? pid]; exact hp
  rw [hpl] at h
  simp only at h
  have hp0 : ((sim.Log (LogLine.starting pid)).setProcess pid
      { pcb with state := ProcessState.RUNNING }).process? pid =
      some { pcb with state := ProcessState.RUNNING } :=
    process?_setProcess_self _ pid _ (process?_lt_size _ pid pcb hpl)
  split at h
  · simp at h
  · rename_i sim1 hloop
    split at h
    · simp at h
    · rename_i process1 hp1
      split at h
      · simp only [Option.some.injEq] at h
        subst h
        have := setProcess_process?_some _ _ _ _ hp'
        rw [this] at hw
        cases hw
      · simp only [Option.some.injEq] at h
        subst h
        exact runProcessLoop_waiting obs pid fuel 0 _ _
          { pcb with state := ProcessState.RUNNING } pcb' hloop hp0 (Or.inl rfl) hp' hw

/-- A dispatch iteration that pops the job of a `READY` process calls `RunProcess` for
it, and the PCB that `RunProcess` leaves is the one the iteration leaves. -/
theorem dispatch_ran {fuel : Nat} {sim sim' : Simulation} {top : Nat}
    {obs : DispatchObservation} {job : Job} {pcb : PCB}
    (h : sim.dispatch fuel top obs = some sim') (hj : sim.jobs[top]? = some job)
    (hp : sim.process? job.pid = some pcb) (hready : pcb.state = ProcessState.READY) :
    ∃ sim2, Simulation.RunProcess fuel
        { sim with jobs := sim.jobs.eraseIdx top, currentProcess := job.pid } job.pid obs.run =
        some sim2 ∧
      sim'.process? job.pid = sim2.process? job.pid := by
  unfold Simulation.dispatch at h
  rw [hj] at h
  simp only at h
  split at h
  · have hp0 : Simulation.process? { sim with jobs := sim.jobs.eraseIdx top } job.pid =
        some pcb := hp
    rw [hp0] at h
    simp only at h
    have hns : ¬ pcb.state = ProcessState.START := by rw [hready]; decide
    rw [if_neg hns, if_pos hready] at h
    split at h
    · simp at h
    · rename_i sim2 hran
      refine ⟨sim2, hran, ?_⟩
      split at h
      · simp at h
      · split at h
        · split at h
          · simp at h
          · simp only [Option.some.injEq] at h
            subst h
            rfl
        · simp only [Option.some.injEq] at h
          subst h
          rfl
  · simp at h

/-- C29 (as amended): (1) in every state the end of an I/O worker changes the PCB of a
process only by setting a `WAITING` state to `READY`, and (2) in every step of a run of
the simulation from its start, when
the step takes a process from a state other than `WAITING` to `WAITING`, the step is a
dispatch iteration that popped the job of this process in state `READY`, and inside it
`handleIO` was called for an `I` or `O` event of the process with no event in
progress, the process being `RUNNING` or `READY` at that call, the `run` call of the
device returned `true`, and `handleIO` wrote `WAITING` (with `eventInProgress`) into
the PCB, which is the PCB after the step. -/
theorem waiting_entry (scheduling : SchedulingCode) (config : Config)
    (applications : List Application) (maxMemoryBlocks : Nat)
    (hdd printer speaker : IOResourceSemaphore) (monitor keyboard mouse : IOResourceMutex)
    (s s' : Simulation) (q : Nat) (pcb : PCB)
    (hreach : Steps (Simulation.initial scheduling config applications maxMemoryBlocks hdd
      printer speaker monitor keyboard mouse) s)
    (hstep : Step s s') (hb : s.process? q = some pcb) :
    (∀ (t : Simulation) (i r : Nat) (p : PCB), t.process? r = some p →
      Flip (some p) ((t.ioThreadEnd i).process? r)) ∧
    (∀ pcb', s'.process? q = some pcb' → pcb.state ≠ ProcessState.WAITING →
      pcb'.state = ProcessState.WAITING →
      pcb.state = ProcessState.READY ∧
      ∃ (fuel top : Nat) (obs : DispatchObservation) (job : Job),
        s.dispatch fuel top obs = some s' ∧ s.jobs[top]? = some job ∧ job.pid = q ∧
        ∃ (fuel1 k1 : Nat) (mid : Simulation) (event : SimEvent) (entry : PCB)
          (acquired : Simulation),
          WaitingEntry fuel1 mid q event (obs.run k1) entry acquired pcb' ∧
          entry.pid = pcb.pid ∧ ∃ n, entry.eventQueue = pcb.eventQueue.drop n) := by
  constructor
  · intro t i r p hp
    have hflip := (Frame.ioThreadEnd (r + 1) t i).others r (by omega)
    rw [hp] at hflip
    exact hflip
  · intro pcb' ha hnw hw
    cases hstep with
    | dispatch fuel top obs hd =>
      obtain ⟨job, pcb1, pcb2, hsum⟩ := dispatch_spec hd
      by_cases hq : q = job.pid
      · subst hq
        have hpcb1 : pcb1 = pcb := by
          have := hsum.before
          rw [hb] at this
          simp only [Option.some.injEq] at this
          exact this.symm
        subst hpcb1
        have hpcb2 : pcb2 = pcb' := by
          have := hsum.after
          rw [ha] at this
          simp only [Option.some.injEq] at this
          exact this.symm
        subst hpcb2
        by_cases hready : pcb1.state = ProcessState.READY
        · obtain ⟨sim2, hran, hsame⟩ := dispatch_ran hd hsum.isTop hb hready
          rw [ha] at hsame
          exact ⟨hready, fuel, top, obs, job, hd, hsum.isTop, rfl,
            runProcess_waiting hran hb hsame.symm hw⟩
        · have hres := (hsum.notRun hready).2
          split at hres
          · rw [hres] at hw
            cases hw
          · rw [hres] at hw
            exact absurd hw hnw
      · have hflip := hsum.others q hq
        rw [hb] at hflip
        have := hflip.eq_of_not_waiting hnw
        rw [ha] at this
        simp only [Option.some.injEq] at this
        rw [this] at hw
        exact absurd hw hnw
    | ioEnd i hi =>
      have hflip := (Frame.ioThreadEnd (q + 1) s i).others q (by omega)
      rw [hb] at hflip
      have := hflip.eq_of_not_waiting hnw
      rw [ha] at this
      simp only [Option.some.injEq] at this
      rw [this] at hw
      exact absurd hw hnw
    | load hguard hwave =>
      have hwf : WF s := ((WF.initial _ _ _ _ _ _ _ _ _ _).wf_steps hreach).1
      obtain ⟨sim1, h1, hl, _⟩ := loaderWave_loaded s [] s
        (Loaded.base s hwf.size_pos hwf.counter_le) (by simpa using hguard)
      rw [hwave] at h1
      simp only [Option.some.injEq] at h1
      subst h1
      simp only [List.nil_append] at hl
      by_cases hold : q < s.processCounter ∨ s.processCounter + s.applications.length ≤ q
      · rw [hl.old q hold, hb] at ha
        simp only [Option.some.injEq] at ha
        rw [← ha] at hw
        exact absurd hw hnw
      · obtain ⟨j, rfl⟩ : ∃ j, q = s.processCounter + j := ⟨q - s.processCounter, by omega⟩
        have hj : j < s.applications.length := by omega
        rw [hl.new j _ (List.getElem?_eq_getElem hj)] at ha
        simp only [Option.some.injEq] at ha
        rw [← ha] at hw
        simp [newPCB] at hw

/-- C29 (counterexample): the application `P(run)1; O(printer)1` runs with no
interrupt.  `RunProcess` has set the process to `RUNNING`; the first iteration of its
loop calls `handleProc`, which returns with the state `READY`, and the loop goes back
to its test with that state; the second iteration calls `handleIO` with the process in
state `READY`, the `run` call of the printer returns `true`, and `handleIO` writes
`WAITING`: the state becomes `WAITING` from `READY`, not from `RUNNING`.  Seen from
the dispatch loop, the iteration takes the process from `READY` to `WAITING`. -/
theorem waiting_from_ready_counterexample :
    (( exampleRunning .RR appComputePrint).process? 0).map (fun p => p.state) =
      some ProcessState.RUNNING ∧
    Simulation.RunProcessLoop (fun _ => quietObservation) 0 10 0
        (exampleRunning .RR appComputePrint) =
      Simulation.RunProcessLoop (fun _ => quietObservation) 0 9 1 afterCompute ∧
    (afterCompute.process? 0).map (fun p => (p.state, p.eventQueue, p.eventInProgress)) =
      some (ProcessState.READY, appPrinter, false) ∧
    (Simulation.acquireLoop (resourceOf "printer")
        { code := 'O', descriptor := "printer", cycles := 1 } 0 quietObservation.poll 9 0
        afterCompute).map (fun r => r.1) = some true ∧
    ((Simulation.handleIO 9 afterCompute 0
        { code := 'O', descriptor := "printer", cycles := 1 } quietObservation).bind
      (fun s => s.process? 0)).map (fun p => (p.state, p.eventQueue, p.eventInProgress)) =
      some (ProcessState.WAITING, appPrinter, true) ∧
    ((observedRun (exampleLoaded .RR [appComputePrint]) [quietDispatch]).process? 0).map
      (fun p => p.state) = some ProcessState.READY ∧
    ((observedRun (exampleLoaded .RR [appComputePrint]) [quietDispatch]).dispatch 10 0
        quietDispatch).map (fun s => (s.process? 0).map (fun p => p.state)) =
      some (some ProcessState.WAITING) :=
  ⟨by decide, rfl, by decide, by decide, by decide, by decide, by decide⟩

/-- Witness for C29: the application `P(run)1; O(printer)1` under RR, loaded and
dispatched twice with no interrupt; the second iteration takes process 0 from `READY`
to `WAITING`. -/
theorem waiting_entry_witness :
    ({ newPCB 0 appComputePrint with state := ProcessState.READY } : PCB).state =
      ProcessState.READY ∧
    ∃ (fuel top : Nat) (obs : DispatchObservation) (job : Job),
      (observedRun (exampleLoaded .RR [appComputePrint]) [quietDispatch]).dispatch fuel top obs =
        some (observedRun (exampleLoaded .RR [appComputePrint]) [quietDispatch, quietDispatch]) ∧
      (observedRun (exampleLoaded .RR [appComputePrint]) [quietDispatch]).jobs[top]? = some job ∧
      job.pid = 0 ∧
      ∃ (fuel1 k1 : Nat) (mid : Simulation) (event : SimEvent) (entry : PCB)
        (acquired : Simulation),
        WaitingEntry fuel1 mid 0 event (obs.run k1) entry acquired
          { newPCB 0 appComputePrint with
            state := ProcessState.WAITING, eventQueue := appPrinter, eventInProgress := true } ∧
        entry.pid = ({ newPCB 0 appComputePrint with state := ProcessState.READY } : PCB).pid ∧
        ∃ n, entry.eventQueue =
          ({ newPCB 0 appComputePrint with state := ProcessState.READY } : PCB).eventQueue.drop n :=
  (waiting_entry .RR
    { processorCycleTime := 10, memoryCycleTime := 1, memoryBlockSize := 1 }
    [appComputePrint] 8
    (IOResourceSemaphore.init 1 1) (IOResourceSemaphore.init 1 1) (IOResourceSemaphore.init 1 1)
    (IOResourceMutex.init 1) (IOResourceMutex.init 1) (IOResourceMutex.init 1)
    (observedRun (exampleLoaded .RR [appComputePrint]) [quietDispatch])
    (observedRun (exampleLoaded .RR [appComputePrint]) [quietDispatch, quietDispatch])
    0 { newPCB 0 appComputePrint with state := ProcessState.READY }
    (Steps.tail (Steps.tail (Steps.refl _)
      (Step.load (by decide)
        (eq_some_getD (exampleSim .RR [appComputePrint] 1 8) (by decide))))
      (Step.dispatch 10 0 quietDispatch
        (eq_some_getD (exampleLoaded .RR [appComputePrint]) (by decide))))
    (Step.dispatch 10 0 quietDispatch
      (eq_some_getD (observedRun (exampleLoaded .RR [appComputePrint]) [quietDispatch])
        (by decide)))
    (by decide)).2
    { newPCB 0 appComputePrint with
      state := ProcessState.WAITING, eventQueue := appPrinter, eventInProgress := true }
    (by decide) (by decide) (by decide)

/-! ## C31: the allocated region -/

/-- C31: for every counter value `c`, block size `B ≥ 1` and request whose block count
`req` (as `allocateMemory` computes it) satisfies `c + req < 2^32` (no overflow of the
32-bit sum): when `req` is below `maxMemoryBlocks = M`, the address `a` returned by
`allocateMemory` satisfies `a + req * B < M * B`, the counter afterwards is below `M`,
and `a` is a multiple of `B` (when the 32-bit product that gives the address does not
overflow); when `req ≥ M`, the address returned is 0. -/
theorem allocator_region (sim : Simulation) (totMem : Int)
    (hB : 1 ≤ toUInt sim.config.memoryBlockSize)
    (hsum : sim.memoryBlockCounter + sim.requiredBlocks totMem < 4294967296) :
    (sim.requiredBlocks totMem < sim.maxMemoryBlocks →
      (sim.allocateMemory totMem).1 +
          sim.requiredBlocks totMem * toUInt sim.config.memoryBlockSize <
        sim.maxMemoryBlocks * toUInt sim.config.memoryBlockSize ∧
      (sim.allocateMemory totMem).2.memoryBlockCounter < sim.maxMemoryBlocks ∧
      ((if sim.memoryBlockCounter + sim.requiredBlocks totMem ≥ sim.maxMemoryBlocks then 0
          else sim.memoryBlockCounter) * toUInt sim.config.memoryBlockSize < 4294967296 →
        toUInt sim.config.memoryBlockSize ∣ (sim.allocateMemory totMem).1)) ∧
    (sim.maxMemoryBlocks ≤ sim.requiredBlocks totMem →
      (sim.allocateMemory totMem).1 = 0) := by
  unfold Simulation.allocateMemory
  simp only [Nat.mod_eq_of_lt hsum]
  generalize sim.requiredBlocks totMem = req at *
  generalize toUInt sim.config.memoryBlockSize = B at *
  generalize sim.memoryBlockCounter = c at *
  generalize sim.maxMemoryBlocks = M at *
  constructor
  · intro hreq
    by_cases hwrap : c + req ≥ M
    · simp only [if_pos hwrap, Nat.zero_mul, Nat.zero_mod, Nat.zero_add]
      refine ⟨Nat.mul_lt_mul_of_pos_right hreq (by omega), ?_, fun _ => Nat.dvd_zero B⟩
      rw [Nat.mod_eq_of_lt (by omega)]
      exact hreq
    · simp only [if_neg hwrap]
      have hlt : c + req < M := by omega
      refine ⟨?_, ?_, ?_⟩
      · have h1 : (c * B) % 4294967296 ≤ c * B := Nat.mod_le _ _
        have h2 : (c + req) * B < M * B := Nat.mul_lt_mul_of_pos_right hlt (by omega)
        rw [Nat.add_mul] at h2
        omega
      · rw [Nat.mod_eq_of_lt hsum]
        exact hlt
      · intro hmul
        rw [Nat.mod_eq_of_lt hmul]
        exact Nat.dvd_mul_left B c
  · intro hreq
    rw [if_pos (by omega)]
    simp

/-- Witness for C31: with 8 blocks of 2 kbytes and the counter at 2, a request of 5
kbytes needs 3 blocks; it gets the address 4, the region ends before 16 and the counter
becomes 5. -/
theorem allocator_region_witness :
    ((allocatorAt 2 8 2).allocateMemory 5).1 +
        (allocatorAt 2 8 2).requiredBlocks 5 * toUInt (allocatorAt 2 8 2).config.memoryBlockSize <
      (allocatorAt 2 8 2).maxMemoryBlocks * toUInt (allocatorAt 2 8 2).config.memoryBlockSize ∧
    ((allocatorAt 2 8 2).allocateMemory 5).2.memoryBlockCounter <
      (allocatorAt 2 8 2).maxMemoryBlocks ∧
    ((if (allocatorAt 2 8 2).memoryBlockCounter + (allocatorAt 2 8 2).requiredBlocks 5 ≥
          (allocatorAt 2 8 2).maxMemoryBlocks then 0
        else (allocatorAt 2 8 2).memoryBlockCounter) *
          toUInt (allocatorAt 2 8 2).config.memoryBlockSize < 4294967296 →
      toUInt (allocatorAt 2 8 2).config.memoryBlockSize ∣
        ((allocatorAt 2 8 2).allocateMemory 5).1) :=
  (allocator_region (allocatorAt 2 8 2) 5 (by decide) (by decide)).1 (by decide)

/-! ## C32: sequential acquisition -/

/-- A dispatch iteration that pops the job of a process in state `WAITING` or `RUNNING`
does nothing but requeue the job. -/
theorem dispatch_not_ready {fuel : Nat} {sim : Simulation} {top : Nat}
    {obs : DispatchObservation} {job : Job} {pcb : PCB}
    (hj : sim.jobs[top]? = some job)
    (hmax : ∀ other ∈ sim.jobs, other.priority ≤ job.priority)
    (hp : sim.process? job.pid = some pcb)
    (hstate : pcb.state = ProcessState.WAITING ∨ pcb.state = ProcessState.RUNNING) :
    sim.dispatch fuel top obs =
      some (sim.skipped top job.pid (requeuePriority sim.scheduling pcb) obs) := by
  have hns : ¬ pcb.state = ProcessState.START := by
    rcases hstate with h | h <;> rw [h] <;> decide
  have hnr : ¬ pcb.state = ProcessState.READY := by
    rcases hstate with h | h <;> rw [h] <;> decide
  have hne : pcb.state ≠ ProcessState.EXIT := by
    rcases hstate with h | h <;> rw [h] <;> decide
  have hall : sim.jobs.all (fun other => decide (other.priority ≤ job.priority)) = true := by
    simpa [List.all_eq_true] using hmax
  unfold Simulation.dispatch
  rw [hj]
  simp only
  rw [if_pos hall]
  have hp0 : Simulation.process? { sim with jobs := sim.jobs.eraseIdx top } job.pid =
      some pcb := hp
  rw [hp0]
  simp only
  rw [if_neg hns, if_neg hnr]
  simp only
  have hp1 : Simulation.process?
      { sim with jobs := sim.jobs.eraseIdx top, currentProcess := job.pid } job.pid =
      some pcb := hp
  rw [hp1]
  simp only
  rw [if_pos hne]
  have hp2 : Simulation.process?
      { sim with jobs := sim.jobs.eraseIdx top, currentProcess := job.pid,
                 simInterrupt := clearSchedulerRR obs.atClear } job.pid = some pcb := hp
  rw [dispatchPriority_eq _ _ _ hp2]
  rfl

/-- The priority computed by `Run` depends on the event queue only. -/
theorem requeuePriority_queue (scheduling : SchedulingCode) (a b : PCB)
    (h : a.eventQueue = b.eventQueue) :
    requeuePriority scheduling a = requeuePriority scheduling b := by
  unfold requeuePriority
  rw [h]

/-- In a tidy state the popped job is the only job of its process. -/
theorem jobsOf_popped {sim : Simulation} {top : Nat} {job : Job} (h : Tidy sim)
    (hj : sim.jobs[top]? = some job) : jobsOf job.pid (sim.jobs.eraseIdx top) = [] := by
  have hin : job ∈ jobsOf job.pid sim.jobs := mem_jobsOf (mem_of_getElem? hj) rfl
  have hlen := h.once job.pid
  cases hjobs : jobsOf job.pid sim.jobs with
  | nil => rw [hjobs] at hin; cases hin
  | cons x rest =>
    rw [hjobs] at hlen
    have hrest : rest = [] := by
      cases rest with
      | nil => rfl
      | cons y r => simp at hlen
    subst hrest
    exact jobsOf_eraseIdx_eq hj rfl hjobs

/-- A slot changed at most by the end of an I/O worker keeps the key of its job. -/
theorem keyed_flip {a : Option PCB} {pcb : PCB} {scheduling : SchedulingCode} {priority : Int}
    (hflip : Flip a (some pcb)) (hns : pcb.state ≠ ProcessState.START)
    (hkey : ∀ pcb0, a = some pcb0 → pcb0.state ≠ ProcessState.START →
      priority = requeuePriority scheduling pcb0) :
    priority = requeuePriority scheduling pcb := by
  rcases hflip with h | ⟨p, hp, hw, hb⟩
  · exact hkey pcb h hns
  · simp only [Option.some.injEq] at hb
    rw [hkey p hp (by rw [hw]; decide), hb]
    rfl

/-- Every step from a tidy state keeps the jobs keyed. -/
theorem keyed_step {s s' : Simulation} (ht : Tidy s) (hk : Keyed s) (hs : Step s s') :
    Keyed s' := by
  cases hs with
  | dispatch fuel top obs hd =>
    obtain ⟨job, pcb, pcb', hd⟩ := dispatch_spec hd
    have hself := jobsOf_popped ht hd.isTop
    intro j hj pcb2 hp2 hns
    rw [hd.scheduling]
    rw [hd.jobs, List.mem_append] at hj
    rcases hj with hj | hj
    · have hne : j.pid ≠ job.pid := not_mem_of_jobsOf_nil hself j hj
      have hflip := hd.others j.pid hne
      rw [hp2] at hflip
      exact keyed_flip hflip hns (fun pcb0 h0 hs0 => hk j (mem_eraseIdx hj) pcb0 h0 hs0)
    · split at hj
      · cases hj
      · simp only [List.mem_singleton] at hj
        subst hj
        rw [hd.after] at hp2
        simp only [Option.some.injEq] at hp2
        subst hp2
        rfl
  | ioEnd i hi =>
    have hf := Frame.ioThreadEnd 0 s i
    intro j hj pcb2 hp2 hns
    rw [hf.scheduling]
    rw [hf.jobs] at hj
    have hflip := (Frame.ioThreadEnd (j.pid + 1) s i).others j.pid (by omega)
    rw [hp2] at hflip
    exact keyed_flip hflip hns (fun pcb0 h0 hs0 => hk j hj pcb0 h0 hs0)
  | load hguard hw =>
    obtain ⟨sim1, h1, hl, _⟩ := loaderWave_loaded s [] s
      (Loaded.base s ht.wf.size_pos ht.wf.counter_le) (by simpa using hguard)
    rw [hw] at h1
    simp only [Option.some.injEq] at h1
    subst h1
    simp only [List.nil_append] at hl
    intro j hj pcb2 hp2 hns
    rw [hl.sched]
    rw [hl.jobs, List.mem_append] at hj
    rcases hj with hj | hj
    · have hlt := ht.wf.jobs_lt j hj
      rw [hl.old j.pid (Or.inl hlt)] at hp2
      exact hk j hj pcb2 hp2 hns
    · have hrange := loaderJobs_mem _ _ _ _ hj
      obtain ⟨i, hi⟩ : ∃ i, j.pid = s.processCounter + i :=
        ⟨j.pid - s.processCounter, by omega⟩
      have hi2 : i < s.applications.length := by omega
      rw [hi, hl.new i _ (List.getElem?_eq_getElem hi2)] at hp2
      simp only [Option.some.injEq] at hp2
      subst hp2
      exact absurd rfl hns

/-- Every state reached from the start of the simulation is tidy and keyed. -/
theorem keyed_steps {s0 s : Simulation} (ht : Tidy s0) (hk : Keyed s0) (hs : Steps s0 s) :
    Tidy s ∧ Keyed s := by
  induction hs with
  | refl => exact ⟨ht, hk⟩
  | tail _ hstep ih => exact ⟨ih.1.tidy_step hstep, keyed_step ih.1 ih.2 hstep⟩

/-- A step from a tidy state leaves the PCB of a `RUNNING` process as it is. -/
theorem running_kept_step {s s' : Simulation} {p : Nat} {pcb : PCB} (h : Tidy s)
    (hp : s.process? p = some pcb) (hrun : pcb.state = ProcessState.RUNNING)
    (hs : Step s s') : s'.process? p = some pcb := by
  have hnw : pcb.state ≠ ProcessState.WAITING := by rw [hrun]; decide
  cases hs with
  | dispatch fuel top obs hd =>
    obtain ⟨job, pcb1, pcb2, hd⟩ := dispatch_spec hd
    by_cases hne : p = job.pid
    · subst hne
      have hb := hd.before
      rw [hp] at hb
      simp only [Option.some.injEq] at hb
      subst hb
      have hres := (hd.notRun (by rw [hrun]; decide)).2
      rw [if_neg (by rw [hrun]; decide)] at hres
      rw [hd.after, hres]
    · have hflip := hd.others p hne
      rw [hp] at hflip
      exact hflip.eq_of_not_waiting hnw
  | ioEnd i hi =>
    have hflip := (Frame.ioThreadEnd (p + 1) s i).others p (by omega)
    rw [hp] at hflip
    exact hflip.eq_of_not_waiting hnw
  | load hguard hw =>
    obtain ⟨sim1, h1, hl, _⟩ := loaderWave_loaded s [] s
      (Loaded.base s h.wf.size_pos h.wf.counter_le) (by simpa using hguard)
    rw [hw] at h1
    simp only [Option.some.injEq] at h1
    subst h1
    rw [hl.old p (Or.inl (h.created p pcb hp))]
    exact hp

/-- After the job at position `i` was removed and pushed back at the end, every job at
another position than the last is a job that was at another position than `i`. -/
theorem getElem?_requeued {jobs : List Job} {i k : Nat} {job other : Job}
    (hi : jobs[i]? = some job) (hk : k ≠ jobs.length - 1)
    (h : (jobs.eraseIdx i ++ [job])[k]? = some other) :
    ∃ k0, k0 ≠ i ∧ jobs[k0]? = some other := by
  obtain ⟨hlt, _⟩ := List.getElem?_eq_some.mp hi
  have hlen : (jobs.eraseIdx i).length = jobs.length - 1 := by
    rw [List.length_eraseIdx, if_pos hlt]
  rw [List.getElem?_append] at h
  split at h
  · rw [List.getElem?_eraseIdx] at h
    split at h
    · exact ⟨k, by omega, h⟩
    · exact ⟨k + 1, by omega, h⟩
  · rename_i hge
    have hk2 : k - (jobs.eraseIdx i).length ≠ 0 := by omega
    obtain ⟨n, hn⟩ : ∃ n, k - (jobs.eraseIdx i).length = n + 1 :=
      ⟨k - (jobs.eraseIdx i).length - 1, by omega⟩
    rw [hn] at h
    simp at h

/-- C33: in every state reached from the start of the simulation, for a process `p`
whose state is `WAITING` or `RUNNING`:
(1) a dispatch iteration that pops its job does not call `RunProcess`: it returns the
state in which only the job queue, `currentProcess` and the interrupt word differ, the
job being pushed back with the priority computed from the unchanged event queue, so
the PCB and the log are as before;
(2) when the state is `RUNNING`, the PCB stays as it is in every later state, so every
later iteration that pops the process skips it again;
(3) when the state is `WAITING` and its job has a priority strictly greater than every
other queued job (which only SRTF allows with several jobs), every dispatch iteration
pops this job, leaves the PCB and the log as they are and pushes the same job back,
which again has a priority strictly greater than every other queued job. -/
theorem dispatch_skips_not_ready (scheduling : SchedulingCode) (config : Config)
    (applications : List Application) (maxMemoryBlocks : Nat)
    (hdd printer speaker : IOResourceSemaphore) (monitor keyboard mouse : IOResourceMutex)
    (s : Simulation) (p : Nat) (pcb : PCB)
    (hreach : Steps (Simulation.initial scheduling config applications maxMemoryBlocks hdd
      printer speaker monitor keyboard mouse) s)
    (hp : s.process? p = some pcb)
    (hstate : pcb.state = ProcessState.WAITING ∨ pcb.state = ProcessState.RUNNING) :
    (∀ (fuel top : Nat) (obs : DispatchObservation) (job : Job),
      s.jobs[top]? = some job → job.pid = p →
      (∀ other ∈ s.jobs, other.priority ≤ job.priority) →
      s.dispatch fuel top obs =
          some (s.skipped top p (requeuePriority s.scheduling pcb) obs) ∧
        (s.skipped top p (requeuePriority s.scheduling pcb) obs).process? p = some pcb ∧
        (s.skipped top p (requeuePriority s.scheduling pcb) obs).log = s.log) ∧
    (pcb.state = ProcessState.RUNNING →
      ∀ s', Steps s s' → s'.process? p = some pcb) ∧
    (pcb.state = ProcessState.WAITING →
      ∀ (i : Nat) (job : Job), s.jobs[i]? = some job → job.pid = p →
      (∀ (k : Nat) (other : Job), k ≠ i → s.jobs[k]? = some other →
        other.priority < job.priority) →
      ∀ (fuel top : Nat) (obs : DispatchObservation) (s' : Simulation),
        s.dispatch fuel top obs = some s' →
        top = i ∧ s'.process? p = some pcb ∧ s'.log = s.log ∧
        s'.jobs = s.jobs.eraseIdx i ++ [job] ∧
        (∀ (k : Nat) (other : Job), k ≠ s.jobs.length - 1 → s'.jobs[k]? = some other →
          other.priority < job.priority)) := by
  obtain ⟨htidy, hkeyed⟩ := keyed_steps (Tidy.tidy_initial _ _ _ _ _ _ _ _ _ _)
    (by intro job hjob; simp [Simulation.initial] at hjob) hreach
  refine ⟨?_, ?_, ?_⟩
  · intro fuel top obs job hj hpid hmax
    subst hpid
    exact ⟨dispatch_not_ready hj hmax hp hstate, hp, rfl⟩
  · intro hrun s' hsteps
    have hkept : s'.process? p = some pcb ∧ Tidy s' := by
      induction hsteps with
      | refl => exact ⟨hp, htidy⟩
      | tail _ hstep ih =>
        exact ⟨running_kept_step ih.2 ih.1 hrun hstep, ih.2.tidy_step hstep⟩
    exact hkept.1
  · intro hwait i job hi hpid hstrict fuel top obs s' hd
    subst hpid
    obtain ⟨job1, pcb1, pcb2, hsum⟩ := dispatch_spec hd
    have htop : top = i := by
      by_contra hne
      have h1 := hstrict top job1 hne hsum.isTop
      have h2 := hsum.max job (mem_of_getElem? hi)
      omega
    subst htop
    have hjob : job1 = job := by
      have := hsum.isTop
      rw [hi] at this
      simp only [Option.some.injEq] at this
      exact this.symm
    subst hjob
    have hskip : s.dispatch fuel top obs =
        some (s.skipped top job1.pid (requeuePriority s.scheduling pcb) obs) :=
      dispatch_not_ready hi hsum.max hp hstate
    rw [hd] at hskip
    simp only [Option.some.injEq] at hskip
    have hkey : job1.priority = requeuePriority s.scheduling pcb :=
      hkeyed job1 (mem_of_getElem? hi) pcb hp (by rw [hwait]; decide)
    have hjobs : s'.jobs = s.jobs.eraseIdx top ++ [job1] := by
      rw [hskip]
      show s.jobs.eraseIdx top ++ [{ pid := job1.pid, priority := requeuePriority s.scheduling pcb }] =
        s.jobs.eraseIdx top ++ [job1]
      rw [← hkey]
    refine ⟨rfl, by rw [hskip]; exact hp, by rw [hskip]; rfl, hjobs, ?_⟩
    intro k other hk hother
    rw [hjobs] at hother
    obtain ⟨k0, hk0, hget⟩ := getElem?_requeued hi hk hother
    exact hstrict k0 other hk0 hget

/-- Witness for C33: under SRTF the processes 0 (`O(printer)1`) and 1 (three events) are
loaded and dispatched three times; process 0 is then `WAITING` with priority `-1`,
above the `-3` of process 1, and the next iteration pops process 0 again and skips
it. -/
theorem dispatch_skips_not_ready_witness :
    (1 : Nat) = 1 ∧
    (quietRun (exampleLoaded .SRTF [appPrinter, app3]) [1, 0, 1, 1]).process? 0 =
      some { newPCB 0 appPrinter with
        state := ProcessState.WAITING, eventInProgress := true } ∧
    (quietRun (exampleLoaded .SRTF [appPrinter, app3]) [1, 0, 1, 1]).log =
      (quietRun (exampleLoaded .SRTF [appPrinter, app3]) [1, 0, 1]).log ∧
    (quietRun (exampleLoaded .SRTF [appPrinter, app3]) [1, 0, 1, 1]).jobs =
      (quietRun (exampleLoaded .SRTF [appPrinter, app3]) [1, 0, 1]).jobs.eraseIdx 1 ++
        [{ pid := 0, priority := -1 }] ∧
    (∀ (k : Nat) (other : Job),
      k ≠ (quietRun (exampleLoaded .SRTF [appPrinter, app3]) [1, 0, 1]).jobs.length - 1 →
      (quietRun (exampleLoaded .SRTF [appPrinter, app3]) [1, 0, 1, 1]).jobs[k]? = some other →
      other.priority < ({ pid := 0, priority := -1 } : Job).priority) :=
  (dispatch_skips_not_ready .SRTF
    { processorCycleTime := 10, memoryCycleTime := 1, memoryBlockSize := 1 }
    [appPrinter, app3] 8
    (IOResourceSemaphore.init 1 1) (IOResourceSemaphore.init 1 1) (IOResourceSemaphore.init 1 1)
    (IOResourceMutex.init 1) (IOResourceMutex.init 1) (IOResourceMutex.init 1)
    (quietRun (exampleLoaded .SRTF [appPrinter, app3]) [1, 0, 1]) 0
    { newPCB 0 appPrinter with state := ProcessState.WAITING, eventInProgress := true }
    (Steps.tail (Steps.tail (Steps.tail (Steps.tail (Steps.refl _)
      (Step.load (by decide)
        (eq_some_getD (exampleSim .SRTF [appPrinter, app3] 1 8) (by decide))))
      (Step.dispatch 10 1 quietDispatch
        (eq_some_getD (exampleLoaded .SRTF [appPrinter, app3]) (by decide))))
      (Step.dispatch 10 0 quietDispatch
        (eq_some_getD (quietRun (exampleLoaded .SRTF [appPrinter, app3]) [1]) (by decide))))
      (Step.dispatch 10 1 quietDispatch
        (eq_some_getD (quietRun (exampleLoaded .SRTF [appPrinter, app3]) [1, 0]) (by decide))))
    (by decide) (Or.inl rfl)).2.2 rfl 1 { pid := 0, priority := -1 } (by decide) rfl
    (fun k other hk hget => by
      have hjobs : (quietRun (exampleLoaded .SRTF [appPrinter, app3]) [1, 0, 1]).jobs =
          [{ pid := 1, priority := -3 }, { pid := 0, priority := -1 }] := by decide
      rw [hjobs] at hget
      match k, hk, hget with
      | 0, _, hget =>
        simp only [List.getElem?_cons_zero, Option.some.injEq] at hget
        rw [← hget]
        decide
      | 1, hk, _ => exact absurd rfl hk
      | k + 2, _, hget => simp at hget)
    10 1 quietDispatch
    (quietRun (exampleLoaded .SRTF [appPrinter, app3]) [1, 0, 1, 1])
    (eq_some_getD (quietRun (exampleLoaded .SRTF [appPrinter, app3]) [1, 0, 1]) (by decide))

/-! ## C34: device lookup -/

/-- The descriptor of an accepted `I` or `O` event is one of those `AddEvent` admits
for the code. -/
theorem addEvent_io_descriptor {st st' : ParserState} {code : Char} {descriptor : String}
    {cycles : Int} (hok : st.AddEvent code descriptor cycles = .ok st') :
    (code = 'I' → descriptor = "hard drive" ∨ descriptor = "keyboard" ∨ descriptor = "mouse") ∧
    (code = 'O' → descriptor = "hard drive" ∨ descriptor = "monitor" ∨
      descriptor = "speaker" ∨ descriptor = "printer") := by
  unfold ParserState.AddEvent at hok
  constructor
  · intro hc
    subst hc
    have hv : validDescriptors 'I' = some ["hard drive", "keyboard", "mouse"] := by decide
    rw [hv] at hok
    simp only at hok
    by_contra hnot
    rw [if_pos (by simpa using hnot)] at hok
    cases hok
  · intro hc
    subst hc
    have hv : validDescriptors 'O' = some ["hard drive", "monitor", "speaker", "printer"] := by
      decide
    rw [hv] at hok
    simp only at hok
    by_contra hnot
    rw [if_pos (by simpa using hnot)] at hok
    cases hok

/-- The line logged by a successful `run` call of each resource. -/
theorem run_label (resource : Resource) (sim : Simulation) (cycles : Nat)
    (ioState : ResIOState) (pid : Nat)
    (h : (resource.run sim cycles ioState pid).1 = true) :
    ∃ label, (resource.run sim cycles ioState pid).2.log = sim.log ++ [.ioStart pid label] ∧
      match resource with
      | .resHdd => ∃ devId, label = .hdd ioState devId
      | .resPrinter => ∃ devId, label = .printer devId
      | .resSpeaker => ∃ devId, label = .speaker devId
      | .resMonitor => label = .monitor
      | .resKeyboard => label = .keyboard
      | .resMouse => label = .mouse := by
  cases resource
  case resHdd =>
    simp only [Resource.run, ResourceHDD.run] at h ⊢
    cases hacq : sim.resHdd.acquire with
    | none => rw [hacq] at h; cases h
    | some res => exact ⟨_, rfl, _, rfl⟩
  case resPrinter =>
    simp only [Resource.run, ResourcePrinter.run] at h ⊢
    cases hacq : sim.resPrinter.acquire with
    | none => rw [hacq] at h; cases h
    | some res => exact ⟨_, rfl, _, rfl⟩
  case resSpeaker =>
    simp only [Resource.run, ResourceSpeaker.run] at h ⊢
    cases hacq : sim.resSpeaker.acquire with
    | none => rw [hacq] at h; cases h
    | some res => exact ⟨_, rfl, _, rfl⟩
  case resMonitor =>
    simp only [Resource.run, ResourceMonitor.run] at h ⊢
    by_cases hm : sim.resMonitor.m = false
    · rw [if_pos hm]
      exact ⟨_, rfl, rfl⟩
    · rw [if_neg hm] at h
      cases h
  case resKeyboard =>
    simp only [Resource.run, ResourceKeyboard.run] at h ⊢
    by_cases hm : sim.resKeyboard.m = false
    · rw [if_pos hm]
      exact ⟨_, rfl, rfl⟩
    · rw [if_neg hm] at h
      cases h
  case resMouse =>
    simp only [Resource.run, ResourceMouse.run] at h ⊢
    by_cases hm : sim.resMouse.m = false
    · rw [if_pos hm]
      exact ⟨_, rfl, rfl⟩
    · rw [if_neg hm] at h
      cases h

/-- C34: for every `I` or `O` event accepted by `AddEvent`, the descriptor lookup of
`handleIO` finds a resource (the pointer is not null), and every `run` call that
`handleIO` makes on it for the event (direction `INPUT` for code `I`, `OUTPUT`
otherwise) and that returns true logs a `start` line for the process whose device
label is the descriptor followed by the direction word of the code: ` input` for `I`,
` output` for `O` (and, for the counted devices, by the device index). -/
theorem device_lookup_total (st st' : ParserState) (code : Char) (descriptor : String)
    (cycles : Int) (hcode : code = 'I' ∨ code = 'O')
    (hok : st.AddEvent code descriptor cycles = .ok st') :
    ∃ resource, resourceOf descriptor = some resource ∧
      ∀ (sim : Simulation) (n pid : Nat),
        (resource.run sim n (if code = 'I' then ResIOState.INPUT else ResIOState.OUTPUT)
          pid).1 = true →
        ∃ label suffix,
          (resource.run sim n (if code = 'I' then ResIOState.INPUT else ResIOState.OUTPUT)
            pid).2.log = sim.log ++ [.ioStart pid label] ∧
          label.render =
            descriptor ++ (if code = 'I' then " input" else " output") ++ suffix := by
  obtain ⟨hI, hO⟩ := addEvent_io_descriptor hok
  rcases hcode with hc | hc
  · subst hc
    rcases hI rfl with hd | hd | hd <;> subst hd
    · refine ⟨.resHdd, by decide, ?_⟩
      intro sim n pid hrun
      obtain ⟨label, hlog, devId, hlabel⟩ := run_label .resHdd sim n _ pid hrun
      refine ⟨label, " on HDD " ++ toString devId, hlog, ?_⟩
      rw [hlabel]
      simp only [if_true, DeviceLabel.render]
      rw [← String.append_assoc]
      rfl
    · refine ⟨.resKeyboard, by decide, ?_⟩
      intro sim n pid hrun
      obtain ⟨label, hlog, hlabel⟩ := run_label .resKeyboard sim n _ pid hrun
      refine ⟨label, "", hlog, ?_⟩
      rw [hlabel]
      decide
    · refine ⟨.resMouse, by decide, ?_⟩
      intro sim n pid hrun
      obtain ⟨label, hlog, hlabel⟩ := run_label .resMouse sim n _ pid hrun
      refine ⟨label, "", hlog, ?_⟩
      rw [hlabel]
      decide
  · subst hc
    rcases hO rfl with hd | hd | hd | hd <;> subst hd
    · refine ⟨.resHdd, by decide, ?_⟩
      intro sim n pid hrun
      obtain ⟨label, hlog, devId, hlabel⟩ := run_label .resHdd sim n _ pid hrun
      refine ⟨label, " on HDD " ++ toString devId, hlog, ?_⟩
      rw [hlabel]
      simp only [show ¬ ('O' = 'I') by decide, if_false, DeviceLabel.render]
      rw [← String.append_assoc]
      rfl
    · refine ⟨.resMonitor, by decide, ?_⟩
      intro sim n pid hrun
      obtain ⟨label, hlog, hlabel⟩ := run_label .resMonitor sim n _ pid hrun
      refine ⟨label, "", hlog, ?_⟩
      rw [hlabel]
      decide
    · refine ⟨.resSpeaker, by decide, ?_⟩
      intro sim n pid hrun
      obtain ⟨label, hlog, devId, hlabel⟩ := run_label .resSpeaker sim n _ pid hrun
      refine ⟨label, " on SPKR " ++ toString devId, hlog, ?_⟩
      rw [hlabel]
      simp only [show ¬ ('O' = 'I') by decide, if_false, DeviceLabel.render]
      rw [← String.append_assoc]
      rfl
    · refine ⟨.resPrinter, by decide, ?_⟩
      intro sim n pid hrun
      obtain ⟨label, hlog, devId, hlabel⟩ := run_label .resPrinter sim n _ pid hrun
      refine ⟨label, " on PRNTR " ++ toString devId, hlog, ?_⟩
      rw [hlabel]
      simp only [show ¬ ('O' = 'I') by decide, if_false, DeviceLabel.render]
      rw [← String.append_assoc]
      rfl

/-- Witness for C34: the event `I(hard drive)3` inside an open application. -/
theorem device_lookup_total_witness :
    ∃ resource, resourceOf "hard drive" = some resource ∧
      ∀ (sim : Simulation) (n pid : Nat),
        (resource.run sim n (if 'I' = 'I' then ResIOState.INPUT else ResIOState.OUTPUT)
          pid).1 = true →
        ∃ label suffix,
          (resource.run sim n (if 'I' = 'I' then ResIOState.INPUT else ResIOState.OUTPUT)
            pid).2.log = sim.log ++ [.ioStart pid label] ∧
          label.render =
            "hard drive" ++ (if 'I' = 'I' then " input" else " output") ++ suffix :=
  device_lookup_total
    { osRunning := true, currentApplication := some [], applications := [] }
    { osRunning := true,
      currentApplication := some [{ code := 'I', descriptor := "hard drive", cycles := 3 }],
      applications := [] }
    'I' "hard drive" 3 (Or.inl rfl) (by decide)

/-! ## C36: `AddEvent` is atomic on error -/

/-- The two renderings of `AddEvent` agree: the result with the state made explicit
throws exactly when `ParserState.AddEvent` returns an error, the same one, and
otherwise ends in the state that `ParserState.AddEvent` returns. -/
theorem addEventEffect_agrees (st : ParserState) (code : Char) (descriptor : String)
    (cycles : Int) :
    st.AddEvent code descriptor cycles =
      match (st.AddEventEffect code descriptor cycles).2 with
      | some err => .error err
      | none => .ok (st.AddEventEffect code descriptor cycles).1 := by
  unfold ParserState.AddEvent ParserState.AddEventEffect
  cases validDescriptors code with
  | none => rfl
  | some valid =>
    simp only
    split
    · rfl
    · split
      · rfl
      · split
        · split
          · rfl
          · split <;> rfl
        · split
          · split
            · rfl
            · split
              · cases st.currentApplication <;> rfl
              · split
                · cases st.currentApplication <;> rfl
                · rfl
          · split
            · cases st.currentApplication <;> rfl
            · rfl

/-- C36: for every parser state and event, if `AddEvent` throws, then `osRunning`, the
open application and the applications list are, at the throw, exactly as before the
call; and the error is the one `ParserState.AddEvent` returns. -/
theorem addEvent_atomic (st : ParserState) (code : Char) (descriptor : String)
    (cycles : Int) (err : SimError)
    (h : (st.AddEventEffect code descriptor cycles).2 = some err) :
    (st.AddEventEffect code descriptor cycles).1 = st ∧
    st.AddEvent code descriptor cycles = .error err := by
  refine ⟨?_, by rw [addEventEffect_agrees, h]⟩
  unfold ParserState.AddEventEffect at h ⊢
  cases hv : validDescriptors code with
  | none => rfl
  | some valid =>
    rw [hv] at h
    simp only at h ⊢
    split
    · rfl
    · rename_i h1
      rw [if_neg h1] at h
      split
      · rfl
      · rename_i h2
        rw [if_neg h2] at h
        split
        · rename_i h3
          rw [if_pos h3] at h
          split
          · rfl
          · rename_i h4
            rw [if_neg h4] at h
            split
            · rfl
            · rename_i h5
              rw [if_neg h5] at h
              cases h
        · rename_i h3
          rw [if_neg h3] at h
          split
          · rename_i h4
            rw [if_pos h4] at h
            split
            · rfl
            · rename_i h5
              rw [if_neg h5] at h
              split
              · rename_i h6
                rw [if_pos h6] at h
                split
                · rfl
                · rename_i h7
                  rw [if_neg h7] at h
                  cases h
              · rename_i h6
                rw [if_neg h6] at h
                split
                · rename_i h7
                  rw [if_pos h7] at h
                  cases hc : st.currentApplication with
                  | none => rfl
                  | some app =>
                    rw [hc] at h
                    cases h
                · rfl
          · rename_i h4
            rw [if_neg h4] at h
            split
            · rename_i h5
              rw [if_pos h5] at h
              cases hc : st.currentApplication with
              | none => rfl
              | some app =>
                rw [hc] at h
                cases h
            · rfl

/-- Witness for C36: `A(start)` while an application is open throws and leaves the
state as it was. -/
theorem addEvent_atomic_witness :
    (ParserState.AddEventEffect
      { osRunning := true, currentApplication := some [], applications := [] }
      'A' "start" 0).1 =
      { osRunning := true, currentApplication := some [], applications := [] } ∧
    ParserState.AddEvent
      { osRunning := true, currentApplication := some [], applications := [] }
      'A' "start" 0 = .error .applicationWithinApplication :=
  addEvent_atomic { osRunning := true, currentApplication := some [], applications := [] }
    'A' "start" 0 .applicationWithinApplication (by decide)

/-! ## C37: the process table -/

/-- The loader body for one application, from a state in which the counter does not
exceed the table size: the call returns, the new pid is below the table size when
`processes[newPid]` is written, the table was doubled at most once, and the invariant
holds again. -/
theorem inBounds_loadApplication (sim : Simulation) (app : Application) (h : InBounds sim) :
    ∃ sim', sim.loadApplication app = some sim' ∧ InBounds sim' ∧
      sim.processCounter < sim'.processes.size ∧
      sim'.process? sim.processCounter = some (newPCB sim.processCounter app) ∧
      (sim'.processes.size = sim.processes.size ∨
        sim'.processes.size = 2 * sim.processes.size) := by
  obtain ⟨k, hk⟩ := h.doubled
  have hpos : 0 < sim.processes.size := by rw [hk]; positivity
  have hle := h.counter_le
  refine ⟨_, loadApplication_eq sim app hpos hle, ?_, ?_, ?_, ?_⟩
  · by_cases hge : sim.processCounter ≥ sim.processes.size
    · refine ⟨?_, k + 1, ?_⟩
      · simp only [ProcessTable.set, ProcessTable.resize, if_pos hge]
        have := Nat.mod_le (sim.processCounter + 1) 4294967296
        omega
      · simp only [ProcessTable.set, ProcessTable.resize, if_pos hge]
        rw [hk, pow_succ]
        ring
    · refine ⟨?_, k, ?_⟩
      · simp only [ProcessTable.set, if_neg hge]
        have := Nat.mod_le (sim.processCounter + 1) 4294967296
        omega
      · simp only [ProcessTable.set, if_neg hge]
        exact hk
  · by_cases hge : sim.processCounter ≥ sim.processes.size
    · simp only [ProcessTable.set, ProcessTable.resize, if_pos hge]
      omega
    · simp only [ProcessTable.set, if_neg hge]
      omega
  · by_cases hge : sim.processCounter ≥ sim.processes.size
    · simp only [Simulation.process?, if_pos hge]
      exact ProcessTable.get?_set_self _ _ _ (by simp only [ProcessTable.resize]; omega)
    · simp only [Simulation.process?, if_neg hge]
      exact ProcessTable.get?_set_self _ _ _ (by omega)
  · by_cases hge : sim.processCounter ≥ sim.processes.size
    · right
      simp only [ProcessTable.set, ProcessTable.resize, if_pos hge]
      ring
    · left
      simp only [ProcessTable.set, if_neg hge]

/-- The loader loop over any number of applications returns and keeps the invariant. -/
theorem inBounds_loadApplications (apps : List Application) :
    ∀ sim : Simulation, InBounds sim →
      ∃ sim', sim.loadApplications apps = some sim' ∧ InBounds sim' := by
  induction apps with
  | nil => intro sim h; exact ⟨sim, rfl, h⟩
  | cons app rest ih =>
    intro sim h
    obtain ⟨sim1, h1, hin1, _⟩ := inBounds_loadApplication sim app h
    obtain ⟨sim2, h2, hin2⟩ := ih sim1 hin1
    refine ⟨sim2, ?_, hin2⟩
    simp only [Simulation.loadApplications, h1]
    exact h2

/-- Every step keeps the invariant of the process table. -/
theorem inBounds_step {s s' : Simulation} (h : InBounds s) (hs : Step s s') : InBounds s' := by
  cases hs with
  | dispatch fuel top obs hd =>
    obtain ⟨job, pcb, pcb', hd⟩ := dispatch_spec hd
    exact ⟨by rw [hd.size, hd.processCounter]; exact h.counter_le,
      by rw [hd.size]; exact h.doubled⟩
  | ioEnd i hi =>
    have hf := Frame.ioThreadEnd 0 s i
    exact ⟨by rw [hf.size, hf.processCounter]; exact h.counter_le,
      by rw [hf.size]; exact h.doubled⟩
  | load hguard hw =>
    unfold Simulation.loaderWave at hw
    simp only at hw
    have h0 : InBounds { s with simInterrupt := s.simInterrupt ||| SIM_INTERRUPT_LOADER } :=
      ⟨h.counter_le, h.doubled⟩
    obtain ⟨sim1, h1, hin1⟩ := inBounds_loadApplications s.applications _ h0
    rw [h1] at hw
    simp only [Option.some.injEq] at hw
    subst hw
    exact ⟨hin1.counter_le, hin1.doubled⟩

/-- C37: the simulation starts with a table of 4096 slots and `processCounter = 0`.
In every state reached from there, the process counter does not exceed the size of
the table and the size is `4096 * 2^k`; the loader loop over any number of
applications returns (no `processes[newPid]` is written outside the table) and keeps
both facts; and for each application the loader body writes `processes[newPid]` after
at most one doubling, with `newPid` below the size the table has then. -/
theorem table_in_bounds (scheduling : SchedulingCode) (config : Config)
    (applications : List Application) (maxMemoryBlocks : Nat)
    (hdd printer speaker : IOResourceSemaphore) (monitor keyboard mouse : IOResourceMutex)
    (s : Simulation) (apps : List Application)
    (hreach : Steps (Simulation.initial scheduling config applications maxMemoryBlocks hdd
      printer speaker monitor keyboard mouse) s) :
    s.processCounter ≤ s.processes.size ∧ (∃ k, s.processes.size = 4096 * 2 ^ k) ∧
    (∃ s', s.loadApplications apps = some s' ∧
      s'.processCounter ≤ s'.processes.size ∧ ∃ k, s'.processes.size = 4096 * 2 ^ k) ∧
    (∀ app, ∃ s1, s.loadApplication app = some s1 ∧
      s.processCounter < s1.processes.size ∧
      s1.process? s.processCounter = some (newPCB s.processCounter app) ∧
      (s1.processes.size = s.processes.size ∨ s1.processes.size = 2 * s.processes.size)) := by
  have hin : InBounds s := by
    induction hreach with
    | refl => exact ⟨Nat.zero_le _, 0, rfl⟩
    | tail _ hstep ih => exact inBounds_step ih hstep
  obtain ⟨s', h1, hin'⟩ := inBounds_loadApplications apps s hin
  refine ⟨hin.counter_le, hin.doubled, ⟨s', h1, hin'.counter_le, hin'.doubled⟩, ?_⟩
  intro app
  obtain ⟨s1, h2, _, h3, h4, h5⟩ := inBounds_loadApplication s app hin
  exact ⟨s1, h2, h3, h4, h5⟩

/-- Witness for C37: the example simulation after its first loader wave. -/
theorem table_in_bounds_witness :
    (exampleLoaded .RR [app1]).processCounter ≤ (exampleLoaded .RR [app1]).processes.size ∧
    (∃ k, (exampleLoaded .RR [app1]).processes.size = 4096 * 2 ^ k) ∧
    (∃ s', (exampleLoaded .RR [app1]).loadApplications [app1, app3] = some s' ∧
      s'.processCounter ≤ s'.processes.size ∧ ∃ k, s'.processes.size = 4096 * 2 ^ k) ∧
    (∀ app, ∃ s1, (exampleLoaded .RR [app1]).loadApplication app = some s1 ∧
      (exampleLoaded .RR [app1]).processCounter < s1.processes.size ∧
      s1.process? (exampleLoaded .RR [app1]).processCounter =
        some (newPCB (exampleLoaded .RR [app1]).processCounter app) ∧
      (s1.processes.size = (exampleLoaded .RR [app1]).processes.size ∨
        s1.processes.size = 2 * (exampleLoaded .RR [app1]).processes.size)) :=
  table_in_bounds .RR
    { processorCycleTime := 10, memoryCycleTime := 1, memoryBlockSize := 1 }
    [app1] 8
    (IOResourceSemaphore.init 1 1) (IOResourceSemaphore.init 1 1) (IOResourceSemaphore.init 1 1)
    (IOResourceMutex.init 1) (IOResourceMutex.init 1) (IOResourceMutex.init 1)
    (exampleLoaded .RR [app1]) [app1, app3]
    (Steps.tail (Steps.refl _)
      (Step.load (by decide) (eq_some_getD (exampleSim .RR [app1] 1 8) (by decide))))

/-! ## C38: duplicate configuration keys -/

theorem firstValue_append (key : String) (a b : List (String × String)) :
    firstValue key (a ++ b) =
      match firstValue key a with
      | some v => some v
      | none => firstValue key b := by
  induction a with
  | nil => rfl
  | cons entry rest ih =>
    simp only [List.cons_append, firstValue]
    split
    · rfl
    · exact ih

theorem firstValue_of_mem (key : String) (a : List (String × String))
    (h : key ∈ a.map (fun entry => entry.1)) : ∃ v, firstValue key a = some v := by
  induction a with
  | nil => simp at h
  | cons entry rest ih =>
    simp only [firstValue]
    split
    · exact ⟨_, rfl⟩
    · rename_i hne
      simp only [List.map_cons, List.mem_cons] at h
      rcases h with h | h
      · exact absurd h.symm hne
      · exact ih h

theorem firstValue_none (key : String) (a : List (String × String))
    (h : key ∉ a.map (fun entry => entry.1)) : firstValue key a = none := by
  induction a with
  | nil => rfl
  | cons entry rest ih =>
    simp only [List.map_cons, List.mem_cons, not_or] at h
    simp only [firstValue]
    rw [if_neg (fun heq => h.1 heq.symm)]
    exact ih h.2

/-- In a list with distinct keys every entry is the first one for its key. -/
theorem firstValue_of_mem_nodup (key value : String) (a : List (String × String))
    (hnd : (a.map (fun entry => entry.1)).Nodup) (hmem : (key, value) ∈ a) :
    firstValue key a = some value := by
  induction a with
  | nil => cases hmem
  | cons entry rest ih =>
    simp only [List.map_cons, List.nodup_cons] at hnd
    simp only [firstValue]
    simp only [List.mem_cons] at hmem
    rcases hmem with hmem | hmem
    · subst hmem
      rw [if_pos rfl]
    · have hne : entry.1 ≠ key := by
        intro heq
        apply hnd.1
        rw [heq]
        exact List.mem_map.mpr ⟨(key, value), hmem, rfl⟩
      rw [if_neg hne]
      exact ih hnd.2 hmem

/-- `insert` on the map reads like appending the entry to the entries so far: a key
already present keeps its value. -/
theorem firstValue_insertKeyValue (key : String) (a : List (String × String))
    (k v : String) :
    firstValue key (insertKeyValue a k v) = firstValue key (a ++ [(k, v)]) := by
  unfold insertKeyValue
  split
  · rename_i hmem
    rw [firstValue_append]
    obtain ⟨w, hw⟩ := firstValue_of_mem k a hmem
    by_cases hk : k = key
    · subst hk
      rw [hw]
    · cases hfa : firstValue key a with
      | some x => rfl
      | none =>
        simp only [firstValue]
        rw [if_neg hk]
  · rfl

/-- `insert` keeps the keys of the map distinct. -/
theorem nodup_insertKeyValue (a : List (String × String)) (k v : String)
    (h : (a.map (fun entry => entry.1)).Nodup) :
    ((insertKeyValue a k v).map (fun entry => entry.1)).Nodup := by
  unfold insertKeyValue
  split
  · exact h
  · rename_i hnot
    rw [List.map_append, List.nodup_append]
    refine ⟨h, by simp, ?_⟩
    intro x hx hx2
    simp only [List.map_cons, List.map_nil, List.mem_singleton] at hx2
    subst hx2
    exact hnot hx

/-- The line loop of `ReadConfigFile`: the map it returns reads like the entries held
before followed by the entries of the lines, and its keys are distinct. -/
theorem readConfigLines_first (rConfigLine : String → Option (String × String))
    (rEmptyLine : String → Bool) (lines : List String) :
    ∀ (acc : List (String × String)) (last : String) (result : List (String × String)),
    readConfigLines rConfigLine rEmptyLine lines acc = .ok (last, result) →
    (∀ key, firstValue key result =
      firstValue key (acc ++ configEntries rConfigLine lines)) ∧
    ((acc.map (fun entry => entry.1)).Nodup → (result.map (fun entry => entry.1)).Nodup) := by
  induction lines with
  | nil =>
    intro acc last result h
    simp only [readConfigLines, Except.ok.injEq, Prod.mk.injEq] at h
    obtain ⟨_, rfl⟩ := h
    simp [configEntries]
  | cons line rest ih =>
    intro acc last result h
    simp only [readConfigLines] at h
    simp only [configEntries]
    by_cases hfoot : strTrim line = configFooter
    · rw [if_pos hfoot] at h
      simp only [Except.ok.injEq, Prod.mk.injEq] at h
      obtain ⟨_, rfl⟩ := h
      rw [if_pos hfoot]
      simp
    · rw [if_neg hfoot] at h
      rw [if_neg hfoot]
      cases hmatch : rConfigLine (strTrim line) with
      | none =>
        rw [hmatch] at h
        simp only at h
        split at h
        · cases h
        · exact ih acc last result h
      | some entry =>
        rw [hmatch] at h
        simp only at h
        obtain ⟨h1, h2⟩ := ih _ last result h
        refine ⟨?_, fun hnd => h2 (nodup_insertKeyValue acc entry.1 entry.2 hnd)⟩
        intro key
        rw [h1 key, firstValue_append, firstValue_insertKeyValue, firstValue_append,
          firstValue_append]
        cases hfa : firstValue key acc with
        | some x => rfl
        | none =>
          simp only [firstValue]
          by_cases hk : entry.1 = key
          · simp only [hk, if_true]
          · simp only [hk, if_false]

/-- C38: for every file that `ReadConfigFile` accepts (read into the empty map the
constructor starts with), each key is held once by the map, and its value is the value
of the first line with that key between the header and the footer: the later lines
with the same key are ignored. -/
theorem readConfigFile_first_occurrence (rConfigLine : String → Option (String × String))
    (rEmptyLine : String → Bool) (lines : List String) (result : List (String × String))
    (h : ReadConfigFile rConfigLine rEmptyLine (some lines) [] = .ok result) :
    (result.map (fun entry => entry.1)).Nodup ∧
    (∀ key, firstValue key result = firstValue key (configEntries rConfigLine lines.tail)) ∧
    (∀ key value, (key, value) ∈ result →
      firstValue key (configEntries rConfigLine lines.tail) = some value) := by
  unfold ReadConfigFile at h
  simp only at h
  split at h
  · cases h
  · cases hread : readConfigLines rConfigLine rEmptyLine (skipToHeader lines).2 [] with
    | error e => rw [hread] at h; cases h
    | ok read =>
      rw [hread] at h
      simp only at h
      split at h
      · cases h
      · simp only [Except.ok.injEq] at h
        subst h
        have htail : (skipToHeader lines).2 = lines.tail := by
          cases lines <;> rfl
        rw [htail] at hread
        obtain ⟨h1, h2⟩ := readConfigLines_first rConfigLine rEmptyLine lines.tail [] read.1
          read.2 hread
        have hnd := h2 (by simp)
        simp only [List.nil_append] at h1
        refine ⟨hnd, h1, ?_⟩
        intro key value hmem
        rw [← h1 key]
        exact firstValue_of_mem_nodup key value read.2 hnd hmem

/-- Witness for C38: a file with `Log: Log to Monitor` before `Log: Log to File` gives
the map that holds `Log to Monitor` for `Log`. -/
theorem readConfigFile_first_occurrence_witness :
    ReadConfigFile exampleConfigLine exampleEmptyLine (some fileDuplicateKey) [] =
      .ok [("Log", "Log to Monitor")] ∧
    configEntries exampleConfigLine fileDuplicateKey.tail =
      [("Log", "Log to Monitor"), ("Log", "Log to File")] ∧
    firstValue "Log" [("Log", "Log to Monitor")] =
      firstValue "Log" (configEntries exampleConfigLine fileDuplicateKey.tail) :=
  ⟨by decide, by decide,
    (readConfigFile_first_occurrence exampleConfigLine exampleEmptyLine fileDuplicateKey
      [("Log", "Log to Monitor")] (by decide)).2.1 "Log"⟩

/-! ## C35: event queues only shrink from the head -/

/-- `handleProc` leaves the event queue as it is or removes its head. -/
theorem handleProc_queue {sim sim' : Simulation} {pid : Nat} {event : SimEvent}
    {obs : Observation} {entry : PCB} (h : sim.handleProc pid event obs = some sim')
    (hp : sim.process? pid = some entry) :
    ∃ after, sim'.process? pid = some after ∧
      (after.eventQueue = entry.eventQueue ∨ after.eventQueue = entry.eventQueue.tail) := by
  obtain ⟨p, hp', _⟩ := (Frame.handleProc h).self entry hp
  rw [handleProc_some sim pid event obs entry hp] at h
  simp only [Option.some.injEq] at h
  subst h
  refine ⟨p, hp', ?_⟩
  rw [setProcess_process?_some _ _ _ _ hp']
  split
  · exact Or.inl rfl
  · exact Or.inr rfl

/-- `handleMem` leaves the event queue as it is or removes its head. -/
theorem handleMem_queue {sim sim' : Simulation} {pid : Nat} {event : SimEvent}
    {obs : Observation} {entry : PCB} (h : sim.handleMem pid event obs = some sim')
    (hp : sim.process? pid = some entry) :
    ∃ after, sim'.process? pid = some after ∧
      (after.eventQueue = entry.eventQueue ∨ after.eventQueue = entry.eventQueue.tail) := by
  obtain ⟨p, hp', _⟩ := (Frame.handleMem h).self entry hp
  unfold Simulation.handleMem at h
  rw [hp] at h
  simp only at h
  refine ⟨p, hp', ?_⟩
  split at h
  · simp only [Option.some.injEq] at h
    subst h
    rw [setProcess_process?_some _ _ _ _ hp']
    exact Or.inl rfl
  · simp only [Option.some.injEq] at h
    subst h
    rw [setProcess_process?_some _ _ _ _ hp']
    exact Or.inr rfl

/-- `handleIO` leaves the event queue as it is or removes its head. -/
theorem handleIO_queue {fuel : Nat} {sim sim' : Simulation} {pid : Nat} {event : SimEvent}
    {obs : Observation} {entry : PCB}
    (h : Simulation.handleIO fuel sim pid event obs = some sim')
    (hp : sim.process? pid = some entry) :
    ∃ after, sim'.process? pid = some after ∧
      (after.eventQueue = entry.eventQueue ∨ after.eventQueue = entry.eventQueue.tail) := by
  obtain ⟨p, hp', _⟩ := (Frame.handleIO h).self entry hp
  refine ⟨p, hp', ?_⟩
  unfold Simulation.handleIO at h
  rw [hp] at h
  simp only at h
  split at h
  · simp only [Option.some.injEq] at h
    subst h
    rw [setProcess_process?_some _ _ _ _ hp']
    exact Or.inr rfl
  · split at h
    · simp at h
    · rename_i b sim1 hacq
      have hs := Same.acquireLoop _ _ _ _ _ _ _ _ _ hacq
      have hp1 : sim1.process? pid = some entry := by rw [hs.process? pid]; exact hp
      split at h
      · have hflip := (Frame.ioThreadEnd? (pid + 1) sim1 obs.endBeforeWaiting).others pid
          (by omega)
        rw [hp1] at hflip
        obtain ⟨p2, hp2, hq2⟩ := hflip.queue
        rw [hp2] at h
        simp only [Option.some.injEq] at h
        subst h
        rw [setProcess_process?_some _ _ _ _ hp']
        exact Or.inl hq2
      · simp only [Option.some.injEq] at h
        subst h
        rw [hp1] at hp'
        simp only [Option.some.injEq] at hp'
        subst hp'
        exact Or.inl rfl

/-- Every step keeps the events of the applications and of the processes `P`, `I`, `O`
or `M` events. -/
theorem work_step {s s' : Simulation} (ht : Tidy s) (hw : Work s) (hs : Step s s') :
    Work s' := by
  have happs : s'.applications = s.applications := (ht.wf.wf_step hs).2.2
  refine ⟨by rw [happs]; exact hw.apps, ?_⟩
  intro q pcb2 hq e he
  cases hs with
  | dispatch fuel top obs hd =>
    obtain ⟨job, pcb, pcb', hd⟩ := dispatch_spec hd
    by_cases hqj : q = job.pid
    · subst hqj
      obtain ⟨p1, hp1, _, k, hk⟩ := hd.self pcb hd.before
      rw [hq] at hp1
      simp only [Option.some.injEq] at hp1
      subst hp1
      rw [hk] at he
      exact hw.queues _ pcb hd.before e (List.mem_of_mem_drop he)
    · have hflip := hd.others q hqj
      rw [hq] at hflip
      obtain ⟨pcb0, h0⟩ := hflip.some_before
      rw [h0] at hflip
      obtain ⟨p1, hp1, hq1⟩ := hflip.queue
      simp only [Option.some.injEq] at hp1
      subst hp1
      rw [hq1] at he
      exact hw.queues q pcb0 h0 e he
  | ioEnd i hi =>
    have hflip := (Frame.ioThreadEnd (q + 1) s i).others q (by omega)
    rw [hq] at hflip
    obtain ⟨pcb0, h0⟩ := hflip.some_before
    rw [h0] at hflip
    obtain ⟨p1, hp1, hq1⟩ := hflip.queue
    simp only [Option.some.injEq] at hp1
    subst hp1
    rw [hq1] at he
    exact hw.queues q pcb0 h0 e he
  | load hguard hwave =>
    obtain ⟨sim1, h1, hl, _⟩ := loaderWave_loaded s [] s
      (Loaded.base s ht.wf.size_pos ht.wf.counter_le) (by simpa using hguard)
    rw [hwave] at h1
    simp only [Option.some.injEq] at h1
    subst h1
    simp only [List.nil_append] at hl
    by_cases hold : q < s.processCounter ∨ s.processCounter + s.applications.length ≤ q
    · rw [hl.old q hold] at hq
      exact hw.queues q pcb2 hq e he
    · obtain ⟨j, rfl⟩ : ∃ j, q = s.processCounter + j := ⟨q - s.processCounter, by omega⟩
      have hj : j < s.applications.length := by omega
      rw [hl.new j _ (List.getElem?_eq_getElem hj)] at hq
      simp only [Option.some.injEq] at hq
      subst hq
      exact hw.apps _ (List.getElem_mem hj) e he

/-- Every state reached from a tidy state with `P`, `I`, `O`, `M` events only is such a
state. -/
theorem work_steps {s0 s : Simulation} (ht : Tidy s0) (hw : Work s0) (hs : Steps s0 s) :
    Tidy s ∧ Work s := by
  induction hs with
  | refl => exact ⟨ht, hw⟩
  | tail _ hstep ih => exact ⟨ih.1.tidy_step hstep, work_step ih.1 ih.2 hstep⟩

/-- A step removes events from the head of the queue of a process, if any. -/
theorem queue_step {s s' : Simulation} {p : Nat} {pcb : PCB} (ht : Tidy s)
    (hp : s.process? p = some pcb) (hs : Step s s') :
    ∃ pcb' k, s'.process? p = some pcb' ∧ pcb'.eventQueue = pcb.eventQueue.drop k := by
  cases hs with
  | dispatch fuel top obs hd =>
    obtain ⟨job, pcb1, pcb2, hd⟩ := dispatch_spec hd
    by_cases hpj : p = job.pid
    · subst hpj
      obtain ⟨p1, hp1, _, k, hk⟩ := hd.self pcb hp
      exact ⟨p1, k, hp1, hk⟩
    · have hflip := hd.others p hpj
      rw [hp] at hflip
      obtain ⟨p1, hp1, hq1⟩ := hflip.queue
      exact ⟨p1, 0, hp1, hq1⟩
  | ioEnd i hi =>
    have hflip := (Frame.ioThreadEnd (p + 1) s i).others p (by omega)
    rw [hp] at hflip
    obtain ⟨p1, hp1, hq1⟩ := hflip.queue
    exact ⟨p1, 0, hp1, hq1⟩
  | load hguard hwave =>
    obtain ⟨sim1, h1, hl, _⟩ := loaderWave_loaded s [] s
      (Loaded.base s ht.wf.size_pos ht.wf.counter_le) (by simpa using hguard)
    rw [hwave] at h1
    simp only [Option.some.injEq] at h1
    subst h1
    refine ⟨pcb, 0, ?_, rfl⟩
    rw [hl.old p (Or.inl (ht.created p pcb hp))]
    exact hp

/-- The applications delivered by `ReadMetaData` hold `P`, `I`, `O` and `M` events
only. -/
theorem readMetaData_work (events : List SimEvent) (st : ParserState)
    (h : ReadMetaData [] (events.map some) = .ok st) :
    ∀ app ∈ st.applications, ∀ e ∈ app, e.isWork = true := by
  obtain ⟨hadd, _, _⟩ := readMetaData_ok h
  have happs := addTokens_applications events _ _ hadd
  simp only [List.nil_append] at happs
  rw [happs]
  exact applicationSpans_work events none (by intro body hb; cases hb)

/-- C35: (1) every call of `handleProc`, `handleMem` or `handleIO` leaves the event
queue of the process as it is or removes exactly its head event; (2) `RunProcess`
leaves a queue that is the queue before without some events at its head (nothing is
added or reordered); (3) in every state of a run whose applications were delivered by
`ReadMetaData`, the events of every process are `P`, `M`, `I` or `O` events, so the
`default` branch of the `switch` of `RunProcess` is not taken; (4) every step of such a
run leaves of the queue of a process (with fewer than `2^31` events) the queue without
some events at its head, so `GetRemainingTime` does not increase and the priority with
which SRTF re-adds the process does not decrease. -/
theorem queue_shrinks (events : List SimEvent) (st : ParserState)
    (scheduling : SchedulingCode) (config : Config) (maxMemoryBlocks : Nat)
    (hdd printer speaker : IOResourceSemaphore) (monitor keyboard mouse : IOResourceMutex)
    (s s' : Simulation) (p : Nat) (pcb : PCB)
    (hparse : ReadMetaData [] (events.map some) = .ok st)
    (hreach : Steps (Simulation.initial scheduling config st.applications maxMemoryBlocks hdd
      printer speaker monitor keyboard mouse) s)
    (hstep : Step s s') (hp : s.process? p = some pcb)
    (hlen : pcb.eventQueue.length < 2147483648) :
    (∀ (sim sim1 : Simulation) (pid fuel : Nat) (event : SimEvent) (obs : Observation)
      (entry : PCB), sim.process? pid = some entry →
      (sim.handleProc pid event obs = some sim1 ∨ sim.handleMem pid event obs = some sim1 ∨
        Simulation.handleIO fuel sim pid event obs = some sim1) →
      ∃ after, sim1.process? pid = some after ∧
        (after.eventQueue = entry.eventQueue ∨
          after.eventQueue = entry.eventQueue.tail)) ∧
    (∀ (sim sim1 : Simulation) (pid fuel : Nat) (obs : Nat → Observation) (entry : PCB),
      sim.process? pid = some entry → sim.RunProcess fuel pid obs = some sim1 →
      ∃ after k, sim1.process? pid = some after ∧
        after.eventQueue = entry.eventQueue.drop k) ∧
    (∀ e ∈ pcb.eventQueue, e.code = 'P' ∨ e.code = 'M' ∨ e.code = 'I' ∨ e.code = 'O') ∧
    (∃ pcb' k, s'.process? p = some pcb' ∧ pcb'.eventQueue = pcb.eventQueue.drop k ∧
      s.GetRemainingTime p = some pcb.eventQueue.length ∧
      s'.GetRemainingTime p = some pcb'.eventQueue.length ∧
      pcb'.eventQueue.length ≤ pcb.eventQueue.length ∧
      requeuePriority SchedulingCode.SRTF pcb ≤ requeuePriority SchedulingCode.SRTF pcb') := by
  obtain ⟨htidy, hwork⟩ := work_steps (Tidy.tidy_initial _ _ _ _ _ _ _ _ _ _)
    ⟨readMetaData_work events st hparse, by
      intro q pcb0 h0
      simp [Simulation.initial, Simulation.process?, ProcessTable.get?,
        ProcessTable.empty] at h0⟩ hreach
  refine ⟨?_, ?_, ?_, ?_⟩
  · intro sim sim1 pid fuel event obs entry hentry hcall
    rcases hcall with h | h | h
    · exact handleProc_queue h hentry
    · exact handleMem_queue h hentry
    · exact handleIO_queue h hentry
  · intro sim sim1 pid fuel obs entry hentry hrun
    obtain ⟨after, hafter, _, k, hk⟩ := (Frame.RunProcess hrun).self entry hentry
    exact ⟨after, k, hafter, hk⟩
  · intro e he
    have := hwork.queues p pcb hp e he
    simp only [SimEvent.isWork, Bool.or_eq_true, decide_eq_true_eq] at this
    tauto
  · obtain ⟨pcb', k, hp', hk⟩ := queue_step htidy hp hstep
    have hle : pcb'.eventQueue.length ≤ pcb.eventQueue.length := by
      rw [hk, List.length_drop]
      omega
    refine ⟨pcb', k, hp', hk, ?_, ?_, hle, ?_⟩
    · rw [GetRemainingTime_eq s p pcb hp, countEvents_eq _ (by omega)]
    · rw [GetRemainingTime_eq s' p pcb' hp', countEvents_eq _ (by omega)]
    · rw [requeuePriority_srtf pcb hlen, requeuePriority_srtf pcb' (by omega)]
      omega

/-- Witness for C35: the metadata `S(start); A(start); P(run)1; O(printer)1; A(end);
S(end)` delivers one application; its process is loaded and dispatched twice, and the
second iteration removes the `P` event from the head of its queue. -/
theorem queue_shrinks_witness :
    ∃ pcb' k,
      (observedRun (exampleLoaded .RR [appComputePrint]) [quietDispatch, quietDispatch]).process?
        0 = some pcb' ∧
      pcb'.eventQueue =
        ({ newPCB 0 appComputePrint with state := ProcessState.READY } : PCB).eventQueue.drop k ∧
      (observedRun (exampleLoaded .RR [appComputePrint]) [quietDispatch]).GetRemainingTime 0 =
        some ({ newPCB 0 appComputePrint with state := ProcessState.READY } :
          PCB).eventQueue.length ∧
      (observedRun (exampleLoaded .RR [appComputePrint])
        [quietDispatch, quietDispatch]).GetRemainingTime 0 = some pcb'.eventQueue.length ∧
      pcb'.eventQueue.length ≤
        ({ newPCB 0 appComputePrint with state := ProcessState.READY } :
          PCB).eventQueue.length ∧
      requeuePriority SchedulingCode.SRTF
          { newPCB 0 appComputePrint with state := ProcessState.READY } ≤
        requeuePriority SchedulingCode.SRTF pcb' :=
  (queue_shrinks
    [evS "start", evA "start", evP 1, { code := 'O', descriptor := "printer", cycles := 1 },
     evA "end", evS "end"]
    { osRunning := false, currentApplication := none, applications := [appComputePrint] }
    .RR { processorCycleTime := 10, memoryCycleTime := 1, memoryBlockSize := 1 } 8
    (IOResourceSemaphore.init 1 1) (IOResourceSemaphore.init 1 1) (IOResourceSemaphore.init 1 1)
    (IOResourceMutex.init 1) (IOResourceMutex.init 1) (IOResourceMutex.init 1)
    (observedRun (exampleLoaded .RR [appComputePrint]) [quietDispatch])
    (observedRun (exampleLoaded .RR [appComputePrint]) [quietDispatch, quietDispatch])
    0 { newPCB 0 appComputePrint with state := ProcessState.READY }
    (by decide)
    (Steps.tail (Steps.tail (Steps.refl _)
      (Step.load (by decide)
        (eq_some_getD (exampleSim .RR [appComputePrint] 1 8) (by decide))))
      (Step.dispatch 10 0 quietDispatch
        (eq_some_getD (exampleLoaded .RR [appComputePrint]) (by decide))))
    (Step.dispatch 10 0 quietDispatch
      (eq_some_getD (observedRun (exampleLoaded .RR [appComputePrint]) [quietDispatch])
        (by decide)))
    (by decide) (by decide)).2.2.2

/-! ## C39: `strSplit` -/

theorem splitChars_ne_nil (delim : Char) (l : List Char) : splitChars delim l ≠ [] := by
  cases l with
  | nil => simp [splitChars]
  | cons c rest =>
    simp only [splitChars]
    split
    · simp
    · split <;> simp

/-- `splitChars` on a text that does not start with the delimiter. -/
theorem splitChars_cons_ne (delim c : Char) (rest : List Char) (h : c ≠ delim) :
    ∃ part parts, splitChars delim rest = part :: parts ∧
      splitChars delim (c :: rest) = (c :: part) :: parts := by
  cases hs : splitChars delim rest with
  | nil => exact absurd hs (splitChars_ne_nil delim rest)
  | cons part parts =>
    refine ⟨part, parts, rfl, ?_⟩
    simp only [splitChars, if_neg h, hs]

theorem length_splitChars (delim : Char) (l : List Char) :
    (splitChars delim l).length = l.count delim + 1 := by
  induction l with
  | nil => simp [splitChars]
  | cons c rest ih =>
    by_cases h : c = delim
    · subst h
      simp only [splitChars, if_true, List.length_cons, ih, List.count_cons_self]
    · obtain ⟨part, parts, h1, h2⟩ := splitChars_cons_ne delim c rest h
      rw [h2, List.count_cons_of_ne (fun heq => h heq.symm), ← ih, h1]
      simp

theorem not_mem_splitChars (delim : Char) (l : List Char) :
    ∀ part ∈ splitChars delim l, delim ∉ part := by
  induction l with
  | nil => intro part hp; simp [splitChars] at hp; subst hp; simp
  | cons c rest ih =>
    by_cases h : c = delim
    · subst h
      intro part hp
      simp only [splitChars, if_true, List.mem_cons] at hp
      rcases hp with hp | hp
      · subst hp; simp
      · exact ih part hp
    · obtain ⟨part0, parts, h1, h2⟩ := splitChars_cons_ne delim c rest h
      intro part hp
      rw [h2] at hp
      rw [h1] at ih
      simp only [List.mem_cons] at hp
      rcases hp with hp | hp
      · subst hp
        simp only [List.mem_cons, not_or]
        exact ⟨fun heq => h heq.symm, ih part0 (List.mem_cons_self _ _)⟩
      · exact ih part (List.mem_cons_of_mem _ hp)

theorem intercalate_splitChars (delim : Char) (l : List Char) :
    [delim].intercalate (splitChars delim l) = l := by
  induction l with
  | nil => simp [splitChars, List.intercalate]
  | cons c rest ih =>
    by_cases h : c = delim
    · subst h
      simp only [splitChars, if_true]
      cases hs : splitChars c rest with
      | nil => exact absurd hs (splitChars_ne_nil c rest)
      | cons part parts =>
        rw [hs] at ih
        simp only [List.intercalate, List.intersperse, List.flatten, List.nil_append,
          List.singleton_append] at ih ⊢
        rw [ih]
    · obtain ⟨part, parts, h1, h2⟩ := splitChars_cons_ne delim c rest h
      rw [h2]
      rw [h1] at ih
      cases parts with
      | nil =>
        simp only [List.intercalate, List.intersperse, List.flatten, List.append_nil] at ih ⊢
        rw [ih]
      | cons p2 ps =>
        simp only [List.intercalate, List.intersperse, List.flatten, List.cons_append] at ih ⊢
        rw [ih]

/-- `splitChars` in terms of the first occurrence of the delimiter. -/
theorem splitChars_first (delim : Char) (l : List Char) :
    splitChars delim l =
      if (l.takeWhile (fun c => decide (c ≠ delim))).length < l.length then
        l.take (l.takeWhile (fun c => decide (c ≠ delim))).length ::
          splitChars delim (l.drop ((l.takeWhile (fun c => decide (c ≠ delim))).length + 1))
      else [l] := by
  induction l with
  | nil => simp [splitChars]
  | cons c rest ih =>
    by_cases h : c = delim
    · subst h
      simp [splitChars, List.takeWhile]
    · obtain ⟨part, parts, h1, h2⟩ := splitChars_cons_ne delim c rest h
      have htw : (c :: rest).takeWhile (fun c => decide (c ≠ delim)) =
          c :: rest.takeWhile (fun c => decide (c ≠ delim)) := by
        simp [List.takeWhile, h]
      rw [h2, htw]
      rw [h1] at ih
      simp only [List.length_cons, Nat.add_lt_add_iff_right, List.take_succ_cons,
        List.drop_succ_cons]
      split
      · rename_i hlt
        rw [if_pos hlt] at ih
        simp only [List.cons.injEq] at ih
        rw [ih.1, ih.2]
      · rename_i hlt
        rw [if_neg hlt] at ih
        simp only [List.cons.injEq] at ih
        rw [ih.1, ih.2]

/-- The loop of `strSplit`, entered with `lastPos` about to become `pos`, appends the
pieces of the text from `pos` on. -/
theorem strSplitLoop_eq (str : List Char) (delim : Char)
    (hsize : str.length < 18446744073709551615) (fuel : Nat) :
    ∀ (findPos pos : Nat) (strings : List String),
    (findPos + 1) % 18446744073709551616 = pos → pos ≤ str.length →
    str.length - pos < fuel →
    strSplitLoop str delim fuel findPos strings =
      some (strings ++ (splitChars delim (str.drop pos)).map String.mk) := by
  induction fuel with
  | zero => intro findPos pos strings _ _ hfuel; omega
  | succ fuel ih =>
    intro findPos pos strings hpos hle hfuel
    unfold strSplitLoop
    simp only [hpos]
    have hlen : (str.drop pos).length = str.length - pos := List.length_drop pos str
    have htw : ((str.drop pos).takeWhile (fun c => decide (c ≠ delim))).length ≤
        str.length - pos := by
      rw [← hlen]
      exact (List.takeWhile_sublist _).length_le
    rw [splitChars_first]
    generalize hn : ((str.drop pos).takeWhile (fun c => decide (c ≠ delim))).length = n at *
    have hsub : strSubstr str pos
        ((strFind str delim pos + 18446744073709551616 - pos) % 18446744073709551616) =
        some ((str.drop pos).take
          ((strFind str delim pos + 18446744073709551616 - pos) % 18446744073709551616)) := by
      unfold strSubstr
      rw [if_neg (by omega)]
    rw [hsub]
    simp only
    by_cases hfound : pos + n < str.length
    · have hfind : strFind str delim pos = pos + n := by
        simp only [strFind, hn]
        rw [if_pos hfound]
      rw [hfind, if_pos (by simp only [npos]; omega), if_pos (by omega)]
      have hcount : (pos + n + 18446744073709551616 - pos) % 18446744073709551616 = n := by
        have : pos + n + 18446744073709551616 - pos = n + 18446744073709551616 := by omega
        rw [this, Nat.add_mod_right]
        exact Nat.mod_eq_of_lt (by omega)
      rw [hcount]
      rw [ih (pos + n) (pos + n + 1) _ (Nat.mod_eq_of_lt (by omega)) (by omega) (by omega)]
      rw [List.drop_drop, List.append_assoc]
      have hidx : n + 1 + pos = pos + n + 1 := by omega
      simp only [List.map_cons, List.singleton_append, hidx]
      rfl
    · have hfind : strFind str delim pos = npos := by
        simp only [strFind, hn]
        rw [if_neg hfound]
      rw [hfind, if_neg (by simp), if_neg (by omega)]
      have hcount : str.length - pos ≤
          (npos + 18446744073709551616 - pos) % 18446744073709551616 := by
        simp only [npos]
        have : 18446744073709551615 + 18446744073709551616 - pos =
            (18446744073709551615 - pos) + 18446744073709551616 := by omega
        rw [this, Nat.add_mod_right, Nat.mod_eq_of_lt (by omega)]
        omega
      rw [List.take_of_length_le (by rw [hlen]; exact hcount)]
      simp

/-- Joining with a separator: the first piece, then every other piece behind the
separator. -/
theorem intercalate_cons (sep a : List Char) (rest : List (List Char)) :
    sep.intercalate (a :: rest) = a ++ (rest.map (fun p => sep ++ p)).flatten := by
  induction rest generalizing a with
  | nil => simp [List.intercalate, List.intersperse]
  | cons b more ih =>
    have h := ih b
    simp only [List.intercalate, List.intersperse, List.flatten, List.map_cons] at h ⊢
    rw [h, List.append_assoc]

/-- The loop of `String.intercalate` on character lists. -/
theorem intercalate_go (sep : String) (rest : List (List Char)) :
    ∀ acc : String, String.intercalate.go acc sep (rest.map String.mk) =
      String.mk (acc.data ++ (rest.map (fun p => sep.data ++ p)).flatten) := by
  induction rest with
  | nil => intro acc; simp [String.intercalate.go]
  | cons b more ih =>
    intro acc
    simp only [List.map_cons, String.intercalate.go]
    rw [ih]
    simp [String.append, List.append_assoc]

/-- `String.intercalate` on pieces given as character lists. -/
theorem string_intercalate (sep : String) (parts : List (List Char)) (h : parts ≠ []) :
    sep.intercalate (parts.map String.mk) = String.mk (sep.data.intercalate parts) := by
  cases parts with
  | nil => exact absurd rfl h
  | cons a rest =>
    simp only [List.map_cons, String.intercalate]
    rw [intercalate_go, intercalate_cons]

/-- C39: for every string `s` (shorter than `npos`, as every `std::string` is) and every
delimiter `d`, `strSplit(s, d)` returns (the loop ends within `size + 1` iterations and
`substr` does not throw) a list that is not empty, has one element more than `d` has
occurrences in `s`, has no element that contains `d`, and gives back `s` when its
elements are joined with `d`. -/
theorem strSplit_round_trip (fuel : Nat) (str : String) (delim : Char)
    (hsize : str.length < 18446744073709551615) (hfuel : str.length < fuel) :
    ∃ strings, strSplit fuel str delim = some strings ∧ strings ≠ [] ∧
      strings.length = str.toList.count delim + 1 ∧
      (∀ part ∈ strings, delim ∉ part.toList) ∧
      (String.singleton delim).intercalate strings = str := by
  have hloop := strSplitLoop_eq str.toList delim hsize fuel npos 0 [] (by decide)
    (Nat.zero_le _) (by simpa using hfuel)
  simp only [List.drop_zero, List.nil_append] at hloop
  refine ⟨_, hloop, ?_, ?_, ?_, ?_⟩
  · simpa using splitChars_ne_nil delim str.toList
  · rw [List.length_map, length_splitChars]
  · intro part hpart
    obtain ⟨chars, hchars, rfl⟩ := List.mem_map.mp hpart
    exact not_mem_splitChars delim str.toList chars hchars
  · rw [string_intercalate _ _ (splitChars_ne_nil delim str.toList)]
    show String.mk ([delim].intercalate (splitChars delim str.toList)) = str
    rw [intercalate_splitChars]
    rfl

/-- Witness for C39: the metadata text `A(start)0; P(run)1; A(end)0` split at `;`. -/
theorem strSplit_round_trip_witness :
    ∃ strings, strSplit 30 "A(start)0; P(run)1; A(end)0" ';' = some strings ∧ strings ≠ [] ∧
      strings.length = ("A(start)0; P(run)1; A(end)0" : String).toList.count ';' + 1 ∧
      (∀ part ∈ strings, ';' ∉ part.toList) ∧
      (String.singleton ';').intercalate strings = "A(start)0; P(run)1; A(end)0" :=
  strSplit_round_trip 30 "A(start)0; P(run)1; A(end)0" ';' (by decide) (by decide)

/-! ## C5: a lost wake-up keeps the one-event process from reaching `EXIT` -/

theorem Still.still_refl (s : Simulation) : Still s s := ⟨rfl, rfl⟩

theorem Still.still_trans {a b c : Simulation} (h1 : Still a b) (h2 : Still b c) : Still a c :=
  ⟨h2.1.trans h1.1, h2.2.trans h1.2⟩

theorem Still.still_Log (s : Simulation) (line : LogLine) : Still s (s.Log line) := ⟨rfl, rfl⟩

theorem Still.still_doProcWork (s : Simulation) (ms : Int) (poll : Nat → Nat) :
    Still s (s.doProcWork ms poll).2 := ⟨rfl, rfl⟩

theorem Still.still_allocateMemory (s : Simulation) (totMem : Int) :
    Still s (s.allocateMemory totMem).2 := ⟨rfl, rfl⟩

theorem Parked.still {p : Nat} {pcb : PCB} {s s' : Simulation} (h : Parked p pcb s)
    (hs : Still s s') : Parked p pcb s' := by
  refine ⟨?_, ?_⟩
  · have : s'.process? p = s.process? p := by simp only [Simulation.process?, hs.1]
    rw [this]; exact h.1
  · rw [hs.2]; exact h.2

/-- Writing the PCB of another process leaves a parked process parked. -/
theorem Parked.parked_setProcess {p : Nat} {pcb : PCB} {s : Simulation} (h : Parked p pcb s)
    (pid : Nat) (pcb' : PCB) (hne : pid ≠ p) : Parked p pcb (s.setProcess pid pcb') :=
  ⟨by rw [process?_setProcess_ne s pid p pcb' hne]; exact h.1, h.2⟩

/-- The worker a `run` call starts belongs to the calling process. -/
theorem Parked.parked_run {p : Nat} {pcb : PCB} {s : Simulation} (h : Parked p pcb s)
    (r : Resource) (cycles : Nat) (ioState : ResIOState) (pid : Nat) (hne : pid ≠ p) :
    Parked p pcb (r.run s cycles ioState pid).2 := by
  have key : ∀ (s1 : Simulation) (cycleTime : Nat) (label : DeviceLabel),
      s1.processes = s.processes → s1.ioThreads = s.ioThreads →
      ∀ s2 : Simulation, s2.processes = ( ResourceIO.run s1 cycleTime cycles pid label).processes →
      s2.ioThreads = ( ResourceIO.run s1 cycleTime cycles pid label).ioThreads →
      Parked p pcb s2 := by
    intro s1 cycleTime label hp1 hi1 s2 hp2 hi2
    refine ⟨?_, ?_⟩
    · have : s2.process? p = s.process? p := by
        simp only [Simulation.process?, hp2, ResourceIO.run, Simulation.Log, hp1]
      rw [this]; exact h.1
    · intro params hmem
      rw [hi2] at hmem
      simp only [ ResourceIO.run, Simulation.Log, List.mem_append, List.mem_singleton, hi1] at hmem
      rcases hmem with hm | hm
      · exact h.2 params hm
      · rw [hm]; exact hne
  cases r
  · simp only [Resource.run, ResourceHDD.run]
    split
    · exact key _ _ _ rfl rfl _ rfl rfl
    · exact h
  · simp only [Resource.run, ResourceMonitor.run]
    split
    · exact key _ _ _ rfl rfl _ rfl rfl
    · exact h
  · simp only [Resource.run, ResourcePrinter.run]
    split
    · exact key _ _ _ rfl rfl _ rfl rfl
    · exact h
  · simp only [Resource.run, ResourceKeyboard.run]
    split
    · exact key _ _ _ rfl rfl _ rfl rfl
    · exact h
  · simp only [Resource.run, ResourceMouse.run]
    split
    · exact key _ _ _ rfl rfl _ rfl rfl
    · exact h
  · simp only [Resource.run, ResourceSpeaker.run]
    split
    · exact key _ _ _ rfl rfl _ rfl rfl
    · exact h

/-- The end of a worker of another process leaves a parked process parked. -/
theorem Parked.parked_doWork {p : Nat} {pcb : PCB} {s : Simulation} (h : Parked p pcb s)
    (params : ResIOThreadParams) (hne : params.pid ≠ p) :
    Parked p pcb ( ResourceIO.doWork s params) := by
  unfold ResourceIO.doWork
  apply Parked.still _ (Still.still_Log _ _)
  cases hp : s.process? params.pid with
  | none => exact h
  | some process =>
    simp only
    split
    · exact h.parked_setProcess _ _ hne
    · exact h

/-- No worker in flight belongs to a parked process, so the end of any worker in
flight leaves it parked. -/
theorem Parked.parked_ioThreadEnd {p : Nat} {pcb : PCB} {s : Simulation} (h : Parked p pcb s)
    (i : Nat) : Parked p pcb (s.ioThreadEnd i) := by
  unfold Simulation.ioThreadEnd
  split
  · rename_i params heq
    have hmem : params ∈ s.ioThreads := by
      obtain ⟨hlt, hget⟩ := List.getElem?_eq_some.mp heq
      rw [← hget]; exact List.getElem_mem hlt
    have h1 : Parked p pcb { s with ioThreads := s.ioThreads.eraseIdx i } :=
      ⟨h.1, fun x hx => h.2 x ((List.eraseIdx_sublist s.ioThreads i).subset hx)⟩
    exact h1.parked_doWork params (h.2 params hmem)
  · exact h

theorem Parked.parked_ioThreadEnd? {p : Nat} {pcb : PCB} {s : Simulation} (h : Parked p pcb s)
    (i : Option Nat) : Parked p pcb (s.ioThreadEnd? i) := by
  cases i with
  | none => exact h
  | some i => exact h.parked_ioThreadEnd i

theorem Parked.parked_handleProc {p : Nat} {pcb : PCB} {sim sim' : Simulation} {pid : Nat}
    {event : SimEvent} {obs : Observation} (hpk : Parked p pcb sim) (hne : pid ≠ p)
    (h : sim.handleProc pid event obs = some sim') : Parked p pcb sim' := by
  unfold Simulation.handleProc at h
  cases hp : sim.process? pid with
  | none => rw [hp] at h; simp at h
  | some process =>
    rw [hp] at h
    simp only at h
    have hs1 : Still sim (if process.eventInProgress = true then sim
        else sim.Log (LogLine.startProcessing pid)) := by
      split
      · exact Still.still_refl _
      · exact Still.still_Log _ _
    split at h
    · simp only [Option.some.injEq] at h
      subst h
      exact (hpk.still ((hs1.still_trans (Still.still_doProcWork _ _ _)).still_trans
        (Still.still_Log _ _))).parked_setProcess _ _ hne
    · simp only [Option.some.injEq] at h
      subst h
      exact (hpk.still ((hs1.still_trans (Still.still_doProcWork _ _ _)).still_trans
        (Still.still_Log _ _))).parked_setProcess _ _ hne

theorem Parked.parked_handleMem {p : Nat} {pcb : PCB} {sim sim' : Simulation} {pid : Nat}
    {event : SimEvent} {obs : Observation} (hpk : Parked p pcb sim) (hne : pid ≠ p)
    (h : sim.handleMem pid event obs = some sim') : Parked p pcb sim' := by
  unfold Simulation.handleMem at h
  cases hp : sim.process? pid with
  | none => rw [hp] at h; simp at h
  | some process =>
    rw [hp] at h
    simp only at h
    generalize hb : (if event.descriptor = "allocate" then _ else _ : Int × Simulation) = branch at h
    have hs : Still sim branch.2 := by
      rw [← hb]
      split
      · split
        · refine Still.still_trans ?_ (Still.still_Log _ _)
          refine Still.still_trans ?_ (Still.still_allocateMemory _ _)
          refine Still.still_trans ?_ (Still.still_doProcWork _ _ _)
          split
          · exact Still.still_refl _
          · exact Still.still_Log _ _
        · refine Still.still_trans ?_ (Still.still_doProcWork _ _ _)
          split
          · exact Still.still_refl _
          · exact Still.still_Log _ _
      · split
        · split
          · refine Still.still_trans ?_ (Still.still_Log _ _)
            refine Still.still_trans ?_ (Still.still_doProcWork _ _ _)
            split
            · exact Still.still_refl _
            · exact Still.still_Log _ _
          · refine Still.still_trans ?_ (Still.still_doProcWork _ _ _)
            split
            · exact Still.still_refl _
            · exact Still.still_Log _ _
        · exact Still.still_refl _
    split at h
    · simp only [Option.some.injEq] at h
      subst h
      exact (hpk.still (hs.still_trans (Still.still_Log _ _))).parked_setProcess _ _ hne
    · simp only [Option.some.injEq] at h
      subst h
      exact (hpk.still hs).parked_setProcess _ _ hne

theorem Parked.parked_acquireLoop {p : Nat} {pcb : PCB} (resource : Option Resource)
    (event : SimEvent) (pid : Nat) (hne : pid ≠ p) (poll : Nat → Nat) (fuel : Nat) :
    ∀ (k : Nat) (sim : Simulation) (b : Bool) (sim' : Simulation), Parked p pcb sim →
    Simulation.acquireLoop resource event pid poll fuel k sim = some (b, sim') →
    Parked p pcb sim' := by
  induction fuel with
  | zero => intro k sim b sim' _ h; simp [Simulation.acquireLoop] at h
  | succ fuel ih =>
    intro k sim b sim' hpk h
    unfold Simulation.acquireLoop at h
    split at h
    · simp only [Option.some.injEq, Prod.mk.injEq] at h
      rw [← h.2]; exact hpk
    · cases resource with
      | none => simp at h
      | some r =>
        simp only at h
        generalize (if event.code = 'I' then ResIOState.INPUT else ResIOState.OUTPUT) = io at h
        by_cases hres : (r.run sim (toUInt event.cycles) io pid).1 = true
        · rw [if_pos hres] at h
          simp only [Option.some.injEq, Prod.mk.injEq] at h
          rw [← h.2]; exact hpk.parked_run _ _ _ _ hne
        · rw [if_neg hres] at h
          exact ih _ _ _ _ (hpk.parked_run _ _ _ _ hne) h

theorem Parked.parked_handleIO {p : Nat} {pcb : PCB} {fuel : Nat} {sim sim' : Simulation}
    {pid : Nat} {event : SimEvent} {obs : Observation} (hpk : Parked p pcb sim) (hne : pid ≠ p)
    (h : Simulation.handleIO fuel sim pid event obs = some sim') : Parked p pcb sim' := by
  unfold Simulation.handleIO at h
  cases hp : sim.process? pid with
  | none => rw [hp] at h; simp at h
  | some process =>
    rw [hp] at h
    simp only at h
    split at h
    · simp only [Option.some.injEq] at h
      subst h
      exact hpk.parked_setProcess _ _ hne
    · split at h
      · simp at h
      · rename_i b sim1 hacq
        have hs : Parked p pcb sim1 :=
          Parked.parked_acquireLoop _ _ _ hne _ _ _ _ _ _ hpk hacq
        split at h
        · have hf := hs.parked_ioThreadEnd? obs.endBeforeWaiting
          split at h
          · simp at h
          · simp only [Option.some.injEq] at h
            subst h
            exact hf.parked_setProcess _ _ hne
        · simp only [Option.some.injEq] at h
          subst h
          exact hs

theorem Parked.parked_RunProcessLoop {p : Nat} {pcb : PCB} (obs : Nat → Observation)
    (pid : Nat) (hne : pid ≠ p) (fuel : Nat) :
    ∀ (k : Nat) (sim sim' : Simulation), Parked p pcb sim →
    Simulation.RunProcessLoop obs pid fuel k sim = some sim' → Parked p pcb sim' := by
  induction fuel with
  | zero => intro k sim sim' _ h; simp [Simulation.RunProcessLoop] at h
  | succ fuel ih =>
    intro k sim sim' hpk h
    unfold Simulation.RunProcessLoop at h
    cases hp : sim.process? pid with
    | none => rw [hp] at h; simp at h
    | some process =>
      rw [hp] at h
      simp only at h
      cases hq : process.eventQueue with
      | nil =>
        rw [hq] at h
        simp only [Option.some.injEq] at h
        subst h
        exact hpk
      | cons event rest =>
        rw [hq] at h
        simp only at h
        by_cases hcode : event.code = 'P' ∨ event.code = 'M' ∨ event.code = 'I' ∨ event.code = 'O'
        · rw [if_pos hcode] at h
          generalize hh : (if event.code = 'P' then sim.handleProc pid event (obs k)
            else if event.code = 'M' then sim.handleMem pid event (obs k)
            else Simulation.handleIO fuel sim pid event (obs k)) = handled at h
          cases handled with
          | none => simp at h
          | some sim1 =>
            simp only at h
            have hf1 : Parked p pcb sim1 := by
              split at hh
              · exact hpk.parked_handleProc hne hh
              · split at hh
                · exact hpk.parked_handleMem hne hh
                · exact hpk.parked_handleIO hne hh
            have hf2 := hf1.parked_ioThreadEnd? (obs k).endBeforeCheck
            cases hp2 : (sim1.ioThreadEnd? (obs k).endBeforeCheck).process? pid with
            | none => rw [hp2] at h; simp at h
            | some process2 =>
              rw [hp2] at h
              simp only at h
              split at h
              · simp only [Option.some.injEq] at h
                subst h
                exact hf2
              · exact ih _ _ _ hf2 h
        · rw [if_neg hcode] at h
          exact ih _ _ _ hpk h

theorem Parked.parked_RunProcess {p : Nat} {pcb : PCB} {fuel : Nat} {sim sim' : Simulation}
    {pid : Nat} {obs : Nat → Observation} (hpk : Parked p pcb sim) (hne : pid ≠ p)
    (h : sim.RunProcess fuel pid obs = some sim') : Parked p pcb sim' := by
  unfold Simulation.RunProcess at h
  simp only at h
  cases hp : (sim.Log (LogLine.starting pid)).process? pid with
  | none => rw [hp] at h; simp at h
  | some process =>
    rw [hp] at h
    simp only at h
    have hf1 : Parked p pcb ((sim.Log (LogLine.starting pid)).setProcess pid
        { process with state := ProcessState.RUNNING }) :=
      (hpk.still (Still.still_Log _ _)).parked_setProcess _ _ hne
    split at h
    · simp at h
    · rename_i sim1 hloop
      have hf2 : Parked p pcb sim1 := Parked.parked_RunProcessLoop _ _ hne _ _ _ _ hf1 hloop
      split at h
      · simp at h
      · split at h
        · simp only [Option.some.injEq] at h
          subst h
          exact (hf2.still (Still.still_Log _ _)).parked_setProcess _ _ hne
        · simp only [Option.some.injEq] at h
          subst h
          exact hf2

theorem ioThreads_loadApplication {sim sim' : Simulation} {app : Application}
    (h : sim.loadApplication app = some sim') : sim'.ioThreads = sim.ioThreads := by
  unfold Simulation.loadApplication at h
  simp only at h
  generalize hs1 : (if sim.processCounter ≥ _ then _ else _ : Simulation) = sim1 at h
  have hi : sim1.ioThreads = sim.ioThreads := by
    rw [← hs1]
    split <;> rfl
  split at h
  · split at h
    · simp at h
    · simp only [Option.some.injEq] at h
      subst h
      exact hi
  · simp at h

theorem ioThreads_loadApplications : ∀ (apps : List Application) (sim sim' : Simulation),
    sim.loadApplications apps = some sim' → sim'.ioThreads = sim.ioThreads := by
  intro apps
  induction apps with
  | nil =>
    intro sim sim' h
    simp only [Simulation.loadApplications, Option.some.injEq] at h
    rw [← h]
  | cons app rest ih =>
    intro sim sim' h
    simp only [Simulation.loadApplications] at h
    cases h1 : sim.loadApplication app with
    | none => rw [h1] at h; simp at h
    | some sim1 =>
      rw [h1] at h
      simp only at h
      rw [ih sim1 sim' h, ioThreads_loadApplication h1]

/-- A loader wave starts and ends no I/O worker. -/
theorem ioThreads_loaderWave {sim sim' : Simulation} (h : sim.loaderWave = some sim') :
    sim'.ioThreads = sim.ioThreads := by
  unfold Simulation.loaderWave at h
  simp only at h
  split at h
  · simp at h
  · rename_i sim1 h1
    simp only [Option.some.injEq] at h
    subst h
    have hi := ioThreads_loadApplications _ _ _ h1
    exact hi

/-- A dispatch iteration leaves a parked process in state `WAITING` parked: when its
job is popped the process is skipped, and the run of another process neither writes
its PCB nor starts a worker for it. -/
theorem Parked.parked_dispatch {p : Nat} {pcb : PCB} {fuel : Nat} {sim sim' : Simulation}
    {top : Nat} {obs : DispatchObservation} (hpk : Parked p pcb sim)
    (hw : pcb.state = ProcessState.WAITING) (hd : sim.dispatch fuel top obs = some sim') :
    Parked p pcb sim' := by
  obtain ⟨job, pcb1, pcb2, hsum⟩ := dispatch_spec hd
  by_cases hpid : job.pid = p
  · have hb : sim.process? job.pid = some pcb := by rw [hpid]; exact hpk.1
    have hskip : sim.dispatch fuel top obs =
        some (sim.skipped top job.pid (requeuePriority sim.scheduling pcb) obs) :=
      dispatch_not_ready hsum.isTop hsum.max hb (Or.inl hw)
    rw [hskip] at hd
    simp only [Option.some.injEq] at hd
    subst hd
    exact ⟨hpk.1, hpk.2⟩
  · have hall : sim.jobs.all (fun other => decide (other.priority ≤ job.priority)) = true := by
      simpa [List.all_eq_true] using hsum.max
    unfold Simulation.dispatch at hd
    rw [hsum.isTop] at hd
    simp only at hd
    rw [if_pos hall] at hd
    have hp' : Simulation.process? { sim with jobs := sim.jobs.eraseIdx top } job.pid =
        some pcb1 := hsum.before
    rw [hp'] at hd
    simp only at hd
    have hpk0 : Parked p pcb
        { sim with jobs := sim.jobs.eraseIdx top, currentProcess := job.pid } :=
      ⟨hpk.1, hpk.2⟩
    generalize hs1 : (if pcb1.state = ProcessState.START then
        Simulation.setProcess
          { sim with jobs := sim.jobs.eraseIdx top, currentProcess := job.pid }
          job.pid { pcb1 with state := ProcessState.READY }
        else { sim with jobs := sim.jobs.eraseIdx top, currentProcess := job.pid }) = sim1 at hd
    have hpk1 : Parked p pcb sim1 := by
      rw [← hs1]
      split
      · exact hpk0.parked_setProcess _ _ hpid
      · exact hpk0
    generalize hran : (if pcb1.state = ProcessState.READY then
        sim1.RunProcess fuel job.pid obs.run else some sim1) = ran at hd
    cases ran with
    | none => simp at hd
    | some sim2 =>
      simp only at hd
      have hpk2 : Parked p pcb sim2 := by
        split at hran
        · exact hpk1.parked_RunProcess hpid hran
        · simp only [Option.some.injEq] at hran
          rw [← hran]; exact hpk1
      cases hp2 : sim2.process? job.pid with
      | none => rw [hp2] at hd; simp at hd
      | some pcb' =>
        rw [hp2] at hd
        simp only at hd
        split at hd
        · split at hd
          · simp at hd
          · simp only [Option.some.injEq] at hd
            subst hd
            exact ⟨hpk2.1, hpk2.2⟩
        · simp only [Option.some.injEq] at hd
          subst hd
          exact ⟨hpk2.1, hpk2.2⟩

/-- No step of the simulation changes the PCB of a parked process in state `WAITING`
or starts a worker for it. -/
theorem Parked.parked_step {p : Nat} {pcb : PCB} {s s' : Simulation} (ht : Tidy s)
    (hpk : Parked p pcb s) (hw : pcb.state = ProcessState.WAITING) (hs : Step s s') :
    Parked p pcb s' := by
  cases hs with
  | dispatch fuel top obs hd => exact hpk.parked_dispatch hw hd
  | ioEnd i hi => exact hpk.parked_ioThreadEnd i
  | load hguard hwave =>
    obtain ⟨sim1, h1, hl, _⟩ := loaderWave_loaded s [] s
      (Loaded.base s ht.wf.size_pos ht.wf.counter_le) (by simpa using hguard)
    rw [hwave] at h1
    simp only [Option.some.injEq] at h1
    subst h1
    refine ⟨?_, ?_⟩
    · rw [hl.old p (Or.inl (ht.created p pcb hpk.1))]
      exact hpk.1
    · rw [ioThreads_loaderWave hwave]
      exact hpk.2

theorem Parked.parked_steps {p : Nat} {pcb : PCB} {s0 s : Simulation} (ht : Tidy s0)
    (hpk : Parked p pcb s0) (hw : pcb.state = ProcessState.WAITING) (hs : Steps s0 s) :
    Tidy s ∧ Parked p pcb s := by
  induction hs with
  | refl => exact ⟨ht, hpk⟩
  | tail _ hstep ih => exact ⟨ih.1.tidy_step hstep, ih.2.parked_step ih.1 hw hstep⟩

theorem Steps.steps_trans {a b c : Simulation} (h1 : Steps a b) (h2 : Steps b c) : Steps a c := by
  induction h2 with
  | refl => exact h1
  | tail _ hstep ih => exact Steps.tail ih hstep

/-- The three dispatch iterations of the run with the early worker end: process 0 is
popped and set to `READY`, process 1 is popped and set to `READY`, process 1 is popped
again and runs. -/
theorem earlyEndRun_steps :
    Steps (exampleLoaded .SRTF [app3, appKeyboardNow]) (earlyEndRun [0, 0, 1]) :=
  Steps.tail (Steps.tail (Steps.tail (Steps.refl _)
    (Step.dispatch 10 0 earlyEndDispatch
      (eq_some_getD (exampleLoaded .SRTF [app3, appKeyboardNow]) (by decide))))
    (Step.dispatch 10 0 earlyEndDispatch (eq_some_getD (earlyEndRun [0]) (by decide))))
    (Step.dispatch 10 1 earlyEndDispatch (eq_some_getD (earlyEndRun [0, 0]) (by decide)))

/-- C5 (scenario S2) fails on the code for a one-event process whose event is an I/O
event.  Under SRTF, the application of three `P(run)` events (process 0) and the
application of the single event `I(keyboard)0` (process 1) are admitted in one loader
wave, every read of the interrupt word gives 0, and the keyboard worker ends after
`run` returned and before `handleIO` writes `WAITING`: the worker finds the process in
state `RUNNING` and does not make it `READY`.  After three dispatch iterations process
1 is in state `WAITING` with its event in progress and no worker in flight, and in
every continuation of the run (dispatch iterations under any observations, worker
ends, loader waves) the process control block of process 1 stays as it is, so the
one-event process never reaches `EXIT`; the three-event process keeps its three events
and does not reach `EXIT` either. -/
theorem srtf_lost_wakeup :
    (exampleSim .SRTF [app3, appKeyboardNow] 1 8).loaderWave =
      some (exampleLoaded .SRTF [app3, appKeyboardNow]) ∧
    Steps (exampleSim .SRTF [app3, appKeyboardNow] 1 8) (earlyEndRun [0, 0, 1]) ∧
    (earlyEndRun [0, 0, 1]).ioThreads = [] ∧
    (earlyEndRun [0, 0, 1]).jobs = [{ pid := 0, priority := -3 }, { pid := 1, priority := -1 }] ∧
    ((earlyEndRun [0, 0, 1]).process? 0).map (fun q => q.state) = some ProcessState.READY ∧
    ∀ s, Steps (earlyEndRun [0, 0, 1]) s →
      s.process? 1 = some
        { state := ProcessState.WAITING, pid := 1, eventQueue := appKeyboardNow,
          eventInProgress := true, eventTimeRemaining := 0 } ∧
      (∀ params ∈ s.ioThreads, params.pid ≠ 1) ∧
      ∃ pcb0, s.process? 0 = some pcb0 ∧ pcb0.eventQueue.length = 3 ∧
        pcb0.state ≠ ProcessState.EXIT := by
  have hwave : (exampleSim .SRTF [app3, appKeyboardNow] 1 8).loaderWave =
      some (exampleLoaded .SRTF [app3, appKeyboardNow]) := eq_some_getD _ (by decide)
  have hload : Steps (exampleSim .SRTF [app3, appKeyboardNow] 1 8)
      (exampleLoaded .SRTF [app3, appKeyboardNow]) :=
    Steps.tail (Steps.refl _) (Step.load (by decide) hwave)
  have hreach := hload.steps_trans earlyEndRun_steps
  have htidy0 : Tidy (exampleSim .SRTF [app3, appKeyboardNow] 1 8) :=
    Tidy.tidy_initial _ _ _ _ _ _ _ _ _ _
  have htidy : Tidy (earlyEndRun [0, 0, 1]) := htidy0.tidy_steps hreach
  have hahead0 : Ahead 1 0 (exampleLoaded .SRTF [app3, appKeyboardNow]) :=
    Ahead.admitted htidy0.wf rfl (by decide)
      (show (exampleSim .SRTF [app3, appKeyboardNow] 1 8).applications[0]? = some app3 from rfl)
      rfl
      (show (exampleSim .SRTF [app3, appKeyboardNow] 1 8).applications[1]? =
        some appKeyboardNow from rfl) rfl hwave
  have hahead := hahead0.ahead_steps earlyEndRun_steps
  have hpk : Parked 1
      { state := ProcessState.WAITING, pid := 1, eventQueue := appKeyboardNow,
        eventInProgress := true, eventTimeRemaining := 0 }
      (earlyEndRun [0, 0, 1]) := ⟨by decide, by decide⟩
  refine ⟨hwave, hreach, by decide, by decide, by decide, ?_⟩
  intro s hs
  obtain ⟨_, hpks⟩ := Parked.parked_steps htidy hpk rfl hs
  refine ⟨hpks.1, hpks.2, ?_⟩
  rcases (hahead.ahead_steps hs).cases with ⟨⟨pcb1, hp1, hexit1⟩, _⟩ | hpend
  · rw [hpks.1] at hp1
    simp only [Option.some.injEq] at hp1
    rw [← hp1] at hexit1
    cases hexit1
  · obtain ⟨pcb1, pcb3, pr1, pr3, _, _, _, _, hp3, hlen, _, hst⟩ := hpend
    refine ⟨pcb3, hp3, hlen, ?_⟩
    rcases hst with ⟨h, _⟩ | ⟨h, _⟩ <;> rw [h] <;> decide

end OSSim
